import Mathlib

/-!
# SMURF / URDF entity generation (`smurf.cpp`): embedding and properties

The converter walks a URDF kinematic tree and emits flat lists of node and
joint records.  This file embeds the conversion functions of `smurf.cpp` as
pure functions over an explicit converter state and proves properties of them.

Modelling conventions

* A `double` is the rational number it stands for, and every operation on
  doubles rounds its exact result once to the nearest binary64 number, ties to
  the even mantissa (`binary64.fl`); there is no fused multiply-add and no
  extended precision.  Infinities, NaN and the sign of zero are not
  represented: a result beyond the largest double is kept as the number it is.
* A decimal literal of the source that is only stored in a record (`0.01`,
  `0.001`) is written as the decimal number; the tolerance of `isEqualPos`,
  which enters a comparison, is the binary64 number its literal stands for.
* `unsigned long` counters are natural numbers; a counter would need `2^64`
  increments to wrap.
* A `ConfigMap` record is a finite map from keys to items, kept as an
  association list with at most one entry per key and read only by key.
* `std::map<std::string, T>` name maps are association lists; `operator[]` on
  a missing key inserts the value-initialised element, as in C++.
* A field of a record is read by `find`, a missing field reading as the empty
  item; the empty entry such a read leaves behind in a record that lacks the
  field is not represented.
* The YAML files a record refers to are a function from paths to the maps
  they contribute.
-/

namespace binary64

/-- Modelled from the spec: the arithmetic of the C++ type `double` is not part
of the sources.  The integer nearest to `q`, the even one of the two when `q`
lies half way between two integers. -/
def roundHalfEven (q : ℚ) : ℤ :=
  if q - ⌊q⌋ < 1 / 2 then ⌊q⌋
  else if 1 / 2 < q - ⌊q⌋ then ⌊q⌋ + 1
  else if ⌊q⌋ % 2 = 0 then ⌊q⌋ else ⌊q⌋ + 1

/-- Modelled from the spec: the exponent of the unit in the last place of the
binary64 numbers next to `x`: the numbers of the binade `[2^e, 2^(e+1))` have 53
significant bits, and below `2^(-1022)` the spacing stays `2^(-1074)`. -/
def ulpExponent (x : ℚ) : ℤ := max (Int.log 2 |x|) (-1022) - 52

/-- Modelled from the spec: the rounding of IEEE 754 binary64 arithmetic, to the
nearest number of the format, ties to the even mantissa.  A result beyond the
largest double, which the machine replaces by an infinity, is rounded to 53
bits all the same. -/
def fl (x : ℚ) : ℚ := roundHalfEven (x / 2 ^ ulpExponent x) * 2 ^ ulpExponent x

/-- The number is a binary64 number: rounding leaves it as it is. -/
def isDouble (x : ℚ) : Prop := fl x = x

/-- Modelled from the spec: the sum `a + b` of two doubles. -/
def fadd (a b : ℚ) : ℚ := fl (a + b)

/-- Modelled from the spec: the difference `a - b` of two doubles. -/
def fsub (a b : ℚ) : ℚ := fl (a - b)

/-- Modelled from the spec: the product `a * b` of two doubles. -/
def fmul (a b : ℚ) : ℚ := fl (a * b)

/-- Modelled from the spec: the quotient `a / b` of two doubles. -/
def fdiv (a b : ℚ) : ℚ := fl (a / b)

end binary64

namespace urdf

open binary64

/-- A `urdf::Vector3`: three coordinates, all zero by default. -/
structure Vector3 where
  x : ℚ := 0
  y : ℚ := 0
  z : ℚ := 0
  deriving DecidableEq, Repr

/-- A `urdf::Rotation`: a quaternion `(x, y, z, w)`, the identity `(0,0,0,1)` by default. -/
structure Rotation where
  x : ℚ := 0
  y : ℚ := 0
  z : ℚ := 0
  w : ℚ := 1
  deriving DecidableEq, Repr

/-- Modelled from the spec: `urdf::Vector3::operator+` belongs to the URDF
headers, which are not part of the sources; it adds componentwise. -/
def Vector3.add (a b : Vector3) : Vector3 :=
  { x := fadd a.x b.x, y := fadd a.y b.y, z := fadd a.z b.z }

/-- Modelled from the spec: `urdf::Rotation::GetInverse` belongs to the URDF
headers, which are not part of the sources.  It returns the conjugate divided
by the squared norm, and the default rotation when the squared norm is not
positive. -/
def Rotation.GetInverse (r : Rotation) : Rotation :=
  let norm := fadd (fadd (fadd (fmul r.w r.w) (fmul r.x r.x)) (fmul r.y r.y)) (fmul r.z r.z)
  if norm > 0 then
    { x := fdiv (-r.x) norm, y := fdiv (-r.y) norm, z := fdiv (-r.z) norm, w := fdiv r.w norm }
  else
    {}

/-- Modelled from the spec: `urdf::Rotation::operator*(Rotation)` belongs to
the URDF headers, which are not part of the sources; it is the Hamilton
product ("compose rotations"). -/
def Rotation.mul (a b : Rotation) : Rotation :=
  { x := fsub (fadd (fadd (fmul a.w b.x) (fmul a.x b.w)) (fmul a.y b.z)) (fmul a.z b.y)
    y := fadd (fadd (fsub (fmul a.w b.y) (fmul a.x b.z)) (fmul a.y b.w)) (fmul a.z b.x)
    z := fadd (fsub (fadd (fmul a.w b.z) (fmul a.x b.y)) (fmul a.y b.x)) (fmul a.z b.w)
    w := fsub (fsub (fsub (fmul a.w b.w) (fmul a.x b.x)) (fmul a.y b.y)) (fmul a.z b.z) }

/-- Modelled from the spec: `urdf::Rotation::operator*(Vector3)` belongs to
the URDF headers, which are not part of the sources; it rotates a vector,
`q * (0, v) * q.GetInverse()`. -/
def Rotation.rotate (q : Rotation) (vec : Vector3) : Vector3 :=
  let tmp : Rotation := { x := vec.x, y := vec.y, z := vec.z, w := 0 }
  let tmp := q.mul (tmp.mul q.GetInverse)
  { x := tmp.x, y := tmp.y, z := tmp.z }

/-- A `urdf::Pose`: position and rotation, default-constructed as the identity. -/
structure Pose where
  position : Vector3 := {}
  rotation : Rotation := {}
  deriving DecidableEq, Repr

/-- The three coordinates are binary64 numbers. -/
def Vector3.isDouble (v : Vector3) : Prop :=
  binary64.isDouble v.x ∧ binary64.isDouble v.y ∧ binary64.isDouble v.z

/-- The four components are binary64 numbers. -/
def Rotation.isDouble (r : Rotation) : Prop :=
  binary64.isDouble r.x ∧ binary64.isDouble r.y ∧ binary64.isDouble r.z ∧ binary64.isDouble r.w

/-- Position and rotation consist of binary64 numbers. -/
def Pose.isDouble (p : Pose) : Prop := p.position.isDouble ∧ p.rotation.isDouble

/-- The squared norm of a quaternion as a number, not rounded. -/
def Rotation.normSquared (r : Rotation) : ℚ := r.w * r.w + r.x * r.x + r.y * r.y + r.z * r.z

/-- The squared norm of a quaternion as `GetInverse` computes it. -/
def Rotation.roundedNormSquared (r : Rotation) : ℚ :=
  fadd (fadd (fadd (fmul r.w r.w) (fmul r.x r.x)) (fmul r.y r.y)) (fmul r.z r.z)

/-- The squared length of a vector as a number, not rounded. -/
def Vector3.normSquared (v : Vector3) : ℚ := v.x * v.x + v.y * v.y + v.z * v.z

/-- The geometry of a shape; `urdf::Geometry::type` is one of the four tags. -/
inductive Geometry where
  | SPHERE (radius : ℚ)
  | BOX (dim : Vector3)
  | CYLINDER (radius : ℚ) (length : ℚ)
  | MESH (filename : String) (scale : Vector3)
  deriving DecidableEq, Repr

/-- A `urdf::Inertial` block. -/
structure Inertial where
  origin : Pose := {}
  mass : ℚ := 0
  ixx : ℚ := 0
  ixy : ℚ := 0
  ixz : ℚ := 0
  iyy : ℚ := 0
  iyz : ℚ := 0
  izz : ℚ := 0
  deriving DecidableEq, Repr

/-- A `urdf::Visual` shape. -/
structure Visual where
  name : String := ""
  origin : Pose := {}
  geometry : Geometry
  material_name : String := ""
  deriving DecidableEq, Repr

/-- A `urdf::Collision` shape. -/
structure Collision where
  name : String := ""
  origin : Pose := {}
  geometry : Geometry
  deriving DecidableEq, Repr

/-- The `urdf::Joint` type tags. -/
inductive JointType where
  | UNKNOWN | REVOLUTE | CONTINUOUS | PRISMATIC | FLOATING | PLANAR | FIXED
  deriving DecidableEq, Repr

/-- The `urdf::JointLimits` fields the converter reads. -/
structure JointLimits where
  lower : ℚ := 0
  upper : ℚ := 0
  deriving DecidableEq, Repr

/-- A `urdf::Joint`. -/
structure Joint where
  name : String := ""
  type : JointType := JointType.UNKNOWN
  parent_link_name : String := ""
  child_link_name : String := ""
  parent_to_joint_origin_transform : Pose := {}
  axis : Vector3 := {}
  limits : Option JointLimits := none
  deriving DecidableEq, Repr

/-- A `urdf::Link` with the subtree below it.  The URDF model sets a link's
`parent_joint` and its parent pointer together, and lists the link among the
`child_links` of that parent; the tree keeps the parent joint on the edge to
the child, and the root has none. -/
inductive Link where
  | mk (name : String) (inertial : Option Inertial) (visual : Option Visual)
      (collision : Option Collision) (visual_array : List Visual)
      (collision_array : List Collision) (child_links : List (Joint × Link))

namespace Link

def name : Link → String
  | mk n _ _ _ _ _ _ => n

def inertial : Link → Option Inertial
  | mk _ i _ _ _ _ _ => i

def visual : Link → Option Visual
  | mk _ _ v _ _ _ _ => v

def collision : Link → Option Collision
  | mk _ _ _ c _ _ _ => c

def visual_array : Link → List Visual
  | mk _ _ _ _ va _ _ => va

def collision_array : Link → List Collision
  | mk _ _ _ _ _ ca _ => ca

def child_links : Link → List (Joint × Link)
  | mk _ _ _ _ _ _ cl => cl

end Link

/-- The type test `geometry->type == urdf::Geometry::MESH`. -/
def Geometry.isMesh : Geometry → Bool
  | Geometry.MESH _ _ => true
  | _ => false

/-- The read `((urdf::Mesh*) geometry)->filename`, made only on mesh geometries. -/
def Geometry.meshFilename : Geometry → String
  | Geometry.MESH filename _ => filename
  | _ => ""

/-- A `urdf::Material`. -/
structure Material where
  name : String := ""
  texture_filename : String := ""
  r : ℚ := 0
  g : ℚ := 0
  b : ℚ := 0
  a : ℚ := 1
  deriving DecidableEq, Repr

/-- A `urdf::ModelInterface`: `materials_` lists the materials in the iteration
order of the name-keyed map. -/
structure ModelInterface where
  name_ : String := ""
  materials_ : List Material := []
  root_link_ : Link

end urdf

namespace configmaps

/-- A `std::map<std::string, T>`, kept as an association list with at most one
entry per key. -/
abbrev StdMap (α : Type) := List (String × α)

namespace StdMap

variable {α : Type}

/-- The lookup `m.find(key)`; `none` stands for `m.end()`. -/
def find (m : StdMap α) (key : String) : Option α :=
  match m with
  | [] => none
  | (k, v) :: rest => if k = key then some v else find rest key

/-- The assignment `m[key] = value`: replaces the entry of `key`, or adds one. -/
def assign (m : StdMap α) (key : String) (value : α) : StdMap α :=
  match m with
  | [] => [(key, value)]
  | (k, v) :: rest => if k = key then (key, value) :: rest else (k, v) :: assign rest key value

/-- The read `m[key]`: a missing key is inserted with the value-initialised
element, which is then returned. -/
def index [Inhabited α] (m : StdMap α) (key : String) : StdMap α × α :=
  match find m key with
  | some v => (m, v)
  | none => (assign m key default, default)

/-- The order of `std::string` keys: `a` does not come after `b` when the
characters are compared one by one. -/
def keyLE (a b : String) : Prop :=
  ¬ b.data < a.data

instance : DecidableRel keyLE :=
  fun a b => inferInstanceAs (Decidable (¬ b.data < a.data))

/-- The keys of a map in the order an iterator visits them: ascending, each
key once. -/
def keys (m : StdMap α) : List String :=
  ((m.map Prod.fst).dedup).insertionSort keyLE

/-- The iteration `for (it = m.begin(); it != m.end(); ++it)`: the entries of
the map in key order. -/
def entries (m : StdMap α) : List (String × α) :=
  (keys m).filterMap (fun k => (find m k).map (fun v => (k, v)))

end StdMap

/-- The values one element of a `ConfigVector` holds. -/
inductive ConfigAtom where
  | int (i : Int)
  | ulong (n : Nat)
  | double (d : ℚ)
  | string (s : String)
  | bool (b : Bool)
  | vector (v : urdf.Vector3)
  | quaternion (q : urdf.Rotation)
  deriving DecidableEq, Repr

/-- The values a `ConfigItem` holds in the records the converter reads and
writes: a single value, or the elements of a `ConfigVector` (`list`). -/
inductive ConfigItem where
  | int (i : Int)
  | ulong (n : Nat)
  | double (d : ℚ)
  | string (s : String)
  | bool (b : Bool)
  | vector (v : urdf.Vector3)
  | quaternion (q : urdf.Rotation)
  | list (l : List ConfigAtom)
  deriving DecidableEq, Repr

/-- The conversion `(std::string) *it` of an element of a `ConfigVector`. -/
def ConfigAtom.getString : ConfigAtom → String
  | ConfigAtom.string s => s
  | _ => ""

/-- The elements `begin()` to `end()` of the `ConfigVector` behind an item; a
single value is a vector of one element. -/
def ConfigItem.elements : ConfigItem → List ConfigAtom
  | ConfigItem.int i => [ConfigAtom.int i]
  | ConfigItem.ulong n => [ConfigAtom.ulong n]
  | ConfigItem.double d => [ConfigAtom.double d]
  | ConfigItem.string s => [ConfigAtom.string s]
  | ConfigItem.bool b => [ConfigAtom.bool b]
  | ConfigItem.vector v => [ConfigAtom.vector v]
  | ConfigItem.quaternion q => [ConfigAtom.quaternion q]
  | ConfigItem.list l => l

/-- The conversion `(std::string) item`; a `ConfigVector` converts as its
first element. -/
def ConfigItem.getString : ConfigItem → String
  | ConfigItem.string s => s
  | ConfigItem.list (a :: _) => a.getString
  | _ => ""

/-- The conversion `(unsigned long) item`. -/
def ConfigItem.getULong : ConfigItem → Nat
  | ConfigItem.ulong n => n
  | ConfigItem.int i => i.toNat
  | _ => 0

/-- Modelled from the spec: the conversion `(int) item` belongs to the
configuration-map library, which is not part of the sources.  An integer item
converts to its value, a boolean to 0 or 1, a number is cut to its integer
part, a string is read as a decimal number, a `ConfigVector` converts as its
first element, and any other item reads 0. -/
def ConfigItem.getInt (item : ConfigItem) : Int :=
  match item.elements.head? with
  | some (ConfigAtom.int i) => i
  | some (ConfigAtom.ulong n) => n
  | some (ConfigAtom.bool b) => if b then 1 else 0
  | some (ConfigAtom.double d) => Int.tdiv d.num d.den
  | some (ConfigAtom.string s) => s.toInt?.getD 0
  | _ => 0

/-- A `ConfigMap` record. -/
abbrev ConfigMap := StdMap ConfigItem

/-- Modelled from the spec: `ConfigMap::append` belongs to the
configuration-map library, which is not part of the sources.  It merges the
entries of `other` into the record, an entry of `other` replacing the entry of
the same key. -/
def ConfigMap.append (map other : ConfigMap) : ConfigMap :=
  other.entries.foldl (fun m e => m.assign e.1 e.2) map

/-- Modelled from the spec: `ConfigVector::push_back` and `operator+=` belong
to the configuration-map library, which is not part of the sources.
`map[key].push_back(a)` adds `a` after the elements the field holds, a missing
field holding none. -/
def ConfigMap.pushBack (map : ConfigMap) (key : String) (a : ConfigAtom) : ConfigMap :=
  map.assign key (ConfigItem.list (((map.find key).map ConfigItem.elements).getD [] ++ [a]))

/-- The field read `(std::string) map[key]` of a record. -/
def fieldString (map : ConfigMap) (key : String) : String :=
  ((map.find key).getD (ConfigItem.string "")).getString

/-- The field read `(unsigned long) map[key]` of a record. -/
def fieldULong (map : ConfigMap) (key : String) : Nat :=
  ((map.find key).getD (ConfigItem.ulong 0)).getULong

end configmaps

namespace mars.smurf

open binary64 urdf configmaps

/-- The frame a node is placed at: the link's inertial origin, else its
collision origin, else the default pose (`toPose` in `convertPose`,
`inertialPose` in `calculatePose`). -/
def inertialOrCollisionOrigin (link : Link) : Pose :=
  match link.inertial with
  | some i => i.origin
  | none =>
    match link.collision with
    | some c => c.origin
    | none => {}

/-- The pose overload of `SMURF::convertPose`: `pose` expressed relative to `toPose`. -/
def convertPose (pose toPose : Pose) : Vector3 × Rotation :=
  let toPosePosition : Vector3 :=
    { x := fmul toPose.position.x (-1), y := fmul toPose.position.y (-1),
      z := fmul toPose.position.z (-1) }
  let p := pose.position.add toPosePosition
  let p := toPose.rotation.GetInverse.rotate p
  let r := toPose.rotation.GetInverse.mul pose.rotation
  (p, r)

/-- The link overload of `SMURF::convertPose`. -/
def convertPoseLink (pose : Pose) (link : Link) : Vector3 × Rotation :=
  convertPose pose (inertialOrCollisionOrigin link)

/-- The tolerance of `SMURF::isEqualPos`: the double the literal `0.00000000001`
stands for, the binary64 number nearest to `1e-11`, which is
`6189700196426901 · 2^(-89)` (`0x1.5fd7fe1796495p-37`), a little below `1e-11`. -/
def epsilon : ℚ := 6189700196426901 / 2 ^ 89

/-- The function `SMURF::isEqualPos`. -/
def isEqualPos (p1 p2 : Pose) : Bool :=
  let equal := true
  let equal := if |fsub p1.position.x p2.position.x| > epsilon then false else equal
  let equal := if |fsub p1.position.y p2.position.y| > epsilon then false else equal
  let equal := if |fsub p1.position.z p2.position.z| > epsilon then false else equal
  let equal := if |fsub p1.rotation.x p2.rotation.x| > epsilon then false else equal
  let equal := if |fsub p1.rotation.y p2.rotation.y| > epsilon then false else equal
  let equal := if |fsub p1.rotation.z p2.rotation.z| > epsilon then false else equal
  let equal := if |fsub p1.rotation.w p2.rotation.w| > epsilon then false else equal
  equal

/-- The converter state: the members of `SMURF` that the conversion reads or writes. -/
structure SMURF where
  nextGroupID : Nat := 0
  nextNodeID : Nat := 0
  nextJointID : Nat := 0
  nextMaterialID : Nat := 0
  nextMotorID : Nat := 0
  nextSensorID : Nat := 0
  nextControllerID : Nat := 0
  nodeList : List ConfigMap := []
  jointList : List ConfigMap := []
  motorList : List ConfigMap := []
  sensorList : List ConfigMap := []
  controllerList : List ConfigMap := []
  materialList : List ConfigMap := []
  lightList : List ConfigMap := []
  graphicList : List ConfigMap := []
  nodeIDMap : StdMap Nat := []
  jointIDMap : StdMap Nat := []
  sensorIDMap : StdMap Nat := []
  motorIDMap : StdMap Nat := []
  collisionNameMap : StdMap String := []
  visualNameMap : StdMap String := []
  robotname : String := ""
  tmpPath : String := ""

/-- The function `SMURF::reset`; `maxGroupID` is the value returned by the
simulation's `getMaxGroupID()`. -/
def reset (s : SMURF) (maxGroupID : Nat) : SMURF :=
  { s with
    nextGroupID := maxGroupID + 1
    nextNodeID := 1
    nextJointID := 1
    nextMaterialID := 1
    nextMotorID := 1
    nextSensorID := 1
    nextControllerID := 1
    nodeList := []
    jointList := []
    motorList := []
    sensorList := []
    controllerList := []
    materialList := []
    lightList := []
    graphicList := []
    nodeIDMap := []
    jointIDMap := []
    sensorIDMap := []
    motorIDMap := []
    collisionNameMap := []
    robotname := "" }

/-- The function `SMURF::handleInertial`. -/
def handleInertial (map : ConfigMap) (link : Link) : ConfigMap :=
  match link.inertial with
  | some inertial =>
    let map := map.assign "density" (ConfigItem.double 0)
    let map := map.assign "mass" (ConfigItem.double inertial.mass)
    let map := map.assign "i00" (ConfigItem.double inertial.ixx)
    let map := map.assign "i01" (ConfigItem.double inertial.ixy)
    let map := map.assign "i02" (ConfigItem.double inertial.ixz)
    let map := map.assign "i10" (ConfigItem.double inertial.ixy)
    let map := map.assign "i11" (ConfigItem.double inertial.iyy)
    let map := map.assign "i12" (ConfigItem.double inertial.iyz)
    let map := map.assign "i20" (ConfigItem.double inertial.ixz)
    let map := map.assign "i21" (ConfigItem.double inertial.iyz)
    let map := map.assign "i22" (ConfigItem.double inertial.izz)
    map.assign "inertia" (ConfigItem.bool true)
  | none => map.assign "inertia" (ConfigItem.bool false)

/-- The function `SMURF::calculatePose`.  `parent` is `link->getParent()`
together with `link->parent_joint`, absent for the root link. -/
def calculatePose (s : SMURF) (map : ConfigMap) (parent : Option (Link × Joint)) (link : Link) :
    SMURF × ConfigMap :=
  let jointPose : Pose :=
    match parent with
    | some (_, joint) => joint.parent_to_joint_origin_transform
    | none => {}
  let parentInertialPose : Pose :=
    match parent with
    | some (pLink, _) =>
      match pLink.inertial with
      | some i => i.origin
      | none =>
        match pLink.collision with
        | some c => c.origin
        | none => {}
    | none => {}
  let sm : SMURF × ConfigMap :=
    match parent with
    | some (pLink, _) =>
      ({ s with nodeIDMap := (s.nodeIDMap.index pLink.name).1 },
        map.assign "relativeid" (ConfigItem.ulong (s.nodeIDMap.index pLink.name).2))
    | none => (s, map.assign "relativeid" (ConfigItem.ulong 0))
  let inertialPose : Pose := inertialOrCollisionOrigin link
  let parentInertialPosition : Vector3 :=
    { x := fmul parentInertialPose.position.x (-1)
      y := fmul parentInertialPose.position.y (-1)
      z := fmul parentInertialPose.position.z (-1) }
  let goalPosition := jointPose.position.add parentInertialPosition
  let goalPosition := goalPosition.add (jointPose.rotation.rotate inertialPose.position)
  let goalPosition := parentInertialPose.rotation.GetInverse.rotate goalPosition
  let goalRotation :=
    (parentInertialPose.rotation.GetInverse.mul jointPose.rotation).mul inertialPose.rotation
  let map := sm.2.assign "position" (ConfigItem.vector goalPosition)
  let map := map.assign "rotation" (ConfigItem.quaternion goalRotation)
  (sm.1, map)

/-- The function `SMURF::getGlobalPose`, along the chain of parent joints from
the link up to the root (nearest first). -/
def getGlobalPose : List (Link × Joint) → Pose
  | [] => {}
  | (_, joint) :: ancestors =>
    let globalPose := joint.parent_to_joint_origin_transform
    let parentPose := getGlobalPose ancestors
    { position := (parentPose.rotation.rotate globalPose.position).add parentPose.position
      rotation := parentPose.rotation.mul globalPose.rotation }

/-- The function `SMURF::handleVisual`. -/
def handleVisual (map : ConfigMap) (visual : Visual) : ConfigMap :=
  let map := map.assign "filename" (ConfigItem.string "PRIMITIVE")
  let (map, size, scale) : ConfigMap × Vector3 × Vector3 :=
    match visual.geometry with
    | Geometry.SPHERE radius =>
      (map.assign "origname" (ConfigItem.string "sphere"), { x := radius }, { x := 1, y := 1, z := 1 })
    | Geometry.BOX dim =>
      (map.assign "origname" (ConfigItem.string "box"), { x := dim.x, y := dim.y, z := dim.z },
        { x := 1, y := 1, z := 1 })
    | Geometry.CYLINDER radius length =>
      (map.assign "origname" (ConfigItem.string "cylinder"), { x := radius, y := length },
        { x := 1, y := 1, z := 1 })
    | Geometry.MESH filename v =>
      ((map.assign "filename" (ConfigItem.string filename)).assign "origname" (ConfigItem.string ""),
        {}, { x := v.x, y := v.y, z := v.z })
  let map := map.assign "visualsize" (ConfigItem.vector size)
  let map := map.assign "visualscale" (ConfigItem.vector scale)
  map.assign "materialName" (ConfigItem.string visual.material_name)

/-- The function `SMURF::handleCollision`. -/
def handleCollision (map : ConfigMap) (c : Collision) : ConfigMap :=
  let (map, size, scale) : ConfigMap × Vector3 × Vector3 :=
    match c.geometry with
    | Geometry.SPHERE radius =>
      (map.assign "physicmode" (ConfigItem.string "sphere"), { x := radius }, { x := 1, y := 1, z := 1 })
    | Geometry.BOX dim =>
      (map.assign "physicmode" (ConfigItem.string "box"), { x := dim.x, y := dim.y, z := dim.z },
        { x := 1, y := 1, z := 1 })
    | Geometry.CYLINDER radius length =>
      (map.assign "physicmode" (ConfigItem.string "cylinder"), { x := radius, y := length },
        { x := 1, y := 1, z := 1 })
    | Geometry.MESH filename v =>
      (((map.assign "filename" (ConfigItem.string filename)).assign "origname"
          (ConfigItem.string "")).assign "physicmode" (ConfigItem.string "mesh"),
        {}, { x := v.x, y := v.y, z := v.z })
  let map := map.assign "extend" (ConfigItem.vector size)
  let map := map.assign "scale" (ConfigItem.vector scale)
  match c.geometry with
  | Geometry.MESH _ _ => map.assign "extend" (ConfigItem.vector scale)
  | _ => map

/-- The function `SMURF::createFakeVisual`. -/
def createFakeVisual (map : ConfigMap) : ConfigMap :=
  let size : Vector3 := { x := 1 / 100, y := 1 / 100, z := 1 / 100 }
  let scale : Vector3 := { x := 1, y := 1, z := 1 }
  let map := map.assign "filename" (ConfigItem.string "PRIMITIVE")
  let map := map.assign "origname" (ConfigItem.string "box")
  let map := map.assign "materialName" (ConfigItem.string "_fakeMaterial")
  let map := map.assign "movable" (ConfigItem.bool true)
  let map := map.assign "visualsize" (ConfigItem.vector size)
  map.assign "visualscale" (ConfigItem.vector scale)

/-- The function `SMURF::createFakeCollision`. -/
def createFakeCollision (map : ConfigMap) : ConfigMap :=
  let size : Vector3 := { x := 1 / 100, y := 1 / 100, z := 1 / 100 }
  let map := map.assign "physicmode" (ConfigItem.string "box")
  let map := map.assign "coll_bitmask" (ConfigItem.int 0)
  let map := map.assign "movable" (ConfigItem.bool true)
  map.assign "extend" (ConfigItem.vector size)

/-- Modelled from the spec: the constant `ANCHOR_CUSTOM` belongs to the joint
interface of the simulation, which is not part of the sources; it tags the
anchor of a joint as a custom point (the joint's pivot in the global frame). -/
def ANCHOR_CUSTOM : Int := 4

/-- The "special case handling" block of `SMURF::handleKinematics`: the values
of `needGroupID`, `loadVisual` and `loadCollision` it leaves. -/
def specialCaseHandling (link : Link) : Bool × Bool × Bool :=
  let loadVisual := link.visual.isSome
  let loadCollision := link.collision.isSome
  let needGroupID := false
  let needGroupID :=
    if link.visual_array.length > 1 || link.collision_array.length > 1 then true else needGroupID
  let (loadCollision, needGroupID) : Bool × Bool :=
    match link.collision, link.inertial with
    | some collision, some inertial =>
      if !isEqualPos collision.origin inertial.origin then (false, true)
      else (loadCollision, needGroupID)
    | _, _ => (loadCollision, needGroupID)
  let (loadVisual, needGroupID) : Bool × Bool :=
    match link.visual, link.collision with
    | some visual, some collision =>
      if loadCollision && collision.geometry.isMesh then
        if !visual.geometry.isMesh then (false, true)
        else if collision.geometry.meshFilename != visual.geometry.meshFilename then (false, true)
        else (loadVisual, needGroupID)
      else (loadVisual, needGroupID)
    | _, _ => (loadVisual, needGroupID)
  (needGroupID, loadVisual, loadCollision)

/-- The `if (needGroupID)` block of `SMURF::handleKinematics`. -/
def mainNodeGroupID (s : SMURF) (config : ConfigMap) (needGroupID : Bool) : SMURF × ConfigMap :=
  if needGroupID then
    ({ s with nextGroupID := s.nextGroupID + 1 },
      config.assign "groupid" (ConfigItem.ulong s.nextGroupID))
  else (s, config.assign "groupid" (ConfigItem.int 0))

/-- The `if (loadVisual)` block of `SMURF::handleKinematics`.  Returns the
state, the record and `visualArrayIndex`. -/
def mainNodeVisual (s : SMURF) (config : ConfigMap) (link : Link) (loadVisual : Bool) :
    SMURF × ConfigMap × Nat :=
  match loadVisual, link.visual with
  | true, some visual =>
    let s := { s with visualNameMap := s.visualNameMap.assign visual.name link.name }
    let config := handleVisual config visual
    let vq := convertPoseLink visual.origin link
    let config := config.assign "visualposition" (ConfigItem.vector vq.1)
    let config := config.assign "visualrotation" (ConfigItem.quaternion vq.2)
    (s, config, 1)
  | _, _ => (s, createFakeVisual config, 0)

/-- The `if (loadCollision)` block of `SMURF::handleKinematics`.  Returns the
state, the record and `collisionArrayIndex`. -/
def mainNodeCollision (s : SMURF) (config : ConfigMap) (link : Link) (loadCollision : Bool) :
    SMURF × ConfigMap × Nat :=
  match loadCollision, link.collision with
  | true, some collision =>
    let s := { s with collisionNameMap := s.collisionNameMap.assign collision.name link.name }
    (s, handleCollision config collision, 1)
  | _, _ => (s, createFakeCollision config, 0)

/-- The first part of `SMURF::handleKinematics`, up to the emission of the
link's main node.  Returns the state, the main node's record `config`, and
`visualArrayIndex` and `collisionArrayIndex`. -/
def handleMainNode (s : SMURF) (parent : Option (Link × Joint)) (link : Link) :
    SMURF × ConfigMap × Nat × Nat :=
  let config : ConfigMap := []
  let config := config.assign "name" (ConfigItem.string link.name)
  let config := config.assign "index" (ConfigItem.ulong s.nextNodeID)
  let s := { s with nextNodeID := s.nextNodeID + 1 }
  let s := { s with nodeIDMap := s.nodeIDMap.assign link.name (s.nextNodeID - 1) }
  let config := config.assign "movable" (ConfigItem.bool true)
  let special := specialCaseHandling link
  let sc := mainNodeGroupID s config special.1
  let config := handleInertial sc.2 link
  let sc := calculatePose sc.1 config parent link
  let scv := mainNodeVisual sc.1 sc.2 link special.2.1
  let scc := mainNodeCollision scv.1 scv.2.1 link special.2.2
  ({ scc.1 with nodeList := scc.1.nodeList ++ [scc.2.1] }, scc.2.1, scv.2.2, scc.2.2)

/-- The test in the first loop of `SMURF::handleKinematics` whether the next
visual can share a node with `collision`: the visual is dropped when the
collision is a mesh and the visual is not a mesh of the same file. -/
def pairVisual (collision : Collision) (visual : Option Visual) : Option Visual :=
  match visual with
  | some v =>
    if collision.geometry.isMesh then
      if !v.geometry.isMesh then none
      else if collision.geometry.meshFilename != v.geometry.meshFilename then none
      else some v
    else some v
  | none => none

/-- The `if (visual)` block at the end of the first loop of
`SMURF::handleKinematics`; `p1` is the pose of the child node.  Returns the
state, the record and `visualArrayIndex`. -/
def childNodeVisual (s : SMURF) (childNode : ConfigMap) (link : Link) (p1 : Pose)
    (visualArrayIndex : Nat) (visual : Option Visual) : SMURF × ConfigMap × Nat :=
  match visual with
  | some visual =>
    let s := { s with visualNameMap := s.visualNameMap.assign visual.name link.name }
    let childNode := handleVisual childNode visual
    let vq := convertPoseLink visual.origin link
    let p2 : Pose := { position := vq.1, rotation := vq.2 }
    let vq := convertPose p2 p1
    let childNode := childNode.assign "visualposition" (ConfigItem.vector vq.1)
    let childNode := childNode.assign "visualrotation" (ConfigItem.quaternion vq.2)
    (s, childNode, visualArrayIndex + 1)
  | none => (s, createFakeVisual childNode, visualArrayIndex)

/-- The record built by one pass of the first `while` loop of
`SMURF::handleKinematics` before its `if (visual)` block; `index` is the node
id drawn from `nextNodeID`. -/
def collisionChildRecord (index : Nat) (link : Link) (config : ConfigMap) (collision : Collision) :
    ConfigMap :=
  let childNode : ConfigMap := []
  let childNode := childNode.assign "index" (ConfigItem.ulong index)
  let childNodeName := fieldString config "name" ++ "_child"
  let childNode := childNode.assign "relativeid" ((config.find "index").getD (ConfigItem.ulong 0))
  let childNode :=
    if collision.name = "" then childNode.assign "name" (ConfigItem.string childNodeName)
    else childNode.assign "name" (ConfigItem.string collision.name)
  let childNode := childNode.assign "groupid" ((config.find "groupid").getD (ConfigItem.ulong 0))
  let childNode := childNode.assign "mass" (ConfigItem.double (1 / 1000))
  let childNode := childNode.assign "density" (ConfigItem.double 0)
  let childNode := childNode.assign "movable" (ConfigItem.bool true)
  let childNode := handleCollision childNode collision
  let vq := convertPoseLink collision.origin link
  let childNode := childNode.assign "position" (ConfigItem.vector vq.1)
  childNode.assign "rotation" (ConfigItem.quaternion vq.2)

/-- One pass of the first `while` loop of `SMURF::handleKinematics`: the child
node of the collision at `collisionArrayIndex`.  Returns the state and
`visualArrayIndex`. -/
def collisionChildNode (s : SMURF) (link : Link) (config : ConfigMap) (visualArrayIndex : Nat)
    (collision : Collision) : SMURF × Nat :=
  let visual : Option Visual := pairVisual collision link.visual_array[visualArrayIndex]?
  let childNode := collisionChildRecord s.nextNodeID link config collision
  let s := { s with nextNodeID := s.nextNodeID + 1 }
  let childNodeName := fieldString config "name" ++ "_child"
  let s := { s with nodeIDMap := s.nodeIDMap.assign childNodeName (s.nextNodeID - 1) }
  let s := { s with nodeIDMap := s.nodeIDMap.assign collision.name (s.nextNodeID - 1) }
  let s := { s with collisionNameMap := s.collisionNameMap.assign collision.name collision.name }
  let vq := convertPoseLink collision.origin link
  let p1 : Pose := { position := vq.1, rotation := vq.2 }
  let scv := childNodeVisual s childNode link p1 visualArrayIndex visual
  ({ scv.1 with nodeList := scv.1.nodeList ++ [scv.2.1] }, scv.2.2)

/-- The first `while` loop of `SMURF::handleKinematics`, over the collisions
from `collisionArrayIndex` on (`collisions` is `collision_array` without its
first `collisionArrayIndex` elements). -/
def collisionChildNodes (link : Link) (config : ConfigMap) :
    SMURF → Nat → List Collision → SMURF × Nat
  | s, visualArrayIndex, [] => (s, visualArrayIndex)
  | s, visualArrayIndex, collision :: collisions =>
    collisionChildNodes link config
      (collisionChildNode s link config visualArrayIndex collision).1
      (collisionChildNode s link config visualArrayIndex collision).2 collisions

/-- The record built by one pass of the second `while` loop of
`SMURF::handleKinematics`; `index` is the node id drawn from `nextNodeID`. -/
def visualChildRecord (index : Nat) (link : Link) (config : ConfigMap) (visual : Visual) :
    ConfigMap :=
  let childNode : ConfigMap := []
  let childNode := childNode.assign "index" (ConfigItem.ulong index)
  let childNode := childNode.assign "relativeid" ((config.find "index").getD (ConfigItem.ulong 0))
  let childNode :=
    if visual.name = "" then
      childNode.assign "name" (ConfigItem.string (fieldString config "name" ++ "_child"))
    else childNode.assign "name" (ConfigItem.string visual.name)
  let childNode := childNode.assign "groupid" ((config.find "groupid").getD (ConfigItem.ulong 0))
  let childNode := childNode.assign "noPhysical" (ConfigItem.bool false)
  let childNode := childNode.assign "mass" (ConfigItem.double (1 / 1000))
  let childNode := childNode.assign "density" (ConfigItem.double 0)
  let childNode := childNode.assign "movable" (ConfigItem.bool true)
  let childNode := childNode.assign "coll_bitmask" (ConfigItem.int 0)
  let childNode := handleVisual childNode visual
  let childNode := childNode.assign "physicmode" (ConfigItem.string "box")
  let v : Vector3 := { x := 1 / 1000, y := 1 / 1000, z := 1 / 1000 }
  let childNode := childNode.assign "extend" (ConfigItem.vector v)
  let vq := convertPoseLink visual.origin link
  let childNode := childNode.assign "position" (ConfigItem.vector vq.1)
  childNode.assign "rotation" (ConfigItem.quaternion vq.2)

/-- One pass of the second `while` loop of `SMURF::handleKinematics`: the child
node of the visual at `visualArrayIndex`. -/
def visualChildNode (s : SMURF) (link : Link) (config : ConfigMap) (visual : Visual) : SMURF :=
  let childNode := visualChildRecord s.nextNodeID link config visual
  let s := { s with nextNodeID := s.nextNodeID + 1 }
  let s :=
    if visual.name = "" then s
    else { s with visualNameMap := s.visualNameMap.assign visual.name visual.name }
  { s with nodeList := s.nodeList ++ [childNode] }

/-- The second `while` loop of `SMURF::handleKinematics`, over the visuals from
`visualArrayIndex` on. -/
def visualChildNodes (link : Link) (config : ConfigMap) : SMURF → List Visual → SMURF
  | s, [] => s
  | s, visual :: visuals => visualChildNodes link config (visualChildNode s link config visual) visuals

/-- The record of the joint block of `SMURF::handleKinematics`; `index` is the
joint id drawn from `nextJointID`, `nodeindex1` and `nodeindex2` are the node
ids read from `nodeIDMap`. -/
def jointRecord (index nodeindex1 nodeindex2 : Nat) (ancestors : List (Link × Joint))
    (parent_joint : Joint) : ConfigMap :=
  let joint : ConfigMap := []
  let joint := joint.assign "name" (ConfigItem.string parent_joint.name)
  let joint := joint.assign "index" (ConfigItem.ulong index)
  let joint := joint.assign "nodeindex1" (ConfigItem.ulong nodeindex1)
  let joint := joint.assign "nodeindex2" (ConfigItem.ulong nodeindex2)
  let joint := joint.assign "anchorpos" (ConfigItem.int ANCHOR_CUSTOM)
  let joint :=
    match parent_joint.limits with
    | some limits =>
      (joint.assign "lowStopAxis1" (ConfigItem.double limits.lower)).assign "highStopAxis1"
        (ConfigItem.double limits.upper)
    | none => joint
  let joint :=
    if parent_joint.type = JointType.REVOLUTE || parent_joint.type = JointType.CONTINUOUS then
      joint.assign "type" (ConfigItem.string "hinge")
    else if parent_joint.type = JointType.PRISMATIC then
      joint.assign "type" (ConfigItem.string "slider")
    else if parent_joint.type = JointType.FIXED then
      joint.assign "type" (ConfigItem.string "fixed")
    else
      joint.assign "type" (ConfigItem.string "fixed")
  let pose := getGlobalPose ancestors
  let joint := joint.assign "axis1" (ConfigItem.vector (pose.rotation.rotate parent_joint.axis))
  joint.assign "anchor" (ConfigItem.vector pose.position)

/-- The joint block of `SMURF::handleKinematics`; `ancestors` is the chain of
parent links with the joints below them, nearest first, so that its head holds
`link->parent_joint`. -/
def handleParentJoint (s : SMURF) (ancestors : List (Link × Joint)) : SMURF :=
  match ancestors with
  | [] => s
  | (_, parent_joint) :: _ =>
    let index := s.nextJointID
    let s := { s with nextJointID := s.nextJointID + 1 }
    let s := { s with jointIDMap := s.jointIDMap.assign parent_joint.name (s.nextJointID - 1) }
    let nodeindex1 := (s.nodeIDMap.index parent_joint.parent_link_name).2
    let s := { s with nodeIDMap := (s.nodeIDMap.index parent_joint.parent_link_name).1 }
    let nodeindex2 := (s.nodeIDMap.index parent_joint.child_link_name).2
    let s := { s with nodeIDMap := (s.nodeIDMap.index parent_joint.child_link_name).1 }
    let joint := jointRecord index nodeindex1 nodeindex2 ancestors parent_joint
    { s with jointList := s.jointList ++ [joint] }

/-- The body of `SMURF::handleKinematics` for one link, without the recursion
into its children. -/
def handleLink (s : SMURF) (ancestors : List (Link × Joint)) (link : Link) : SMURF :=
  let main := handleMainNode s ancestors.head? link
  let config := main.2.1
  let sv :=
    collisionChildNodes link config main.1 main.2.2.1 (link.collision_array.drop main.2.2.2)
  let s := visualChildNodes link config sv.1 (link.visual_array.drop sv.2)
  handleParentJoint s ancestors

mutual

/-- The function `SMURF::handleKinematics`. -/
def handleKinematics (s : SMURF) (ancestors : List (Link × Joint)) : Link → SMURF
  | Link.mk name inertial visual collision visual_array collision_array child_links =>
    let link := Link.mk name inertial visual collision visual_array collision_array child_links
    handleChildLinks (handleLink s ancestors link) ancestors link child_links

/-- The loop over `link->child_links` that ends `SMURF::handleKinematics`. -/
def handleChildLinks (s : SMURF) (ancestors : List (Link × Joint)) (link : Link) :
    List (Joint × Link) → SMURF
  | [] => s
  | (joint, child) :: rest =>
    handleChildLinks (handleKinematics s ((link, joint) :: ancestors) child) ancestors link rest

end

/-- The function `SMURF::createFakeMaterial`. -/
def createFakeMaterial (s : SMURF) : SMURF :=
  let config : ConfigMap := []
  let config := config.assign "id" (ConfigItem.ulong s.nextMaterialID)
  let s := { s with nextMaterialID := s.nextMaterialID + 1 }
  let config := config.assign "name" (ConfigItem.string "_fakeMaterial")
  let config := config.assign "exists" (ConfigItem.bool true)
  let config := config.assign "diffuseFront/a" (ConfigItem.double 1)
  let config := config.assign "diffuseFront/r" (ConfigItem.double 1)
  let config := config.assign "diffuseFront/g" (ConfigItem.double 0)
  let config := config.assign "diffuseFront/b" (ConfigItem.double 0)
  let config := config.assign "texturename" (ConfigItem.string "")
  let config := config.assign "cullMask" (ConfigItem.int 1)
  { s with materialList := s.materialList ++ [config] }

/-- The function `SMURF::handleMaterial`. -/
def handleMaterial (s : SMURF) (material : Material) : SMURF :=
  let config : ConfigMap := []
  let config := config.assign "id" (ConfigItem.ulong s.nextMaterialID)
  let s := { s with nextMaterialID := s.nextMaterialID + 1 }
  let config := config.assign "name" (ConfigItem.string material.name)
  let config := config.assign "exists" (ConfigItem.bool true)
  let config := config.assign "diffuseFront/a" (ConfigItem.double material.a)
  let config := config.assign "diffuseFront/r" (ConfigItem.double material.r)
  let config := config.assign "diffuseFront/g" (ConfigItem.double material.g)
  let config := config.assign "diffuseFront/b" (ConfigItem.double material.b)
  let config := config.assign "texturename" (ConfigItem.string material.texture_filename)
  { s with materialList := s.materialList ++ [config] }

/-- The function `SMURF::createModel`. -/
def createModel (s : SMURF) (model : ModelInterface) : SMURF :=
  let s := if s.robotname = "" then { s with robotname := model.name_ } else s
  let s := createFakeMaterial s
  let s := model.materials_.foldl handleMaterial s
  handleKinematics s [] model.root_link_

/-! ### Vocabulary of the properties -/

/-- The seven components of a pose: position `x, y, z`, then rotation `x, y, z, w`. -/
def poseComponent (p : Pose) (i : Fin 7) : ℚ :=
  match i with
  | 0 => p.position.x
  | 1 => p.position.y
  | 2 => p.position.z
  | 3 => p.rotation.x
  | 4 => p.rotation.y
  | 5 => p.rotation.z
  | 6 => p.rotation.w

/-- The difference `a - b` of two positions as the code forms it: `b` is
multiplied by `-1` and added to `a`. -/
def vectorSub (a b : Vector3) : Vector3 :=
  a.add { x := fmul b.x (-1), y := fmul b.y (-1), z := fmul b.z (-1) }

/-- The keys written first on every node record and left alone afterwards. -/
def headerKey (k : String) : Prop :=
  k = "name" ∨ k = "index" ∨ k = "groupid" ∨ k = "relativeid"

/-- The record a pass of the first `while` loop of `SMURF::handleKinematics`
appends to `nodeList`, for the node id `index` and the current
`visualArrayIndex`. -/
def collisionChildEmitted (index : Nat) (link : Link) (config : ConfigMap) (visualArrayIndex : Nat)
    (collision : Collision) : ConfigMap :=
  (childNodeVisual {} (collisionChildRecord index link config collision) link
    { position := (convertPoseLink collision.origin link).1
      rotation := (convertPoseLink collision.origin link).2 }
    visualArrayIndex (pairVisual collision link.visual_array[visualArrayIndex]?)).2.1

/-- The value of `visualArrayIndex` after a pass of the first `while` loop. -/
def nextVisualArrayIndex (link : Link) (visualArrayIndex : Nat) (collision : Collision) : Nat :=
  if (pairVisual collision link.visual_array[visualArrayIndex]?).isSome then visualArrayIndex + 1
  else visualArrayIndex

/-- The value of `visualArrayIndex` when the first `while` loop ends. -/
def finalVisualArrayIndex (link : Link) : Nat → List Collision → Nat
  | visualArrayIndex, [] => visualArrayIndex
  | visualArrayIndex, collision :: collisions =>
    finalVisualArrayIndex link (nextVisualArrayIndex link visualArrayIndex collision) collisions

/-- The records the first `while` loop appends to `nodeList`, the first of them
with node id `index`. -/
def collisionChildRecords (link : Link) (config : ConfigMap) :
    Nat → Nat → List Collision → List ConfigMap
  | _, _, [] => []
  | index, visualArrayIndex, collision :: collisions =>
    collisionChildEmitted index link config visualArrayIndex collision ::
      collisionChildRecords link config (index + 1)
        (nextVisualArrayIndex link visualArrayIndex collision) collisions

/-- The records the second `while` loop appends to `nodeList`, the first of
them with node id `index`. -/
def visualChildRecords (link : Link) (config : ConfigMap) : Nat → List Visual → List ConfigMap
  | _, [] => []
  | index, visual :: visuals =>
    visualChildRecord index link config visual :: visualChildRecords link config (index + 1) visuals

/-- The records `SMURF::handleKinematics` appends to `nodeList` for one link:
the main node, the child nodes of the first loop, the child nodes of the
second loop. -/
def linkRecords (s : SMURF) (parent : Option (Link × Joint)) (link : Link) : List ConfigMap :=
  let main := handleMainNode s parent link
  let collisions := link.collision_array.drop main.2.2.2
  main.2.1 ::
    (collisionChildRecords link main.2.1 (s.nextNodeID + 1) main.2.2.1 collisions ++
      visualChildRecords link main.2.1 (s.nextNodeID + 1 + collisions.length)
        (link.visual_array.drop (finalVisualArrayIndex link main.2.2.1 collisions)))

/-- The records of a list carry the consecutive ids `start`, `start + 1`, ... in
their `index` field. -/
def indexedFrom (start : Nat) (records : List ConfigMap) : Prop :=
  records.map (fun r => r.find "index") =
    (List.range' start records.length).map (fun i => some (ConfigItem.ulong i))

/-- The id invariant of the state: the node and joint records carry the ids
`1, 2, ...` in list order and the counters point past them. -/
def idsInOrder (s : SMURF) : Prop :=
  indexedFrom 1 s.nodeList ∧ s.nextNodeID = s.nodeList.length + 1 ∧
  indexedFrom 1 s.jointList ∧ s.nextJointID = s.jointList.length + 1

/-- The keys `handleVisual` and `createFakeVisual` write for the shape shown. -/
def visualKey (k : String) : Prop :=
  k = "filename" ∨ k = "origname" ∨ k = "visualsize" ∨ k = "visualscale" ∨ k = "materialName"

/-- The keys `handleCollision` writes for every collision shape. -/
def collisionKey (k : String) : Prop :=
  k = "physicmode" ∨ k = "extend" ∨ k = "scale"

/-! ### Example inputs -/

/-- A unit box, the shape of the example links. -/
def unitBox : Geometry := Geometry.BOX { x := 1, y := 1, z := 1 }

/-- A link with one visual besides its primary visual, one collision, no
inertial, all shapes boxes at the link origin. -/
def linkOneExtraVisual : Link :=
  Link.mk "A" none (some { geometry := unitBox }) (some { geometry := unitBox })
    [{ geometry := unitBox }, { name := "A_extra", geometry := unitBox }]
    [{ geometry := unitBox }] []

/-- A link with an inertial and a collision that share their frame, one visual,
all shapes boxes. -/
def linkPlain : Link :=
  Link.mk "A" (some { mass := 1 }) (some { geometry := unitBox }) (some { geometry := unitBox })
    [{ geometry := unitBox }] [{ geometry := unitBox }] []

/-- A link with three collisions and two visuals, all boxes, no inertial. -/
def linkThreeCollisions : Link :=
  Link.mk "A" none (some { geometry := unitBox }) (some { geometry := unitBox })
    [{ geometry := unitBox }, { name := "v1", geometry := unitBox }]
    [{ geometry := unitBox }, { name := "c1", geometry := unitBox },
      { name := "c2", geometry := unitBox }] []

/-! ### Vocabulary of the tree properties -/

mutual

/-- The links of a tree in the order `SMURF::handleKinematics` visits them. -/
def subtreeLinks : Link → List Link
  | Link.mk name inertial visual collision visual_array collision_array child_links =>
    Link.mk name inertial visual collision visual_array collision_array child_links ::
      childrenLinks child_links

/-- The links below a list of child edges, in visiting order. -/
def childrenLinks : List (Joint × Link) → List Link
  | [] => []
  | (_, child) :: rest => subtreeLinks child ++ childrenLinks rest

end

/-- The link names of a tree, in visiting order. -/
def linkNames (link : Link) : List String :=
  (subtreeLinks link).map Link.name

/-- The keys other than its own name under which a link may register node ids
in `nodeIDMap`: `<name>_child` and the names of its collision shapes. -/
def auxiliaryKeys (link : Link) : List String :=
  (link.name ++ "_child") :: link.collision_array.map Collision.name

/-- Link names are pairwise distinct, and no collision-shape name and no
`<link>_child` name equals a link name. -/
def linkNamesUnambiguous (link : Link) : Prop :=
  (linkNames link).Nodup ∧
    ∀ n ∈ linkNames link, ∀ l ∈ subtreeLinks link, n ∉ auxiliaryKeys l

/-- The number of records `SMURF::handleKinematics` emits for one link. -/
def linkNodeCount (link : Link) : Nat :=
  (linkRecords {} none link).length

mutual

/-- The number of records emitted for a whole subtree. -/
def treeNodeCount : Link → Nat
  | Link.mk name inertial visual collision visual_array collision_array child_links =>
    linkNodeCount (Link.mk name inertial visual collision visual_array collision_array child_links) +
      childrenNodeCount child_links

/-- The number of records emitted for the subtrees of a list of child edges. -/
def childrenNodeCount : List (Joint × Link) → Nat
  | [] => 0
  | (_, child) :: rest => treeNodeCount child + childrenNodeCount rest

end

mutual

/-- The relative ids the records of a subtree are to carry, in emission order,
when the main node of the parent link has id `parentIndex` (0 for the root)
and the subtree's first record gets id `index`: the main node of the link
refers to `parentIndex`, every child node of the link refers to the link's main
node `index`, and so does the main node of every child link. -/
def expectedRelativeIds (parentIndex index : Nat) : Link → List Nat
  | Link.mk name inertial visual collision visual_array collision_array child_links =>
    parentIndex ::
      (List.replicate
          (linkNodeCount
            (Link.mk name inertial visual collision visual_array collision_array child_links) - 1)
          index ++
        expectedRelativeIdsChildren index
          (index + linkNodeCount
            (Link.mk name inertial visual collision visual_array collision_array child_links))
          child_links)

/-- The relative ids expected for the subtrees of a list of child edges whose
common parent has the main node `parentIndex`. -/
def expectedRelativeIdsChildren (parentIndex index : Nat) : List (Joint × Link) → List Nat
  | [] => []
  | (_, child) :: rest =>
    expectedRelativeIds parentIndex index child ++
      expectedRelativeIdsChildren parentIndex (index + treeNodeCount child) rest

end

/-- The read `nodeIDMap[key]` as a value: the registered id, or 0. -/
def lookupID (m : StdMap Nat) (key : String) : Nat :=
  (m.find key).getD 0

/-- The `relativeid` fields of a list of records. -/
def relativeIds (records : List ConfigMap) : List (Option ConfigItem) :=
  records.map (fun r => r.find "relativeid")

/-- Every entry of the list is below its position, positions counted from `start`. -/
def belowIndex : Nat → List Nat → Prop
  | _, [] => True
  | start, x :: xs => x < start ∧ belowIndex (start + 1) xs

/-- A tree in which a collision shape is named like its link: root `A` with a
second collision named `A`, and a child link `B`. -/
def modelCollisionNamedAsLink : ModelInterface :=
  { root_link_ :=
      Link.mk "A" none none (some { geometry := unitBox })
        [] [{ geometry := unitBox }, { name := "A", geometry := unitBox }]
        [({ name := "j", parent_link_name := "A", child_link_name := "B" },
          Link.mk "B" none none none [] [] [])] }

/-- A tree of two links with distinct names and a named extra collision. -/
def modelTwoLinks : ModelInterface :=
  { root_link_ :=
      Link.mk "A" none none (some { geometry := unitBox })
        [] [{ geometry := unitBox }, { name := "A_extra", geometry := unitBox }]
        [({ name := "j", parent_link_name := "A", child_link_name := "B" },
          Link.mk "B" none none none [] [] [])] }

/-- The `name` fields of a list of records. -/
def recordNames (records : List ConfigMap) : List (Option ConfigItem) :=
  records.map (fun r => r.find "name")

/-- The name a child node takes from its shape: the shape's name, or
`<link>_child` when the shape is unnamed. -/
def childNodeName (link : Link) (shapeName : String) : String :=
  if shapeName = "" then link.name ++ "_child" else shapeName

/-- The names of the records emitted for one link: the link's name for the
main node, then the child nodes of the collisions and of the visuals that are
not on the main node or paired. -/
def linkNodeNames (link : Link) : List String :=
  let collisions :=
    link.collision_array.drop (if (specialCaseHandling link).2.2 then 1 else 0)
  let visuals :=
    link.visual_array.drop
      (finalVisualArrayIndex link (if (specialCaseHandling link).2.1 then 1 else 0) collisions)
  link.name ::
    (collisions.map (fun c => childNodeName link c.name) ++
      visuals.map (fun v => childNodeName link v.name))

/-- A single link with two unnamed collisions besides its primary one. -/
def modelTwoUnnamedCollisions : ModelInterface :=
  { root_link_ :=
      Link.mk "A" none none (some { geometry := unitBox }) []
        [{ geometry := unitBox }, { geometry := unitBox }, { geometry := unitBox }] [] }

/-- A visual whose shape is a mesh with the declared scale (2, 3, 4). -/
def meshVisual : Visual :=
  { geometry := Geometry.MESH "wheel.stl" { x := 2, y := 3, z := 4 } }

/-- The `materialName` fields of a list of records. -/
def materialNames (records : List ConfigMap) : List (Option ConfigItem) :=
  records.map (fun r => r.find "materialName")

/-- The material name of the main node of a link: that of the primary visual
when it is loaded on the main node, the fallback material's otherwise. -/
def mainMaterialName (link : Link) : String :=
  match (specialCaseHandling link).2.1, link.visual with
  | true, some visual => visual.material_name
  | _, _ => "_fakeMaterial"

/-- The material names of the child nodes of the collisions `collisions`, the
next unconsumed visual being at `visualArrayIndex`: that of the visual paired
with the collision, the fallback material's when no visual is paired. -/
def collisionChildMaterialNames (link : Link) : Nat → List Collision → List String
  | _, [] => []
  | visualArrayIndex, collision :: collisions =>
    (match pairVisual collision link.visual_array[visualArrayIndex]? with
      | some visual => visual.material_name
      | none => "_fakeMaterial") ::
      collisionChildMaterialNames link (nextVisualArrayIndex link visualArrayIndex collision)
        collisions

/-- The material names of the records emitted for one link, in emission order:
a node that carries a visual shape takes the material name of that visual, a
node that carries none takes "_fakeMaterial". -/
def linkMaterialNames (link : Link) : List String :=
  let collisions :=
    link.collision_array.drop (if (specialCaseHandling link).2.2 then 1 else 0)
  let visualArrayIndex := if (specialCaseHandling link).2.1 then 1 else 0
  mainMaterialName link ::
    (collisionChildMaterialNames link visualArrayIndex collisions ++
      (link.visual_array.drop (finalVisualArrayIndex link visualArrayIndex collisions)).map
        Visual.material_name)

/-- A model of one link whose only shape is a box visual without a material
reference. -/
def modelVisualWithoutMaterial : ModelInterface :=
  { root_link_ := Link.mk "A" none (some { geometry := unitBox }) none
      [{ geometry := unitBox }] [] [] }

/-- The `name` and `id` fields of a list of material records. -/
def materialIds (records : List ConfigMap) : List (Option ConfigItem × Option ConfigItem) :=
  records.map (fun r => (r.find "name", r.find "id"))

/-- The names of a list of URDF materials with the consecutive ids `start`,
`start + 1`, ... -/
def materialsFrom : Nat → List Material → List (Option ConfigItem × Option ConfigItem)
  | _, [] => []
  | start, material :: materials =>
    (some (ConfigItem.string material.name), some (ConfigItem.ulong start)) ::
      materialsFrom (start + 1) materials

/-! ### Vocabulary of the joint properties -/

mutual

/-- The edges of a tree in visiting order: parent link, joint, child link. -/
def treeEdges : Link → List (Link × Joint × Link)
  | Link.mk name inertial visual collision visual_array collision_array child_links =>
    childEdges (Link.mk name inertial visual collision visual_array collision_array child_links)
      child_links

/-- The edges below a list of child edges of `parent`, in visiting order. -/
def childEdges (parent : Link) : List (Joint × Link) → List (Link × Joint × Link)
  | [] => []
  | (joint, child) :: rest => (parent, joint, child) :: (treeEdges child ++ childEdges parent rest)

end

/-- Every joint of the tree names the two links it connects, as the URDF model
builds the tree from these names. -/
def jointsNameLinks (link : Link) : Prop :=
  ∀ e ∈ treeEdges link, e.2.1.parent_link_name = e.1.name ∧ e.2.1.child_link_name = e.2.2.name

mutual

/-- The joints a subtree is to emit, in emission order, each with its name and
the ids of the main nodes of its parent and child link: `parent` holds the
parent joint of the link and the id of the parent link's main node (nothing
for the root), `index` is the id of the link's own main node, the first record
of the subtree. -/
def expectedJoints (parent : Option (Joint × Nat)) (index : Nat) :
    Link → List (String × Nat × Nat)
  | Link.mk name inertial visual collision visual_array collision_array child_links =>
    (match parent with
      | some (joint, parentIndex) => [(joint.name, parentIndex, index)]
      | none => []) ++
      expectedJointsChildren index
        (index + linkNodeCount
          (Link.mk name inertial visual collision visual_array collision_array child_links))
        child_links

/-- The joints expected for the subtrees of a list of child edges whose common
parent has the main node `parentIndex`; the first record of the first subtree
gets id `index`. -/
def expectedJointsChildren (parentIndex index : Nat) :
    List (Joint × Link) → List (String × Nat × Nat)
  | [] => []
  | (joint, child) :: rest =>
    expectedJoints (some (joint, parentIndex)) index child ++
      expectedJointsChildren parentIndex (index + treeNodeCount child) rest

end

/-- The `name`, `nodeindex1` and `nodeindex2` fields of a list of joint records. -/
def jointEnds (records : List ConfigMap) :
    List (Option ConfigItem × Option ConfigItem × Option ConfigItem) :=
  records.map (fun r => (r.find "name", r.find "nodeindex1", r.find "nodeindex2"))

/-- The fields of a joint record with the given name and end points. -/
def jointEndsItem (e : String × Nat × Nat) :
    Option ConfigItem × Option ConfigItem × Option ConfigItem :=
  (some (ConfigItem.string e.1), some (ConfigItem.ulong e.2.1), some (ConfigItem.ulong e.2.2))

/-- A chain of three links `A`, `B`, `C` whose joints name the links they connect. -/
def modelChain : ModelInterface :=
  { root_link_ :=
      Link.mk "A" none none (some { geometry := unitBox }) []
        [{ geometry := unitBox }, { name := "A_extra", geometry := unitBox }]
        [({ name := "j1", type := JointType.REVOLUTE, parent_link_name := "A",
            child_link_name := "B" },
          Link.mk "B" none none none [] []
            [({ name := "j2", type := JointType.FIXED, parent_link_name := "B",
                child_link_name := "C" },
              Link.mk "C" none none none [] [] [])])] }

/-! ### Merging the SMURF sections: `addConfigMap` -/

/-- The path `handleURIs` opens for a file name: a name that is not absolute
is taken relative to `tmpPath`. -/
def uriPath (tmpPath file : String) : String :=
  if !file.isEmpty && file.get 0 != '/' then tmpPath ++ file else file

/-- The functions `SMURF::handleURI` and `SMURF::handleURIs`.  `resolved path`
is the map `handleURI` appends for the file at `path`: the content of the YAML
file after `handleURIs` has merged the files it refers to in turn. -/
def handleURIs (resolved : String → ConfigMap) (tmpPath : String) (map : ConfigMap) : ConfigMap :=
  let map :=
    match map.find "URI" with
    | some uri => map.append (resolved (uriPath tmpPath uri.getString))
    | none => map
  match map.find "URIs" with
  | some uris =>
    uris.elements.foldl (fun m file => m.append (resolved (uriPath tmpPath file.getString))) map
  | none => map

/-- One pass of the `motors` loop of `SMURF::addConfigMap`. -/
def addMotor (resolved : String → ConfigMap) (s : SMURF) (motor : ConfigMap) : SMURF :=
  let motor := handleURIs resolved s.tmpPath motor
  let motor := motor.assign "index" (ConfigItem.ulong s.nextMotorID)
  let s := { s with nextMotorID := s.nextMotorID + 1 }
  let s := { s with motorIDMap := s.motorIDMap.assign (fieldString motor "name") (s.nextMotorID - 1) }
  let motor := motor.assign "axis" (ConfigItem.int 1)
  let jointIndex := (s.jointIDMap.index (fieldString motor "joint")).2
  let s := { s with jointIDMap := (s.jointIDMap.index (fieldString motor "joint")).1 }
  let motor := motor.assign "jointIndex" (ConfigItem.ulong jointIndex)
  { s with motorList := s.motorList ++ [motor] }

/-- The `motors` loop of `SMURF::addConfigMap`. -/
def addMotors (resolved : String → ConfigMap) (s : SMURF) (motors : List ConfigMap) : SMURF :=
  motors.foldl (addMotor resolved) s

/-- The search of the `materials` loop of `SMURF::addConfigMap`: the first
material of the list with the name of the overlay record takes its fields. -/
def appendToMaterial (material : ConfigMap) : List ConfigMap → List ConfigMap
  | [] => []
  | m :: materials =>
    if fieldString m "name" = fieldString material "name" then m.append material :: materials
    else m :: appendToMaterial material materials

/-- The `materials` loop of `SMURF::addConfigMap`. -/
def addMaterials (resolved : String → ConfigMap) (s : SMURF) (materials : List ConfigMap) : SMURF :=
  materials.foldl
    (fun s material =>
      { s with
        materialList :=
          appendToMaterial (handleURIs resolved s.tmpPath material) s.materialList })
    s

/-- The inner loop of the `nodes` loop: every field of the overlay record is
written to the node. -/
def overrideFields (overlay node : ConfigMap) : ConfigMap :=
  overlay.entries.foldl (fun n e => n.assign e.1 e.2) node

/-- The search of the `nodes` loop of `SMURF::addConfigMap`: the first node of
the list with the name of the overlay record takes its fields. -/
def overrideNode (overlay : ConfigMap) : List ConfigMap → List ConfigMap
  | [] => []
  | node :: nodes =>
    if fieldString node "name" = fieldString overlay "name" then
      overrideFields overlay node :: nodes
    else node :: overrideNode overlay nodes

/-- One pass of the `nodes` loop of `SMURF::addConfigMap`. -/
def addNode (resolved : String → ConfigMap) (s : SMURF) (node : ConfigMap) : SMURF :=
  { s with nodeList := overrideNode (handleURIs resolved s.tmpPath node) s.nodeList }

/-- The `nodes` loop of `SMURF::addConfigMap`. -/
def addNodes (resolved : String → ConfigMap) (s : SMURF) (nodes : List ConfigMap) : SMURF :=
  nodes.foldl (addNode resolved) s

/-- The inner loop of the `visual` loop: every field of the overlay record but
`name` is written to the node. -/
def overrideVisualFields (overlay node : ConfigMap) : ConfigMap :=
  overlay.entries.foldl (fun n e => if e.1 ≠ "name" then n.assign e.1 e.2 else n) node

/-- The inner loop of the `collision` loop: every field of the overlay record
but `name` is written to the node, `bitmask` as the integer field
`coll_bitmask`. -/
def overrideCollisionFields (overlay node : ConfigMap) : ConfigMap :=
  overlay.entries.foldl
    (fun n e =>
      if e.1 ≠ "name" then
        if e.1 = "bitmask" then n.assign "coll_bitmask" (ConfigItem.int e.2.getInt)
        else n.assign e.1 e.2
      else n)
    node

/-- The search of the `visual` and `collision` loops of `SMURF::addConfigMap`:
the first node of the list named `cmpName` is changed by `override`. -/
def overrideNamed (cmpName : String) (override : ConfigMap → ConfigMap) :
    List ConfigMap → List ConfigMap
  | [] => []
  | node :: nodes =>
    if fieldString node "name" = cmpName then override node :: nodes
    else node :: overrideNamed cmpName override nodes

/-- One pass of the `visual` loop of `SMURF::addConfigMap`. -/
def addVisual (resolved : String → ConfigMap) (s : SMURF) (visual : ConfigMap) : SMURF :=
  let visual := handleURIs resolved s.tmpPath visual
  let cmpName := fieldString visual "name"
  match s.visualNameMap.find cmpName with
  | some cmpName =>
    { s with nodeList := overrideNamed cmpName (overrideVisualFields visual) s.nodeList }
  | none => s

/-- The `visual` loop of `SMURF::addConfigMap`. -/
def addVisuals (resolved : String → ConfigMap) (s : SMURF) (visuals : List ConfigMap) : SMURF :=
  visuals.foldl (addVisual resolved) s

/-- One pass of the `collision` loop of `SMURF::addConfigMap`. -/
def addCollision (resolved : String → ConfigMap) (s : SMURF) (collision : ConfigMap) : SMURF :=
  let collision := handleURIs resolved s.tmpPath collision
  let cmpName := fieldString collision "name"
  match s.collisionNameMap.find cmpName with
  | some cmpName =>
    { s with nodeList := overrideNamed cmpName (overrideCollisionFields collision) s.nodeList }
  | none => s

/-- The `collision` loop of `SMURF::addConfigMap`. -/
def addCollisions (resolved : String → ConfigMap) (s : SMURF) (collisions : List ConfigMap) :
    SMURF :=
  collisions.foldl (addCollision resolved) s

/-- The `lights` loop of `SMURF::addConfigMap`. -/
def addLights (resolved : String → ConfigMap) (s : SMURF) (lights : List ConfigMap) : SMURF :=
  lights.foldl (fun s light => { s with lightList := s.lightList ++ [handleURIs resolved s.tmpPath light] })
    s

/-- The `graphics` loop of `SMURF::addConfigMap`. -/
def addGraphics (resolved : String → ConfigMap) (s : SMURF) (graphics : List ConfigMap) : SMURF :=
  graphics.foldl
    (fun s graphic => { s with graphicList := s.graphicList ++ [handleURIs resolved s.tmpPath graphic] })
    s

/-- The test `s.find(needle) != std::string::npos`. -/
def containsSubstring (s needle : String) : Bool :=
  s.data.tails.any (fun t => needle.data.isPrefixOf t)

/-- Modelled from the spec: `ModelInterface::getLink` belongs to the URDF
library, which is not part of the sources.  The value is the name of
`model->getLink(linkname)->parent_joint`; there is none when no link has the
name or the link is the root, where the source follows a null pointer. -/
def parentJointName (model : ModelInterface) (linkname : String) : Option String :=
  ((treeEdges model.root_link_).find? (fun e => e.2.2.name = linkname)).map (fun e => e.2.1.name)

/-- The id maps a sensor's `id` list is resolved against (`idmap`). -/
inductive IDMapRef where
  | jointIDMap
  | nodeIDMap
  | motorIDMap
  deriving DecidableEq, Repr

/-- The read `nodeIDMap[name]`. -/
def readNodeID (s : SMURF) (name : String) : SMURF × Nat :=
  ({ s with nodeIDMap := (s.nodeIDMap.index name).1 }, (s.nodeIDMap.index name).2)

/-- The read `jointIDMap[name]`. -/
def readJointID (s : SMURF) (name : String) : SMURF × Nat :=
  ({ s with jointIDMap := (s.jointIDMap.index name).1 }, (s.jointIDMap.index name).2)

/-- The read `motorIDMap[name]`. -/
def readMotorID (s : SMURF) (name : String) : SMURF × Nat :=
  ({ s with motorIDMap := (s.motorIDMap.index name).1 }, (s.motorIDMap.index name).2)

/-- The read `sensorIDMap[name]`. -/
def readSensorID (s : SMURF) (name : String) : SMURF × Nat :=
  ({ s with sensorIDMap := (s.sensorIDMap.index name).1 }, (s.sensorIDMap.index name).2)

/-- The read `(*idmap)[name]`. -/
def readID (s : SMURF) (idmap : IDMapRef) (name : String) : SMURF × Nat :=
  match idmap with
  | IDMapRef.jointIDMap => readJointID s name
  | IDMapRef.nodeIDMap => readNodeID s name
  | IDMapRef.motorIDMap => readMotorID s name

/-- The read `collisionNameMap[name]` (`(*namemap)[name]`). -/
def readCollisionName (s : SMURF) (name : String) : SMURF × String :=
  ({ s with collisionNameMap := (s.collisionNameMap.index name).1 },
    (s.collisionNameMap.index name).2)

/-- The loop of `SMURF::getSensorIDList` over one list of names: the id each
name reads in the map is added to the `id` field. -/
def pushIDs (read : SMURF → String → SMURF × Nat) (s : SMURF) (map : ConfigMap)
    (names : List ConfigAtom) : SMURF × ConfigMap :=
  names.foldl
    (fun (acc : SMURF × ConfigMap) name =>
      ((read acc.1 name.getString).1,
        acc.2.pushBack "id" (ConfigAtom.ulong (read acc.1 name.getString).2)))
    (s, map)

/-- The function `SMURF::getSensorIDList`. -/
def getSensorIDList (s : SMURF) (map : ConfigMap) : SMURF × ConfigMap :=
  let (s, map) :=
    match map.find "link" with
    | some _ =>
      ((readNodeID s (fieldString map "link")).1,
        map.assign "nodeID" (ConfigItem.ulong (readNodeID s (fieldString map "link")).2))
    | none => (s, map)
  let (s, map) :=
    match map.find "joint" with
    | some _ =>
      ((readJointID s (fieldString map "joint")).1,
        map.assign "jointID" (ConfigItem.ulong (readJointID s (fieldString map "joint")).2))
    | none => (s, map)
  let (s, map) :=
    match map.find "links" with
    | some links => pushIDs readNodeID s map links.elements
    | none => (s, map)
  let (s, map) :=
    match map.find "joints" with
    | some joints => pushIDs readJointID s map joints.elements
    | none => (s, map)
  match map.find "motors" with
  | some motors => pushIDs readMotorID s map motors.elements
  | none => (s, map)

/-- The choice of `idmap` in the `sensors` loop: the last of the tests on the
sensor type that holds decides. -/
def sensorIDMapRef (type : String) : Option IDMapRef :=
  let idmap : Option IDMapRef := none
  let idmap := if containsSubstring type "Joint" then some IDMapRef.jointIDMap else idmap
  let idmap := if containsSubstring type "Node" then some IDMapRef.nodeIDMap else idmap
  let idmap := if containsSubstring type "Motor" then some IDMapRef.motorIDMap else idmap
  idmap

/-- The choice of `namemap` in the `sensors` loop: `true` stands for
`&collisionNameMap`. -/
def sensorUsesNameMap (type : String) : Bool :=
  containsSubstring type "Node" && containsSubstring type "Contact"

/-- The loop over `tmpmap["id"]` in the `sensors` loop: the ids (`tmpids`) the
names of the list read in `idmap`, through `namemap` when there is one. -/
def sensorIDs (idmap : Option IDMapRef) (namemap : Bool) (s : SMURF) (ids : List ConfigAtom) :
    SMURF × List ConfigAtom :=
  ids.foldl
    (fun (acc : SMURF × List ConfigAtom) idit =>
      match idmap with
      | some idmap =>
        if namemap then
          let named := readCollisionName acc.1 idit.getString
          ((readID named.1 idmap named.2).1,
            acc.2 ++ [ConfigAtom.ulong (readID named.1 idmap named.2).2])
        else
          ((readID acc.1 idmap idit.getString).1,
            acc.2 ++ [ConfigAtom.ulong (readID acc.1 idmap idit.getString).2])
      | none => acc)
    (s, [])

/-- The `Joint6DOF` block of the `sensors` loop of `SMURF::addConfigMap`; there
is no result where the source follows a null pointer. -/
def sensorJoint6DOF (model : ModelInterface) (s : SMURF) (tmpmap : ConfigMap) :
    Option (SMURF × ConfigMap) :=
  if fieldString tmpmap "type" = "Joint6DOF" then
    let linkname := fieldString tmpmap "link"
    (parentJointName model linkname).map
      (fun jointname =>
        let node := readNodeID s linkname
        let joint := readJointID node.1 jointname
        (joint.1,
          (tmpmap.assign "nodeID" (ConfigItem.ulong node.2)).assign "jointID"
            (ConfigItem.ulong joint.2)))
  else some (s, tmpmap)

/-- The `if (tmpmap.find("id") != tmpmap.end())` block of the `sensors` loop of
`SMURF::addConfigMap`. -/
def sensorIDField (s : SMURF) (tmpmap : ConfigMap) : SMURF × ConfigMap :=
  match tmpmap.find "id" with
  | some ids =>
    let tmpids :=
      sensorIDs (sensorIDMapRef (fieldString tmpmap "type"))
        (sensorUsesNameMap (fieldString tmpmap "type")) s ids.elements
    (tmpids.1, tmpmap.assign "id" (ConfigItem.list tmpids.2))
  | none => (s, tmpmap)

/-- The end of one pass of the `sensors` loop of `SMURF::addConfigMap`: the
sensor takes the next index, is registered under its name, gets its id lists
and is appended to `sensorList`. -/
def registerSensor (s : SMURF) (tmpmap : ConfigMap) : SMURF :=
  let tmpmap := tmpmap.assign "index" (ConfigItem.ulong s.nextSensorID)
  let s := { s with nextSensorID := s.nextSensorID + 1 }
  let s :=
    { s with sensorIDMap := s.sensorIDMap.assign (fieldString tmpmap "name") (s.nextSensorID - 1) }
  let sm := getSensorIDList s tmpmap
  { sm.1 with sensorList := sm.1.sensorList ++ [sm.2] }

/-- One pass of the `sensors` loop of `SMURF::addConfigMap`; there is no
result where the source follows a null pointer. -/
def addSensor (resolved : String → ConfigMap) (model : ModelInterface) (s : SMURF)
    (sensor : ConfigMap) : Option SMURF :=
  let tmpmap := handleURIs resolved s.tmpPath sensor
  let attached := readNodeID s (fieldString tmpmap "link")
  let tmpmap := tmpmap.assign "attached_node" (ConfigItem.ulong attached.2)
  (sensorJoint6DOF model attached.1 tmpmap).map
    (fun sm => registerSensor (sensorIDField sm.1 sm.2).1 (sensorIDField sm.1 sm.2).2)

/-- The `sensors` loop of `SMURF::addConfigMap`. -/
def addSensors (resolved : String → ConfigMap) (model : ModelInterface) (s : SMURF)
    (sensors : List ConfigMap) : Option SMURF :=
  sensors.foldlM (addSensor resolved model) s

/-- The loops of the `controllers` loop over a list of names: the id each name
reads in the map is added to the field `key`. -/
def pushControllerIDs (read : SMURF → String → SMURF × Nat) (key : String) (s : SMURF)
    (map : ConfigMap) (names : List ConfigAtom) : SMURF × ConfigMap :=
  names.foldl
    (fun (acc : SMURF × ConfigMap) name =>
      ((read acc.1 name.getString).1,
        acc.2.pushBack key (ConfigAtom.ulong (read acc.1 name.getString).2)))
    (s, map)

/-- One pass of the `controllers` loop of `SMURF::addConfigMap`. -/
def addController (resolved : String → ConfigMap) (s : SMURF) (controller : ConfigMap) : SMURF :=
  let controller := handleURIs resolved s.tmpPath controller
  let controller := controller.assign "index" (ConfigItem.ulong s.nextControllerID)
  let s := { s with nextControllerID := s.nextControllerID + 1 }
  let (s, controller) :=
    match controller.find "sensors" with
    | some sensors => pushControllerIDs readSensorID "sensorid" s controller sensors.elements
    | none => (s, controller)
  let (s, controller) :=
    match controller.find "motors" with
    | some motors => pushControllerIDs readMotorID "motorid" s controller motors.elements
    | none => (s, controller)
  { s with controllerList := s.controllerList ++ [controller] }

/-- The `controllers` loop of `SMURF::addConfigMap`. -/
def addControllers (resolved : String → ConfigMap) (s : SMURF) (controllers : List ConfigMap) :
    SMURF :=
  controllers.foldl (addController resolved) s

/-- The records of the section `config[name]`: none when the section is missing. -/
def sectionRecords (config : StdMap (List ConfigMap)) (name : String) : List ConfigMap :=
  (config.find name).getD []

/-- The function `SMURF::addConfigMap`: `config` gives the records of each
section, `resolved` the content of the files the records refer to and `model`
the URDF model of the converter; there is no result where the source follows
a null pointer. -/
def addConfigMap (resolved : String → ConfigMap) (model : ModelInterface) (s : SMURF)
    (config : StdMap (List ConfigMap)) : Option SMURF := do
  let s := addMotors resolved s (sectionRecords config "motors")
  let s ← addSensors resolved model s (sectionRecords config "sensors")
  let s := addMaterials resolved s (sectionRecords config "materials")
  let s := addNodes resolved s (sectionRecords config "nodes")
  let s := addVisuals resolved s (sectionRecords config "visual")
  let s := addCollisions resolved s (sectionRecords config "collision")
  let s := addLights resolved s (sectionRecords config "lights")
  let s := addGraphics resolved s (sectionRecords config "graphics")
  pure (addControllers resolved s (sectionRecords config "controllers"))

/-- A body with a left and a right wheel, no link with an inertial. -/
def modelWheels : ModelInterface :=
  { root_link_ :=
      Link.mk "body" none none (some { name := "body_collision", geometry := unitBox }) []
        [{ name := "body_collision", geometry := unitBox }]
        [({ name := "axle_left", type := JointType.CONTINUOUS, parent_link_name := "body",
            child_link_name := "wheel_left" },
          Link.mk "wheel_left" none none none [] [] []),
         ({ name := "axle_right", type := JointType.CONTINUOUS, parent_link_name := "body",
            child_link_name := "wheel_right" },
          Link.mk "wheel_right" none none none [] [] [])] }

/-- The `nodes` overlay record for `wheel_left` that supplies `mass: 2.5`. -/
def wheelLeftOverlay : ConfigMap :=
  [("name", ConfigItem.string "wheel_left"), ("mass", ConfigItem.double (5 / 2))]

/-- The state after `reset` and `createModel` on a model. -/
def converted (model : ModelInterface) : SMURF :=
  createModel (reset {} 0) model

/-- The files of a document without file references. -/
def noFiles : String → ConfigMap :=
  fun _ => []

/-- A `visual` or `collision` overlay record for a shape no link has. -/
def unknownShapeOverlay : ConfigMap :=
  [("name", ConfigItem.string "no_such_shape"), ("bitmask", ConfigItem.int 3)]

/-- A `collision` overlay record for the collision `body_collision` with both
a `bitmask` and a `coll_bitmask` field. -/
def bodyCollisionOverlay : ConfigMap :=
  [("name", ConfigItem.string "body_collision"), ("bitmask", ConfigItem.int 5),
    ("coll_bitmask", ConfigItem.int 7)]

/-- A `collision` overlay record for the collision `body_collision` with a
`bitmask` field and a friction value. -/
def bodyBitmaskOverlay : ConfigMap :=
  [("name", ConfigItem.string "body_collision"), ("bitmask", ConfigItem.int 5),
    ("cfm", ConfigItem.double (1 / 2))]

/-- A `motors` record on a joint the model does not have. -/
def motorOnAbsentJoint : ConfigMap :=
  [("name", ConfigItem.string "drive"), ("joint", ConfigItem.string "no_such_joint")]

/-- The `coll_bitmask` fields of a list of node records. -/
def collBitmasks (records : List ConfigMap) : List (Option ConfigItem) :=
  records.map (fun r => r.find "coll_bitmask")

/-- A `sensors` record of type `Joint6DOF` on the root link `body`, which has
no parent joint. -/
def sensorOnRootLink : ConfigMap :=
  [("name", ConfigItem.string "force"), ("type", ConfigItem.string "Joint6DOF"),
    ("link", ConfigItem.string "body")]

/-- A `sensors` record of type `Joint6DOF` on a link the model does not have. -/
def sensorOnAbsentLink : ConfigMap :=
  [("name", ConfigItem.string "force"), ("type", ConfigItem.string "Joint6DOF"),
    ("link", ConfigItem.string "no_such_link")]

/-- A `sensors` record of type `Joint6DOF` on the link `wheel_left`. -/
def sensorOnWheel : ConfigMap :=
  [("name", ConfigItem.string "force"), ("type", ConfigItem.string "Joint6DOF"),
    ("link", ConfigItem.string "wheel_left")]

/-- A `motors` record on the joint `axle_left` that brings an `axis` of its own. -/
def motorWithAxis : ConfigMap :=
  [("name", ConfigItem.string "left"), ("joint", ConfigItem.string "axle_left"),
    ("axis", ConfigItem.int 2)]

/-- A `motors` record on the joint `axle_right` that refers to the file
`motor.yml`. -/
def motorWithFile : ConfigMap :=
  [("name", ConfigItem.string "right"), ("joint", ConfigItem.string "axle_right"),
    ("URI", ConfigItem.string "motor.yml")]

/-- The files of a document whose file `motor.yml` brings an `axis` and a
speed limit. -/
def motorFiles : String → ConfigMap :=
  fun path =>
    if path = "motor.yml" then [("axis", ConfigItem.int 3), ("maxSpeed", ConfigItem.double 6)]
    else []

/-- A `controllers` record that drives the motors `left` and `right` and reads
the sensor `force`. -/
def wheelController : ConfigMap :=
  [("name", ConfigItem.string "drive_control"),
    ("motors", ConfigItem.list [ConfigAtom.string "left", ConfigAtom.string "right"]),
    ("sensors", ConfigItem.list [ConfigAtom.string "force"])]

/-- A document with three motors, a sensor on a wheel and a controller. -/
def wheelsConfig : StdMap (List ConfigMap) :=
  [("motors", [motorOnAbsentJoint, motorWithAxis, motorWithFile]), ("sensors", [sensorOnWheel]),
    ("controllers", [wheelController])]

/-- The `index` fields of a list of records. -/
def recordIndices (records : List ConfigMap) : List (Option ConfigItem) :=
  records.map (fun r => r.find "index")

/-- The loaders `SMURF::load` calls, one for each list. -/
inductive Loader where
  | loadMaterial
  | loadNode
  | loadJoint
  | loadMotor
  | loadSensor
  | loadController
  | loadLight
  | loadGraphic
  deriving DecidableEq, Repr

/-- A call of a loader on a record. -/
abbrev LoadCall := Loader × ConfigMap

/-- The simulation as `SMURF::load` acts on it: the loader calls made so far,
in order, and whether `setPose` has placed the root node. -/
structure Simulation where
  calls : List LoadCall := []
  poseSet : Bool := false

/-- One `for` loop of `SMURF::load`: the loader is called on the records in
list order until a call returns 0.  `succeeds calls call` tells whether the
loader returns a non-zero value on `call` after the calls `calls`.  The result
holds `false` when the loop left `load` by `return 0`. -/
def loadRecords (succeeds : List LoadCall → LoadCall → Bool) (loader : Loader) :
    Simulation → List ConfigMap → Simulation × Bool
  | sim, [] => (sim, true)
  | sim, record :: records =>
    if !succeeds sim.calls (loader, record) then
      ({ sim with calls := sim.calls ++ [(loader, record)] }, false)
    else
      loadRecords succeeds loader { sim with calls := sim.calls ++ [(loader, record)] } records

/-- The function `SMURF::load`: the simulation after the run and the value
returned.  The loaders hand their record to the simulation, which is not part
of the sources; `succeeds` stands for their results. -/
def load (succeeds : List LoadCall → LoadCall → Bool) (s : SMURF) (sim : Simulation) :
    Simulation × Nat :=
  let r := loadRecords succeeds Loader.loadMaterial sim s.materialList
  if !r.2 then (r.1, 0) else
  let r := loadRecords succeeds Loader.loadNode r.1 s.nodeList
  if !r.2 then (r.1, 0) else
  let r := loadRecords succeeds Loader.loadJoint r.1 s.jointList
  if !r.2 then (r.1, 0) else
  let r := loadRecords succeeds Loader.loadMotor r.1 s.motorList
  if !r.2 then (r.1, 0) else
  let r := loadRecords succeeds Loader.loadSensor r.1 s.sensorList
  if !r.2 then (r.1, 0) else
  let r := loadRecords succeeds Loader.loadController r.1 s.controllerList
  if !r.2 then (r.1, 0) else
  let r := loadRecords succeeds Loader.loadLight r.1 s.lightList
  if !r.2 then (r.1, 0) else
  let r := loadRecords succeeds Loader.loadGraphic r.1 s.graphicList
  if !r.2 then (r.1, 0) else
  ({ r.1 with poseSet := true }, 1)

/-- The creation calls in the fixed order of the assembly: materials, nodes,
joints, motors, sensors, controllers, lights, graphics, each list in list
order. -/
def creationSequence (s : SMURF) : List LoadCall :=
  s.materialList.map (fun r => (Loader.loadMaterial, r)) ++
    (s.nodeList.map (fun r => (Loader.loadNode, r)) ++
      (s.jointList.map (fun r => (Loader.loadJoint, r)) ++
        (s.motorList.map (fun r => (Loader.loadMotor, r)) ++
          (s.sensorList.map (fun r => (Loader.loadSensor, r)) ++
            (s.controllerList.map (fun r => (Loader.loadController, r)) ++
              (s.lightList.map (fun r => (Loader.loadLight, r)) ++
                s.graphicList.map (fun r => (Loader.loadGraphic, r))))))))

/-- Every call of the list succeeds when the calls are made in order after the
calls `before`. -/
def allSucceed (succeeds : List LoadCall → LoadCall → Bool) (before : List LoadCall)
    (calls : List LoadCall) : Prop :=
  ∀ init call rest, calls = init ++ call :: rest → succeeds (before ++ init) call = true

/-- The calls of a sequence that are made when the sequence is run in order
after the calls `before` and stops with its first failing call, and whether
every call succeeded. -/
def callsUntilFailure (succeeds : List LoadCall → LoadCall → Bool) :
    List LoadCall → List LoadCall → List LoadCall × Bool
  | _, [] => ([], true)
  | before, call :: rest =>
    if succeeds before call then
      (call :: (callsUntilFailure succeeds (before ++ [call]) rest).1,
        (callsUntilFailure succeeds (before ++ [call]) rest).2)
    else ([call], false)

/-- The outcome of running a sequence of calls in order up to its first failing
call: the simulation with the calls made, the root pose set when every call
succeeded, and the value 1 when every call succeeded, 0 otherwise. -/
def loadOutcome (succeeds : List LoadCall → LoadCall → Bool) (calls : List LoadCall)
    (sim : Simulation) : Simulation × Nat :=
  if (callsUntilFailure succeeds sim.calls calls).2 then
    ({ calls := sim.calls ++ (callsUntilFailure succeeds sim.calls calls).1, poseSet := true }, 1)
  else
    ({ calls := sim.calls ++ (callsUntilFailure succeeds sim.calls calls).1,
       poseSet := sim.poseSet }, 0)

/-- The loops of `SMURF::load` as a list of stages, each a loader with its
list of records, run in order and followed by `setPose`. -/
def loadStages (succeeds : List LoadCall → LoadCall → Bool) :
    List (Loader × List ConfigMap) → Simulation → Simulation × Nat
  | [], sim => ({ sim with poseSet := true }, 1)
  | (loader, records) :: stages, sim =>
    if !(loadRecords succeeds loader sim records).2 then
      ((loadRecords succeeds loader sim records).1, 0)
    else loadStages succeeds stages (loadRecords succeeds loader sim records).1

/-- A simulation in which every call succeeds but the creation of a joint. -/
def jointsFail : List LoadCall → LoadCall → Bool :=
  fun _ call => call.1 != Loader.loadJoint

/-- The loop of `SMURF::createEntity` over the sections of `entityconfig`: each
section is handed to `addConfigMap` on its own, in the key order of the map. -/
def mergeSections (resolved : String → ConfigMap) (model : ModelInterface) (s : SMURF)
    (entityconfig : StdMap (List ConfigMap)) : Option SMURF :=
  entityconfig.entries.foldlM (fun s e => addConfigMap resolved model s [(e.1, e.2)]) s

/-- The function `SMURF::createEntity` up to its call of `load`.  The parsers
of SMURF and URDF files are not part of the sources: `model` is the model they
return, `entityconfig` holds the sections of the entity's configuration after
parsing, and `smurf` tells whether the entity has the type "smurf". -/
def createEntity (resolved : String → ConfigMap) (s : SMURF) (maxGroupID : Nat) (path : String)
    (smurf : Bool) (model : ModelInterface) (entityconfig : StdMap (List ConfigMap)) :
    Option SMURF :=
  let s := reset s maxGroupID
  let s := { s with tmpPath := path }
  if smurf then mergeSections resolved model (createModel s model) entityconfig
  else some (createModel s model)

/-- A document with the motor `left`, the sensor `force` and a controller that
refers to both by name. -/
def controlledWheelConfig : StdMap (List ConfigMap) :=
  [("motors", [motorWithAxis]), ("sensors", [sensorOnWheel]),
    ("controllers",
      [[("name", ConfigItem.string "drive_control"),
        ("motors", ConfigItem.list [ConfigAtom.string "left"]),
        ("sensors", ConfigItem.list [ConfigAtom.string "force"])]])]

/-- The `motorid` and `sensorid` fields of a list of controller records. -/
def controllerIds (records : List ConfigMap) : List (Option ConfigItem × Option ConfigItem) :=
  records.map (fun r => (r.find "motorid", r.find "sensorid"))

/-- A model of one link `body` whose visual is named `hull`. -/
def modelHull : ModelInterface :=
  { root_link_ :=
      Link.mk "body" none (some { name := "hull", geometry := unitBox }) none
        [{ name := "hull", geometry := unitBox }] [] [] }

/-- A document with a `visual` overlay record for the shape `hull`. -/
def hullOverlayConfig : StdMap (List ConfigMap) :=
  [("visual", [[("name", ConfigItem.string "hull"), ("transparency", ConfigItem.int 1)]])]

/-- The `transparency` fields of a list of node records. -/
def transparencies (records : List ConfigMap) : List (Option ConfigItem) :=
  records.map (fun r => r.find "transparency")

/-- The operation `compose(parent_pose, child_pose)` as the pose algebra of the
specification words it: the child position is rotated by the parent rotation
and translated by the parent position, the rotations are composed. -/
def composeSpec (parent child : Pose) : Pose :=
  { position := (parent.rotation.rotate child.position).add parent.position
    rotation := parent.rotation.mul child.rotation }

/-- The sum of the positions of the parent joints along the chain from a link
up to the root. -/
def chainPositionSum : List (Link × Joint) → Vector3
  | [] => {}
  | (_, joint) :: ancestors =>
    joint.parent_to_joint_origin_transform.position.add (chainPositionSum ancestors)

/-- A chain of two joints without rotation, the lower at `(0, 5, 0)` below the
upper at `(1, 0, 0)`; the lower joint turns about the axis `(0, 0, 1)`. -/
def chainTwoJoints : List (Link × Joint) :=
  [(Link.mk "B" none none none [] [] [],
      { name := "j2", parent_to_joint_origin_transform := { position := { x := 0, y := 5, z := 0 } },
        axis := { x := 0, y := 0, z := 1 } }),
    (Link.mk "A" none none none [] [] [],
      { name := "j1", parent_to_joint_origin_transform := { position := { x := 1, y := 0, z := 0 } } })]

/-- A link with a box collision `bumper` and a mesh visual besides its primary
box shapes. -/
def modelBoxCollisionMeshVisual : ModelInterface :=
  { root_link_ :=
      Link.mk "A" none (some { geometry := unitBox }) (some { geometry := unitBox })
        [{ geometry := unitBox }, meshVisual]
        [{ geometry := unitBox }, { name := "bumper", geometry := unitBox }] [] }

/-- The `name` and `filename` fields of a list of node records. -/
def nodeFiles (records : List ConfigMap) : List (Option ConfigItem × Option ConfigItem) :=
  records.map (fun r => (r.find "name", r.find "filename"))

/-- A sequence of assignments `m[key] = value`, made in list order. -/
def assignAll {α : Type} (m : StdMap α) (writes : List (String × α)) : StdMap α :=
  writes.foldl (fun m w => m.assign w.1 w.2) m

/-- The primary visual of a link when it is loaded on the main node. -/
def mainVisual (link : Link) : Option Visual :=
  match (specialCaseHandling link).2.1, link.visual with
  | true, some visual => some visual
  | _, _ => none

/-- The visuals the first loop of `SMURF::handleKinematics` puts on the child
nodes of the collisions `collisions`, the next unconsumed visual being at
`visualArrayIndex`. -/
def pairedVisuals (link : Link) : Nat → List Collision → List Visual
  | _, [] => []
  | visualArrayIndex, collision :: collisions =>
    (pairVisual collision link.visual_array[visualArrayIndex]?).toList ++
      pairedVisuals link (nextVisualArrayIndex link visualArrayIndex collision) collisions

/-- The extra collisions of a link: those the first loop makes child nodes of. -/
def extraCollisions (link : Link) : List Collision :=
  link.collision_array.drop (if (specialCaseHandling link).2.2 then 1 else 0)

/-- The visuals of a link that share a node with an extra collision. -/
def linkPairedVisuals (link : Link) : List Visual :=
  pairedVisuals link (if (specialCaseHandling link).2.1 then 1 else 0) (extraCollisions link)

/-- The visuals of a link that get a child node of their own in the second
loop of `SMURF::handleKinematics`. -/
def visualOnlyVisuals (link : Link) : List Visual :=
  link.visual_array.drop
    (finalVisualArrayIndex link (if (specialCaseHandling link).2.1 then 1 else 0)
      (extraCollisions link))

/-- The entries `SMURF::handleKinematics` writes to `visualNameMap` for one
link, in the order it writes them. -/
def linkVisualNameWrites (link : Link) : List (String × String) :=
  (mainVisual link).toList.map (fun v => (v.name, link.name)) ++
    ((linkPairedVisuals link).map (fun v => (v.name, link.name)) ++
      ((visualOnlyVisuals link).filter (fun v => v.name ≠ "")).map (fun v => (v.name, v.name)))

/-- A link `A` whose visual `logo` is also the name of the visual of its child
link `B`. -/
def modelSharedVisualName : ModelInterface :=
  { root_link_ :=
      Link.mk "A" none (some { name := "logo", geometry := unitBox }) none
        [{ name := "logo", geometry := unitBox }] []
        [({ name := "j", parent_link_name := "A", child_link_name := "B" },
          Link.mk "B" none (some { name := "logo", geometry := unitBox }) none
            [{ name := "logo", geometry := unitBox }] [] [])] }

/-- A link with a visual on its main node, a visual that shares a node with
the collision `bumper`, and a visual with a node of its own. -/
def linkThreeVisuals : Link :=
  Link.mk "A" none (some { name := "A_vis", geometry := unitBox })
    (some { name := "A_col", geometry := unitBox })
    [{ name := "A_vis", geometry := unitBox }, { name := "trim", geometry := unitBox },
      { name := "deco", geometry := unitBox }]
    [{ name := "A_col", geometry := unitBox }, { name := "bumper", geometry := unitBox }] []

/-- The primary collision of a link when it is loaded on the main node. -/
def mainCollision (link : Link) : Option Collision :=
  match (specialCaseHandling link).2.2, link.collision with
  | true, some collision => some collision
  | _, _ => none

/-- The entries `SMURF::handleKinematics` writes to `collisionNameMap` for one
link, in the order it writes them. -/
def linkCollisionNameWrites (link : Link) : List (String × String) :=
  (mainCollision link).toList.map (fun c => (c.name, link.name)) ++
    (extraCollisions link).map (fun c => (c.name, c.name))

/-- The entries the first loop of `SMURF::handleKinematics` writes to
`nodeIDMap` for the collisions `collisions` of the link named `name`, the first
child node having the id `index`. -/
def childNodeIDWrites (name : String) : Nat → List Collision → List (String × Nat)
  | _, [] => []
  | index, collision :: collisions =>
    (name ++ "_child", index) :: (collision.name, index) ::
      childNodeIDWrites name (index + 1) collisions

/-- The entries `SMURF::handleKinematics` writes to `nodeIDMap` for one link
whose main node has the id `index`, in the order it writes them. -/
def linkNodeIDWrites (index : Nat) (link : Link) : List (String × Nat) :=
  (link.name, index) :: childNodeIDWrites link.name (index + 1) (extraCollisions link)

/-- The names of the collisions `collisions` with the ids of their child
nodes, the first child node having the id `index`. -/
def childCollisionOwners : Nat → List Collision → List (String × Nat)
  | _, [] => []
  | index, collision :: collisions =>
    (collision.name, index) :: childCollisionOwners (index + 1) collisions

/-- The name of every collision shape emitted for a link, with the id of the
node that carries the shape: the main node `index` for the primary collision
when it is loaded there, the child node of the shape otherwise. -/
def linkCollisionOwners (index : Nat) (link : Link) : List (String × Nat) :=
  (mainCollision link).toList.map (fun c => (c.name, index)) ++
    childCollisionOwners (index + 1) (extraCollisions link)

mutual

/-- The links of a tree in visiting order, each with the id of its main node,
when the first record of the tree gets the id `index`. -/
def treeLinksIndexed (index : Nat) : Link → List (Nat × Link)
  | Link.mk name inertial visual collision visual_array collision_array child_links =>
    (index, Link.mk name inertial visual collision visual_array collision_array child_links) ::
      childrenLinksIndexed
        (index + linkNodeCount
          (Link.mk name inertial visual collision visual_array collision_array child_links))
        child_links

/-- The links below a list of child edges, each with the id of its main node,
when the first record of the first subtree gets the id `index`. -/
def childrenLinksIndexed (index : Nat) : List (Joint × Link) → List (Nat × Link)
  | [] => []
  | (_, child) :: rest =>
    treeLinksIndexed index child ++ childrenLinksIndexed (index + treeNodeCount child) rest

end

/-- The name of every collision shape emitted for a tree, with the id of the
node that carries the shape. -/
def treeCollisionOwners (index : Nat) (root : Link) : List (String × Nat) :=
  (treeLinksIndexed index root).flatMap (fun p => linkCollisionOwners p.1 p.2)

/-- A link with a collision named like the key `A_child` under which the child
nodes of the link `A` are registered. -/
def modelCollisionNamedChild : ModelInterface :=
  { root_link_ :=
      Link.mk "A" none none (some { name := "A_col", geometry := unitBox }) []
        [{ name := "A_col", geometry := unitBox }, { name := "A_child", geometry := unitBox },
          { name := "tail", geometry := unitBox }] [] }

/-- A tree of two links, each with a primary collision on its main node and one
collision with a child node. -/
def modelArmCollisions : ModelInterface :=
  { root_link_ :=
      Link.mk "body" none none (some { name := "body_col", geometry := unitBox }) []
        [{ name := "body_col", geometry := unitBox }, { name := "bumper", geometry := unitBox }]
        [({ name := "j", parent_link_name := "body", child_link_name := "arm" },
          Link.mk "arm" none none (some { name := "arm_col", geometry := unitBox }) []
            [{ name := "arm_col", geometry := unitBox }, { name := "claw", geometry := unitBox }]
            [])] }

/-- The indices and names of the records of `nodeList`. -/
def nodeIndexNames (s : SMURF) : List (Option ConfigItem × Option ConfigItem) :=
  s.nodeList.map (fun n => (n.find "index", n.find "name"))

/-- The entries the `motors` loop of `SMURF::addConfigMap` writes to
`motorIDMap`: the name each record has after its files are merged, with the
index the record gets, the first record getting `index`. -/
def motorIDWrites (resolved : String → ConfigMap) (tmpPath : String) :
    Nat → List ConfigMap → List (String × Nat)
  | _, [] => []
  | index, motor :: motors =>
    (fieldString (handleURIs resolved tmpPath motor) "name", index) ::
      motorIDWrites resolved tmpPath (index + 1) motors

/-- Modelled from the spec: the convention of the URDF parser, which is not part
of the sources: the primary visual of a link is the first element of its
`visual_array` and its primary collision the first element of its
`collision_array`, each present exactly when the array is not empty. -/
def primaryShapesFirst (link : Link) : Prop :=
  link.visual = link.visual_array.head? ∧ link.collision = link.collision_array.head?

/-- The shapes the child nodes of the first loop of `SMURF::handleKinematics`
carry: each the collision of its pass and the visual the pass pairs with it,
the next unconsumed visual being at `visualArrayIndex`. -/
def collisionChildShapes (link : Link) :
    Nat → List Collision → List (Option Collision × Option Visual)
  | _, [] => []
  | visualArrayIndex, collision :: collisions =>
    (some collision, pairVisual collision link.visual_array[visualArrayIndex]?) ::
      collisionChildShapes link (nextVisualArrayIndex link visualArrayIndex collision) collisions

/-- The real shapes the records of a link carry, record by record: the main
node the primary shapes that are loaded on it, the child nodes of the first
loop their collision and the visual paired with it, the child nodes of the
second loop their visual. -/
def linkShapes (link : Link) : List (Option Collision × Option Visual) :=
  (mainCollision link, mainVisual link) ::
    (collisionChildShapes link (if (specialCaseHandling link).2.1 then 1 else 0)
        (extraCollisions link) ++
      (visualOnlyVisuals link).map (fun v => (none, some v)))

/-- A record carries a pair of shapes: its collision fields are those of the
collision and its visual fields those of the visual, where there is one. -/
def carriesShapes (record : ConfigMap) (shapes : Option Collision × Option Visual) : Prop :=
  (∀ c, shapes.1 = some c →
    ∀ k, collisionKey k → record.find k = (handleCollision [] c).find k) ∧
  (∀ v, shapes.2 = some v → ∀ k, visualKey k → record.find k = (handleVisual [] v).find k)

/-- The number of child nodes of a link that carry a collision together with a
visual. -/
def mergedPairs (link : Link) : Nat :=
  ((linkShapes link).tail.filter (fun p => p.1.isSome && p.2.isSome)).length

/-- A link that follows the convention, with two collisions and three visuals. -/
def linkTwoCollisionsThreeVisuals : Link :=
  Link.mk "A" none (some { name := "v0", geometry := unitBox })
    (some { name := "c0", geometry := unitBox })
    [{ name := "v0", geometry := unitBox }, { name := "v1", geometry := unitBox },
      { name := "v2", geometry := unitBox }]
    [{ name := "c0", geometry := unitBox }, { name := "c1", geometry := unitBox }] []

/-- A pose at the tolerance of `isEqualPos` along `x`. -/
def poseAtTolerance : Pose := { position := { x := 6189700196426901 / 2 ^ 89 } }

/-- A pose a little below the origin along `x`. -/
def poseBelowOrigin : Pose := { position := { x := -7 / 2 ^ 93 } }

/-- A pose whose rotation has the single component `w = 49/64`. -/
def poseScaled : Pose := { rotation := { x := 0, y := 0, z := 0, w := 49 / 64 } }

/-- A pose whose rotation is tiny: its single component is `2^(-600)`. -/
def poseTiny : Pose := { rotation := { x := 0, y := 0, z := 0, w := 1 / 2 ^ 600 } }

/-- A link whose inertial frame lies a little below the origin along `x` and
whose only collision, a box, lies at the tolerance of `isEqualPos` along `x`;
one visual, all shapes boxes. -/
def linkFramesApart : Link :=
  Link.mk "A" (some { origin := poseBelowOrigin, mass := 1 }) (some { geometry := unitBox })
    (some { origin := poseAtTolerance, geometry := unitBox })
    [{ geometry := unitBox }] [{ origin := poseAtTolerance, geometry := unitBox }] []

/-- A chain of two joints in which only the lower joint, at `(0, 5, 0)`, is
turned: by half a turn about `z`; the upper joint sits at `(1, 0, 0)` without
rotation.  The lower joint turns about the axis `(1, 0, 0)`. -/
def chainOwnJointTurned : List (Link × Joint) :=
  [(Link.mk "B" none none none [] [] [],
      { name := "j2",
        parent_to_joint_origin_transform :=
          { position := { x := 0, y := 5, z := 0 }, rotation := { x := 0, y := 0, z := 1, w := 0 } },
        axis := { x := 1, y := 0, z := 0 } }),
    (Link.mk "A" none none none [] [] [],
      { name := "j1", parent_to_joint_origin_transform := { position := { x := 1, y := 0, z := 0 } } })]

/-- The names the shapes of a link would give to child nodes, after the link's
own name: for every shape of `collision_array` and of `visual_array` its name,
or `<link>_child` when the shape is unnamed. -/
def linkCandidateNames (link : Link) : List String :=
  link.name ::
    (link.collision_array.map (fun c => childNodeName link c.name) ++
      link.visual_array.map (fun v => childNodeName link v.name))

/-- A tree of two links whose primary shapes are unnamed; the root has one
unnamed collision besides its primary one. -/
def modelUnnamedShapes : ModelInterface :=
  { root_link_ :=
      Link.mk "A" none (some { geometry := unitBox }) (some { geometry := unitBox })
        [{ geometry := unitBox }] [{ geometry := unitBox }, { geometry := unitBox }]
        [({ name := "j", parent_link_name := "A", child_link_name := "B" },
          Link.mk "B" none (some { geometry := unitBox }) (some { geometry := unitBox })
            [{ geometry := unitBox }] [{ geometry := unitBox }] [])] }

/-- The product of two quaternions in the pose algebra of the specification,
over the rational numbers: the Hamilton product without rounding. -/
def mulExact (a b : Rotation) : Rotation :=
  { x := a.w * b.x + a.x * b.w + a.y * b.z - a.z * b.y
    y := a.w * b.y - a.x * b.z + a.y * b.w + a.z * b.x
    z := a.w * b.z + a.x * b.y - a.y * b.x + a.z * b.w
    w := a.w * b.w - a.x * b.x - a.y * b.y - a.z * b.z }

/-- The inverse of a quaternion in the pose algebra of the specification, over
the rational numbers: the conjugate divided by the squared norm, and the
identity for the zero quaternion. -/
def inverseExact (r : Rotation) : Rotation :=
  if r.normSquared > 0 then
    { x := -r.x / r.normSquared, y := -r.y / r.normSquared, z := -r.z / r.normSquared,
      w := r.w / r.normSquared }
  else
    {}

/-- The rotation of a vector by a quaternion in the pose algebra of the
specification, over the rational numbers: `q * (0, v) * q⁻¹` without rounding. -/
def rotateExact (q : Rotation) (vec : Vector3) : Vector3 :=
  let tmp : Rotation := { x := vec.x, y := vec.y, z := vec.z, w := 0 }
  let tmp := mulExact q (mulExact tmp (inverseExact q))
  { x := tmp.x, y := tmp.y, z := tmp.z }

end mars.smurf

/-! ## Properties -/

namespace binary64

/-! ### Rounding to binary64 -/

theorem roundHalfEven_cases (q : ℚ) :
    roundHalfEven q = ⌊q⌋ ∨ roundHalfEven q = ⌊q⌋ + 1 := by
  unfold roundHalfEven
  split_ifs <;> simp

theorem abs_roundHalfEven_sub_le (q : ℚ) : |(roundHalfEven q : ℚ) - q| ≤ 1 / 2 := by
  have h1 := Int.floor_le q
  have h2 := Int.lt_floor_add_one q
  unfold roundHalfEven
  rw [abs_le]
  split_ifs with h3 h4 h5
  · constructor <;> linarith
  · push_cast
    constructor <;> linarith
  · have : q - ⌊q⌋ = 1 / 2 := le_antisymm (not_lt.mp h4) (not_lt.mp h3)
    constructor <;> linarith
  · have : q - ⌊q⌋ = 1 / 2 := le_antisymm (not_lt.mp h4) (not_lt.mp h3)
    push_cast
    constructor <;> linarith

theorem roundHalfEven_eq_of_lt (q : ℚ) (m : ℤ) (h : |q - m| < 1 / 2) : roundHalfEven q = m := by
  have h0 := abs_roundHalfEven_sub_le q
  rw [abs_lt] at h
  rw [abs_le] at h0
  have h1 : ((roundHalfEven q : ℤ) : ℚ) - m < 1 := by linarith [h.1, h.2, h0.1, h0.2]
  have h2 : (-1 : ℚ) < ((roundHalfEven q : ℤ) : ℚ) - m := by linarith [h.1, h.2, h0.1, h0.2]
  have h3 : roundHalfEven q - m < 1 := by exact_mod_cast h1
  have h4 : -1 < roundHalfEven q - m := by exact_mod_cast h2
  omega

theorem roundHalfEven_intCast (m : ℤ) : roundHalfEven (m : ℚ) = m :=
  roundHalfEven_eq_of_lt _ _ (by simp)

theorem roundHalfEven_abs_le (q : ℚ) (M : ℤ) (h : |q| ≤ M) : |roundHalfEven q| ≤ M := by
  rw [abs_le] at h
  have h1 : -M ≤ ⌊q⌋ := Int.le_floor.mpr (by push_cast; exact h.1)
  have h2 : ⌈q⌉ ≤ M := Int.ceil_le.mpr h.2
  have h3 : ⌊q⌋ ≤ ⌈q⌉ := Int.floor_le_ceil q
  rw [abs_le]
  by_cases hq : (⌊q⌋ : ℚ) = q
  · have : roundHalfEven q = ⌊q⌋ := by
      rw [← hq]
      simp [roundHalfEven_intCast]
    rw [this]
    constructor <;> omega
  · have h4 : (⌊q⌋ : ℚ) < q := lt_of_le_of_ne (Int.floor_le q) hq
    have h5 : ⌊q⌋ < ⌈q⌉ := Int.lt_ceil.mpr h4
    rcases roundHalfEven_cases q with h | h <;> rw [h] <;> constructor <;> omega

theorem roundHalfEven_neg (q : ℚ) : roundHalfEven (-q) = -roundHalfEven q := by
  by_cases hq : (⌊q⌋ : ℚ) = q
  · rw [← hq, ← Int.cast_neg, roundHalfEven_intCast, roundHalfEven_intCast]
  · have h4 : (⌊q⌋ : ℚ) < q := lt_of_le_of_ne (Int.floor_le q) hq
    have h5 := Int.lt_floor_add_one q
    have hfl : ⌊-q⌋ = -⌊q⌋ - 1 := by
      rw [Int.floor_eq_iff]
      push_cast
      constructor <;> linarith
    unfold roundHalfEven
    rw [hfl]
    push_cast
    split_ifs <;> first | omega | (exfalso; linarith)

theorem log_eq_of_bounds (x : ℚ) (e : ℤ) (h1 : (2 : ℚ) ^ e ≤ |x|) (h2 : |x| < (2 : ℚ) ^ (e + 1)) :
    Int.log 2 |x| = e := by
  have hpos : 0 < |x| := lt_of_lt_of_le (by positivity) h1
  have ha : e ≤ Int.log 2 |x| := (Int.zpow_le_iff_le_log (by norm_num) hpos).mp (by exact_mod_cast h1)
  have hb : Int.log 2 |x| < e + 1 := (Int.lt_zpow_iff_log_lt (by norm_num) hpos).mp (by exact_mod_cast h2)
  omega

theorem ulpExponent_neg (x : ℚ) : ulpExponent (-x) = ulpExponent x := by
  simp [ulpExponent]

theorem fl_zero : fl 0 = 0 := by
  simp [fl, roundHalfEven_intCast, show roundHalfEven 0 = 0 from roundHalfEven_intCast 0]

theorem fl_neg (x : ℚ) : fl (-x) = -fl x := by
  simp only [fl, ulpExponent_neg, neg_div, roundHalfEven_neg]
  push_cast
  ring

theorem ulpExponent_ge (x : ℚ) : -1074 ≤ ulpExponent x := by
  unfold ulpExponent
  have := le_max_right (Int.log 2 |x|) (-1022)
  omega

/-- The error of rounding is at most half a unit in the last place. -/
theorem abs_fl_sub_le (x : ℚ) : |fl x - x| ≤ 2 ^ ulpExponent x / 2 := by
  have hpos : (0 : ℚ) < 2 ^ ulpExponent x := by positivity
  have h := abs_roundHalfEven_sub_le (x / 2 ^ ulpExponent x)
  have heq : fl x - x =
      ((roundHalfEven (x / 2 ^ ulpExponent x) : ℚ) - x / 2 ^ ulpExponent x) * 2 ^ ulpExponent x := by
    unfold fl
    field_simp
  rw [heq, abs_mul, abs_of_pos hpos]
  calc |((roundHalfEven (x / 2 ^ ulpExponent x) : ℚ) - x / 2 ^ ulpExponent x)| * 2 ^ ulpExponent x
      ≤ 1 / 2 * 2 ^ ulpExponent x := by gcongr
    _ = 2 ^ ulpExponent x / 2 := by ring

theorem fl_int_mul_zpow (m k : ℤ) (hm : |m| ≤ 2 ^ 53) (hk : -1074 ≤ k) :
    fl ((m : ℚ) * 2 ^ k) = (m : ℚ) * 2 ^ k := by
  by_cases hm0 : m = 0
  · simp [hm0, fl_zero]
  have hmpos : 0 < |m| := abs_pos.mpr hm0
  have hm1 : (1 : ℚ) ≤ |(m : ℚ)| := by
    have : (1 : ℤ) ≤ |m| := hmpos
    exact_mod_cast this
  have hm53 : |(m : ℚ)| ≤ 2 ^ 53 := by exact_mod_cast hm
  have habs : |(m : ℚ) * 2 ^ k| = |(m : ℚ)| * 2 ^ k := by
    rw [abs_mul, abs_of_pos (by positivity : (0 : ℚ) < 2 ^ k)]
  have hvpos : 0 < |(m : ℚ) * 2 ^ k| := by rw [habs]; positivity
  -- the exponent of the unit in the last place is at most k, or k + 1 for a mantissa 2^53
  have hkey : ∃ j : ℕ, (ulpExponent ((m : ℚ) * 2 ^ k) + j = k) ∨
      (ulpExponent ((m : ℚ) * 2 ^ k) = k + 1 ∧ |m| = 2 ^ 53) := by
    by_cases h53 : |m| = 2 ^ 53
    · refine ⟨0, Or.inr ⟨?_, h53⟩⟩
      have hlog : Int.log 2 |(m : ℚ) * 2 ^ k| = 53 + k := by
        apply log_eq_of_bounds
        · rw [habs]
          have : |(m : ℚ)| = 2 ^ 53 := by exact_mod_cast h53
          rw [this, zpow_add₀ (by norm_num)]
          norm_num
        · rw [habs]
          have : |(m : ℚ)| = 2 ^ 53 := by exact_mod_cast h53
          rw [this, show (53 + k + 1 : ℤ) = 53 + (k + 1) by ring, zpow_add₀ (by norm_num),
            zpow_add₀ (by norm_num : (2 : ℚ) ≠ 0) k 1]
          have : (0 : ℚ) < 2 ^ k := by positivity
          norm_num
          linarith
      unfold ulpExponent
      rw [hlog, max_eq_left (by omega)]
      ring
    · have hlt : |m| < 2 ^ 53 := lt_of_le_of_ne hm h53
      have hltq : |(m : ℚ)| < 2 ^ 53 := by exact_mod_cast hlt
      have hlog : Int.log 2 |(m : ℚ) * 2 ^ k| < 53 + k := by
        apply (Int.lt_zpow_iff_log_lt (by norm_num) hvpos).mp
        rw [habs]
        push_cast
        rw [zpow_add₀ (by norm_num)]
        have : (0 : ℚ) < 2 ^ k := by positivity
        have h2 : ((2 : ℚ) ^ (53 : ℤ)) = 2 ^ 53 := by norm_num
        rw [h2]
        exact mul_lt_mul_of_pos_right hltq this
      have hle : ulpExponent ((m : ℚ) * 2 ^ k) ≤ k := by
        unfold ulpExponent
        have := max_le (a := Int.log 2 |(m : ℚ) * 2 ^ k|) (b := -1022) (c := k + 52)
          (by omega) (by omega)
        omega
      exact ⟨(k - ulpExponent ((m : ℚ) * 2 ^ k)).toNat, Or.inl (by omega)⟩
  obtain ⟨j, hj | ⟨hj, h53⟩⟩ := hkey
  · have h2k : (2 : ℚ) ^ k = 2 ^ ulpExponent ((m : ℚ) * 2 ^ k) * 2 ^ j := by
      have hk' : k = ulpExponent ((m : ℚ) * 2 ^ k) + (j : ℤ) := hj.symm
      nth_rewrite 1 [hk']
      rw [zpow_add₀ (by norm_num), zpow_natCast]
    have hdiv : (m : ℚ) * 2 ^ k / 2 ^ ulpExponent ((m : ℚ) * 2 ^ k) = ((m * 2 ^ j : ℤ) : ℚ) := by
      have hpos : (0 : ℚ) < 2 ^ ulpExponent ((m : ℚ) * 2 ^ k) := by positivity
      rw [div_eq_iff (ne_of_gt hpos)]
      push_cast
      nth_rewrite 1 [h2k]
      ring
    unfold fl
    rw [hdiv, roundHalfEven_intCast]
    push_cast
    nth_rewrite 2 [h2k]
    ring
  · have hm2 : ∃ n : ℤ, m = 2 * n := by
      rcases abs_choice m with h | h
      · exact ⟨2 ^ 52, by rw [← h, h53]; norm_num⟩
      · exact ⟨-2 ^ 52, by
          have : m = -|m| := by rw [h]; ring
          rw [this, h53]; norm_num⟩
    obtain ⟨n, hn⟩ := hm2
    have h2k : (2 : ℚ) ^ ulpExponent ((m : ℚ) * 2 ^ k) = 2 ^ k * 2 := by
      rw [hj, zpow_add₀ (by norm_num)]
      norm_num
    have hdiv : (m : ℚ) * 2 ^ k / 2 ^ ulpExponent ((m : ℚ) * 2 ^ k) = ((n : ℤ) : ℚ) := by
      have hpos : (0 : ℚ) < 2 ^ ulpExponent ((m : ℚ) * 2 ^ k) := by positivity
      rw [div_eq_iff (ne_of_gt hpos), h2k, hn]
      push_cast
      ring
    unfold fl
    rw [hdiv, roundHalfEven_intCast, h2k, hn]
    push_cast
    ring

theorem abs_lt_zpow_ulpExponent (x : ℚ) : |x| < 2 ^ (ulpExponent x + 53) := by
  have h1 : |x| < (2 : ℚ) ^ (Int.log 2 |x| + 1) := by
    exact_mod_cast Int.lt_zpow_succ_log_self (by norm_num : 1 < 2) |x|
  refine lt_of_lt_of_le h1 (zpow_le_zpow_right₀ (by norm_num) ?_)
  unfold ulpExponent
  have := le_max_left (Int.log 2 |x|) (-1022)
  omega

theorem fl_eq_int_mul_zpow (x : ℚ) :
    ∃ m : ℤ, |m| ≤ 2 ^ 53 ∧ fl x = (m : ℚ) * 2 ^ ulpExponent x := by
  refine ⟨roundHalfEven (x / 2 ^ ulpExponent x), ?_, rfl⟩
  have h := roundHalfEven_abs_le (x / 2 ^ ulpExponent x) (2 ^ 53) ?_
  · exact h
  · have hpos : (0 : ℚ) < 2 ^ ulpExponent x := by positivity
    rw [abs_div, abs_of_pos hpos, div_le_iff₀ hpos]
    have h1 := abs_lt_zpow_ulpExponent x
    rw [zpow_add₀ (by norm_num)] at h1
    push_cast
    have h2 : ((2 : ℚ) ^ (53 : ℤ)) = 2 ^ 53 := by norm_num
    rw [h2] at h1
    linarith

/-- A rounded value is not changed by rounding it again. -/
theorem fl_idem (x : ℚ) : fl (fl x) = fl x := by
  obtain ⟨m, hm, h⟩ := fl_eq_int_mul_zpow x
  rw [h]
  exact fl_int_mul_zpow m _ hm (ulpExponent_ge x)

theorem fl_intCast (m : ℤ) (hm : |m| ≤ 2 ^ 53) : fl (m : ℚ) = m := by
  have h := fl_int_mul_zpow m 0 hm (by norm_num)
  simpa using h

theorem fl_one : fl 1 = 1 := by
  have h := fl_intCast 1 (by norm_num)
  simpa using h

theorem fl_neg_one : fl (-1) = -1 := by
  rw [fl_neg, fl_one]

/-- The rounding error of a value of absolute value at most 32. -/
theorem abs_fl_sub_le_of_le (x : ℚ) (hx : |x| ≤ 32) : |fl x - x| ≤ 1 / 2 ^ 47 := by
  refine le_trans (abs_fl_sub_le x) ?_
  have hk : ulpExponent x ≤ -46 := by
    unfold ulpExponent
    have hlog : Int.log 2 |x| < 6 := by
      by_cases h0 : |x| = 0
      · rw [h0]
        simp
      · have hpos : 0 < |x| := lt_of_le_of_ne (abs_nonneg x) (Ne.symm h0)
        apply (Int.lt_zpow_iff_log_lt (by norm_num) hpos).mp
        norm_num
        linarith
    have := max_le (a := Int.log 2 |x|) (b := -1022) (c := 5) (by omega) (by omega)
    omega
  have h1 : (2 : ℚ) ^ ulpExponent x ≤ 2 ^ (-46 : ℤ) := zpow_le_zpow_right₀ (by norm_num) hk
  have h2 : (2 : ℚ) ^ (-46 : ℤ) = 1 / 2 ^ 46 := by norm_num
  rw [h2] at h1
  calc (2 : ℚ) ^ ulpExponent x / 2 ≤ (1 / 2 ^ 46) / 2 := by linarith
    _ = 1 / 2 ^ 47 := by norm_num

/-- The value of `fl` at a number of the binade `[2^e, 2^(e+1))` that is nearer
to the mantissa `m` than to any other. -/
theorem fl_eq_of (x : ℚ) (e m : ℤ) (h1 : (2 : ℚ) ^ e ≤ |x|) (h2 : |x| < (2 : ℚ) ^ (e + 1))
    (he : -1022 ≤ e) (hm : |x / 2 ^ (e - 52) - m| < 1 / 2) : fl x = m * 2 ^ (e - 52) := by
  have hu : ulpExponent x = e - 52 := by
    unfold ulpExponent
    rw [log_eq_of_bounds x e h1 h2, max_eq_left he]
  unfold fl
  rw [hu, roundHalfEven_eq_of_lt _ m hm]

theorem isDouble_fl (x : ℚ) : isDouble (fl x) := fl_idem x

theorem isDouble_zero : isDouble 0 := fl_zero

theorem isDouble_one : isDouble 1 := fl_one

theorem roundHalfEven_mono {q r : ℚ} (h : q ≤ r) : roundHalfEven q ≤ roundHalfEven r := by
  by_contra hlt
  push_neg at hlt
  have h1 := abs_le.mp (abs_roundHalfEven_sub_le q)
  have h2 := abs_le.mp (abs_roundHalfEven_sub_le r)
  have h3 : (roundHalfEven r : ℚ) + 1 ≤ roundHalfEven q := by exact_mod_cast hlt
  have hq : q = r := by linarith [h1.2, h2.1]
  rw [hq] at hlt
  exact lt_irrefl _ hlt

theorem fl_nonneg {x : ℚ} (h : 0 ≤ x) : 0 ≤ fl x := by
  unfold fl
  have hpos : (0 : ℚ) < 2 ^ ulpExponent x := by positivity
  have h0 : roundHalfEven 0 ≤ roundHalfEven (x / 2 ^ ulpExponent x) :=
    roundHalfEven_mono (div_nonneg h (le_of_lt hpos))
  have h00 : roundHalfEven 0 = 0 := by
    have := roundHalfEven_intCast 0
    simpa using this
  rw [h00] at h0
  have : (0 : ℚ) ≤ roundHalfEven (x / 2 ^ ulpExponent x) := by exact_mod_cast h0
  positivity

theorem abs_fl (x : ℚ) : |fl x| = fl |x| := by
  rcases le_total 0 x with h | h
  · rw [abs_of_nonneg h, abs_of_nonneg (fl_nonneg h)]
  · have h1 : 0 ≤ fl (-x) := fl_nonneg (by linarith)
    rw [fl_neg] at h1
    rw [abs_of_nonpos h, abs_of_nonpos (by linarith), fl_neg]

theorem ulpExponent_le_of_le {x : ℚ} {n : ℤ} (hn : -1074 ≤ n) (h0 : 0 < x) (hx : x ≤ 2 ^ n) :
    ulpExponent x ≤ n := by
  unfold ulpExponent
  have hlog : Int.log 2 |x| < n + 1 := by
    rw [abs_of_pos h0]
    apply (Int.lt_zpow_iff_log_lt (by norm_num) h0).mp
    have : (2 : ℚ) ^ n < 2 ^ (n + 1) := zpow_lt_zpow_right₀ (by norm_num) (by omega)
    push_cast
    linarith
  have := max_le (a := Int.log 2 |x|) (b := -1022) (c := n + 52) (by omega) (by omega)
  omega

theorem fl_le_zpow {x : ℚ} {n : ℤ} (hn : -1074 ≤ n) (h0 : 0 ≤ x) (hx : x ≤ 2 ^ n) :
    fl x ≤ 2 ^ n := by
  rcases eq_or_lt_of_le h0 with h00 | h00
  · rw [← h00, fl_zero]
    positivity
  have hk := ulpExponent_le_of_le hn h00 hx
  obtain ⟨j, hj⟩ : ∃ j : ℕ, n = ulpExponent x + j := ⟨(n - ulpExponent x).toNat, by omega⟩
  have hpos : (0 : ℚ) < 2 ^ ulpExponent x := by positivity
  have h2n : (2 : ℚ) ^ n = ((2 ^ j : ℤ) : ℚ) * 2 ^ ulpExponent x := by
    nth_rewrite 1 [hj]
    rw [zpow_add₀ (by norm_num), zpow_natCast]
    push_cast
    ring
  have hle : roundHalfEven (x / 2 ^ ulpExponent x) ≤ roundHalfEven (((2 ^ j : ℤ) : ℚ)) :=
    roundHalfEven_mono (by rw [div_le_iff₀ hpos, ← h2n]; exact hx)
  rw [roundHalfEven_intCast] at hle
  have hle' : (roundHalfEven (x / 2 ^ ulpExponent x) : ℚ) ≤ ((2 ^ j : ℤ) : ℚ) := by exact_mod_cast hle
  unfold fl
  rw [h2n]
  exact mul_le_mul_of_nonneg_right hle' (le_of_lt hpos)

theorem zpow_le_fl {x : ℚ} {n : ℤ} (hn : -1074 ≤ n) (hx : 2 ^ n ≤ x) : 2 ^ n ≤ fl x := by
  have hxpos : 0 < x := lt_of_lt_of_le (by positivity) hx
  have hpos : (0 : ℚ) < 2 ^ ulpExponent x := by positivity
  by_cases hk : ulpExponent x ≤ n
  · obtain ⟨j, hj⟩ : ∃ j : ℕ, n = ulpExponent x + j := ⟨(n - ulpExponent x).toNat, by omega⟩
    have h2n : (2 : ℚ) ^ n = ((2 ^ j : ℤ) : ℚ) * 2 ^ ulpExponent x := by
      nth_rewrite 1 [hj]
      rw [zpow_add₀ (by norm_num), zpow_natCast]
      push_cast
      ring
    have hle : roundHalfEven (((2 ^ j : ℤ) : ℚ)) ≤ roundHalfEven (x / 2 ^ ulpExponent x) :=
      roundHalfEven_mono (by rw [le_div_iff₀ hpos, ← h2n]; exact hx)
    rw [roundHalfEven_intCast] at hle
    have hle' : ((2 ^ j : ℤ) : ℚ) ≤ (roundHalfEven (x / 2 ^ ulpExponent x) : ℚ) := by
      exact_mod_cast hle
    unfold fl
    rw [h2n]
    exact mul_le_mul_of_nonneg_right hle' (le_of_lt hpos)
  · push_neg at hk
    -- the binade of x lies above 2^n, and rounding stays in the closed binade
    have hlogx : (2 : ℚ) ^ Int.log 2 |x| ≤ |x| := Int.zpow_log_le_self (by norm_num) (abs_pos.mpr (ne_of_gt hxpos))
    have hlog : -1022 ≤ Int.log 2 |x| := by
      by_contra hc
      push_neg at hc
      have : ulpExponent x = -1074 := by
        unfold ulpExponent
        rw [max_eq_right (by omega)]
        norm_num
      omega
    have hu : ulpExponent x = Int.log 2 |x| - 52 := by
      unfold ulpExponent
      rw [max_eq_left hlog]
    have h2 : (2 : ℚ) ^ Int.log 2 |x| = ((2 ^ 52 : ℤ) : ℚ) * 2 ^ ulpExponent x := by
      rw [hu]
      have : Int.log 2 |x| = 52 + (Int.log 2 |x| - 52) := by ring
      nth_rewrite 1 [this]
      rw [zpow_add₀ (by norm_num)]
      norm_num
    rw [abs_of_pos hxpos] at hlogx h2
    have hle : roundHalfEven (((2 ^ 52 : ℤ) : ℚ)) ≤ roundHalfEven (x / 2 ^ ulpExponent x) :=
      roundHalfEven_mono (by rw [le_div_iff₀ hpos, ← h2]; exact hlogx)
    rw [roundHalfEven_intCast] at hle
    have hle' : ((2 ^ 52 : ℤ) : ℚ) ≤ (roundHalfEven (x / 2 ^ ulpExponent x) : ℚ) := by
      exact_mod_cast hle
    have hfl : (2 : ℚ) ^ Int.log 2 x ≤ fl x := by
      unfold fl
      rw [h2]
      exact mul_le_mul_of_nonneg_right hle' (le_of_lt hpos)
    refine le_trans (zpow_le_zpow_right₀ (by norm_num) ?_) hfl
    rw [abs_of_pos hxpos] at hu
    omega

/-- Rounding is monotone. -/
theorem fl_mono {x y : ℚ} (h : x ≤ y) : fl x ≤ fl y := by
  -- the case of two non-negative numbers
  have key : ∀ a b : ℚ, 0 ≤ a → a ≤ b → fl a ≤ fl b := by
    intro a b h0 hab
    have hb0 : 0 ≤ b := le_trans h0 hab
    rcases eq_or_lt_of_le h0 with ha | ha
    · rw [← ha, fl_zero]
      exact fl_nonneg hb0
    have hbpos : 0 < b := lt_of_lt_of_le ha hab
    have hlog : Int.log 2 |a| ≤ Int.log 2 |b| := by
      rw [abs_of_pos ha, abs_of_pos hbpos]
      exact Int.log_mono_right ha hab
    by_cases hu : ulpExponent a = ulpExponent b
    · unfold fl
      rw [hu]
      have hpos : (0 : ℚ) < 2 ^ ulpExponent b := by positivity
      have hle : roundHalfEven (a / 2 ^ ulpExponent b) ≤ roundHalfEven (b / 2 ^ ulpExponent b) :=
        roundHalfEven_mono (div_le_div_of_nonneg_right hab (le_of_lt hpos))
      have hle' : (roundHalfEven (a / 2 ^ ulpExponent b) : ℚ) ≤ roundHalfEven (b / 2 ^ ulpExponent b) := by
        exact_mod_cast hle
      exact mul_le_mul_of_nonneg_right hle' (le_of_lt hpos)
    · have hlt : Int.log 2 |a| < Int.log 2 |b| ∧ -1022 < Int.log 2 |b| := by
        unfold ulpExponent at hu
        rcases le_total (Int.log 2 |a|) (-1022) with h1 | h1 <;>
          rcases le_total (Int.log 2 |b|) (-1022) with h2 | h2
        · rw [max_eq_right h1, max_eq_right h2] at hu
          exact absurd rfl hu
        · rw [max_eq_right h1, max_eq_left h2] at hu
          constructor <;> omega
        · rw [max_eq_left h1, max_eq_right h2] at hu
          constructor <;> omega
        · rw [max_eq_left h1, max_eq_left h2] at hu
          constructor <;> omega
      have h1 : a ≤ (2 : ℚ) ^ Int.log 2 |b| := by
        have h := Int.lt_zpow_succ_log_self (by norm_num : 1 < 2) |a|
        rw [abs_of_pos ha] at h
        have h' : a < (2 : ℚ) ^ (Int.log 2 a + 1) := by exact_mod_cast h
        rw [abs_of_pos ha] at hlt
        exact le_trans (le_of_lt h') (zpow_le_zpow_right₀ (by norm_num) (by omega))
      have h2 : (2 : ℚ) ^ Int.log 2 |b| ≤ b := by
        have := Int.zpow_log_le_self (b := 2) (by norm_num) (abs_pos.mpr (ne_of_gt hbpos))
        rwa [abs_of_pos hbpos] at this ⊢
      exact le_trans (fl_le_zpow (by omega) h0 h1) (zpow_le_fl (by omega) h2)
  rcases le_total 0 x with hx | hx
  · exact key x y hx h
  · rcases le_total 0 y with hy | hy
    · have h1 : fl x ≤ 0 := by
        have := fl_nonneg (x := -x) (by linarith)
        rw [fl_neg] at this
        linarith
      exact le_trans h1 (fl_nonneg hy)
    · have := key (-y) (-x) (by linarith) (by linarith)
      rw [fl_neg, fl_neg] at this
      linarith

/-- A number below half the smallest positive double rounds to zero. -/
theorem fl_eq_zero_of_abs_lt {x : ℚ} (h : |x| < 2 ^ (-1075 : ℤ)) : fl x = 0 := by
  by_cases h0 : x = 0
  · rw [h0, fl_zero]
  have hpos : 0 < |x| := abs_pos.mpr h0
  have hlog : Int.log 2 |x| < -1075 := (Int.lt_zpow_iff_log_lt (by norm_num) hpos).mp (by exact_mod_cast h)
  have hu : ulpExponent x = -1074 := by
    unfold ulpExponent
    rw [max_eq_right (by omega)]
    norm_num
  unfold fl
  rw [hu]
  have : roundHalfEven (x / 2 ^ (-1074 : ℤ)) = 0 := by
    apply roundHalfEven_eq_of_lt
    have h2 : (2 : ℚ) ^ (-1075 : ℤ) = 2 ^ (-1074 : ℤ) * (1 / 2) := by
      rw [show (-1075 : ℤ) = -1074 + (-1) by norm_num, zpow_add₀ (by norm_num)]
      norm_num
    have hp : (0 : ℚ) < 2 ^ (-1074 : ℤ) := by positivity
    rw [Int.cast_zero, sub_zero, abs_div, abs_of_pos hp, div_lt_iff₀ hp]
    rw [h2] at h
    linarith
  rw [this]
  simp

theorem fsub_eq_fadd_neg (a b : ℚ) : fsub a b = fadd a (-b) := by
  unfold fsub fadd
  rw [sub_eq_add_neg]

theorem fsub_self (a : ℚ) : fsub a a = 0 := by
  unfold fsub
  rw [sub_self, fl_zero]

theorem fmul_neg_one {a : ℚ} (h : isDouble a) : fmul a (-1) = -a := by
  unfold fmul
  rw [mul_neg_one, fl_neg, h]

theorem fadd_neg_self (a : ℚ) : fadd a (-a) = 0 := by
  unfold fadd
  rw [add_neg_cancel, fl_zero]

/-- The error of a rounded sum of four terms, each known up to `e`. -/
theorem abs_sum4_sub_le (m1 m2 m3 m4 t1 t2 t3 t4 e : ℚ) (he : e ≤ 1)
    (h1 : |m1 - t1| ≤ e) (h2 : |m2 - t2| ≤ e) (h3 : |m3 - t3| ≤ e) (h4 : |m4 - t4| ≤ e)
    (b1 : |t1| ≤ 5) (b2 : |t2| ≤ 5) (b3 : |t3| ≤ 5) (b4 : |t4| ≤ 5) :
    |fadd (fadd (fadd m1 m2) m3) m4 - (t1 + t2 + t3 + t4)| ≤ 4 * e + 3 / 2 ^ 47 := by
  rw [abs_le] at h1 h2 h3 h4 b1 b2 b3 b4
  have hd : (1 : ℚ) / 2 ^ 47 ≤ 1 := by norm_num
  have hd0 : (0 : ℚ) ≤ 1 / 2 ^ 47 := by norm_num
  have e1 := abs_le.mp (abs_fl_sub_le_of_le (m1 + m2) (abs_le.mpr ⟨by linarith, by linarith⟩))
  have e2 := abs_le.mp (abs_fl_sub_le_of_le (fl (m1 + m2) + m3)
    (abs_le.mpr ⟨by linarith, by linarith⟩))
  have e3 := abs_le.mp (abs_fl_sub_le_of_le (fl (fl (m1 + m2) + m3) + m4)
    (abs_le.mpr ⟨by linarith, by linarith⟩))
  unfold fadd
  rw [abs_le]
  constructor <;> linarith

/-- The error of a rounded product with a rounded quotient. -/
theorem abs_fmul_fdiv_sub_le (c d N : ℚ) (hc : |c| ≤ 3 / 2) (hd : |d| ≤ 3 / 2) (hN : 15 / 32 ≤ N) :
    |fmul (fdiv c N) d - c / N * d| ≤ 5 / 2 * (1 / 2 ^ 47) ∧ |c / N * d| ≤ 5 := by
  have hNpos : 0 < N := by linarith
  have hq : |c / N| ≤ 16 / 5 := by
    rw [abs_div, abs_of_pos hNpos, div_le_iff₀ hNpos]
    linarith
  have e1 := abs_fl_sub_le_of_le (c / N) (by linarith)
  have ht : |c / N * d| ≤ 24 / 5 := by
    rw [abs_mul]
    calc |c / N| * |d| ≤ 16 / 5 * (3 / 2) := mul_le_mul hq hd (abs_nonneg _) (by norm_num)
      _ = 24 / 5 := by norm_num
  have hprod : |fl (c / N) * d - c / N * d| ≤ 1 / 2 ^ 47 * (3 / 2) := by
    rw [← sub_mul, abs_mul]
    exact mul_le_mul e1 hd (abs_nonneg _) (by norm_num)
  have hb : |fl (c / N) * d| ≤ 32 := by
    have := abs_le.mp hprod
    have := abs_le.mp ht
    rw [abs_le]
    constructor <;> norm_num at * <;> linarith
  have e2 := abs_fl_sub_le_of_le (fl (c / N) * d) hb
  refine ⟨?_, by linarith⟩
  unfold fmul fdiv
  have := abs_le.mp hprod
  have := abs_le.mp e2
  rw [abs_le]
  constructor <;> linarith

end binary64

namespace configmaps.StdMap

variable {α : Type}

theorem find_assign (m : StdMap α) (key key' : String) (value : α) :
    (assign m key value).find key' = if key = key' then some value else m.find key' := by
  induction m with
  | nil => simp [assign, find]
  | cons e rest ih =>
    obtain ⟨k, v⟩ := e
    by_cases hk : k = key
    · subst hk
      by_cases hk' : k = key' <;> simp [assign, find, hk']
    · by_cases hk' : k = key'
      · subst hk'
        have : ¬ key = k := fun h => hk h.symm
        simp [assign, find, hk, this]
      · simp [assign, find, hk, hk', ih]

theorem find_assign_self (m : StdMap α) (key : String) (value : α) :
    (assign m key value).find key = some value := by
  simp [find_assign]

theorem find_assign_of_ne (m : StdMap α) {key key' : String} (value : α) (h : key ≠ key') :
    (assign m key value).find key' = m.find key' := by
  simp [find_assign, h]

end configmaps.StdMap

namespace mars.smurf

open binary64 urdf configmaps

/-! ### Pose comparison and pose algebra -/

theorem isEqualPos_eq_true_iff (p1 p2 : Pose) :
    isEqualPos p1 p2 = true ↔
      |fsub p1.position.x p2.position.x| ≤ epsilon ∧ |fsub p1.position.y p2.position.y| ≤ epsilon ∧
      |fsub p1.position.z p2.position.z| ≤ epsilon ∧ |fsub p1.rotation.x p2.rotation.x| ≤ epsilon ∧
      |fsub p1.rotation.y p2.rotation.y| ≤ epsilon ∧ |fsub p1.rotation.z p2.rotation.z| ≤ epsilon ∧
      |fsub p1.rotation.w p2.rotation.w| ≤ epsilon := by
  simp only [isEqualPos, gt_iff_lt, ← not_le]
  generalize |fsub p1.position.x p2.position.x| = d1
  generalize |fsub p1.position.y p2.position.y| = d2
  generalize |fsub p1.position.z p2.position.z| = d3
  generalize |fsub p1.rotation.x p2.rotation.x| = d4
  generalize |fsub p1.rotation.y p2.rotation.y| = d5
  generalize |fsub p1.rotation.z p2.rotation.z| = d6
  generalize |fsub p1.rotation.w p2.rotation.w| = d7
  generalize epsilon = e
  by_cases h1 : d1 ≤ e <;> by_cases h2 : d2 ≤ e <;> by_cases h3 : d3 ≤ e <;>
  by_cases h4 : d4 ≤ e <;> by_cases h5 : d5 ≤ e <;> by_cases h6 : d6 ≤ e <;>
  by_cases h7 : d7 ≤ e <;>
  simp [h1, h2, h3, h4, h5, h6, h7]

theorem forall_fin_seven (P : Fin 7 → Prop) :
    (∀ i, P i) ↔ P 0 ∧ P 1 ∧ P 2 ∧ P 3 ∧ P 4 ∧ P 5 ∧ P 6 := by
  constructor
  · intro h
    exact ⟨h 0, h 1, h 2, h 3, h 4, h 5, h 6⟩
  · rintro ⟨h0, h1, h2, h3, h4, h5, h6⟩ i
    fin_cases i <;> assumption

theorem isEqualPos_iff_components (p1 p2 : Pose) :
    isEqualPos p1 p2 = true ↔
      ∀ i, |fsub (poseComponent p1 i) (poseComponent p2 i)| ≤ epsilon := by
  rw [isEqualPos_eq_true_iff, forall_fin_seven]
  exact Iff.rfl

theorem fl_tolerance : fl (1 / 100000000000) = epsilon := by
  have h := fl_eq_of (1 / 100000000000) (-37) 6189700196426901
    (by rw [abs_of_pos (by norm_num)]; norm_num)
    (by rw [abs_of_pos (by norm_num)]; norm_num) (by norm_num)
    (by rw [abs_lt]; constructor <;> norm_num)
  rw [h]
  unfold epsilon
  norm_num

/-- A difference of at most `1e-11` rounds to at most the tolerance. -/
theorem abs_fsub_le_epsilon {a b : ℚ} (h : |a - b| ≤ 1 / 100000000000) : |fsub a b| ≤ epsilon := by
  unfold fsub
  rw [abs_fl, ← fl_tolerance]
  exact fl_mono h

/-- A difference of at least `1e-11 + 3e-28` rounds to more than the tolerance. -/
theorem epsilon_lt_abs_fsub {a b : ℚ}
    (h : 1 / 100000000000 + 3 / 10000000000000000000000000000 ≤ |a - b|) :
    epsilon < |fsub a b| := by
  unfold fsub
  rw [abs_fl]
  have h1 : fl (1 / 100000000000 + 3 / 10000000000000000000000000000) =
      6189700196426902 * 2 ^ (-37 - 52 : ℤ) :=
    fl_eq_of _ (-37) 6189700196426902
      (by rw [abs_of_pos (by norm_num)]; norm_num)
      (by rw [abs_of_pos (by norm_num)]; norm_num) (by norm_num)
      (by rw [abs_lt]; constructor <;> norm_num)
  have h2 := fl_mono h
  rw [h1] at h2
  refine lt_of_lt_of_le ?_ h2
  unfold epsilon
  norm_num

theorem isDouble_atTolerance : isDouble (6189700196426901 / 2 ^ 89) := by
  have h := fl_int_mul_zpow 6189700196426901 (-89) (by norm_num) (by norm_num)
  unfold isDouble
  have e : (6189700196426901 : ℚ) / 2 ^ 89 = ((6189700196426901 : ℤ) : ℚ) * 2 ^ (-89 : ℤ) := by
    norm_num
  rw [e]
  exact h

theorem isDouble_belowOrigin : isDouble (-7 / 2 ^ 93) := by
  have h := fl_int_mul_zpow (-7) (-93) (by norm_num) (by norm_num)
  unfold isDouble
  have e : (-7 : ℚ) / 2 ^ 93 = ((-7 : ℤ) : ℚ) * 2 ^ (-93 : ℤ) := by
    norm_num
  rw [e]
  exact h

theorem fsub_atTolerance_belowOrigin :
    fsub (6189700196426901 / 2 ^ 89) (-7 / 2 ^ 93) = epsilon := by
  unfold fsub
  have h := fl_eq_of (6189700196426901 / 2 ^ 89 - -7 / 2 ^ 93) (-37) 6189700196426901
    (by rw [abs_of_pos (by norm_num)]; norm_num)
    (by rw [abs_of_pos (by norm_num)]; norm_num) (by norm_num)
    (by rw [abs_lt]; constructor <;> norm_num)
  rw [h]
  unfold epsilon
  norm_num

theorem epsilon_nonneg : 0 ≤ epsilon := by
  unfold epsilon
  norm_num

theorem isEqualPos_atTolerance_belowOrigin : isEqualPos poseAtTolerance poseBelowOrigin = true := by
  rw [isEqualPos_iff_components]
  intro i
  fin_cases i
  · show |fsub (6189700196426901 / 2 ^ 89) (-7 / 2 ^ 93)| ≤ epsilon
    rw [fsub_atTolerance_belowOrigin, abs_of_nonneg epsilon_nonneg]
  all_goals
    simp only [poseComponent, poseAtTolerance, poseBelowOrigin]
    rw [fsub_self, abs_zero]
    exact epsilon_nonneg

/-- C4, the claim as stated fails: the poses `poseAtTolerance` and
`poseBelowOrigin` consist of binary64 numbers and differ in `position.x` only,
by more than `1e-11`, and `isEqualPos` returns true for them: the difference
is rounded to the double `0.00000000001` before it is compared. -/
theorem isEqualPos_tolerance_counterexample :
    poseAtTolerance.isDouble ∧ poseBelowOrigin.isDouble ∧
    |poseComponent poseAtTolerance 0 - poseComponent poseBelowOrigin 0| > 1 / 100000000000 ∧
    (∀ j, j ≠ 0 → poseComponent poseAtTolerance j = poseComponent poseBelowOrigin j) ∧
    isEqualPos poseAtTolerance poseBelowOrigin = true := by
  refine ⟨⟨⟨isDouble_atTolerance, isDouble_zero, isDouble_zero⟩,
      isDouble_zero, isDouble_zero, isDouble_zero, isDouble_one⟩,
    ⟨⟨isDouble_belowOrigin, isDouble_zero, isDouble_zero⟩,
      isDouble_zero, isDouble_zero, isDouble_zero, isDouble_one⟩, ?_, ?_,
    isEqualPos_atTolerance_belowOrigin⟩
  · show |(6189700196426901 / 2 ^ 89 : ℚ) - -7 / 2 ^ 93| > 1 / 100000000000
    rw [abs_of_pos (by norm_num)]
    norm_num
  · intro j hj
    fin_cases j <;> first | rfl | exact absurd rfl hj

/-- C4 (amended): `isEqualPos p1 p2` is true exactly when, for each of the seven
components, the difference of the two poses as the machine forms it, rounded
to a double, is at most the double `0.00000000001` in absolute value.  It is
therefore true when every component differs by at most `1e-11`, and false when
some component differs by `1e-11 + 3e-28` or more. -/
theorem isEqualPos_tolerance (p1 p2 : Pose) :
    (isEqualPos p1 p2 = true ↔
      ∀ i, |fsub (poseComponent p1 i) (poseComponent p2 i)| ≤ epsilon) ∧
    epsilon = fl (1 / 100000000000) ∧
    ((∀ i, |poseComponent p1 i - poseComponent p2 i| ≤ 1 / 100000000000) →
      isEqualPos p1 p2 = true) ∧
    (∀ i, 1 / 100000000000 + 3 / 10000000000000000000000000000 ≤
        |poseComponent p1 i - poseComponent p2 i| → isEqualPos p1 p2 = false) := by
  have key := isEqualPos_iff_components p1 p2
  refine ⟨key, fl_tolerance.symm, fun h => key.mpr fun i => abs_fsub_le_epsilon (h i), fun i hi => ?_⟩
  cases h : isEqualPos p1 p2
  · rfl
  · exact absurd (key.mp h i) (not_le.mpr (epsilon_lt_abs_fsub hi))

/-- C4 (amended), at a concrete input: two poses that differ by `1` in
`position.x` only are not equal. -/
theorem isEqualPos_tolerance_witness :
    isEqualPos {} { position := { x := 1 } } = false :=
  (isEqualPos_tolerance {} { position := { x := 1 } }).2.2.2 0
    (by norm_num [poseComponent])

/-! ### Rotations in rounded arithmetic -/

theorem abs_le_of_normSquared_le (r : Rotation) (h : r.normSquared ≤ 2) :
    |r.x| ≤ 3 / 2 ∧ |r.y| ≤ 3 / 2 ∧ |r.z| ≤ 3 / 2 ∧ |r.w| ≤ 3 / 2 := by
  unfold Rotation.normSquared at h
  have hx := mul_self_nonneg r.x
  have hy := mul_self_nonneg r.y
  have hz := mul_self_nonneg r.z
  have hw := mul_self_nonneg r.w
  refine ⟨?_, ?_, ?_, ?_⟩ <;> (rw [abs_le]; constructor <;> nlinarith)

theorem abs_fmul_self_sub_le (c : ℚ) (h : |c| ≤ 3 / 2) :
    |fmul c c - c * c| ≤ 1 / 2 ^ 47 ∧ |c * c| ≤ 5 := by
  have hb : |c * c| ≤ 9 / 4 := by
    rw [abs_mul]
    calc |c| * |c| ≤ 3 / 2 * (3 / 2) := mul_le_mul h h (abs_nonneg _) (by norm_num)
      _ = 9 / 4 := by norm_num
  exact ⟨abs_fl_sub_le_of_le _ (by linarith), by linarith⟩

/-- The squared norm that `GetInverse` computes is within `7 · 2^(-47)` of the
squared norm. -/
theorem abs_roundedNormSquared_sub_le (r : Rotation) (h : r.normSquared ≤ 2) :
    |r.roundedNormSquared - r.normSquared| ≤ 7 / 2 ^ 47 := by
  obtain ⟨hx, hy, hz, hw⟩ := abs_le_of_normSquared_le r h
  have h := abs_sum4_sub_le (fmul r.w r.w) (fmul r.x r.x) (fmul r.y r.y) (fmul r.z r.z)
    (r.w * r.w) (r.x * r.x) (r.y * r.y) (r.z * r.z) (1 / 2 ^ 47) (by norm_num)
    (abs_fmul_self_sub_le _ hw).1 (abs_fmul_self_sub_le _ hx).1 (abs_fmul_self_sub_le _ hy).1
    (abs_fmul_self_sub_le _ hz).1 (abs_fmul_self_sub_le _ hw).2 (abs_fmul_self_sub_le _ hx).2
    (abs_fmul_self_sub_le _ hy).2 (abs_fmul_self_sub_le _ hz).2
  unfold Rotation.roundedNormSquared Rotation.normSquared
  refine le_trans h ?_
  norm_num

theorem getInverse_eq (r : Rotation) (h : 0 < r.roundedNormSquared) :
    r.GetInverse =
      { x := fdiv (-r.x) r.roundedNormSquared, y := fdiv (-r.y) r.roundedNormSquared,
        z := fdiv (-r.z) r.roundedNormSquared, w := fdiv r.w r.roundedNormSquared } := by
  unfold Rotation.roundedNormSquared at *
  simp only [Rotation.GetInverse, gt_iff_lt, h, if_true]

/-- The components of `a.GetInverse * b` are within `13 · 2^(-47)` of those of
the product of the conjugate of `a` with `b`, divided by the computed squared
norm of `a`. -/
theorem getInverse_mul_close (a b : Rotation) (ha1 : 1 / 2 ≤ a.normSquared)
    (ha2 : a.normSquared ≤ 2) (hb : |b.x| ≤ 3 / 2 ∧ |b.y| ≤ 3 / 2 ∧ |b.z| ≤ 3 / 2 ∧ |b.w| ≤ 3 / 2) :
    |(a.GetInverse.mul b).x -
        (a.w * b.x - a.x * b.w - a.y * b.z + a.z * b.y) / a.roundedNormSquared| ≤ 13 / 2 ^ 47 ∧
    |(a.GetInverse.mul b).y -
        (a.w * b.y + a.x * b.z - a.y * b.w - a.z * b.x) / a.roundedNormSquared| ≤ 13 / 2 ^ 47 ∧
    |(a.GetInverse.mul b).z -
        (a.w * b.z - a.x * b.y + a.y * b.x - a.z * b.w) / a.roundedNormSquared| ≤ 13 / 2 ^ 47 ∧
    |(a.GetInverse.mul b).w -
        (a.w * b.w + a.x * b.x + a.y * b.y + a.z * b.z) / a.roundedNormSquared| ≤ 13 / 2 ^ 47 := by
  obtain ⟨hx, hy, hz, hw⟩ := abs_le_of_normSquared_le a ha2
  obtain ⟨bx, bY, bz, bw⟩ := hb
  have hN := abs_le.mp (abs_roundedNormSquared_sub_le a ha2)
  have hN1 : 15 / 32 ≤ a.roundedNormSquared := by
    have : (7 : ℚ) / 2 ^ 47 ≤ 1 / 32 := by norm_num
    linarith [hN.1]
  have hNpos : 0 < a.roundedNormSquared := by linarith
  have hNne : a.roundedNormSquared ≠ 0 := ne_of_gt hNpos
  rw [getInverse_eq a hNpos]
  generalize a.roundedNormSquared = N at *
  have nx : |-a.x| ≤ 3 / 2 := by rwa [abs_neg]
  have ny : |-a.y| ≤ 3 / 2 := by rwa [abs_neg]
  have nz : |-a.z| ≤ 3 / 2 := by rwa [abs_neg]
  have neg_close : ∀ m t e : ℚ, |m - t| ≤ e → |-m - -t| ≤ e := by
    intro m t e h
    rwa [show -m - -t = -(m - t) by ring, abs_neg]
  have neg_le : ∀ t : ℚ, |t| ≤ 5 → |-t| ≤ 5 := by
    intro t h
    rwa [abs_neg]
  have he : (5 : ℚ) / 2 * (1 / 2 ^ 47) ≤ 1 := by norm_num
  simp only [Rotation.mul, fsub_eq_fadd_neg]
  refine ⟨?_, ?_, ?_, ?_⟩
  · have h := abs_sum4_sub_le _ _ _ _ _ _ _ _ _ he
      (abs_fmul_fdiv_sub_le a.w b.x N hw bx hN1).1 (abs_fmul_fdiv_sub_le (-a.x) b.w N nx bw hN1).1
      (abs_fmul_fdiv_sub_le (-a.y) b.z N ny bz hN1).1
      (neg_close _ _ _ (abs_fmul_fdiv_sub_le (-a.z) b.y N nz bY hN1).1)
      (abs_fmul_fdiv_sub_le a.w b.x N hw bx hN1).2 (abs_fmul_fdiv_sub_le (-a.x) b.w N nx bw hN1).2
      (abs_fmul_fdiv_sub_le (-a.y) b.z N ny bz hN1).2
      (neg_le _ (abs_fmul_fdiv_sub_le (-a.z) b.y N nz bY hN1).2)
    have e : a.w / N * b.x + -a.x / N * b.w + -a.y / N * b.z + -(-a.z / N * b.y) =
        (a.w * b.x - a.x * b.w - a.y * b.z + a.z * b.y) / N := by
      field_simp
      ring
    rw [e] at h
    refine le_trans h ?_
    norm_num
  · have h := abs_sum4_sub_le _ _ _ _ _ _ _ _ _ he
      (abs_fmul_fdiv_sub_le a.w b.y N hw bY hN1).1
      (neg_close _ _ _ (abs_fmul_fdiv_sub_le (-a.x) b.z N nx bz hN1).1)
      (abs_fmul_fdiv_sub_le (-a.y) b.w N ny bw hN1).1
      (abs_fmul_fdiv_sub_le (-a.z) b.x N nz bx hN1).1
      (abs_fmul_fdiv_sub_le a.w b.y N hw bY hN1).2
      (neg_le _ (abs_fmul_fdiv_sub_le (-a.x) b.z N nx bz hN1).2)
      (abs_fmul_fdiv_sub_le (-a.y) b.w N ny bw hN1).2
      (abs_fmul_fdiv_sub_le (-a.z) b.x N nz bx hN1).2
    have e : a.w / N * b.y + -(-a.x / N * b.z) + -a.y / N * b.w + -a.z / N * b.x =
        (a.w * b.y + a.x * b.z - a.y * b.w - a.z * b.x) / N := by
      field_simp
      ring
    rw [e] at h
    refine le_trans h ?_
    norm_num
  · have h := abs_sum4_sub_le _ _ _ _ _ _ _ _ _ he
      (abs_fmul_fdiv_sub_le a.w b.z N hw bz hN1).1
      (abs_fmul_fdiv_sub_le (-a.x) b.y N nx bY hN1).1
      (neg_close _ _ _ (abs_fmul_fdiv_sub_le (-a.y) b.x N ny bx hN1).1)
      (abs_fmul_fdiv_sub_le (-a.z) b.w N nz bw hN1).1
      (abs_fmul_fdiv_sub_le a.w b.z N hw bz hN1).2
      (abs_fmul_fdiv_sub_le (-a.x) b.y N nx bY hN1).2
      (neg_le _ (abs_fmul_fdiv_sub_le (-a.y) b.x N ny bx hN1).2)
      (abs_fmul_fdiv_sub_le (-a.z) b.w N nz bw hN1).2
    have e : a.w / N * b.z + -a.x / N * b.y + -(-a.y / N * b.x) + -a.z / N * b.w =
        (a.w * b.z - a.x * b.y + a.y * b.x - a.z * b.w) / N := by
      field_simp
      ring
    rw [e] at h
    refine le_trans h ?_
    norm_num
  · have h := abs_sum4_sub_le _ _ _ _ _ _ _ _ _ he
      (abs_fmul_fdiv_sub_le a.w b.w N hw bw hN1).1
      (neg_close _ _ _ (abs_fmul_fdiv_sub_le (-a.x) b.x N nx bx hN1).1)
      (neg_close _ _ _ (abs_fmul_fdiv_sub_le (-a.y) b.y N ny bY hN1).1)
      (neg_close _ _ _ (abs_fmul_fdiv_sub_le (-a.z) b.z N nz bz hN1).1)
      (abs_fmul_fdiv_sub_le a.w b.w N hw bw hN1).2
      (neg_le _ (abs_fmul_fdiv_sub_le (-a.x) b.x N nx bx hN1).2)
      (neg_le _ (abs_fmul_fdiv_sub_le (-a.y) b.y N ny bY hN1).2)
      (neg_le _ (abs_fmul_fdiv_sub_le (-a.z) b.z N nz bz hN1).2)
    have e : a.w / N * b.w + -(-a.x / N * b.x) + -(-a.y / N * b.y) + -(-a.z / N * b.z) =
        (a.w * b.w + a.x * b.x + a.y * b.y + a.z * b.z) / N := by
      field_simp
    rw [e] at h
    refine le_trans h ?_
    norm_num

/-- The rotation `r.GetInverse * r` is within `28 · 2^(-47)` of the identity
rotation when the squared norm of `r` lies between `1/2` and `2`. -/
theorem getInverse_mul_self_close (r : Rotation) (h1 : 1 / 2 ≤ r.normSquared)
    (h2 : r.normSquared ≤ 2) :
    |(r.GetInverse.mul r).x| ≤ 28 / 2 ^ 47 ∧ |(r.GetInverse.mul r).y| ≤ 28 / 2 ^ 47 ∧
    |(r.GetInverse.mul r).z| ≤ 28 / 2 ^ 47 ∧ |(r.GetInverse.mul r).w - 1| ≤ 28 / 2 ^ 47 := by
  obtain ⟨hx, hy, hz, hw⟩ := getInverse_mul_close r r h1 h2 (abs_le_of_normSquared_le r h2)
  have hN := abs_le.mp (abs_roundedNormSquared_sub_le r h2)
  have hN1 : 15 / 32 ≤ r.roundedNormSquared := by
    have : (7 : ℚ) / 2 ^ 47 ≤ 1 / 32 := by norm_num
    linarith [hN.1]
  have hNpos : 0 < r.roundedNormSquared := by linarith
  have e0 : ∀ t : ℚ, t = 0 → t / r.roundedNormSquared = 0 := by
    intro t ht
    rw [ht, zero_div]
  rw [e0 _ (by ring), sub_zero] at hx hy hz
  have hd : (13 : ℚ) / 2 ^ 47 ≤ 28 / 2 ^ 47 := by norm_num
  refine ⟨le_trans hx hd, le_trans hy hd, le_trans hz hd, ?_⟩
  have hn : r.w * r.w + r.x * r.x + r.y * r.y + r.z * r.z = r.normSquared := rfl
  rw [hn] at hw
  have hq : |r.normSquared / r.roundedNormSquared - 1| ≤ 15 / 2 ^ 47 := by
    have e : r.normSquared / r.roundedNormSquared - 1 =
        (r.normSquared - r.roundedNormSquared) / r.roundedNormSquared := by
      field_simp
    rw [e, abs_div, abs_of_pos hNpos, div_le_iff₀ hNpos, abs_le]
    constructor <;> nlinarith [hN.1, hN.2]
  have := abs_le.mp hw
  have := abs_le.mp hq
  rw [abs_le]
  constructor <;> norm_num at * <;> linarith

/-! ### Exact cases of the rounded operations -/

theorem isDouble_intCast (m : ℤ) (hm : |m| ≤ 2 ^ 53) : isDouble (m : ℚ) := fl_intCast m hm

theorem isDouble_add (a b : Vector3) : (a.add b).isDouble :=
  ⟨isDouble_fl _, isDouble_fl _, isDouble_fl _⟩

theorem isDouble_identity : ({ x := 0, y := 0, z := 0, w := 1 } : Rotation).isDouble :=
  ⟨isDouble_zero, isDouble_zero, isDouble_zero, isDouble_one⟩

theorem isDouble_getInverse (r : Rotation) : r.GetInverse.isDouble := by
  unfold Rotation.GetInverse
  simp only
  split_ifs
  · exact ⟨isDouble_fl _, isDouble_fl _, isDouble_fl _, isDouble_fl _⟩
  · exact isDouble_identity

theorem getInverse_identity :
    ({ x := 0, y := 0, z := 0, w := 1 } : Rotation).GetInverse = { x := 0, y := 0, z := 0, w := 1 } := by
  simp [Rotation.GetInverse, fmul, fadd, fdiv, fl_zero, fl_one]

theorem identity_mul (q : Rotation) (hq : q.isDouble) :
    ({ x := 0, y := 0, z := 0, w := 1 } : Rotation).mul q = q := by
  obtain ⟨hx, hy, hz, hw⟩ := hq
  unfold isDouble at hx hy hz hw
  simp [Rotation.mul, fmul, fadd, fsub, fl_zero, hx, hy, hz, hw]

theorem mul_identity (q : Rotation) (hq : q.isDouble) :
    q.mul { x := 0, y := 0, z := 0, w := 1 } = q := by
  obtain ⟨hx, hy, hz, hw⟩ := hq
  unfold isDouble at hx hy hz hw
  simp [Rotation.mul, fmul, fadd, fsub, fl_zero, hx, hy, hz, hw]

theorem rotate_identity (v : Vector3) (hv : v.isDouble) :
    ({ x := 0, y := 0, z := 0, w := 1 } : Rotation).rotate v = v := by
  obtain ⟨hx, hy, hz⟩ := hv
  unfold isDouble at hx hy hz
  simp [Rotation.rotate, getInverse_identity, Rotation.mul, fmul, fadd, fsub, fl_zero, hx, hy, hz]

theorem rotate_zero (q : Rotation) : q.rotate { x := 0, y := 0, z := 0 } = { x := 0, y := 0, z := 0 } := by
  simp [Rotation.rotate, Rotation.mul, fmul, fadd, fsub, fl_zero]

theorem add_zero_vector (v : Vector3) (hv : v.isDouble) : v.add { x := 0, y := 0, z := 0 } = v := by
  obtain ⟨hx, hy, hz⟩ := hv
  unfold isDouble at hx hy hz
  simp [Vector3.add, fadd, hx, hy, hz]

theorem vectorSub_self (v : Vector3) (hv : v.isDouble) :
    vectorSub v v = { x := 0, y := 0, z := 0 } := by
  obtain ⟨hx, hy, hz⟩ := hv
  simp [vectorSub, Vector3.add, fmul_neg_one hx, fmul_neg_one hy, fmul_neg_one hz, fadd_neg_self]

theorem vectorSub_zero (v : Vector3) (hv : v.isDouble) :
    vectorSub v { x := 0, y := 0, z := 0 } = v := by
  obtain ⟨hx, hy, hz⟩ := hv
  unfold isDouble at hx hy hz
  simp [vectorSub, Vector3.add, fmul, fadd, fl_zero, hx, hy, hz]

theorem convertPose_eq (pose toPose : Pose) :
    convertPose pose toPose =
      (toPose.rotation.GetInverse.rotate (vectorSub pose.position toPose.position),
        toPose.rotation.GetInverse.mul pose.rotation) := rfl

/-! ### A pose relative to itself -/

theorem convertPose_self_position (P : Pose) (hP : P.position.isDouble) :
    (convertPose P P).1 = { x := 0, y := 0, z := 0 } := by
  rw [convertPose_eq, vectorSub_self _ hP, rotate_zero]

theorem isDouble_scaled : isDouble (49 / 64) := by
  have h := fl_int_mul_zpow 49 (-6) (by norm_num) (by norm_num)
  unfold isDouble
  have e : (49 : ℚ) / 64 = ((49 : ℤ) : ℚ) * 2 ^ (-6 : ℤ) := by norm_num
  rw [e]
  exact h

theorem isDouble_tiny : isDouble (1 / 2 ^ 600) := by
  have h := fl_int_mul_zpow 1 (-600) (by norm_num) (by norm_num)
  unfold isDouble
  have e : (1 : ℚ) / 2 ^ 600 = ((1 : ℤ) : ℚ) * 2 ^ (-600 : ℤ) := by
    norm_num
  rw [e]
  exact h

theorem roundedNormSquared_scaled : poseScaled.rotation.roundedNormSquared = 2401 / 4096 := by
  have h := fl_int_mul_zpow 2401 (-12) (by norm_num) (by norm_num)
  have e : ((2401 : ℤ) : ℚ) * 2 ^ (-12 : ℤ) = 49 / 64 * (49 / 64) := by norm_num
  rw [e] at h
  simp only [Rotation.roundedNormSquared, poseScaled, fmul, fadd, mul_zero, fl_zero, add_zero, h,
    fl_idem]
  norm_num

theorem getInverse_scaled :
    poseScaled.rotation.GetInverse = { x := 0, y := 0, z := 0, w := 5882252574524729 / 2 ^ 52 } := by
  have h := fl_eq_of (49 / 64 / (2401 / 4096)) 0 5882252574524729
    (by rw [abs_of_pos (by norm_num)]; norm_num)
    (by rw [abs_of_pos (by norm_num)]; norm_num) (by norm_num)
    (by rw [abs_lt]; constructor <;> norm_num)
  rw [getInverse_eq _ (by rw [roundedNormSquared_scaled]; norm_num), roundedNormSquared_scaled]
  simp only [poseScaled, fdiv, neg_zero, zero_div, fl_zero, h]
  norm_num

theorem fmul_getInverse_scaled :
    fmul (5882252574524729 / 2 ^ 52) (49 / 64) = 9007199254740991 / 9007199254740992 := by
  have h := fl_eq_of (5882252574524729 / 2 ^ 52 * (49 / 64)) (-1) 9007199254740991
    (by rw [abs_of_pos (by norm_num)]; norm_num)
    (by rw [abs_of_pos (by norm_num)]; norm_num) (by norm_num)
    (by rw [abs_lt]; constructor <;> norm_num)
  unfold fmul
  rw [h]
  norm_num

theorem getInverse_tiny : poseTiny.rotation.GetInverse = { x := 0, y := 0, z := 0, w := 1 } := by
  have h : fl (1 / 2 ^ 600 * (1 / 2 ^ 600)) = 0 := by
    apply fl_eq_zero_of_abs_lt
    rw [abs_of_pos (by positivity)]
    have e : (1 : ℚ) / 2 ^ 600 * (1 / 2 ^ 600) = 2 ^ (-1200 : ℤ) := by
      norm_num
    rw [e]
    exact zpow_lt_zpow_right₀ (by norm_num) (by norm_num)
  simp only [Rotation.GetInverse, poseTiny, fmul, fadd, mul_zero, fl_zero, add_zero, h, gt_iff_lt,
    lt_irrefl, if_false]

/-- C8, the claim as stated fails, in two ways.  The pose `poseScaled` consists
of binary64 numbers and its rotation `(0, 0, 0, 49/64)` is not zero, yet
`convertPose` of the pose relative to itself has the rotation
`(0, 0, 0, 1 - 2^(-53))`, which is near the identity and not the identity.  The
rotation `(0, 0, 0, 2^(-600))` of `poseTiny` is not zero either, but its squared
norm is rounded to zero, `GetInverse` returns the identity, and the rotation
written is `(0, 0, 0, 2^(-600))`, far from the identity. -/
theorem convertPose_self_counterexample :
    poseScaled.isDouble ∧ poseScaled.rotation ≠ { x := 0, y := 0, z := 0, w := 0 } ∧
    (convertPose poseScaled poseScaled).2 =
      { x := 0, y := 0, z := 0, w := 9007199254740991 / 9007199254740992 } ∧
    poseTiny.isDouble ∧ poseTiny.rotation ≠ { x := 0, y := 0, z := 0, w := 0 } ∧
    (convertPose poseTiny poseTiny).2 = { x := 0, y := 0, z := 0, w := 1 / 2 ^ 600 } := by
  refine ⟨⟨⟨isDouble_zero, isDouble_zero, isDouble_zero⟩,
      isDouble_zero, isDouble_zero, isDouble_zero, isDouble_scaled⟩, ?_, ?_,
    ⟨⟨isDouble_zero, isDouble_zero, isDouble_zero⟩,
      isDouble_zero, isDouble_zero, isDouble_zero, isDouble_tiny⟩, ?_, ?_⟩
  · simp [poseScaled]
  · rw [convertPose_eq, getInverse_scaled]
    have h := fmul_getInverse_scaled
    unfold fmul at h
    simp only [Rotation.mul, poseScaled, fmul, fadd, fsub, mul_zero, zero_mul, fl_zero, add_zero,
      sub_zero, h, fl_idem]
    have h2 : fl (9007199254740991 / 9007199254740992) = 9007199254740991 / 9007199254740992 := by
      rw [← h]
      exact fl_idem _
    simp [h2]
  · simp [poseTiny]
  · rw [convertPose_eq, getInverse_tiny]
    exact identity_mul _ ⟨isDouble_zero, isDouble_zero, isDouble_zero, isDouble_tiny⟩

theorem convertPose_self_rotation (P : Pose) (h1 : 1 / 2 ≤ P.rotation.normSquared)
    (h2 : P.rotation.normSquared ≤ 2) :
    |(convertPose P P).2.x| ≤ 1 / 1000000000000 ∧ |(convertPose P P).2.y| ≤ 1 / 1000000000000 ∧
    |(convertPose P P).2.z| ≤ 1 / 1000000000000 ∧
    |(convertPose P P).2.w - 1| ≤ 1 / 1000000000000 := by
  obtain ⟨hx, hy, hz, hw⟩ := getInverse_mul_self_close P.rotation h1 h2
  have hd : (28 : ℚ) / 2 ^ 47 ≤ 1 / 1000000000000 := by norm_num
  exact ⟨le_trans hx hd, le_trans hy hd, le_trans hz hd, le_trans hw hd⟩

theorem convertPose_self_isEqualPos (P : Pose) (hP : P.position.isDouble)
    (h1 : 1 / 2 ≤ P.rotation.normSquared) (h2 : P.rotation.normSquared ≤ 2) :
    isEqualPos { position := (convertPose P P).1, rotation := (convertPose P P).2 } {} = true := by
  obtain ⟨hx, hy, hz, hw⟩ := convertPose_self_rotation P h1 h2
  have hd : (1 : ℚ) / 1000000000000 ≤ 1 / 100000000000 := by norm_num
  rw [isEqualPos_iff_components]
  intro i
  apply abs_fsub_le_epsilon
  fin_cases i
  · simp [poseComponent, convertPose_self_position P hP]
  · simp [poseComponent, convertPose_self_position P hP]
  · simp [poseComponent, convertPose_self_position P hP]
  · simpa [poseComponent] using le_trans hx hd
  · simpa [poseComponent] using le_trans hy hd
  · simpa [poseComponent] using le_trans hz hd
  · simpa [poseComponent] using le_trans hw hd

/-- C8 (amended): for a pose `P` of binary64 numbers, `convertPose(P, P)` is the
identity pose within tolerance.  The position is exactly `(0, 0, 0)`.  When the
squared norm of the rotation of `P` lies between `1/2` and `2`, as for every
unit quaternion, each component of the rotation is within `1e-12` of the
component of `(0, 0, 0, 1)`, so that the pose equals the identity pose under
`isEqualPos`. -/
theorem convertPose_self (P : Pose) :
    (P.position.isDouble → (convertPose P P).1 = { x := 0, y := 0, z := 0 }) ∧
    (1 / 2 ≤ P.rotation.normSquared → P.rotation.normSquared ≤ 2 →
      |(convertPose P P).2.x| ≤ 1 / 1000000000000 ∧ |(convertPose P P).2.y| ≤ 1 / 1000000000000 ∧
      |(convertPose P P).2.z| ≤ 1 / 1000000000000 ∧
      |(convertPose P P).2.w - 1| ≤ 1 / 1000000000000) ∧
    (P.position.isDouble → 1 / 2 ≤ P.rotation.normSquared → P.rotation.normSquared ≤ 2 →
      isEqualPos { position := (convertPose P P).1, rotation := (convertPose P P).2 } {} = true) :=
  ⟨convertPose_self_position P, convertPose_self_rotation P, convertPose_self_isEqualPos P⟩

/-- C8 (amended), at the pose at `(1, 2, 3)` with the rotation `(0, 0, 0, 49/64)`,
for which the rotation written is not the identity. -/
theorem convertPose_self_witness :
    isEqualPos
      { position :=
          (convertPose { position := { x := 1, y := 2, z := 3 }, rotation := poseScaled.rotation }
            { position := { x := 1, y := 2, z := 3 }, rotation := poseScaled.rotation }).1
        rotation :=
          (convertPose { position := { x := 1, y := 2, z := 3 }, rotation := poseScaled.rotation }
            { position := { x := 1, y := 2, z := 3 }, rotation := poseScaled.rotation }).2 } {} =
      true :=
  (convertPose_self
    { position := { x := 1, y := 2, z := 3 }, rotation := poseScaled.rotation }).2.2
    ⟨isDouble_intCast 1 (by norm_num), isDouble_intCast 2 (by norm_num),
      isDouble_intCast 3 (by norm_num)⟩
    (by norm_num [Rotation.normSquared, poseScaled])
    (by norm_num [Rotation.normSquared, poseScaled])

/-! ### Placement of a link relative to its parent -/

/-- C9: for a link `B` whose parent `A` has no inertial but a collision with
origin `(t_c, R_c)`, whose parent joint sits at `(1,0,0)` with the identity
rotation, and whose own frame is the identity, `calculatePose` writes the
position `R_c⁻¹ · ((1,0,0) − t_c)`: the joint position expressed relative to
the collision origin of `A`, which is `(1,0,0)` when that origin is the
identity. -/
theorem calculatePose_collision_fallback (s : SMURF) (map : ConfigMap) (A B : Link) (joint : Joint)
    (c : Collision) (hInertial : A.inertial = none) (hCollision : A.collision = some c)
    (hJoint : joint.parent_to_joint_origin_transform =
      { position := { x := 1, y := 0, z := 0 }, rotation := { x := 0, y := 0, z := 0, w := 1 } })
    (hB : inertialOrCollisionOrigin B = {}) :
    (calculatePose s map (some (A, joint)) B).2.find "position" =
        some (ConfigItem.vector
          (c.origin.rotation.GetInverse.rotate (vectorSub { x := 1, y := 0, z := 0 } c.origin.position))) ∧
    c.origin.rotation.GetInverse.rotate (vectorSub { x := 1, y := 0, z := 0 } c.origin.position) =
      (convertPose { position := { x := 1, y := 0, z := 0 } } c.origin).1 ∧
    (c.origin = {} →
      (calculatePose s map (some (A, joint)) B).2.find "position" =
        some (ConfigItem.vector { x := 1, y := 0, z := 0 })) := by
  have hpos : (calculatePose s map (some (A, joint)) B).2.find "position" =
      some (ConfigItem.vector
        (c.origin.rotation.GetInverse.rotate (vectorSub { x := 1, y := 0, z := 0 } c.origin.position))) := by
    simp only [calculatePose, hInertial, hCollision, hJoint, hB, StdMap.find_assign]
    have h0 : ({ x := 0, y := 0, z := 0, w := 1 } : Rotation).rotate ({} : Pose).position =
        { x := 0, y := 0, z := 0 } := rotate_zero _
    rw [h0]
    have h1 := add_zero_vector (vectorSub { x := 1, y := 0, z := 0 } c.origin.position)
      (isDouble_add _ _)
    unfold vectorSub at h1 ⊢
    rw [h1]
    simp
  refine ⟨hpos, by simp only [convertPose_eq], ?_⟩
  intro hc
  rw [hpos, hc]
  have h2 : vectorSub { x := 1, y := 0, z := 0 } ({} : Pose).position = { x := 1, y := 0, z := 0 } :=
    vectorSub_zero { x := 1, y := 0, z := 0 } ⟨isDouble_one, isDouble_zero, isDouble_zero⟩
  have h3 : ({} : Pose).rotation.GetInverse = { x := 0, y := 0, z := 0, w := 1 } :=
    getInverse_identity
  rw [h2, h3, rotate_identity { x := 1, y := 0, z := 0 } ⟨isDouble_one, isDouble_zero, isDouble_zero⟩]

/-- C9, at a chain in which the collision origin of `A` is the point `(1,0,0)`
with the identity rotation: the child is then placed at `(0,0,0)`, not at the
joint position `(1,0,0)`. -/
theorem calculatePose_collision_fallback_witness :
    (calculatePose {} []
        (some (Link.mk "A" none none
            (some { origin := { position := { x := 1, y := 0, z := 0 } }, geometry := Geometry.SPHERE 1 })
            [] [] [],
          { parent_to_joint_origin_transform := { position := { x := 1, y := 0, z := 0 } } }))
        (Link.mk "B" none none none [] [] [])).2.find "position" =
      some (ConfigItem.vector { x := 0, y := 0, z := 0 }) := by
  have h := (calculatePose_collision_fallback {} []
    (Link.mk "A" none none
      (some { origin := { position := { x := 1, y := 0, z := 0 } }, geometry := Geometry.SPHERE 1 })
      [] [] [])
    (Link.mk "B" none none none [] [] [])
    { parent_to_joint_origin_transform := { position := { x := 1, y := 0, z := 0 } } }
    { origin := { position := { x := 1, y := 0, z := 0 } }, geometry := Geometry.SPHERE 1 }
    rfl rfl rfl rfl).1
  rw [h]
  have h2 : vectorSub { x := 1, y := 0, z := 0 }
      ({ position := { x := 1, y := 0, z := 0 } } : Pose).position = { x := 0, y := 0, z := 0 } :=
    vectorSub_self { x := 1, y := 0, z := 0 } ⟨isDouble_one, isDouble_zero, isDouble_zero⟩
  rw [h2, rotate_zero]

/-! ### Fields of the emitted records and of the state -/

theorem handleInertial_find (map : ConfigMap) (link : Link) {k : String} (hk : headerKey k) :
    (handleInertial map link).find k = map.find k := by
  unfold handleInertial
  rcases hk with rfl | rfl | rfl | rfl <;> cases link.inertial <;>
    simp [StdMap.find_assign]

theorem handleVisual_find (map : ConfigMap) (visual : Visual) {k : String} (hk : headerKey k) :
    (handleVisual map visual).find k = map.find k := by
  unfold handleVisual
  rcases hk with rfl | rfl | rfl | rfl <;> cases visual.geometry <;>
    simp [StdMap.find_assign]

theorem handleCollision_find (map : ConfigMap) (c : Collision) {k : String} (hk : headerKey k) :
    (handleCollision map c).find k = map.find k := by
  unfold handleCollision
  rcases hk with rfl | rfl | rfl | rfl <;> cases c.geometry <;>
    simp [StdMap.find_assign]

theorem createFakeVisual_find (map : ConfigMap) {k : String} (hk : headerKey k) :
    (createFakeVisual map).find k = map.find k := by
  unfold createFakeVisual
  rcases hk with rfl | rfl | rfl | rfl <;> simp [StdMap.find_assign]

theorem createFakeCollision_find (map : ConfigMap) {k : String} (hk : headerKey k) :
    (createFakeCollision map).find k = map.find k := by
  unfold createFakeCollision
  rcases hk with rfl | rfl | rfl | rfl <;> simp [StdMap.find_assign]

@[simp] theorem mainNodeGroupID_nextNodeID (s : SMURF) (config : ConfigMap) (needGroupID : Bool) :
    (mainNodeGroupID s config needGroupID).1.nextNodeID = s.nextNodeID := by
  unfold mainNodeGroupID; split <;> rfl

@[simp] theorem mainNodeGroupID_nextJointID (s : SMURF) (config : ConfigMap) (needGroupID : Bool) :
    (mainNodeGroupID s config needGroupID).1.nextJointID = s.nextJointID := by
  unfold mainNodeGroupID; split <;> rfl

@[simp] theorem mainNodeGroupID_nodeList (s : SMURF) (config : ConfigMap) (needGroupID : Bool) :
    (mainNodeGroupID s config needGroupID).1.nodeList = s.nodeList := by
  unfold mainNodeGroupID; split <;> rfl

@[simp] theorem mainNodeGroupID_jointList (s : SMURF) (config : ConfigMap) (needGroupID : Bool) :
    (mainNodeGroupID s config needGroupID).1.jointList = s.jointList := by
  unfold mainNodeGroupID; split <;> rfl

@[simp] theorem mainNodeGroupID_nodeIDMap (s : SMURF) (config : ConfigMap) (needGroupID : Bool) :
    (mainNodeGroupID s config needGroupID).1.nodeIDMap = s.nodeIDMap := by
  unfold mainNodeGroupID; split <;> rfl

@[simp] theorem mainNodeGroupID_jointIDMap (s : SMURF) (config : ConfigMap) (needGroupID : Bool) :
    (mainNodeGroupID s config needGroupID).1.jointIDMap = s.jointIDMap := by
  unfold mainNodeGroupID; split <;> rfl

@[simp] theorem mainNodeGroupID_collisionNameMap (s : SMURF) (config : ConfigMap) (needGroupID : Bool) :
    (mainNodeGroupID s config needGroupID).1.collisionNameMap = s.collisionNameMap := by
  unfold mainNodeGroupID; split <;> rfl

@[simp] theorem mainNodeGroupID_visualNameMap (s : SMURF) (config : ConfigMap) (needGroupID : Bool) :
    (mainNodeGroupID s config needGroupID).1.visualNameMap = s.visualNameMap := by
  unfold mainNodeGroupID; split <;> rfl

@[simp] theorem calculatePose_nextGroupID (s : SMURF) (map : ConfigMap) (parent : Option (Link × Joint)) (link : Link) :
    (calculatePose s map parent link).1.nextGroupID = s.nextGroupID := by
  unfold calculatePose; rcases parent with _ | ⟨pLink, joint⟩ <;> rfl

@[simp] theorem calculatePose_nextNodeID (s : SMURF) (map : ConfigMap) (parent : Option (Link × Joint)) (link : Link) :
    (calculatePose s map parent link).1.nextNodeID = s.nextNodeID := by
  unfold calculatePose; rcases parent with _ | ⟨pLink, joint⟩ <;> rfl

@[simp] theorem calculatePose_nextJointID (s : SMURF) (map : ConfigMap) (parent : Option (Link × Joint)) (link : Link) :
    (calculatePose s map parent link).1.nextJointID = s.nextJointID := by
  unfold calculatePose; rcases parent with _ | ⟨pLink, joint⟩ <;> rfl

@[simp] theorem calculatePose_nodeList (s : SMURF) (map : ConfigMap) (parent : Option (Link × Joint)) (link : Link) :
    (calculatePose s map parent link).1.nodeList = s.nodeList := by
  unfold calculatePose; rcases parent with _ | ⟨pLink, joint⟩ <;> rfl

@[simp] theorem calculatePose_jointList (s : SMURF) (map : ConfigMap) (parent : Option (Link × Joint)) (link : Link) :
    (calculatePose s map parent link).1.jointList = s.jointList := by
  unfold calculatePose; rcases parent with _ | ⟨pLink, joint⟩ <;> rfl

@[simp] theorem calculatePose_jointIDMap (s : SMURF) (map : ConfigMap) (parent : Option (Link × Joint)) (link : Link) :
    (calculatePose s map parent link).1.jointIDMap = s.jointIDMap := by
  unfold calculatePose; rcases parent with _ | ⟨pLink, joint⟩ <;> rfl

@[simp] theorem calculatePose_collisionNameMap (s : SMURF) (map : ConfigMap) (parent : Option (Link × Joint)) (link : Link) :
    (calculatePose s map parent link).1.collisionNameMap = s.collisionNameMap := by
  unfold calculatePose; rcases parent with _ | ⟨pLink, joint⟩ <;> rfl

@[simp] theorem calculatePose_visualNameMap (s : SMURF) (map : ConfigMap) (parent : Option (Link × Joint)) (link : Link) :
    (calculatePose s map parent link).1.visualNameMap = s.visualNameMap := by
  unfold calculatePose; rcases parent with _ | ⟨pLink, joint⟩ <;> rfl

@[simp] theorem mainNodeVisual_nextGroupID (s : SMURF) (config : ConfigMap) (link : Link) (loadVisual : Bool) :
    (mainNodeVisual s config link loadVisual).1.nextGroupID = s.nextGroupID := by
  unfold mainNodeVisual; split <;> rfl

@[simp] theorem mainNodeVisual_nextNodeID (s : SMURF) (config : ConfigMap) (link : Link) (loadVisual : Bool) :
    (mainNodeVisual s config link loadVisual).1.nextNodeID = s.nextNodeID := by
  unfold mainNodeVisual; split <;> rfl

@[simp] theorem mainNodeVisual_nextJointID (s : SMURF) (config : ConfigMap) (link : Link) (loadVisual : Bool) :
    (mainNodeVisual s config link loadVisual).1.nextJointID = s.nextJointID := by
  unfold mainNodeVisual; split <;> rfl

@[simp] theorem mainNodeVisual_nodeList (s : SMURF) (config : ConfigMap) (link : Link) (loadVisual : Bool) :
    (mainNodeVisual s config link loadVisual).1.nodeList = s.nodeList := by
  unfold mainNodeVisual; split <;> rfl

@[simp] theorem mainNodeVisual_jointList (s : SMURF) (config : ConfigMap) (link : Link) (loadVisual : Bool) :
    (mainNodeVisual s config link loadVisual).1.jointList = s.jointList := by
  unfold mainNodeVisual; split <;> rfl

@[simp] theorem mainNodeVisual_nodeIDMap (s : SMURF) (config : ConfigMap) (link : Link) (loadVisual : Bool) :
    (mainNodeVisual s config link loadVisual).1.nodeIDMap = s.nodeIDMap := by
  unfold mainNodeVisual; split <;> rfl

@[simp] theorem mainNodeVisual_jointIDMap (s : SMURF) (config : ConfigMap) (link : Link) (loadVisual : Bool) :
    (mainNodeVisual s config link loadVisual).1.jointIDMap = s.jointIDMap := by
  unfold mainNodeVisual; split <;> rfl

@[simp] theorem mainNodeVisual_collisionNameMap (s : SMURF) (config : ConfigMap) (link : Link) (loadVisual : Bool) :
    (mainNodeVisual s config link loadVisual).1.collisionNameMap = s.collisionNameMap := by
  unfold mainNodeVisual; split <;> rfl

@[simp] theorem mainNodeCollision_nextGroupID (s : SMURF) (config : ConfigMap) (link : Link) (loadCollision : Bool) :
    (mainNodeCollision s config link loadCollision).1.nextGroupID = s.nextGroupID := by
  unfold mainNodeCollision; split <;> rfl

@[simp] theorem mainNodeCollision_nextNodeID (s : SMURF) (config : ConfigMap) (link : Link) (loadCollision : Bool) :
    (mainNodeCollision s config link loadCollision).1.nextNodeID = s.nextNodeID := by
  unfold mainNodeCollision; split <;> rfl

@[simp] theorem mainNodeCollision_nextJointID (s : SMURF) (config : ConfigMap) (link : Link) (loadCollision : Bool) :
    (mainNodeCollision s config link loadCollision).1.nextJointID = s.nextJointID := by
  unfold mainNodeCollision; split <;> rfl

@[simp] theorem mainNodeCollision_nodeList (s : SMURF) (config : ConfigMap) (link : Link) (loadCollision : Bool) :
    (mainNodeCollision s config link loadCollision).1.nodeList = s.nodeList := by
  unfold mainNodeCollision; split <;> rfl

@[simp] theorem mainNodeCollision_jointList (s : SMURF) (config : ConfigMap) (link : Link) (loadCollision : Bool) :
    (mainNodeCollision s config link loadCollision).1.jointList = s.jointList := by
  unfold mainNodeCollision; split <;> rfl

@[simp] theorem mainNodeCollision_nodeIDMap (s : SMURF) (config : ConfigMap) (link : Link) (loadCollision : Bool) :
    (mainNodeCollision s config link loadCollision).1.nodeIDMap = s.nodeIDMap := by
  unfold mainNodeCollision; split <;> rfl

@[simp] theorem mainNodeCollision_jointIDMap (s : SMURF) (config : ConfigMap) (link : Link) (loadCollision : Bool) :
    (mainNodeCollision s config link loadCollision).1.jointIDMap = s.jointIDMap := by
  unfold mainNodeCollision; split <;> rfl

@[simp] theorem mainNodeCollision_visualNameMap (s : SMURF) (config : ConfigMap) (link : Link) (loadCollision : Bool) :
    (mainNodeCollision s config link loadCollision).1.visualNameMap = s.visualNameMap := by
  unfold mainNodeCollision; split <;> rfl

@[simp] theorem childNodeVisual_nextGroupID (s : SMURF) (childNode : ConfigMap) (link : Link) (p1 : Pose) (visualArrayIndex : Nat) (visual : Option Visual) :
    (childNodeVisual s childNode link p1 visualArrayIndex visual).1.nextGroupID = s.nextGroupID := by
  unfold childNodeVisual; split <;> rfl

@[simp] theorem childNodeVisual_nextNodeID (s : SMURF) (childNode : ConfigMap) (link : Link) (p1 : Pose) (visualArrayIndex : Nat) (visual : Option Visual) :
    (childNodeVisual s childNode link p1 visualArrayIndex visual).1.nextNodeID = s.nextNodeID := by
  unfold childNodeVisual; split <;> rfl

@[simp] theorem childNodeVisual_nextJointID (s : SMURF) (childNode : ConfigMap) (link : Link) (p1 : Pose) (visualArrayIndex : Nat) (visual : Option Visual) :
    (childNodeVisual s childNode link p1 visualArrayIndex visual).1.nextJointID = s.nextJointID := by
  unfold childNodeVisual; split <;> rfl

@[simp] theorem childNodeVisual_nodeList (s : SMURF) (childNode : ConfigMap) (link : Link) (p1 : Pose) (visualArrayIndex : Nat) (visual : Option Visual) :
    (childNodeVisual s childNode link p1 visualArrayIndex visual).1.nodeList = s.nodeList := by
  unfold childNodeVisual; split <;> rfl

@[simp] theorem childNodeVisual_jointList (s : SMURF) (childNode : ConfigMap) (link : Link) (p1 : Pose) (visualArrayIndex : Nat) (visual : Option Visual) :
    (childNodeVisual s childNode link p1 visualArrayIndex visual).1.jointList = s.jointList := by
  unfold childNodeVisual; split <;> rfl

@[simp] theorem childNodeVisual_nodeIDMap (s : SMURF) (childNode : ConfigMap) (link : Link) (p1 : Pose) (visualArrayIndex : Nat) (visual : Option Visual) :
    (childNodeVisual s childNode link p1 visualArrayIndex visual).1.nodeIDMap = s.nodeIDMap := by
  unfold childNodeVisual; split <;> rfl

@[simp] theorem childNodeVisual_jointIDMap (s : SMURF) (childNode : ConfigMap) (link : Link) (p1 : Pose) (visualArrayIndex : Nat) (visual : Option Visual) :
    (childNodeVisual s childNode link p1 visualArrayIndex visual).1.jointIDMap = s.jointIDMap := by
  unfold childNodeVisual; split <;> rfl

@[simp] theorem childNodeVisual_collisionNameMap (s : SMURF) (childNode : ConfigMap) (link : Link) (p1 : Pose) (visualArrayIndex : Nat) (visual : Option Visual) :
    (childNodeVisual s childNode link p1 visualArrayIndex visual).1.collisionNameMap = s.collisionNameMap := by
  unfold childNodeVisual; split <;> rfl

@[simp] theorem mainNodeGroupID_nextGroupID (s : SMURF) (config : ConfigMap) (needGroupID : Bool) :
    (mainNodeGroupID s config needGroupID).1.nextGroupID =
      if needGroupID then s.nextGroupID + 1 else s.nextGroupID := by
  unfold mainNodeGroupID; split <;> rfl

theorem mainNodeGroupID_record (s : SMURF) (config : ConfigMap) (needGroupID : Bool) :
    (mainNodeGroupID s config needGroupID).2 =
      config.assign "groupid"
        (if needGroupID then ConfigItem.ulong s.nextGroupID else ConfigItem.int 0) := by
  unfold mainNodeGroupID; split <;> rfl

@[simp] theorem calculatePose_nodeIDMap (s : SMURF) (map : ConfigMap)
    (parent : Option (Link × Joint)) (link : Link) :
    (calculatePose s map parent link).1.nodeIDMap =
      match parent with
      | some (pLink, _) => (s.nodeIDMap.index pLink.name).1
      | none => s.nodeIDMap := by
  unfold calculatePose; rcases parent with _ | ⟨pLink, joint⟩ <;> rfl

theorem calculatePose_find (s : SMURF) (map : ConfigMap) (parent : Option (Link × Joint))
    (link : Link) {k : String} (hk : k = "name" ∨ k = "index" ∨ k = "groupid") :
    (calculatePose s map parent link).2.find k = map.find k := by
  unfold calculatePose
  rcases hk with rfl | rfl | rfl <;> rcases parent with _ | ⟨pLink, joint⟩ <;>
    simp [StdMap.find_assign]

theorem calculatePose_relativeid (s : SMURF) (map : ConfigMap) (parent : Option (Link × Joint))
    (link : Link) :
    (calculatePose s map parent link).2.find "relativeid" =
      some (ConfigItem.ulong
        (match parent with
        | some (pLink, _) => (s.nodeIDMap.index pLink.name).2
        | none => 0)) := by
  unfold calculatePose
  rcases parent with _ | ⟨pLink, joint⟩ <;> simp [StdMap.find_assign]

theorem mainNodeVisual_find (s : SMURF) (config : ConfigMap) (link : Link) (loadVisual : Bool)
    {k : String} (hk : headerKey k) :
    (mainNodeVisual s config link loadVisual).2.1.find k = config.find k := by
  unfold mainNodeVisual
  split
  · have h1 : "visualposition" ≠ k := by rcases hk with rfl | rfl | rfl | rfl <;> decide
    have h2 : "visualrotation" ≠ k := by rcases hk with rfl | rfl | rfl | rfl <;> decide
    simp [StdMap.find_assign, h1, h2, handleVisual_find _ _ hk]
  · exact createFakeVisual_find _ hk

theorem mainNodeCollision_find (s : SMURF) (config : ConfigMap) (link : Link)
    (loadCollision : Bool) {k : String} (hk : headerKey k) :
    (mainNodeCollision s config link loadCollision).2.1.find k = config.find k := by
  unfold mainNodeCollision
  split
  · exact handleCollision_find _ _ hk
  · exact createFakeCollision_find _ hk

theorem childNodeVisual_find (s : SMURF) (childNode : ConfigMap) (link : Link) (p1 : Pose)
    (visualArrayIndex : Nat) (visual : Option Visual) {k : String} (hk : headerKey k) :
    (childNodeVisual s childNode link p1 visualArrayIndex visual).2.1.find k = childNode.find k := by
  unfold childNodeVisual
  split
  · have h1 : "visualposition" ≠ k := by rcases hk with rfl | rfl | rfl | rfl <;> decide
    have h2 : "visualrotation" ≠ k := by rcases hk with rfl | rfl | rfl | rfl <;> decide
    simp [StdMap.find_assign, h1, h2, handleVisual_find _ _ hk]
  · exact createFakeVisual_find _ hk

/-! ### The main node of a link -/

theorem handleMainNode_nodeList (s : SMURF) (p : Option (Link × Joint)) (link : Link) :
    (handleMainNode s p link).1.nodeList = s.nodeList ++ [(handleMainNode s p link).2.1] := by
  simp [handleMainNode]

@[simp] theorem handleMainNode_nextNodeID (s : SMURF) (p : Option (Link × Joint)) (link : Link) :
    (handleMainNode s p link).1.nextNodeID = s.nextNodeID + 1 := by
  simp [handleMainNode]

@[simp] theorem handleMainNode_nextJointID (s : SMURF) (p : Option (Link × Joint)) (link : Link) :
    (handleMainNode s p link).1.nextJointID = s.nextJointID := by
  simp [handleMainNode]

@[simp] theorem handleMainNode_jointList (s : SMURF) (p : Option (Link × Joint)) (link : Link) :
    (handleMainNode s p link).1.jointList = s.jointList := by
  simp [handleMainNode]

@[simp] theorem handleMainNode_jointIDMap (s : SMURF) (p : Option (Link × Joint)) (link : Link) :
    (handleMainNode s p link).1.jointIDMap = s.jointIDMap := by
  simp [handleMainNode]

@[simp] theorem handleMainNode_nextGroupID (s : SMURF) (p : Option (Link × Joint)) (link : Link) :
    (handleMainNode s p link).1.nextGroupID =
      if (specialCaseHandling link).1 then s.nextGroupID + 1 else s.nextGroupID := by
  simp [handleMainNode]

theorem handleMainNode_nodeIDMap (s : SMURF) (p : Option (Link × Joint)) (link : Link) :
    (handleMainNode s p link).1.nodeIDMap =
      match p with
      | some (pLink, _) => ((s.nodeIDMap.assign link.name s.nextNodeID).index pLink.name).1
      | none => s.nodeIDMap.assign link.name s.nextNodeID := by
  simp [handleMainNode]

theorem handleMainNode_index (s : SMURF) (p : Option (Link × Joint)) (link : Link) :
    (handleMainNode s p link).2.1.find "index" = some (ConfigItem.ulong s.nextNodeID) := by
  have hk : headerKey "index" := by simp [headerKey]
  simp [handleMainNode, mainNodeCollision_find _ _ _ _ hk, mainNodeVisual_find _ _ _ _ hk,
    calculatePose_find, handleInertial_find _ _ hk, mainNodeGroupID_record, StdMap.find_assign]

theorem handleMainNode_name (s : SMURF) (p : Option (Link × Joint)) (link : Link) :
    (handleMainNode s p link).2.1.find "name" = some (ConfigItem.string link.name) := by
  have hk : headerKey "name" := by simp [headerKey]
  simp [handleMainNode, mainNodeCollision_find _ _ _ _ hk, mainNodeVisual_find _ _ _ _ hk,
    calculatePose_find, handleInertial_find _ _ hk, mainNodeGroupID_record, StdMap.find_assign]

theorem handleMainNode_groupid (s : SMURF) (p : Option (Link × Joint)) (link : Link) :
    (handleMainNode s p link).2.1.find "groupid" =
      some (if (specialCaseHandling link).1 then ConfigItem.ulong s.nextGroupID
        else ConfigItem.int 0) := by
  have hk : headerKey "groupid" := by simp [headerKey]
  simp [handleMainNode, mainNodeCollision_find _ _ _ _ hk, mainNodeVisual_find _ _ _ _ hk,
    calculatePose_find, handleInertial_find _ _ hk, mainNodeGroupID_record, StdMap.find_assign]

theorem handleMainNode_relativeid (s : SMURF) (p : Option (Link × Joint)) (link : Link) :
    (handleMainNode s p link).2.1.find "relativeid" =
      some (ConfigItem.ulong
        (match p with
        | some (pLink, _) => ((s.nodeIDMap.assign link.name s.nextNodeID).index pLink.name).2
        | none => 0)) := by
  have hk : headerKey "relativeid" := by simp [headerKey]
  simp [handleMainNode, mainNodeCollision_find _ _ _ _ hk, mainNodeVisual_find _ _ _ _ hk,
    calculatePose_relativeid]

/-! ### The child nodes of a link -/

theorem childNodeVisual_record (s s' : SMURF) (childNode : ConfigMap) (link : Link) (p1 : Pose)
    (visualArrayIndex : Nat) (visual : Option Visual) :
    (childNodeVisual s childNode link p1 visualArrayIndex visual).2 =
      (childNodeVisual s' childNode link p1 visualArrayIndex visual).2 := by
  unfold childNodeVisual
  split <;> rfl

theorem childNodeVisual_index (s : SMURF) (childNode : ConfigMap) (link : Link) (p1 : Pose)
    (visualArrayIndex : Nat) (visual : Option Visual) :
    (childNodeVisual s childNode link p1 visualArrayIndex visual).2.2 =
      if visual.isSome then visualArrayIndex + 1 else visualArrayIndex := by
  unfold childNodeVisual
  split <;> rfl

theorem collisionChildNode_nodeList (s : SMURF) (link : Link) (config : ConfigMap)
    (visualArrayIndex : Nat) (collision : Collision) :
    (collisionChildNode s link config visualArrayIndex collision).1.nodeList =
      s.nodeList ++ [collisionChildEmitted s.nextNodeID link config visualArrayIndex collision] := by
  simp only [collisionChildNode, collisionChildEmitted, childNodeVisual_nodeList]
  rw [childNodeVisual_record _ {}]

theorem collisionChildNode_visualArrayIndex (s : SMURF) (link : Link) (config : ConfigMap)
    (visualArrayIndex : Nat) (collision : Collision) :
    (collisionChildNode s link config visualArrayIndex collision).2 =
      nextVisualArrayIndex link visualArrayIndex collision := by
  simp only [collisionChildNode, nextVisualArrayIndex, childNodeVisual_index]

@[simp] theorem collisionChildNode_nextNodeID (s : SMURF) (link : Link) (config : ConfigMap)
    (visualArrayIndex : Nat) (collision : Collision) :
    (collisionChildNode s link config visualArrayIndex collision).1.nextNodeID =
      s.nextNodeID + 1 := by
  simp [collisionChildNode]

@[simp] theorem collisionChildNode_nextGroupID (s : SMURF) (link : Link) (config : ConfigMap)
    (visualArrayIndex : Nat) (collision : Collision) :
    (collisionChildNode s link config visualArrayIndex collision).1.nextGroupID =
      s.nextGroupID := by
  simp [collisionChildNode]

@[simp] theorem collisionChildNode_nextJointID (s : SMURF) (link : Link) (config : ConfigMap)
    (visualArrayIndex : Nat) (collision : Collision) :
    (collisionChildNode s link config visualArrayIndex collision).1.nextJointID =
      s.nextJointID := by
  simp [collisionChildNode]

@[simp] theorem collisionChildNode_jointList (s : SMURF) (link : Link) (config : ConfigMap)
    (visualArrayIndex : Nat) (collision : Collision) :
    (collisionChildNode s link config visualArrayIndex collision).1.jointList = s.jointList := by
  simp [collisionChildNode]

@[simp] theorem collisionChildNode_jointIDMap (s : SMURF) (link : Link) (config : ConfigMap)
    (visualArrayIndex : Nat) (collision : Collision) :
    (collisionChildNode s link config visualArrayIndex collision).1.jointIDMap = s.jointIDMap := by
  simp [collisionChildNode]

theorem collisionChildNode_nodeIDMap (s : SMURF) (link : Link) (config : ConfigMap)
    (visualArrayIndex : Nat) (collision : Collision) :
    (collisionChildNode s link config visualArrayIndex collision).1.nodeIDMap =
      (s.nodeIDMap.assign (fieldString config "name" ++ "_child") s.nextNodeID).assign
        collision.name s.nextNodeID := by
  simp [collisionChildNode]

theorem collisionChildNodes_nodeList (link : Link) (config : ConfigMap) (s : SMURF)
    (visualArrayIndex : Nat) (collisions : List Collision) :
    (collisionChildNodes link config s visualArrayIndex collisions).1.nodeList =
      s.nodeList ++ collisionChildRecords link config s.nextNodeID visualArrayIndex collisions := by
  induction collisions generalizing s visualArrayIndex with
  | nil => simp [collisionChildNodes, collisionChildRecords]
  | cons c cs ih =>
    simp only [collisionChildNodes, collisionChildRecords]
    rw [ih, collisionChildNode_nodeList, collisionChildNode_visualArrayIndex,
      collisionChildNode_nextNodeID]
    simp

theorem collisionChildNodes_visualArrayIndex (link : Link) (config : ConfigMap) (s : SMURF)
    (visualArrayIndex : Nat) (collisions : List Collision) :
    (collisionChildNodes link config s visualArrayIndex collisions).2 =
      finalVisualArrayIndex link visualArrayIndex collisions := by
  induction collisions generalizing s visualArrayIndex with
  | nil => rfl
  | cons c cs ih =>
    simp only [collisionChildNodes, finalVisualArrayIndex]
    rw [ih, collisionChildNode_visualArrayIndex]

@[simp] theorem collisionChildNodes_nextNodeID (link : Link) (config : ConfigMap) (s : SMURF)
    (visualArrayIndex : Nat) (collisions : List Collision) :
    (collisionChildNodes link config s visualArrayIndex collisions).1.nextNodeID =
      s.nextNodeID + collisions.length := by
  induction collisions generalizing s visualArrayIndex with
  | nil => rfl
  | cons c cs ih =>
    simp only [collisionChildNodes, List.length_cons]
    rw [ih, collisionChildNode_nextNodeID]
    omega

@[simp] theorem collisionChildNodes_nextGroupID (link : Link) (config : ConfigMap) (s : SMURF)
    (visualArrayIndex : Nat) (collisions : List Collision) :
    (collisionChildNodes link config s visualArrayIndex collisions).1.nextGroupID =
      s.nextGroupID := by
  induction collisions generalizing s visualArrayIndex with
  | nil => rfl
  | cons c cs ih => simp only [collisionChildNodes]; rw [ih, collisionChildNode_nextGroupID]

@[simp] theorem collisionChildNodes_nextJointID (link : Link) (config : ConfigMap) (s : SMURF)
    (visualArrayIndex : Nat) (collisions : List Collision) :
    (collisionChildNodes link config s visualArrayIndex collisions).1.nextJointID =
      s.nextJointID := by
  induction collisions generalizing s visualArrayIndex with
  | nil => rfl
  | cons c cs ih => simp only [collisionChildNodes]; rw [ih, collisionChildNode_nextJointID]

@[simp] theorem collisionChildNodes_jointList (link : Link) (config : ConfigMap) (s : SMURF)
    (visualArrayIndex : Nat) (collisions : List Collision) :
    (collisionChildNodes link config s visualArrayIndex collisions).1.jointList = s.jointList := by
  induction collisions generalizing s visualArrayIndex with
  | nil => rfl
  | cons c cs ih => simp only [collisionChildNodes]; rw [ih, collisionChildNode_jointList]

@[simp] theorem collisionChildNodes_jointIDMap (link : Link) (config : ConfigMap) (s : SMURF)
    (visualArrayIndex : Nat) (collisions : List Collision) :
    (collisionChildNodes link config s visualArrayIndex collisions).1.jointIDMap =
      s.jointIDMap := by
  induction collisions generalizing s visualArrayIndex with
  | nil => rfl
  | cons c cs ih => simp only [collisionChildNodes]; rw [ih, collisionChildNode_jointIDMap]

theorem visualChildNode_nodeList (s : SMURF) (link : Link) (config : ConfigMap) (visual : Visual) :
    (visualChildNode s link config visual).nodeList =
      s.nodeList ++ [visualChildRecord s.nextNodeID link config visual] := by
  unfold visualChildNode
  split <;> rfl

@[simp] theorem visualChildNode_nextNodeID (s : SMURF) (link : Link) (config : ConfigMap)
    (visual : Visual) : (visualChildNode s link config visual).nextNodeID = s.nextNodeID + 1 := by
  unfold visualChildNode
  split <;> rfl

@[simp] theorem visualChildNode_nextGroupID (s : SMURF) (link : Link) (config : ConfigMap)
    (visual : Visual) : (visualChildNode s link config visual).nextGroupID = s.nextGroupID := by
  unfold visualChildNode
  split <;> rfl

@[simp] theorem visualChildNode_nextJointID (s : SMURF) (link : Link) (config : ConfigMap)
    (visual : Visual) : (visualChildNode s link config visual).nextJointID = s.nextJointID := by
  unfold visualChildNode
  split <;> rfl

@[simp] theorem visualChildNode_jointList (s : SMURF) (link : Link) (config : ConfigMap)
    (visual : Visual) : (visualChildNode s link config visual).jointList = s.jointList := by
  unfold visualChildNode
  split <;> rfl

@[simp] theorem visualChildNode_jointIDMap (s : SMURF) (link : Link) (config : ConfigMap)
    (visual : Visual) : (visualChildNode s link config visual).jointIDMap = s.jointIDMap := by
  unfold visualChildNode
  split <;> rfl

@[simp] theorem visualChildNode_nodeIDMap (s : SMURF) (link : Link) (config : ConfigMap)
    (visual : Visual) : (visualChildNode s link config visual).nodeIDMap = s.nodeIDMap := by
  unfold visualChildNode
  split <;> rfl

theorem visualChildNodes_nodeList (link : Link) (config : ConfigMap) (s : SMURF)
    (visuals : List Visual) :
    (visualChildNodes link config s visuals).nodeList =
      s.nodeList ++ visualChildRecords link config s.nextNodeID visuals := by
  induction visuals generalizing s with
  | nil => simp [visualChildNodes, visualChildRecords]
  | cons v vs ih =>
    simp only [visualChildNodes, visualChildRecords]
    rw [ih, visualChildNode_nodeList, visualChildNode_nextNodeID]
    simp

@[simp] theorem visualChildNodes_nextNodeID (link : Link) (config : ConfigMap) (s : SMURF)
    (visuals : List Visual) :
    (visualChildNodes link config s visuals).nextNodeID = s.nextNodeID + visuals.length := by
  induction visuals generalizing s with
  | nil => rfl
  | cons v vs ih =>
    simp only [visualChildNodes, List.length_cons]
    rw [ih, visualChildNode_nextNodeID]
    omega

@[simp] theorem visualChildNodes_nextGroupID (link : Link) (config : ConfigMap) (s : SMURF)
    (visuals : List Visual) :
    (visualChildNodes link config s visuals).nextGroupID = s.nextGroupID := by
  induction visuals generalizing s with
  | nil => rfl
  | cons v vs ih => simp only [visualChildNodes]; rw [ih, visualChildNode_nextGroupID]

@[simp] theorem visualChildNodes_nextJointID (link : Link) (config : ConfigMap) (s : SMURF)
    (visuals : List Visual) :
    (visualChildNodes link config s visuals).nextJointID = s.nextJointID := by
  induction visuals generalizing s with
  | nil => rfl
  | cons v vs ih => simp only [visualChildNodes]; rw [ih, visualChildNode_nextJointID]

@[simp] theorem visualChildNodes_jointList (link : Link) (config : ConfigMap) (s : SMURF)
    (visuals : List Visual) :
    (visualChildNodes link config s visuals).jointList = s.jointList := by
  induction visuals generalizing s with
  | nil => rfl
  | cons v vs ih => simp only [visualChildNodes]; rw [ih, visualChildNode_jointList]

@[simp] theorem visualChildNodes_jointIDMap (link : Link) (config : ConfigMap) (s : SMURF)
    (visuals : List Visual) :
    (visualChildNodes link config s visuals).jointIDMap = s.jointIDMap := by
  induction visuals generalizing s with
  | nil => rfl
  | cons v vs ih => simp only [visualChildNodes]; rw [ih, visualChildNode_jointIDMap]

@[simp] theorem visualChildNodes_nodeIDMap (link : Link) (config : ConfigMap) (s : SMURF)
    (visuals : List Visual) :
    (visualChildNodes link config s visuals).nodeIDMap = s.nodeIDMap := by
  induction visuals generalizing s with
  | nil => rfl
  | cons v vs ih => simp only [visualChildNodes]; rw [ih, visualChildNode_nodeIDMap]

theorem collisionChildRecords_length (link : Link) (config : ConfigMap) (index vi : Nat)
    (collisions : List Collision) :
    (collisionChildRecords link config index vi collisions).length = collisions.length := by
  induction collisions generalizing index vi with
  | nil => rfl
  | cons c cs ih => simp [collisionChildRecords, ih]

theorem visualChildRecords_length (link : Link) (config : ConfigMap) (index : Nat)
    (visuals : List Visual) :
    (visualChildRecords link config index visuals).length = visuals.length := by
  induction visuals generalizing index with
  | nil => rfl
  | cons v vs ih => simp [visualChildRecords, ih]

/-! ### Consecutive ids -/

theorem indexedFrom_nil (start : Nat) : indexedFrom start [] := by
  simp [indexedFrom]

theorem indexedFrom_cons (start : Nat) (r : ConfigMap) (rs : List ConfigMap) :
    indexedFrom start (r :: rs) ↔
      r.find "index" = some (ConfigItem.ulong start) ∧ indexedFrom (start + 1) rs := by
  simp [indexedFrom, List.range'_succ]

theorem indexedFrom_append (start : Nat) (as bs : List ConfigMap) :
    indexedFrom start (as ++ bs) ↔ indexedFrom start as ∧ indexedFrom (start + as.length) bs := by
  induction as generalizing start with
  | nil => simp [indexedFrom_nil]
  | cons a as ih =>
    simp only [List.cons_append, indexedFrom_cons, ih, List.length_cons, and_assoc]
    have : start + 1 + as.length = start + (as.length + 1) := by omega
    rw [this]

theorem indexedFrom_getElem {start : Nat} {records : List ConfigMap}
    (h : indexedFrom start records) (k : Nat) (hk : k < records.length) :
    records[k].find "index" = some (ConfigItem.ulong (start + k)) := by
  have h1 := congrArg (fun l => l[k]?) h
  simp only [List.getElem?_map, List.getElem?_eq_getElem hk, Option.map_some'] at h1
  have h2 : (List.range' start records.length)[k]? = some (start + k) := by
    rw [List.getElem?_eq_getElem (by simpa using hk)]
    simp
  rw [h2] at h1
  simpa using h1

theorem collisionChildRecord_index (index : Nat) (link : Link) (config : ConfigMap)
    (collision : Collision) :
    (collisionChildRecord index link config collision).find "index" =
      some (ConfigItem.ulong index) := by
  have hk : headerKey "index" := by simp [headerKey]
  unfold collisionChildRecord
  split <;> simp [StdMap.find_assign, handleCollision_find _ _ hk]

theorem collisionChildRecord_relativeid (index : Nat) (link : Link) (config : ConfigMap)
    (collision : Collision) :
    (collisionChildRecord index link config collision).find "relativeid" =
      some ((config.find "index").getD (ConfigItem.ulong 0)) := by
  have hk : headerKey "relativeid" := by simp [headerKey]
  unfold collisionChildRecord
  split <;> simp [StdMap.find_assign, handleCollision_find _ _ hk]

theorem collisionChildRecord_groupid (index : Nat) (link : Link) (config : ConfigMap)
    (collision : Collision) :
    (collisionChildRecord index link config collision).find "groupid" =
      some ((config.find "groupid").getD (ConfigItem.ulong 0)) := by
  have hk : headerKey "groupid" := by simp [headerKey]
  unfold collisionChildRecord
  split <;> simp [StdMap.find_assign, handleCollision_find _ _ hk]

theorem collisionChildRecord_name (index : Nat) (link : Link) (config : ConfigMap)
    (collision : Collision) :
    (collisionChildRecord index link config collision).find "name" =
      some (ConfigItem.string
        (if collision.name = "" then fieldString config "name" ++ "_child"
          else collision.name)) := by
  have hk : headerKey "name" := by simp [headerKey]
  unfold collisionChildRecord
  split <;> simp [StdMap.find_assign, handleCollision_find _ _ hk, *]

theorem collisionChildEmitted_find (index : Nat) (link : Link) (config : ConfigMap)
    (visualArrayIndex : Nat) (collision : Collision) {k : String} (hk : headerKey k) :
    (collisionChildEmitted index link config visualArrayIndex collision).find k =
      (collisionChildRecord index link config collision).find k := by
  unfold collisionChildEmitted
  exact childNodeVisual_find _ _ _ _ _ _ hk

theorem visualChildRecord_index (index : Nat) (link : Link) (config : ConfigMap)
    (visual : Visual) :
    (visualChildRecord index link config visual).find "index" = some (ConfigItem.ulong index) := by
  have hk : headerKey "index" := by simp [headerKey]
  unfold visualChildRecord
  split <;> simp [StdMap.find_assign, handleVisual_find _ _ hk]

theorem visualChildRecord_relativeid (index : Nat) (link : Link) (config : ConfigMap)
    (visual : Visual) :
    (visualChildRecord index link config visual).find "relativeid" =
      some ((config.find "index").getD (ConfigItem.ulong 0)) := by
  have hk : headerKey "relativeid" := by simp [headerKey]
  unfold visualChildRecord
  split <;> simp [StdMap.find_assign, handleVisual_find _ _ hk]

theorem visualChildRecord_groupid (index : Nat) (link : Link) (config : ConfigMap)
    (visual : Visual) :
    (visualChildRecord index link config visual).find "groupid" =
      some ((config.find "groupid").getD (ConfigItem.ulong 0)) := by
  have hk : headerKey "groupid" := by simp [headerKey]
  unfold visualChildRecord
  split <;> simp [StdMap.find_assign, handleVisual_find _ _ hk]

theorem visualChildRecord_name (index : Nat) (link : Link) (config : ConfigMap)
    (visual : Visual) :
    (visualChildRecord index link config visual).find "name" =
      some (ConfigItem.string
        (if visual.name = "" then fieldString config "name" ++ "_child" else visual.name)) := by
  have hk : headerKey "name" := by simp [headerKey]
  unfold visualChildRecord
  split <;> simp [StdMap.find_assign, handleVisual_find _ _ hk, *]

theorem collisionChildRecords_indexed (link : Link) (config : ConfigMap) (index vi : Nat)
    (collisions : List Collision) :
    indexedFrom index (collisionChildRecords link config index vi collisions) := by
  induction collisions generalizing index vi with
  | nil => exact indexedFrom_nil _
  | cons c cs ih =>
    simp only [collisionChildRecords, indexedFrom_cons]
    refine ⟨?_, ih _ _⟩
    rw [collisionChildEmitted_find _ _ _ _ _ (by simp [headerKey]), collisionChildRecord_index]

theorem visualChildRecords_indexed (link : Link) (config : ConfigMap) (index : Nat)
    (visuals : List Visual) :
    indexedFrom index (visualChildRecords link config index visuals) := by
  induction visuals generalizing index with
  | nil => exact indexedFrom_nil _
  | cons v vs ih =>
    simp only [visualChildRecords, indexedFrom_cons]
    exact ⟨visualChildRecord_index _ _ _ _, ih _⟩

theorem linkRecords_indexed (s : SMURF) (parent : Option (Link × Joint)) (link : Link) :
    indexedFrom s.nextNodeID (linkRecords s parent link) := by
  simp only [linkRecords, indexedFrom_cons, indexedFrom_append, collisionChildRecords_length]
  exact ⟨handleMainNode_index _ _ _, collisionChildRecords_indexed _ _ _ _ _,
    visualChildRecords_indexed _ _ _ _⟩

/-! ### The joint of a link and the whole link -/

@[simp] theorem handleParentJoint_nodeList (s : SMURF) (ancestors : List (Link × Joint)) :
    (handleParentJoint s ancestors).nodeList = s.nodeList := by
  unfold handleParentJoint
  split <;> rfl

@[simp] theorem handleParentJoint_nextNodeID (s : SMURF) (ancestors : List (Link × Joint)) :
    (handleParentJoint s ancestors).nextNodeID = s.nextNodeID := by
  unfold handleParentJoint
  split <;> rfl

@[simp] theorem handleParentJoint_nextGroupID (s : SMURF) (ancestors : List (Link × Joint)) :
    (handleParentJoint s ancestors).nextGroupID = s.nextGroupID := by
  unfold handleParentJoint
  split <;> rfl

theorem jointRecord_index (index nodeindex1 nodeindex2 : Nat) (ancestors : List (Link × Joint))
    (parent_joint : Joint) :
    (jointRecord index nodeindex1 nodeindex2 ancestors parent_joint).find "index" =
      some (ConfigItem.ulong index) := by
  unfold jointRecord
  cases parent_joint.limits <;> simp only [] <;> split_ifs <;> simp [StdMap.find_assign]

theorem handleParentJoint_jointList (s : SMURF) (ancestors : List (Link × Joint)) :
    ∃ joints, (handleParentJoint s ancestors).jointList = s.jointList ++ joints ∧
      indexedFrom s.nextJointID joints ∧
      (handleParentJoint s ancestors).nextJointID = s.nextJointID + joints.length ∧
      joints.length = if ancestors.isEmpty then 0 else 1 := by
  unfold handleParentJoint
  split
  · exact ⟨[], by simp, indexedFrom_nil _, rfl, rfl⟩
  · refine ⟨[_], rfl, ?_, rfl, rfl⟩
    simp [indexedFrom_cons, indexedFrom_nil, jointRecord_index]

theorem handleLink_nodeList (s : SMURF) (ancestors : List (Link × Joint)) (link : Link) :
    (handleLink s ancestors link).nodeList = s.nodeList ++ linkRecords s ancestors.head? link := by
  simp only [handleLink, handleParentJoint_nodeList, visualChildNodes_nodeList,
    collisionChildNodes_nodeList, handleMainNode_nodeList, collisionChildNodes_visualArrayIndex,
    collisionChildNodes_nextNodeID, handleMainNode_nextNodeID, linkRecords]
  simp

theorem handleLink_nextNodeID (s : SMURF) (ancestors : List (Link × Joint)) (link : Link) :
    (handleLink s ancestors link).nextNodeID =
      s.nextNodeID + (linkRecords s ancestors.head? link).length := by
  simp only [handleLink, handleParentJoint_nextNodeID, visualChildNodes_nextNodeID,
    collisionChildNodes_nextNodeID, handleMainNode_nextNodeID, linkRecords,
    collisionChildNodes_visualArrayIndex, List.length_cons, List.length_append,
    collisionChildRecords_length, visualChildRecords_length]
  omega

theorem handleLink_jointList (s : SMURF) (ancestors : List (Link × Joint)) (link : Link) :
    ∃ joints, (handleLink s ancestors link).jointList = s.jointList ++ joints ∧
      indexedFrom s.nextJointID joints ∧
      (handleLink s ancestors link).nextJointID = s.nextJointID + joints.length ∧
      joints.length = if ancestors.isEmpty then 0 else 1 := by
  have h := handleParentJoint_jointList
    (visualChildNodes link (handleMainNode s ancestors.head? link).2.1
      (collisionChildNodes link (handleMainNode s ancestors.head? link).2.1
        (handleMainNode s ancestors.head? link).1 (handleMainNode s ancestors.head? link).2.2.1
        (link.collision_array.drop (handleMainNode s ancestors.head? link).2.2.2)).1
      (link.visual_array.drop
        (collisionChildNodes link (handleMainNode s ancestors.head? link).2.1
          (handleMainNode s ancestors.head? link).1 (handleMainNode s ancestors.head? link).2.2.1
          (link.collision_array.drop (handleMainNode s ancestors.head? link).2.2.2)).2))
    ancestors
  simpa [handleLink] using h

theorem handleLink_idsInOrder (s : SMURF) (ancestors : List (Link × Joint)) (link : Link)
    (h : idsInOrder s) : idsInOrder (handleLink s ancestors link) := by
  obtain ⟨hn, hnn, hj, hjn⟩ := h
  obtain ⟨joints, hjl, hji, hjnext, -⟩ := handleLink_jointList s ancestors link
  refine ⟨?_, ?_, ?_, ?_⟩
  · rw [handleLink_nodeList, indexedFrom_append]
    refine ⟨hn, ?_⟩
    have := linkRecords_indexed s ancestors.head? link
    rwa [hnn, Nat.add_comm] at this
  · rw [handleLink_nextNodeID, handleLink_nodeList, hnn, List.length_append]
    omega
  · rw [hjl, indexedFrom_append]
    refine ⟨hj, ?_⟩
    rwa [hjn, Nat.add_comm] at hji
  · rw [hjnext, hjl, hjn, List.length_append]
    omega

/-! ### The walk over the tree -/

/-- A property of the state that every link body preserves is preserved by the
whole recursive walk. -/
theorem handleKinematics_preserves (P : SMURF → Prop)
    (hP : ∀ s ancestors link, P s → P (handleLink s ancestors link))
    (s : SMURF) (ancestors : List (Link × Joint)) (link : Link) (hs : P s) :
    P (handleKinematics s ancestors link) := by
  refine handleKinematics.induct (fun s ancestors link => P s → P (handleKinematics s ancestors link))
    (fun s ancestors link children => P s → P (handleChildLinks s ancestors link children))
    ?_ ?_ ?_ s ancestors link hs
  · intro s ancestors n i v c va ca cl link ih h
    simp only [handleKinematics]
    exact ih (hP _ _ _ h)
  · intro s ancestors link h
    simpa [handleChildLinks] using h
  · intro s ancestors link joint child rest ih1 ih2 h
    simp only [handleChildLinks]
    exact ih2 (ih1 h)

theorem createFakeMaterial_idsInOrder (s : SMURF) (h : idsInOrder s) :
    idsInOrder (createFakeMaterial s) := h

theorem handleMaterial_idsInOrder (s : SMURF) (material : Material) (h : idsInOrder s) :
    idsInOrder (handleMaterial s material) := h

theorem foldl_handleMaterial_idsInOrder (materials : List Material) (s : SMURF)
    (h : idsInOrder s) : idsInOrder (materials.foldl handleMaterial s) := by
  induction materials generalizing s with
  | nil => exact h
  | cons m ms ih => exact ih _ (handleMaterial_idsInOrder s m h)

theorem reset_idsInOrder (s : SMURF) (maxGroupID : Nat) : idsInOrder (reset s maxGroupID) := by
  simp [idsInOrder, reset, indexedFrom_nil]

theorem createModel_idsInOrder (s : SMURF) (model : ModelInterface) (h : idsInOrder s) :
    idsInOrder (createModel s model) := by
  unfold createModel
  refine handleKinematics_preserves idsInOrder handleLink_idsInOrder _ _ _ ?_
  refine foldl_handleMaterial_idsInOrder _ _ (createFakeMaterial_idsInOrder _ ?_)
  split
  · exact h
  · exact h

/-- C1: after `reset` and `createModel` on any model, the `k`-th record of
`nodeList` and the `k`-th record of `jointList` (counting from 1) carry the
index `k`, and the counters point past the last id: ids start at 1, increase by
one in emission order, and 0 is never assigned. -/
theorem createModel_ids_consecutive (s : SMURF) (maxGroupID : Nat) (model : ModelInterface) :
    (∀ (k : Nat) (hk : k < (createModel (reset s maxGroupID) model).nodeList.length),
      ((createModel (reset s maxGroupID) model).nodeList[k]).find "index" =
        some (ConfigItem.ulong (k + 1))) ∧
    (∀ (k : Nat) (hk : k < (createModel (reset s maxGroupID) model).jointList.length),
      ((createModel (reset s maxGroupID) model).jointList[k]).find "index" =
        some (ConfigItem.ulong (k + 1))) ∧
    (createModel (reset s maxGroupID) model).nextNodeID =
      (createModel (reset s maxGroupID) model).nodeList.length + 1 ∧
    (createModel (reset s maxGroupID) model).nextJointID =
      (createModel (reset s maxGroupID) model).jointList.length + 1 := by
  obtain ⟨hn, hnn, hj, hjn⟩ := createModel_idsInOrder _ model (reset_idsInOrder s maxGroupID)
  refine ⟨fun k hk => ?_, fun k hk => ?_, hnn, hjn⟩
  · rw [indexedFrom_getElem hn k hk, Nat.add_comm]
  · rw [indexedFrom_getElem hj k hk, Nat.add_comm]

/-! ### The special cases of a link -/

theorem specialCaseHandling_needGroupID (link : Link) :
    (specialCaseHandling link).1 = true ↔
      (1 < link.visual_array.length ∨ 1 < link.collision_array.length) ∨
      (∃ c i, link.collision = some c ∧ link.inertial = some i ∧
        isEqualPos c.origin i.origin = false) ∨
      (∃ v c, link.visual = some v ∧ link.collision = some c ∧ c.geometry.isMesh = true ∧
        v.geometry.isMesh = true ∧ c.geometry.meshFilename ≠ v.geometry.meshFilename) ∨
      (∃ v c, link.visual = some v ∧ link.collision = some c ∧ c.geometry.isMesh = true ∧
        v.geometry.isMesh = false) := by
  obtain ⟨name, inertial, visual, collision, va, ca, cl⟩ := link
  simp only [specialCaseHandling, Link.visual, Link.collision, Link.inertial, Link.visual_array,
    Link.collision_array]
  rcases collision with _ | c
  · by_cases hlen : 1 < va.length ∨ 1 < ca.length
    · rcases visual with _ | v <;> rcases inertial with _ | i <;> simp [hlen]
    · have hlen' := hlen
      rw [not_or] at hlen'
      rcases visual with _ | v <;> rcases inertial with _ | i <;>
        simp [hlen, hlen'.1, hlen'.2]
  · rcases inertial with _ | i
    · by_cases hlen : 1 < va.length ∨ 1 < ca.length
      · rcases visual with _ | v <;> simp [hlen] <;> (try split_ifs) <;> simp_all
      · have hlen' := hlen
        rw [not_or] at hlen'
        rcases visual with _ | v <;>
          simp only [hlen, hlen'.1, hlen'.2] <;> (try split_ifs) <;> simp_all
    · simp only [Option.some.injEq, exists_and_left, exists_eq_left']
      generalize isEqualPos c.origin i.origin = b
      by_cases hlen : 1 < va.length ∨ 1 < ca.length
      · rcases visual with _ | v <;> cases b <;> simp [hlen] <;> (try split_ifs) <;> simp_all
      · have hlen' := hlen
        rw [not_or] at hlen'
        rcases visual with _ | v <;> cases b <;>
          simp only [hlen, hlen'.1, hlen'.2] <;> (try split_ifs) <;> simp_all

theorem specialCaseHandling_loadCollision (link : Link) :
    (specialCaseHandling link).2.2 = true ↔
      ∃ c, link.collision = some c ∧
        ∀ i, link.inertial = some i → isEqualPos c.origin i.origin = true := by
  obtain ⟨name, inertial, visual, collision, va, ca, cl⟩ := link
  simp only [specialCaseHandling, Link.visual, Link.collision, Link.inertial, Link.visual_array,
    Link.collision_array]
  rcases visual with _ | v <;> rcases collision with _ | c <;> rcases inertial with _ | i <;>
    simp only [] <;> (try split_ifs) <;> simp_all

theorem specialCaseHandling_loadVisual (link : Link) :
    (specialCaseHandling link).2.1 = true ↔
      ∃ v, link.visual = some v ∧
        ∀ c, link.collision = some c → (specialCaseHandling link).2.2 = true →
          c.geometry.isMesh = true →
            v.geometry.isMesh = true ∧ c.geometry.meshFilename = v.geometry.meshFilename := by
  obtain ⟨name, inertial, visual, collision, va, ca, cl⟩ := link
  simp only [specialCaseHandling, Link.visual, Link.collision, Link.inertial, Link.visual_array,
    Link.collision_array]
  rcases visual with _ | v <;> rcases collision with _ | c <;> rcases inertial with _ | i <;>
    simp only [] <;> (try split_ifs) <;> simp_all

theorem mainNodeVisual_visualArrayIndex (s : SMURF) (config : ConfigMap) (link : Link)
    (loadVisual : Bool) :
    (mainNodeVisual s config link loadVisual).2.2 =
      if loadVisual && link.visual.isSome then 1 else 0 := by
  unfold mainNodeVisual
  cases loadVisual <;> cases link.visual <;> rfl

theorem mainNodeCollision_collisionArrayIndex (s : SMURF) (config : ConfigMap) (link : Link)
    (loadCollision : Bool) :
    (mainNodeCollision s config link loadCollision).2.2 =
      if loadCollision && link.collision.isSome then 1 else 0 := by
  unfold mainNodeCollision
  cases loadCollision <;> cases link.collision <;> rfl

theorem handleMainNode_visualArrayIndex (s : SMURF) (p : Option (Link × Joint)) (link : Link) :
    (handleMainNode s p link).2.2.1 = if (specialCaseHandling link).2.1 then 1 else 0 := by
  simp only [handleMainNode, mainNodeVisual_visualArrayIndex]
  cases h : (specialCaseHandling link).2.1
  · rfl
  · obtain ⟨v, hv, -⟩ := (specialCaseHandling_loadVisual link).mp h
    simp [hv]

theorem handleMainNode_collisionArrayIndex (s : SMURF) (p : Option (Link × Joint)) (link : Link) :
    (handleMainNode s p link).2.2.2 = if (specialCaseHandling link).2.2 then 1 else 0 := by
  simp only [handleMainNode, mainNodeCollision_collisionArrayIndex]
  cases h : (specialCaseHandling link).2.2
  · rfl
  · obtain ⟨c, hc, -⟩ := (specialCaseHandling_loadCollision link).mp h
    simp [hc]

/-! ### The shape fields of the records -/

theorem handleVisual_find_visualKey (map : ConfigMap) (visual : Visual) {k : String}
    (hk : visualKey k) : (handleVisual map visual).find k = (handleVisual [] visual).find k := by
  unfold handleVisual
  rcases hk with rfl | rfl | rfl | rfl | rfl <;> cases visual.geometry <;>
    simp [StdMap.find_assign]

theorem handleCollision_find_collisionKey (map : ConfigMap) (c : Collision) {k : String}
    (hk : collisionKey k) : (handleCollision map c).find k = (handleCollision [] c).find k := by
  unfold handleCollision
  rcases hk with rfl | rfl | rfl <;> cases c.geometry <;> simp [StdMap.find_assign]

theorem handleCollision_find_visualKey (map : ConfigMap) (c : Collision) {k : String}
    (hk : visualKey k) (hc : c.geometry.isMesh = false) :
    (handleCollision map c).find k = map.find k := by
  unfold handleCollision
  rcases hk with rfl | rfl | rfl | rfl | rfl <;> cases hg : c.geometry <;>
    simp_all [StdMap.find_assign, Geometry.isMesh]

theorem handleVisual_find_collisionKey (map : ConfigMap) (visual : Visual) {k : String}
    (hk : collisionKey k) : (handleVisual map visual).find k = map.find k := by
  unfold handleVisual
  rcases hk with rfl | rfl | rfl <;> cases visual.geometry <;> simp [StdMap.find_assign]

theorem createFakeVisual_find_collisionKey (map : ConfigMap) {k : String} (hk : collisionKey k) :
    (createFakeVisual map).find k = map.find k := by
  unfold createFakeVisual
  rcases hk with rfl | rfl | rfl <;> simp [StdMap.find_assign]

theorem createFakeVisual_filename (map : ConfigMap) :
    (createFakeVisual map).find "filename" = some (ConfigItem.string "PRIMITIVE") := by
  simp [createFakeVisual, StdMap.find_assign]

theorem createFakeVisual_materialName (map : ConfigMap) :
    (createFakeVisual map).find "materialName" = some (ConfigItem.string "_fakeMaterial") := by
  simp [createFakeVisual, StdMap.find_assign]

theorem createFakeCollision_find_visualKey (map : ConfigMap) {k : String} (hk : visualKey k) :
    (createFakeCollision map).find k = map.find k := by
  unfold createFakeCollision
  rcases hk with rfl | rfl | rfl | rfl | rfl <;> simp [StdMap.find_assign]

theorem handleCollision_find_visualKey_of_handleVisual (map : ConfigMap) (c : Collision)
    (v : Visual) {k : String} (hk : visualKey k)
    (h : c.geometry.isMesh = true →
      v.geometry.isMesh = true ∧ c.geometry.meshFilename = v.geometry.meshFilename)
    (hmap : map.find k = (handleVisual [] v).find k) :
    (handleCollision map c).find k = (handleVisual [] v).find k := by
  cases hc : c.geometry.isMesh
  · rw [handleCollision_find_visualKey _ _ hk hc, hmap]
  · obtain ⟨hv, hf⟩ := h hc
    rw [← hmap]
    revert hmap
    unfold handleCollision handleVisual
    rcases hk with rfl | rfl | rfl | rfl | rfl <;> cases hg : c.geometry <;>
      cases hg' : v.geometry <;>
      simp_all [StdMap.find_assign, Geometry.isMesh, Geometry.meshFilename]

theorem handleMainNode_find_collisionKey (s : SMURF) (p : Option (Link × Joint)) (link : Link)
    (c : Collision) (hl : (specialCaseHandling link).2.2 = true) (hc : link.collision = some c)
    {k : String} (hk : collisionKey k) :
    (handleMainNode s p link).2.1.find k = (handleCollision [] c).find k := by
  simp only [handleMainNode, mainNodeCollision, hl, hc]
  exact handleCollision_find_collisionKey _ _ hk

theorem handleMainNode_find_visualKey (s : SMURF) (p : Option (Link × Joint)) (link : Link)
    (v : Visual) (hl : (specialCaseHandling link).2.1 = true) (hv : link.visual = some v)
    {k : String} (hk : visualKey k) :
    (handleMainNode s p link).2.1.find k = (handleVisual [] v).find k := by
  have h1 : "visualposition" ≠ k := by rcases hk with rfl | rfl | rfl | rfl | rfl <;> decide
  have h2 : "visualrotation" ≠ k := by rcases hk with rfl | rfl | rfl | rfl | rfl <;> decide
  obtain ⟨v', hv', hmesh⟩ := (specialCaseHandling_loadVisual link).mp hl
  obtain rfl : v' = v := by rw [hv] at hv'; exact (Option.some.inj hv').symm
  simp only [handleMainNode]
  have hvis : ∀ (s' : SMURF) (cfg : ConfigMap),
      (mainNodeVisual s' cfg link (specialCaseHandling link).2.1).2.1.find k =
        (handleVisual [] v').find k := by
    intro s' cfg
    simp only [mainNodeVisual, hl, hv, StdMap.find_assign, h1, h2, if_false]
    exact handleVisual_find_visualKey _ _ hk
  cases hlc : (specialCaseHandling link).2.2
  · rcases hcol : link.collision with _ | c <;>
      simp only [mainNodeCollision, hcol] <;>
      rw [createFakeCollision_find_visualKey _ hk] <;> exact hvis _ _
  · obtain ⟨c, hc, -⟩ := (specialCaseHandling_loadCollision link).mp hlc
    simp only [mainNodeCollision, hc]
    exact handleCollision_find_visualKey_of_handleVisual _ c v' hk
      (fun hm => hmesh c hc hlc hm) (hvis _ _)

/-! ### The group counter -/

theorem handleLink_nextGroupID (s : SMURF) (ancestors : List (Link × Joint)) (link : Link) :
    (handleLink s ancestors link).nextGroupID =
      if (specialCaseHandling link).1 then s.nextGroupID + 1 else s.nextGroupID := by
  simp only [handleLink, handleParentJoint_nextGroupID, visualChildNodes_nextGroupID,
    collisionChildNodes_nextGroupID, handleMainNode_nextGroupID]

theorem handleLink_nextGroupID_pos (s : SMURF) (ancestors : List (Link × Joint)) (link : Link)
    (h : 0 < s.nextGroupID) : 0 < (handleLink s ancestors link).nextGroupID := by
  rw [handleLink_nextGroupID]
  split <;> omega

/-- The group counter is at least 1 after `reset` and stays so during the whole
conversion, whatever the simulation's largest group id. -/
theorem createModel_nextGroupID_pos (s : SMURF) (maxGroupID : Nat) (model : ModelInterface) :
    0 < (reset s maxGroupID).nextGroupID ∧
      0 < (createModel (reset s maxGroupID) model).nextGroupID := by
  have h0 : 0 < (reset s maxGroupID).nextGroupID := Nat.succ_pos _
  refine ⟨h0, ?_⟩
  unfold createModel
  refine handleKinematics_preserves (fun s => 0 < s.nextGroupID) handleLink_nextGroupID_pos _ _ _ ?_
  have hfold : ∀ (ms : List Material) (t : SMURF),
      (ms.foldl handleMaterial t).nextGroupID = t.nextGroupID := by
    intro ms
    induction ms with
    | nil => intro t; rfl
    | cons m ms ih => intro t; exact ih (handleMaterial t m)
  show 0 < (model.materials_.foldl handleMaterial _).nextGroupID
  rw [hfold]
  split <;> exact h0

/-! ### When a link needs a group -/

theorem handleMainNode_fieldULong_groupid (s : SMURF) (p : Option (Link × Joint)) (link : Link) :
    fieldULong (handleMainNode s p link).2.1 "groupid" =
      if (specialCaseHandling link).1 then s.nextGroupID else 0 := by
  rw [fieldULong, handleMainNode_groupid]
  cases (specialCaseHandling link).1 <;> rfl

/-- C3, as stated, fails: a link with exactly one visual besides its primary
one (and no other reason to group) gets a non-zero group id, although it has
not more than one extra shape, no inertial and no mesh. -/
theorem groupid_more_than_one_extra_counterexample :
    fieldULong (handleMainNode (reset {} 0) none linkOneExtraVisual).2.1 "groupid" ≠ 0 ∧
    ¬ ((1 < linkOneExtraVisual.visual_array.length - 1 ∨
        1 < linkOneExtraVisual.collision_array.length - 1 ∨
        1 < (linkOneExtraVisual.visual_array.length - 1) +
          (linkOneExtraVisual.collision_array.length - 1)) ∨
      (∃ c i, linkOneExtraVisual.collision = some c ∧ linkOneExtraVisual.inertial = some i ∧
        isEqualPos c.origin i.origin = false) ∨
      (∃ v c, linkOneExtraVisual.visual = some v ∧ linkOneExtraVisual.collision = some c ∧
        c.geometry.isMesh = true ∧ v.geometry.isMesh = true ∧
        c.geometry.meshFilename ≠ v.geometry.meshFilename) ∨
      (∃ v c, linkOneExtraVisual.visual = some v ∧ linkOneExtraVisual.collision = some c ∧
        c.geometry.isMesh = true ∧ v.geometry.isMesh = false)) := by
  constructor
  · rw [handleMainNode_fieldULong_groupid]
    have h : (specialCaseHandling linkOneExtraVisual).1 = true := by decide
    simp [h, reset]
  · simp [linkOneExtraVisual, Link.visual, Link.collision, Link.inertial, Link.visual_array,
      Link.collision_array, unitBox, Geometry.isMesh]

/-- C3, amended: with a group counter of at least 1, the main node's group id
is non-zero, and then the freshly drawn value of the counter, exactly when the
link lists more than one shape in `visual_array` or in `collision_array` (at
least one shape besides the primary one), or its collision and inertial frames
both exist and differ under `isEqualPos`, or its visual and collision are
meshes of different files, or its collision is a mesh and its visual is not;
otherwise it is 0 and no group id is drawn. -/
theorem groupid_nonzero_iff (s : SMURF) (p : Option (Link × Joint)) (link : Link)
    (hg : 0 < s.nextGroupID) :
    (fieldULong (handleMainNode s p link).2.1 "groupid" ≠ 0 ↔
      ((1 < link.visual_array.length ∨ 1 < link.collision_array.length) ∨
        (∃ c i, link.collision = some c ∧ link.inertial = some i ∧
          isEqualPos c.origin i.origin = false) ∨
        (∃ v c, link.visual = some v ∧ link.collision = some c ∧ c.geometry.isMesh = true ∧
          v.geometry.isMesh = true ∧ c.geometry.meshFilename ≠ v.geometry.meshFilename) ∨
        (∃ v c, link.visual = some v ∧ link.collision = some c ∧ c.geometry.isMesh = true ∧
          v.geometry.isMesh = false))) ∧
    (fieldULong (handleMainNode s p link).2.1 "groupid" ≠ 0 →
      (handleMainNode s p link).2.1.find "groupid" = some (ConfigItem.ulong s.nextGroupID) ∧
      (handleMainNode s p link).1.nextGroupID = s.nextGroupID + 1) ∧
    (fieldULong (handleMainNode s p link).2.1 "groupid" = 0 →
      (handleMainNode s p link).2.1.find "groupid" = some (ConfigItem.int 0) ∧
      (handleMainNode s p link).1.nextGroupID = s.nextGroupID) := by
  rw [← specialCaseHandling_needGroupID, handleMainNode_fieldULong_groupid, handleMainNode_groupid,
    handleMainNode_nextGroupID]
  cases (specialCaseHandling link).1
  · simp
  · simp
    omega

/-- C3, amended, at the link with a single extra visual and the counter left by
`reset`: the main node draws group id 1. -/
theorem groupid_nonzero_iff_witness :
    (handleMainNode (reset {} 0) none linkOneExtraVisual).2.1.find "groupid" =
      some (ConfigItem.ulong 1) :=
  ((groupid_nonzero_iff (reset {} 0) none linkOneExtraVisual (by decide)).2.1
    (by
      rw [handleMainNode_fieldULong_groupid]
      have h : (specialCaseHandling linkOneExtraVisual).1 = true := by decide
      simp [h, reset])).1

theorem specialCaseHandling_framesApart :
    (specialCaseHandling linkFramesApart).1 = false := by
  rw [← Bool.not_eq_true, specialCaseHandling_needGroupID]
  rintro (h | ⟨c', i', hc', hi', hne⟩ | ⟨v, c', -, hc', hm, -⟩ | ⟨v, c', -, hc', hm, -⟩)
  · simp [linkFramesApart, Link.visual_array, Link.collision_array] at h
  · obtain rfl : ({ origin := poseAtTolerance, geometry := unitBox } : Collision) = c' :=
      Option.some.inj hc'
    obtain rfl : ({ origin := poseBelowOrigin, mass := 1 } : Inertial) = i' := Option.some.inj hi'
    rw [isEqualPos_atTolerance_belowOrigin] at hne
    cases hne
  · obtain rfl : ({ origin := poseAtTolerance, geometry := unitBox } : Collision) = c' :=
      Option.some.inj hc'
    cases hm
  · obtain rfl : ({ origin := poseAtTolerance, geometry := unitBox } : Collision) = c' :=
      Option.some.inj hc'
    cases hm

/-- C5, the claim as stated fails: the link `linkFramesApart` has an inertial
and a box collision, one visual and one collision, its collision and inertial
origins consist of binary64 numbers and differ by more than `1e-11` in
`position.x`, and its main node gets the group id 0: the difference is rounded
to the double `0.00000000001` before it is compared. -/
theorem collision_inertial_frame_counterexample :
    linkFramesApart.collision = some { origin := poseAtTolerance, geometry := unitBox } ∧
    linkFramesApart.inertial = some { origin := poseBelowOrigin, mass := 1 } ∧
    linkFramesApart.visual_array.length ≤ 1 ∧ linkFramesApart.collision_array.length ≤ 1 ∧
    unitBox.isMesh = false ∧
    poseAtTolerance.isDouble ∧ poseBelowOrigin.isDouble ∧
    |poseComponent poseAtTolerance 0 - poseComponent poseBelowOrigin 0| > 1 / 100000000000 ∧
    (handleMainNode (reset {} 0) none linkFramesApart).2.1.find "groupid" =
      some (ConfigItem.int 0) ∧
    fieldULong (handleMainNode (reset {} 0) none linkFramesApart).2.1 "groupid" = 0 := by
  refine ⟨rfl, rfl, by decide, by decide, rfl,
    ⟨⟨isDouble_atTolerance, isDouble_zero, isDouble_zero⟩,
      isDouble_zero, isDouble_zero, isDouble_zero, isDouble_one⟩,
    ⟨⟨isDouble_belowOrigin, isDouble_zero, isDouble_zero⟩,
      isDouble_zero, isDouble_zero, isDouble_zero, isDouble_one⟩, ?_, ?_, ?_⟩
  · show |(6189700196426901 / 2 ^ 89 : ℚ) - -7 / 2 ^ 93| > 1 / 100000000000
    rw [abs_of_pos (by norm_num)]
    norm_num
  · rw [handleMainNode_groupid, specialCaseHandling_framesApart]
    rfl
  · rw [handleMainNode_fieldULong_groupid, specialCaseHandling_framesApart]
    rfl

/-- C5 (amended): for a link with an inertial and a non-mesh primary collision,
at most one shape in each array: if the collision and inertial origins agree
within `1e-11` in all seven components, the collision is loaded on the main
node and the group id is 0; if in some component their difference, rounded to
a double as the machine forms it, is more than the double `0.00000000001`, as
it is whenever the component differs by `1e-11 + 3e-28` or more, the group id
is non-zero (the counter being at least 1). -/
theorem collision_inertial_frame_rule (s : SMURF) (p : Option (Link × Joint)) (link : Link)
    (c : Collision) (i : Inertial) (hc : link.collision = some c) (hi : link.inertial = some i)
    (hva : link.visual_array.length ≤ 1) (hca : link.collision_array.length ≤ 1)
    (hmesh : c.geometry.isMesh = false) (hg : 0 < s.nextGroupID) :
    ((∀ j, |poseComponent c.origin j - poseComponent i.origin j| ≤ 1 / 100000000000) →
      (handleMainNode s p link).2.2.2 = 1 ∧
      (∀ k, collisionKey k →
        (handleMainNode s p link).2.1.find k = (handleCollision [] c).find k) ∧
      (handleMainNode s p link).1.collisionNameMap.find c.name = some link.name ∧
      (handleMainNode s p link).2.1.find "groupid" = some (ConfigItem.int 0)) ∧
    ((∃ j, epsilon < |fsub (poseComponent c.origin j) (poseComponent i.origin j)|) →
      fieldULong (handleMainNode s p link).2.1 "groupid" ≠ 0) ∧
    ((∃ j, 1 / 100000000000 + 3 / 10000000000000000000000000000 ≤
        |poseComponent c.origin j - poseComponent i.origin j|) →
      fieldULong (handleMainNode s p link).2.1 "groupid" ≠ 0) := by
  have hfar : (∃ j, epsilon < |fsub (poseComponent c.origin j) (poseComponent i.origin j)|) →
      fieldULong (handleMainNode s p link).2.1 "groupid" ≠ 0 := by
    rintro ⟨j, hj⟩
    have hne : isEqualPos c.origin i.origin = false := by
      rw [← Bool.not_eq_true, isEqualPos_iff_components]
      exact fun h => absurd (h j) (not_le.mpr hj)
    have hn : (specialCaseHandling link).1 = true :=
      (specialCaseHandling_needGroupID link).mpr (Or.inr (Or.inl ⟨c, i, hc, hi, hne⟩))
    rw [handleMainNode_fieldULong_groupid, hn]
    simpa using Nat.pos_iff_ne_zero.mp hg
  refine ⟨?_, hfar, fun ⟨j, hj⟩ => hfar ⟨j, epsilon_lt_abs_fsub hj⟩⟩
  intro hclose
  have heq : isEqualPos c.origin i.origin = true :=
    (isEqualPos_iff_components _ _).mpr fun j => abs_fsub_le_epsilon (hclose j)
  have hl : (specialCaseHandling link).2.2 = true :=
    (specialCaseHandling_loadCollision link).mpr
      ⟨c, hc, fun i' hi' => by rw [hi] at hi'; cases hi'; exact heq⟩
  have hn : (specialCaseHandling link).1 = false := by
    rw [← Bool.not_eq_true, specialCaseHandling_needGroupID]
    rintro (h | ⟨c', i', hc', hi', hne⟩ | ⟨v, c', -, hc', hm, -⟩ | ⟨v, c', -, hc', hm, -⟩)
    · omega
    · rw [hc] at hc'; rw [hi] at hi'; cases hc'; cases hi'; rw [heq] at hne; cases hne
    · rw [hc] at hc'; cases hc'; rw [hmesh] at hm; cases hm
    · rw [hc] at hc'; cases hc'; rw [hmesh] at hm; cases hm
  refine ⟨?_, fun k hk => handleMainNode_find_collisionKey s p link c hl hc hk, ?_, ?_⟩
  · rw [handleMainNode_collisionArrayIndex, hl]; rfl
  · simp [handleMainNode, mainNodeCollision, hl, hc, StdMap.find_assign]
  · rw [handleMainNode_groupid, hn]; rfl

/-- C5 (amended), at a link whose inertial and collision frames coincide: the
collision is taken as the main node's shape and the group id is 0. -/
theorem collision_inertial_frame_rule_witness :
    (handleMainNode (reset {} 0) none linkPlain).2.2.2 = 1 ∧
    (handleMainNode (reset {} 0) none linkPlain).2.1.find "groupid" = some (ConfigItem.int 0) := by
  have h := (collision_inertial_frame_rule (reset {} 0) none linkPlain { geometry := unitBox }
    { mass := 1 } rfl rfl (by decide) (by decide) rfl (by decide)).1
    (by intro j; fin_cases j <;> norm_num [poseComponent])
  exact ⟨h.1, h.2.2.2⟩

/-! ### How a link is decomposed into nodes -/

theorem handleKinematics_eq (s : SMURF) (ancestors : List (Link × Joint)) (link : Link) :
    handleKinematics s ancestors link =
      handleChildLinks (handleLink s ancestors link) ancestors link link.child_links := by
  cases link
  simp [handleKinematics, Link.child_links]

theorem handleKinematics_leaf (s : SMURF) (ancestors : List (Link × Joint)) (link : Link)
    (h : link.child_links = []) : handleKinematics s ancestors link = handleLink s ancestors link := by
  rw [handleKinematics_eq, h]
  simp [handleChildLinks]

theorem collisionChildRecord_find_collisionKey (index : Nat) (link : Link) (config : ConfigMap)
    (collision : Collision) {k : String} (hk : collisionKey k) :
    (collisionChildRecord index link config collision).find k =
      (handleCollision [] collision).find k := by
  have h1 : "position" ≠ k := by rcases hk with rfl | rfl | rfl <;> decide
  have h2 : "rotation" ≠ k := by rcases hk with rfl | rfl | rfl <;> decide
  simp only [collisionChildRecord, StdMap.find_assign, h1, h2, if_false]
  exact handleCollision_find_collisionKey _ _ hk

theorem collisionChildEmitted_find_collisionKey (index : Nat) (link : Link) (config : ConfigMap)
    (visualArrayIndex : Nat) (collision : Collision) {k : String} (hk : collisionKey k) :
    (collisionChildEmitted index link config visualArrayIndex collision).find k =
      (handleCollision [] collision).find k := by
  have h1 : "visualposition" ≠ k := by rcases hk with rfl | rfl | rfl <;> decide
  have h2 : "visualrotation" ≠ k := by rcases hk with rfl | rfl | rfl <;> decide
  rw [← collisionChildRecord_find_collisionKey index link config collision hk]
  unfold collisionChildEmitted childNodeVisual
  split
  · simp only [StdMap.find_assign, h1, h2, if_false]
    exact handleVisual_find_collisionKey _ _ hk
  · exact createFakeVisual_find_collisionKey _ hk

theorem collisionChildEmitted_find_visualKey (index : Nat) (link : Link) (config : ConfigMap)
    (visualArrayIndex : Nat) (collision : Collision) (visual : Visual)
    (hpair : pairVisual collision link.visual_array[visualArrayIndex]? = some visual)
    {k : String} (hk : visualKey k) :
    (collisionChildEmitted index link config visualArrayIndex collision).find k =
      (handleVisual [] visual).find k := by
  have h1 : "visualposition" ≠ k := by rcases hk with rfl | rfl | rfl | rfl | rfl <;> decide
  have h2 : "visualrotation" ≠ k := by rcases hk with rfl | rfl | rfl | rfl | rfl <;> decide
  simp only [collisionChildEmitted, childNodeVisual, hpair, StdMap.find_assign, h1, h2, if_false]
  exact handleVisual_find_visualKey _ _ hk

theorem collisionChildEmitted_fakeVisual (index : Nat) (link : Link) (config : ConfigMap)
    (visualArrayIndex : Nat) (collision : Collision)
    (hpair : pairVisual collision link.visual_array[visualArrayIndex]? = none) :
    (collisionChildEmitted index link config visualArrayIndex collision).find "filename" =
        some (ConfigItem.string "PRIMITIVE") ∧
      (collisionChildEmitted index link config visualArrayIndex collision).find "materialName" =
        some (ConfigItem.string "_fakeMaterial") := by
  simp only [collisionChildEmitted, childNodeVisual, hpair]
  exact ⟨createFakeVisual_filename _, createFakeVisual_materialName _⟩

theorem pairVisual_eq_some (collision : Collision) (visual : Visual)
    (h : collision.geometry.isMesh = true →
      visual.geometry.isMesh = true ∧
        collision.geometry.meshFilename = visual.geometry.meshFilename) :
    pairVisual collision (some visual) = some visual := by
  unfold pairVisual
  cases hc : collision.geometry.isMesh
  · simp
  · obtain ⟨hv, hf⟩ := h hc
    simp [hv, hf]

/-- C6: a link with exactly one visual and one collision, the collision not a
mesh (in particular when both shapes are non-mesh), whose collision origin
equals its inertial origin under `isEqualPos` (or which has no inertial), adds
exactly one record to `nodeList`; that record has group id 0 and carries the
shape fields of the real visual and of the real collision.  The body of
`handleKinematics` for the link appends this one record; for a link without
child links that is all `handleKinematics` appends. -/
theorem single_shape_link_one_node (s : SMURF) (ancestors : List (Link × Joint)) (link : Link)
    (v : Visual) (c : Collision) (hv : link.visual = some v) (hc : link.collision = some c)
    (hva : link.visual_array = [v]) (hca : link.collision_array = [c])
    (hcm : c.geometry.isMesh = false)
    (hi : ∀ i, link.inertial = some i → isEqualPos c.origin i.origin = true) :
    (handleLink s ancestors link).nodeList =
      s.nodeList ++ [(handleMainNode s ancestors.head? link).2.1] ∧
    (handleMainNode s ancestors.head? link).2.1.find "groupid" = some (ConfigItem.int 0) ∧
    (∀ k, visualKey k →
      (handleMainNode s ancestors.head? link).2.1.find k = (handleVisual [] v).find k) ∧
    (∀ k, collisionKey k →
      (handleMainNode s ancestors.head? link).2.1.find k = (handleCollision [] c).find k) ∧
    (link.child_links = [] →
      (handleKinematics s ancestors link).nodeList =
        s.nodeList ++ [(handleMainNode s ancestors.head? link).2.1]) := by
  have hlc : (specialCaseHandling link).2.2 = true :=
    (specialCaseHandling_loadCollision link).mpr ⟨c, hc, hi⟩
  have hlv : (specialCaseHandling link).2.1 = true := by
    refine (specialCaseHandling_loadVisual link).mpr ⟨v, hv, fun c' hc' _ hm => ?_⟩
    rw [hc] at hc'; cases hc'; rw [hcm] at hm; cases hm
  have hn : (specialCaseHandling link).1 = false := by
    rw [← Bool.not_eq_true, specialCaseHandling_needGroupID, hva, hca]
    rintro (h | ⟨c', i', hc', hi', hne⟩ | ⟨v', c', -, hc', hm, -⟩ | ⟨v', c', -, hc', hm, -⟩)
    · simp at h
    · rw [hc] at hc'; cases hc'; rw [hi i' hi'] at hne; cases hne
    · rw [hc] at hc'; cases hc'; rw [hcm] at hm; cases hm
    · rw [hc] at hc'; cases hc'; rw [hcm] at hm; cases hm
  have hlist : (handleLink s ancestors link).nodeList =
      s.nodeList ++ [(handleMainNode s ancestors.head? link).2.1] := by
    rw [handleLink_nodeList]
    simp [linkRecords, handleMainNode_collisionArrayIndex, handleMainNode_visualArrayIndex, hlc,
      hlv, hva, hca, collisionChildRecords, finalVisualArrayIndex, visualChildRecords]
  refine ⟨hlist, ?_, fun k hk => handleMainNode_find_visualKey s _ link v hlv hv hk,
    fun k hk => handleMainNode_find_collisionKey s _ link c hlc hc hk, fun hleaf => ?_⟩
  · rw [handleMainNode_groupid, hn]; rfl
  · rw [handleKinematics_leaf _ _ _ hleaf, hlist]

/-- C6, at a link with one box visual, one box collision and an inertial in
the same frame: one record is appended. -/
theorem single_shape_link_one_node_witness :
    (handleLink (reset {} 0) [] linkPlain).nodeList =
      [(handleMainNode (reset {} 0) none linkPlain).2.1] :=
  (single_shape_link_one_node (reset {} 0) [] linkPlain { geometry := unitBox }
    { geometry := unitBox } rfl rfl rfl rfl rfl
    (by
      intro i hi
      obtain rfl : ({ mass := 1 } : Inertial) = i := Option.some.inj hi
      rw [isEqualPos_iff_components]
      intro j
      apply abs_fsub_le_epsilon
      fin_cases j <;> norm_num [poseComponent])).1

/-- C7: a link whose primary visual and collision are loaded on the main node
and whose arrays are `[c0, c1, c2]` and `[v0, v1]`, with `c1` and `v1` able to
share a node, adds exactly three records: the main node, a child node carrying
`c1` together with `v1`, and a child node carrying `c2` with the synthesized
fallback visual (`filename` "PRIMITIVE", `materialName` "_fakeMaterial").  The
body of `handleKinematics` for the link appends these three records; for a
link without child links that is all `handleKinematics` appends. -/
theorem three_collisions_three_nodes (s : SMURF) (ancestors : List (Link × Joint)) (link : Link)
    (c0 c1 c2 : Collision) (v0 v1 : Visual)
    (hlv : (specialCaseHandling link).2.1 = true) (hlc : (specialCaseHandling link).2.2 = true)
    (hca : link.collision_array = [c0, c1, c2]) (hva : link.visual_array = [v0, v1])
    (hpair : c1.geometry.isMesh = true →
      v1.geometry.isMesh = true ∧ c1.geometry.meshFilename = v1.geometry.meshFilename) :
    ∃ n1 n2, (handleLink s ancestors link).nodeList =
        s.nodeList ++ [(handleMainNode s ancestors.head? link).2.1, n1, n2] ∧
      (∀ k, collisionKey k → n1.find k = (handleCollision [] c1).find k) ∧
      (∀ k, visualKey k → n1.find k = (handleVisual [] v1).find k) ∧
      (∀ k, collisionKey k → n2.find k = (handleCollision [] c2).find k) ∧
      n2.find "filename" = some (ConfigItem.string "PRIMITIVE") ∧
      n2.find "materialName" = some (ConfigItem.string "_fakeMaterial") ∧
      n1.find "relativeid" = (handleMainNode s ancestors.head? link).2.1.find "index" ∧
      n2.find "relativeid" = (handleMainNode s ancestors.head? link).2.1.find "index" ∧
      (link.child_links = [] →
        (handleKinematics s ancestors link).nodeList =
          s.nodeList ++ [(handleMainNode s ancestors.head? link).2.1, n1, n2]) := by
  have hp1 : pairVisual c1 link.visual_array[1]? = some v1 := by
    rw [hva]; exact pairVisual_eq_some c1 v1 hpair
  have hp2 : pairVisual c2 link.visual_array[2]? = none := by
    rw [hva]; rfl
  have hnext : nextVisualArrayIndex link 1 c1 = 2 := by
    simp [nextVisualArrayIndex, hp1]
  have hnext2 : nextVisualArrayIndex link 2 c2 = 2 := by
    simp [nextVisualArrayIndex, hp2]
  have hidx : (handleMainNode s ancestors.head? link).2.1.find "index" =
      some (ConfigItem.ulong s.nextNodeID) := handleMainNode_index _ _ _
  have hlist : (handleLink s ancestors link).nodeList =
      s.nodeList ++ [(handleMainNode s ancestors.head? link).2.1,
        collisionChildEmitted (s.nextNodeID + 1) link (handleMainNode s ancestors.head? link).2.1
          1 c1,
        collisionChildEmitted (s.nextNodeID + 1 + 1) link
          (handleMainNode s ancestors.head? link).2.1 2 c2] := by
    rw [handleLink_nodeList]
    simp only [linkRecords, handleMainNode_collisionArrayIndex, handleMainNode_visualArrayIndex,
      hlc, hlv, hca, hva, if_true, List.drop_succ_cons, List.drop_zero, collisionChildRecords,
      finalVisualArrayIndex]
    rw [← hva, hnext, hnext2, hva]
    simp [visualChildRecords]
  refine ⟨collisionChildEmitted (s.nextNodeID + 1) link (handleMainNode s ancestors.head? link).2.1
      1 c1,
    collisionChildEmitted (s.nextNodeID + 1 + 1) link (handleMainNode s ancestors.head? link).2.1
      2 c2, hlist, fun k hk => collisionChildEmitted_find_collisionKey _ _ _ _ _ hk,
    fun k hk => collisionChildEmitted_find_visualKey _ _ _ _ _ v1 hp1 hk,
    fun k hk => collisionChildEmitted_find_collisionKey _ _ _ _ _ hk,
    (collisionChildEmitted_fakeVisual _ _ _ _ _ hp2).1,
    (collisionChildEmitted_fakeVisual _ _ _ _ _ hp2).2, ?_, ?_,
    fun hleaf => by rw [handleKinematics_leaf _ _ _ hleaf, hlist]⟩
  · rw [collisionChildEmitted_find _ _ _ _ _ (by simp [headerKey]),
      collisionChildRecord_relativeid, hidx]
    rfl
  · rw [collisionChildEmitted_find _ _ _ _ _ (by simp [headerKey]),
      collisionChildRecord_relativeid, hidx]
    rfl

/-- C7, at a link with three box collisions and two box visuals. -/
theorem three_collisions_three_nodes_witness :
    ∃ n1 n2, (handleLink (reset {} 0) [] linkThreeCollisions).nodeList =
        [(handleMainNode (reset {} 0) none linkThreeCollisions).2.1, n1, n2] ∧
      n2.find "materialName" = some (ConfigItem.string "_fakeMaterial") := by
  obtain ⟨n1, n2, h, -, -, -, -, hm, -, -, -⟩ :=
    three_collisions_three_nodes (reset {} 0) [] linkThreeCollisions { geometry := unitBox }
      { name := "c1", geometry := unitBox } { name := "c2", geometry := unitBox }
      { geometry := unitBox } { name := "v1", geometry := unitBox }
      (by decide) (by decide) rfl rfl (by decide)
  exact ⟨n1, n2, h, hm⟩

/-! ### Reading the name map -/

theorem index_snd (m : StdMap Nat) (key : String) : (m.index key).2 = lookupID m key := by
  unfold StdMap.index lookupID
  cases m.find key <;> rfl

theorem lookupID_assign (m : StdMap Nat) (key key' : String) (value : Nat) :
    lookupID (m.assign key value) key' = if key = key' then value else lookupID m key' := by
  unfold lookupID
  rw [StdMap.find_assign]
  split <;> rfl

theorem lookupID_index (m : StdMap Nat) (key key' : String) :
    lookupID (m.index key).1 key' = lookupID m key' := by
  unfold StdMap.index
  cases h : m.find key
  · simp only [lookupID_assign]
    split
    · next hk => subst hk; simp [lookupID, h]
    · rfl
  · rfl


/-! ### Node counts -/

theorem linkRecords_length (s : SMURF) (p : Option (Link × Joint)) (link : Link) :
    (linkRecords s p link).length = linkNodeCount link := by
  simp [linkRecords, linkNodeCount, handleMainNode_collisionArrayIndex,
    handleMainNode_visualArrayIndex, collisionChildRecords_length, visualChildRecords_length]

theorem linkNodeCount_pos (link : Link) : 0 < linkNodeCount link := by
  simp [linkNodeCount, linkRecords]

theorem handleLink_nextNodeID_count (s : SMURF) (ancestors : List (Link × Joint)) (link : Link) :
    (handleLink s ancestors link).nextNodeID = s.nextNodeID + linkNodeCount link := by
  rw [handleLink_nextNodeID, linkRecords_length]

theorem handleKinematics_nextNodeID (s : SMURF) (ancestors : List (Link × Joint)) (link : Link) :
    (handleKinematics s ancestors link).nextNodeID = s.nextNodeID + treeNodeCount link := by
  refine handleKinematics.induct
    (fun s ancestors link =>
      (handleKinematics s ancestors link).nextNodeID = s.nextNodeID + treeNodeCount link)
    (fun s ancestors link children =>
      (handleChildLinks s ancestors link children).nextNodeID =
        s.nextNodeID + childrenNodeCount children)
    ?_ ?_ ?_ s ancestors link
  · intro s ancestors n i v c va ca cl link ih
    simp only [handleKinematics, treeNodeCount]
    rw [ih, handleLink_nextNodeID_count]
    exact Nat.add_assoc _ _ _
  · intro s ancestors link
    simp [handleChildLinks, childrenNodeCount]
  · intro s ancestors link joint child rest ih1 ih2
    simp only [handleChildLinks, childrenNodeCount]
    rw [ih2, ih1]
    omega

/-! ### The name map along the walk -/

theorem handleMainNode_lookupID (s : SMURF) (p : Option (Link × Joint)) (link : Link)
    (key : String) :
    lookupID (handleMainNode s p link).1.nodeIDMap key =
      if link.name = key then s.nextNodeID else lookupID s.nodeIDMap key := by
  rw [handleMainNode_nodeIDMap]
  rcases p with _ | ⟨pLink, joint⟩
  · simp only [lookupID_assign]
  · simp only [lookupID_index, lookupID_assign]

theorem collisionChildNodes_lookupID (link : Link) (config : ConfigMap) (s : SMURF)
    (visualArrayIndex : Nat) (collisions : List Collision) (key : String)
    (h1 : fieldString config "name" ++ "_child" ≠ key)
    (h2 : key ∉ collisions.map Collision.name) :
    lookupID (collisionChildNodes link config s visualArrayIndex collisions).1.nodeIDMap key =
      lookupID s.nodeIDMap key := by
  induction collisions generalizing s visualArrayIndex with
  | nil => rfl
  | cons c cs ih =>
    simp only [List.map_cons, List.mem_cons, not_or] at h2
    simp only [collisionChildNodes]
    rw [ih _ _ h2.2, collisionChildNode_nodeIDMap, lookupID_assign, lookupID_assign,
      if_neg (fun h => h2.1 h.symm), if_neg h1]

theorem handleParentJoint_lookupID (s : SMURF) (ancestors : List (Link × Joint)) (key : String) :
    lookupID (handleParentJoint s ancestors).nodeIDMap key = lookupID s.nodeIDMap key := by
  unfold handleParentJoint
  split
  · rfl
  · simp only [lookupID_index]

theorem fieldString_handleMainNode_name (s : SMURF) (p : Option (Link × Joint)) (link : Link) :
    fieldString (handleMainNode s p link).2.1 "name" = link.name := by
  rw [fieldString, handleMainNode_name]
  rfl

theorem handleLink_lookupID (s : SMURF) (ancestors : List (Link × Joint)) (link : Link)
    (key : String) (hkey : key ∉ auxiliaryKeys link) :
    lookupID (handleLink s ancestors link).nodeIDMap key =
      if link.name = key then s.nextNodeID else lookupID s.nodeIDMap key := by
  simp only [auxiliaryKeys, List.mem_cons, not_or] at hkey
  simp only [handleLink]
  rw [handleParentJoint_lookupID, visualChildNodes_nodeIDMap, collisionChildNodes_lookupID,
    handleMainNode_lookupID]
  · rw [fieldString_handleMainNode_name]
    exact fun h => hkey.1 h.symm
  · intro h
    exact hkey.2 (List.map_subset _ (List.drop_subset _ _) h)

theorem handleKinematics_lookupID (s : SMURF) (ancestors : List (Link × Joint)) (link : Link)
    (key : String) (h1 : key ∉ linkNames link)
    (h2 : ∀ l ∈ subtreeLinks link, key ∉ auxiliaryKeys l) :
    lookupID (handleKinematics s ancestors link).nodeIDMap key = lookupID s.nodeIDMap key := by
  refine handleKinematics.induct
    (fun s ancestors link => key ∉ linkNames link →
      (∀ l ∈ subtreeLinks link, key ∉ auxiliaryKeys l) →
      lookupID (handleKinematics s ancestors link).nodeIDMap key = lookupID s.nodeIDMap key)
    (fun s ancestors link children => key ∉ (childrenLinks children).map Link.name →
      (∀ l ∈ childrenLinks children, key ∉ auxiliaryKeys l) →
      lookupID (handleChildLinks s ancestors link children).nodeIDMap key =
        lookupID s.nodeIDMap key)
    ?_ ?_ ?_ s ancestors link h1 h2
  · intro s ancestors n i v c va ca cl link ih h1 h2
    simp only [linkNames, subtreeLinks, List.map_cons, List.mem_cons, not_or] at h1
    simp only [subtreeLinks, List.mem_cons, forall_eq_or_imp] at h2
    simp only [handleKinematics]
    rw [ih h1.2 h2.2, handleLink_lookupID _ _ _ _ h2.1, if_neg (fun h => h1.1 h.symm)]
  · intro s ancestors link _ _
    simp [handleChildLinks]
  · intro s ancestors link joint child rest ih1 ih2 h1 h2
    simp only [childrenLinks, List.map_append, List.mem_append, not_or] at h1
    simp only [childrenLinks, List.mem_append] at h2
    simp only [handleChildLinks]
    rw [ih2 h1.2 (fun l hl => h2 l (Or.inr hl)), ih1 h1.1 (fun l hl => h2 l (Or.inl hl))]


/-! ### Relative ids -/

theorem collisionChildRecords_relativeIds (link : Link) (config : ConfigMap) (index vi : Nat)
    (collisions : List Collision) :
    relativeIds (collisionChildRecords link config index vi collisions) =
      List.replicate collisions.length (some ((config.find "index").getD (ConfigItem.ulong 0))) := by
  induction collisions generalizing index vi with
  | nil => rfl
  | cons c cs ih =>
    have ih' := ih (index + 1) (nextVisualArrayIndex link vi c)
    simp only [relativeIds] at ih'
    simp only [relativeIds, collisionChildRecords, List.map_cons, List.length_cons,
      List.replicate_succ, ih']
    rw [collisionChildEmitted_find _ _ _ _ _ (by simp [headerKey]),
      collisionChildRecord_relativeid]

theorem visualChildRecords_relativeIds (link : Link) (config : ConfigMap) (index : Nat)
    (visuals : List Visual) :
    relativeIds (visualChildRecords link config index visuals) =
      List.replicate visuals.length (some ((config.find "index").getD (ConfigItem.ulong 0))) := by
  induction visuals generalizing index with
  | nil => rfl
  | cons v vs ih =>
    have ih' := ih (index + 1)
    simp only [relativeIds] at ih'
    simp only [relativeIds, visualChildRecords, List.map_cons, List.length_cons,
      List.replicate_succ, ih', visualChildRecord_relativeid]

theorem linkRecords_relativeIds (s : SMURF) (p : Option (Link × Joint)) (link : Link) :
    relativeIds (linkRecords s p link) =
      some (ConfigItem.ulong
        (match p with
        | some (pLink, _) => lookupID (s.nodeIDMap.assign link.name s.nextNodeID) pLink.name
        | none => 0)) ::
      List.replicate (linkNodeCount link - 1) (some (ConfigItem.ulong s.nextNodeID)) := by
  have hlen := linkRecords_length s p link
  have hc := collisionChildRecords_relativeIds link (handleMainNode s p link).2.1
  have hv := visualChildRecords_relativeIds link (handleMainNode s p link).2.1
  simp only [relativeIds] at hc hv
  simp only [linkRecords, List.length_cons, List.length_append, collisionChildRecords_length,
    visualChildRecords_length] at hlen
  simp only [relativeIds, linkRecords, List.map_cons, List.map_append, hc, hv,
    handleMainNode_relativeid, handleMainNode_index, Option.getD_some, ← hlen,
    Nat.add_sub_cancel, List.replicate_add]
  rcases p with _ | ⟨pLink, joint⟩
  · rfl
  · simp only [index_snd]

theorem belowIndex_append (start : Nat) (xs ys : List Nat) :
    belowIndex start (xs ++ ys) ↔ belowIndex start xs ∧ belowIndex (start + xs.length) ys := by
  induction xs generalizing start with
  | nil => simp [belowIndex]
  | cons x xs ih =>
    have hlen : start + (x :: xs).length = start + 1 + xs.length := by
      simp only [List.length_cons]
      omega
    rw [List.cons_append, hlen]
    show (x < start ∧ belowIndex (start + 1) (xs ++ ys)) ↔
      (x < start ∧ belowIndex (start + 1) xs) ∧ belowIndex (start + 1 + xs.length) ys
    rw [ih, and_assoc]

theorem belowIndex_replicate (start n v : Nat) (h : v < start) :
    belowIndex start (List.replicate n v) := by
  induction n generalizing start with
  | zero => trivial
  | succ n ih => exact ⟨h, ih (start + 1) (by omega)⟩

theorem belowIndex_getElem {start : Nat} {xs : List Nat} (h : belowIndex start xs) (k : Nat)
    (hk : k < xs.length) : xs[k] < start + k := by
  induction xs generalizing start k with
  | nil => cases hk
  | cons x xs ih =>
    cases k with
    | zero => exact h.1
    | succ k =>
      have := ih h.2 k (by simpa using hk)
      simp only [List.getElem_cons_succ]
      omega

theorem expectedRelativeIds_belowIndex (parentIndex index : Nat) (link : Link)
    (h : parentIndex < index) : belowIndex index (expectedRelativeIds parentIndex index link) ∧
      (expectedRelativeIds parentIndex index link).length = treeNodeCount link := by
  refine expectedRelativeIds.induct
    (fun parentIndex index link => parentIndex < index →
      belowIndex index (expectedRelativeIds parentIndex index link) ∧
        (expectedRelativeIds parentIndex index link).length = treeNodeCount link)
    (fun parentIndex index children => parentIndex < index →
      belowIndex index (expectedRelativeIdsChildren parentIndex index children) ∧
        (expectedRelativeIdsChildren parentIndex index children).length =
          childrenNodeCount children)
    ?_ ?_ ?_ parentIndex index link h
  · intro parentIndex index n i v c va ca cl ih h
    have hpos := linkNodeCount_pos (Link.mk n i v c va ca cl)
    obtain ⟨ih1, ih2⟩ := ih (by omega)
    simp only [expectedRelativeIds, treeNodeCount, belowIndex, belowIndex_append,
      List.length_cons, List.length_append, List.length_replicate, ih2]
    refine ⟨⟨h, belowIndex_replicate _ _ _ (by omega), ?_⟩, by omega⟩
    have : index + 1 + (linkNodeCount (Link.mk n i v c va ca cl) - 1) =
        index + linkNodeCount (Link.mk n i v c va ca cl) := by omega
    rw [this]
    exact ih1
  · intro parentIndex index _
    exact ⟨trivial, rfl⟩
  · intro parentIndex index joint child rest ih1 ih2 h
    obtain ⟨h1, h1'⟩ := ih1 h
    obtain ⟨h2, h2'⟩ := ih2 (by omega)
    simp only [expectedRelativeIdsChildren, childrenNodeCount, belowIndex_append,
      List.length_append, h1', h2']
    exact ⟨⟨h1, h2⟩, trivial⟩


theorem relativeIds_append (xs ys : List ConfigMap) :
    relativeIds (xs ++ ys) = relativeIds xs ++ relativeIds ys := by
  simp [relativeIds]

theorem handleKinematics_relativeIds (s : SMURF) (ancestors : List (Link × Joint)) (link : Link)
    (parentIndex : Nat) (hnames : linkNamesUnambiguous link)
    (hparent : parentIndex =
      match ancestors.head? with
      | some (pLink, _) => lookupID s.nodeIDMap pLink.name
      | none => 0)
    (hne : ∀ p ∈ ancestors.head?, p.1.name ≠ link.name) :
    relativeIds (handleKinematics s ancestors link).nodeList =
      relativeIds s.nodeList ++
        (expectedRelativeIds parentIndex s.nextNodeID link).map
          (fun i => some (ConfigItem.ulong i)) := by
  refine handleKinematics.induct
    (fun s ancestors link => ∀ parentIndex, linkNamesUnambiguous link →
      (parentIndex =
        match ancestors.head? with
        | some (pLink, _) => lookupID s.nodeIDMap pLink.name
        | none => 0) →
      (∀ p ∈ ancestors.head?, p.1.name ≠ link.name) →
      relativeIds (handleKinematics s ancestors link).nodeList =
        relativeIds s.nodeList ++
          (expectedRelativeIds parentIndex s.nextNodeID link).map
            (fun i => some (ConfigItem.ulong i)))
    (fun s ancestors link children => ∀ index,
      ((childrenLinks children).map Link.name).Nodup →
      (∀ n ∈ (childrenLinks children).map Link.name, ∀ l ∈ childrenLinks children,
        n ∉ auxiliaryKeys l) →
      link.name ∉ (childrenLinks children).map Link.name →
      (∀ l ∈ childrenLinks children, link.name ∉ auxiliaryKeys l) →
      lookupID s.nodeIDMap link.name = index →
      relativeIds (handleChildLinks s ancestors link children).nodeList =
        relativeIds s.nodeList ++
          (expectedRelativeIdsChildren index s.nextNodeID children).map
            (fun i => some (ConfigItem.ulong i)))
    ?_ ?_ ?_ s ancestors link parentIndex hnames hparent hne
  · intro s ancestors n i v c va ca cl link ih parentIndex hnames hparent hne
    obtain ⟨hnodup, haux⟩ := hnames
    simp only [linkNames, subtreeLinks, List.map_cons, List.nodup_cons] at hnodup
    simp only [linkNames, subtreeLinks, List.map_cons, List.mem_cons, forall_eq_or_imp] at haux
    have hself : link.name ∉ auxiliaryKeys link := haux.1.1
    have hlook : lookupID (handleLink s ancestors link).nodeIDMap link.name = s.nextNodeID := by
      rw [handleLink_lookupID _ _ _ _ hself, if_pos rfl]
    have hrec := ih s.nextNodeID hnodup.2 (fun m hm l hl => (haux.2 m hm).2 l hl) hnodup.1
      (fun l hl => haux.1.2 l hl) hlook
    simp only [handleKinematics]
    rw [hrec, handleLink_nodeList, relativeIds_append, linkRecords_relativeIds,
      handleLink_nextNodeID_count, hparent]
    simp only [expectedRelativeIds, List.map_cons, List.map_append, List.map_replicate,
      List.append_assoc, List.cons_append]
    congr 2
    rcases hanc : ancestors.head? with _ | ⟨pLink, joint⟩
    · rfl
    · have hp : pLink.name ≠ link.name := hne (pLink, joint) (by rw [hanc]; rfl)
      have hp' : ¬ link.name = pLink.name := fun h => hp h.symm
      simp only [lookupID_assign, if_neg hp']
  · intro s ancestors link index _ _ _ _ _
    simp [handleChildLinks, expectedRelativeIdsChildren]
  · intro s ancestors link joint child rest ih1 ih2 index hnodup haux hlink hlinkaux hlook
    simp only [childrenLinks, List.map_append, List.nodup_append] at hnodup
    simp only [childrenLinks, List.map_append, List.mem_append] at haux hlink hlinkaux
    rw [not_or] at hlink
    have hchild : linkNamesUnambiguous child :=
      ⟨hnodup.1, fun m hm l hl => haux m (Or.inl hm) l (Or.inl hl)⟩
    have hne : link.name ≠ child.name := by
      intro h
      apply hlink.1
      rw [h]
      cases child
      simp [subtreeLinks, Link.name]
    have h1 := ih1 index hchild (by simp [hlook]) (by simpa using hne)
    have hlook' : lookupID (handleKinematics s ((link, joint) :: ancestors) child).nodeIDMap
        link.name = index := by
      rw [handleKinematics_lookupID _ _ _ _ hlink.1 (fun l hl => hlinkaux l (Or.inl hl)), hlook]
    have h2 := ih2 index hnodup.2.1
      (fun m hm l hl => haux m (Or.inr hm) l (Or.inr hl)) hlink.2
      (fun l hl => hlinkaux l (Or.inr hl)) hlook'
    simp only [handleChildLinks, expectedRelativeIdsChildren, List.map_append]
    rw [h2, h1, handleKinematics_nextNodeID, List.append_assoc]


/-! ### The state before the walk -/

theorem foldl_handleMaterial_nodeFrame (materials : List Material) (s : SMURF) :
    (materials.foldl handleMaterial s).nodeList = s.nodeList ∧
      (materials.foldl handleMaterial s).nextNodeID = s.nextNodeID ∧
      (materials.foldl handleMaterial s).nodeIDMap = s.nodeIDMap := by
  induction materials generalizing s with
  | nil => exact ⟨rfl, rfl, rfl⟩
  | cons m ms ih => exact ih (handleMaterial s m)

theorem createModel_eq (s : SMURF) (maxGroupID : Nat) (model : ModelInterface) :
    ∃ s0 : SMURF, s0.nodeList = [] ∧ s0.nextNodeID = 1 ∧
      createModel (reset s maxGroupID) model = handleKinematics s0 [] model.root_link_ := by
  refine ⟨model.materials_.foldl handleMaterial (createFakeMaterial
    (if (reset s maxGroupID).robotname = "" then
      { reset s maxGroupID with robotname := model.name_ } else reset s maxGroupID)), ?_, ?_, rfl⟩
  · rw [(foldl_handleMaterial_nodeFrame _ _).1]
    split <;> rfl
  · rw [(foldl_handleMaterial_nodeFrame _ _).2.1]
    split <;> rfl

/-- C10, as stated, fails: when a collision shape of link `A` is named `A`, the
main node of the child link `B` (third record, index 3) refers to the child
node of that collision (index 2), not to the main node of its parent link `A`
(index 1). -/
theorem relativeid_parent_counterexample :
    (createModel (reset {} 0) modelCollisionNamedAsLink).nodeList.map
        (fun n => (n.find "name", n.find "index", n.find "relativeid")) =
      [(some (ConfigItem.string "A"), some (ConfigItem.ulong 1), some (ConfigItem.ulong 0)),
        (some (ConfigItem.string "A"), some (ConfigItem.ulong 2), some (ConfigItem.ulong 1)),
        (some (ConfigItem.string "B"), some (ConfigItem.ulong 3), some (ConfigItem.ulong 2))] := by
  decide

/-- C10, amended: for a tree whose link names are pairwise distinct and in
which no collision-shape name and no `<link>_child` name equals a link name,
the records of `nodeList` carry, in order, the relative ids
`expectedRelativeIds 0 1 root`: 0 for the main node of the root link, the index
of the parent link's main node for the main node of every other link, and the
index of the link's own main node for every child node; and every record's
relative id is smaller than its own index. -/
theorem relativeid_refers_to_parent (s : SMURF) (maxGroupID : Nat) (model : ModelInterface)
    (hnames : linkNamesUnambiguous model.root_link_) :
    relativeIds (createModel (reset s maxGroupID) model).nodeList =
        (expectedRelativeIds 0 1 model.root_link_).map (fun i => some (ConfigItem.ulong i)) ∧
    ∀ (k : Nat) (hk : k < (createModel (reset s maxGroupID) model).nodeList.length),
      fieldULong ((createModel (reset s maxGroupID) model).nodeList[k]) "index" = k + 1 ∧
      fieldULong ((createModel (reset s maxGroupID) model).nodeList[k]) "relativeid" <
        fieldULong ((createModel (reset s maxGroupID) model).nodeList[k]) "index" := by
  obtain ⟨s0, hnil, hnext, heq⟩ := createModel_eq s maxGroupID model
  have hrel : relativeIds (createModel (reset s maxGroupID) model).nodeList =
      (expectedRelativeIds 0 1 model.root_link_).map (fun i => some (ConfigItem.ulong i)) := by
    rw [heq, handleKinematics_relativeIds s0 [] model.root_link_ 0 hnames rfl (by simp), hnil,
      hnext]
    rfl
  refine ⟨hrel, fun k hk => ?_⟩
  have hidx : ((createModel (reset s maxGroupID) model).nodeList[k]).find "index" =
      some (ConfigItem.ulong (k + 1)) := by
    rw [indexedFrom_getElem
      (createModel_idsInOrder _ model (reset_idsInOrder s maxGroupID)).1 k hk, Nat.add_comm]
  obtain ⟨hbelow, -⟩ := expectedRelativeIds_belowIndex 0 1 model.root_link_ (by decide)
  have hlen : k < (expectedRelativeIds 0 1 model.root_link_).length := by
    have := congrArg List.length hrel
    simp only [relativeIds, List.length_map] at this
    omega
  have hk' : (relativeIds (createModel (reset s maxGroupID) model).nodeList)[k]? =
      some (some (ConfigItem.ulong (expectedRelativeIds 0 1 model.root_link_)[k])) := by
    rw [hrel, List.getElem?_map, List.getElem?_eq_getElem hlen]
    rfl
  simp only [relativeIds, List.getElem?_map, List.getElem?_eq_getElem hk, Option.map_some',
    Option.some.injEq] at hk'
  have hlt := belowIndex_getElem hbelow k hlen
  simp only [fieldULong, hidx, hk', Option.getD_some, ConfigItem.getULong]
  exact ⟨trivial, by omega⟩

/-- C10, amended, at a tree of two links with an extra collision on the root:
the three records refer to 0, to the root's main node 1 and again to 1. -/
theorem relativeid_refers_to_parent_witness :
    relativeIds (createModel (reset {} 0) modelTwoLinks).nodeList =
      [some (ConfigItem.ulong 0), some (ConfigItem.ulong 1), some (ConfigItem.ulong 1)] := by
  rw [(relativeid_refers_to_parent {} 0 modelTwoLinks (by
    unfold linkNamesUnambiguous
    decide)).1]
  decide

/-! ### Node names -/

theorem collisionChildRecords_names (link : Link) (config : ConfigMap) (index vi : Nat)
    (collisions : List Collision) (hname : fieldString config "name" = link.name) :
    recordNames (collisionChildRecords link config index vi collisions) =
      (collisions.map (fun c => childNodeName link c.name)).map
        (fun n => some (ConfigItem.string n)) := by
  induction collisions generalizing index vi with
  | nil => rfl
  | cons c cs ih =>
    have ih' := ih (index + 1) (nextVisualArrayIndex link vi c)
    simp only [recordNames] at ih'
    simp only [recordNames, collisionChildRecords, List.map_cons, ih']
    rw [collisionChildEmitted_find _ _ _ _ _ (by simp [headerKey]), collisionChildRecord_name,
      hname]
    rfl

theorem visualChildRecords_names (link : Link) (config : ConfigMap) (index : Nat)
    (visuals : List Visual) (hname : fieldString config "name" = link.name) :
    recordNames (visualChildRecords link config index visuals) =
      (visuals.map (fun v => childNodeName link v.name)).map
        (fun n => some (ConfigItem.string n)) := by
  induction visuals generalizing index with
  | nil => rfl
  | cons v vs ih =>
    have ih' := ih (index + 1)
    simp only [recordNames] at ih'
    simp only [recordNames, visualChildRecords, List.map_cons, ih', visualChildRecord_name,
      hname]
    rfl

theorem linkRecords_names (s : SMURF) (p : Option (Link × Joint)) (link : Link) :
    recordNames (linkRecords s p link) =
      (linkNodeNames link).map (fun n => some (ConfigItem.string n)) := by
  have hname := fieldString_handleMainNode_name s p link
  have hc := fun index vi cs =>
    collisionChildRecords_names link (handleMainNode s p link).2.1 index vi cs hname
  have hv := fun index vs =>
    visualChildRecords_names link (handleMainNode s p link).2.1 index vs hname
  simp only [recordNames] at hc hv
  simp only [recordNames, linkRecords, linkNodeNames, List.map_cons, List.map_append, hc, hv,
    handleMainNode_name, handleMainNode_collisionArrayIndex, handleMainNode_visualArrayIndex]

theorem handleKinematics_names (s : SMURF) (ancestors : List (Link × Joint)) (link : Link) :
    recordNames (handleKinematics s ancestors link).nodeList =
      recordNames s.nodeList ++
        ((subtreeLinks link).flatMap linkNodeNames).map (fun n => some (ConfigItem.string n)) := by
  refine handleKinematics.induct
    (fun s ancestors link =>
      recordNames (handleKinematics s ancestors link).nodeList =
        recordNames s.nodeList ++
          ((subtreeLinks link).flatMap linkNodeNames).map (fun n => some (ConfigItem.string n)))
    (fun s ancestors link children =>
      recordNames (handleChildLinks s ancestors link children).nodeList =
        recordNames s.nodeList ++
          ((childrenLinks children).flatMap linkNodeNames).map
            (fun n => some (ConfigItem.string n)))
    ?_ ?_ ?_ s ancestors link
  · intro s ancestors n i v c va ca cl link ih
    have hl := linkRecords_names s ancestors.head? link
    simp only [recordNames] at hl ih
    simp only [handleKinematics, recordNames, ih, handleLink_nodeList, List.map_append, hl,
      subtreeLinks, List.flatMap_cons, List.append_assoc]
  · intro s ancestors link
    simp [handleChildLinks, childrenLinks]
  · intro s ancestors link joint child rest ih1 ih2
    simp only [recordNames] at ih1 ih2
    simp only [handleChildLinks, recordNames, ih2, ih1, childrenLinks, List.flatMap_append,
      List.map_append, List.append_assoc]

theorem flatMap_sublist {α β : Type} (f g : α → List β) (l : List α)
    (h : ∀ a ∈ l, (f a).Sublist (g a)) : (l.flatMap f).Sublist (l.flatMap g) := by
  induction l with
  | nil => simp
  | cons a as ih =>
    simp only [List.flatMap_cons]
    exact (h a (List.mem_cons_self _ _)).append
      (ih (fun b hb => h b (List.mem_cons_of_mem _ hb)))

/-- C2, as stated, fails: a single link `A` with two unnamed collisions besides
its primary one emits two child nodes that are both named `A_child`. -/
theorem node_names_counterexample :
    (linkNames modelTwoUnnamedCollisions.root_link_).Nodup ∧
    recordNames (createModel (reset {} 0) modelTwoUnnamedCollisions).nodeList =
      [some (ConfigItem.string "A"), some (ConfigItem.string "A_child"),
        some (ConfigItem.string "A_child")] ∧
    ¬ (recordNames (createModel (reset {} 0) modelTwoUnnamedCollisions).nodeList).Nodup := by
  refine ⟨by decide, by decide, by decide⟩

theorem linkNodeNames_sublist_candidates (link : Link) :
    (linkNodeNames link).Sublist (linkCandidateNames link) := by
  simp only [linkNodeNames, linkCandidateNames]
  exact List.Sublist.cons₂ _
    (((List.drop_sublist _ _).map _).append ((List.drop_sublist _ _).map _))

/-- C2 (amended): the names of the records emitted into `nodeList` are, in
order, the node names of the links of the tree: for each link its own name,
then, for each collision that gets a child node and each visual that gets a
child node, the name of the shape, or `<link>_child` when the shape is unnamed.
They are pairwise distinct exactly when these link and child node names are;
this is so in particular when the link names together with the names (or
`<link>_child`) of all the shapes in the arrays are pairwise distinct. -/
theorem node_names_distinct_iff (s : SMURF) (maxGroupID : Nat) (model : ModelInterface) :
    recordNames (createModel (reset s maxGroupID) model).nodeList =
      ((subtreeLinks model.root_link_).flatMap linkNodeNames).map
        (fun n => some (ConfigItem.string n)) ∧
    ((recordNames (createModel (reset s maxGroupID) model).nodeList).Nodup ↔
      ((subtreeLinks model.root_link_).flatMap linkNodeNames).Nodup) ∧
    (((subtreeLinks model.root_link_).flatMap linkCandidateNames).Nodup →
      (recordNames (createModel (reset s maxGroupID) model).nodeList).Nodup) := by
  obtain ⟨s0, hnil, -, heq⟩ := createModel_eq s maxGroupID model
  have hnames : recordNames (createModel (reset s maxGroupID) model).nodeList =
      ((subtreeLinks model.root_link_).flatMap linkNodeNames).map
        (fun n => some (ConfigItem.string n)) := by
    rw [heq, handleKinematics_names, hnil]
    simp only [recordNames, List.map_nil, List.nil_append]
  have hinj : Function.Injective (fun n : String => some (ConfigItem.string n)) :=
    fun a b hab => by injection hab with hab; injection hab
  have hiff : (recordNames (createModel (reset s maxGroupID) model).nodeList).Nodup ↔
      ((subtreeLinks model.root_link_).flatMap linkNodeNames).Nodup := by
    rw [hnames]
    exact List.nodup_map_iff hinj
  refine ⟨hnames, hiff, fun h => hiff.mpr ?_⟩
  exact List.Nodup.sublist
    (flatMap_sublist _ _ _ (fun l _ => linkNodeNames_sublist_candidates l)) h

/-- C2 (amended), at a tree of two links with unnamed primary shapes and one
unnamed extra collision: the nodes are named `A`, `A_child` and `B`. -/
theorem node_names_distinct_iff_witness :
    (recordNames (createModel (reset {} 0) modelUnnamedShapes).nodeList).Nodup :=
  (node_names_distinct_iff {} 0 modelUnnamedShapes).2.1.mpr (by decide)

/-! ### The joint record -/

theorem jointRecord_type (index nodeindex1 nodeindex2 : Nat) (ancestors : List (Link × Joint))
    (parent_joint : Joint) :
    (jointRecord index nodeindex1 nodeindex2 ancestors parent_joint).find "type" =
      some (ConfigItem.string
        (match parent_joint.type with
        | JointType.REVOLUTE => "hinge"
        | JointType.CONTINUOUS => "hinge"
        | JointType.PRISMATIC => "slider"
        | JointType.FIXED => "fixed"
        | JointType.FLOATING => "fixed"
        | JointType.PLANAR => "fixed"
        | JointType.UNKNOWN => "fixed")) := by
  unfold jointRecord
  cases parent_joint.limits <;> cases parent_joint.type <;> simp [StdMap.find_assign]

theorem jointRecord_name (index nodeindex1 nodeindex2 : Nat) (ancestors : List (Link × Joint))
    (parent_joint : Joint) :
    (jointRecord index nodeindex1 nodeindex2 ancestors parent_joint).find "name" =
      some (ConfigItem.string parent_joint.name) := by
  unfold jointRecord
  cases parent_joint.limits <;> simp only [] <;> split_ifs <;> simp [StdMap.find_assign]

theorem jointRecord_nodeindex1 (index nodeindex1 nodeindex2 : Nat)
    (ancestors : List (Link × Joint)) (parent_joint : Joint) :
    (jointRecord index nodeindex1 nodeindex2 ancestors parent_joint).find "nodeindex1" =
      some (ConfigItem.ulong nodeindex1) := by
  unfold jointRecord
  cases parent_joint.limits <;> simp only [] <;> split_ifs <;> simp [StdMap.find_assign]

theorem jointRecord_nodeindex2 (index nodeindex1 nodeindex2 : Nat)
    (ancestors : List (Link × Joint)) (parent_joint : Joint) :
    (jointRecord index nodeindex1 nodeindex2 ancestors parent_joint).find "nodeindex2" =
      some (ConfigItem.ulong nodeindex2) := by
  unfold jointRecord
  cases parent_joint.limits <;> simp only [] <;> split_ifs <;> simp [StdMap.find_assign]

theorem handleParentJoint_cons (s : SMURF) (pLink : Link) (parent_joint : Joint)
    (rest : List (Link × Joint)) :
    (handleParentJoint s ((pLink, parent_joint) :: rest)).jointList =
      s.jointList ++
        [jointRecord s.nextJointID (lookupID s.nodeIDMap parent_joint.parent_link_name)
          (lookupID s.nodeIDMap parent_joint.child_link_name) ((pLink, parent_joint) :: rest)
          parent_joint] := by
  simp only [handleParentJoint, index_snd, lookupID_index]

theorem handleLink_jointList_cons (s : SMURF) (pLink : Link) (parent_joint : Joint)
    (rest : List (Link × Joint)) (link : Link) :
    (handleLink s ((pLink, parent_joint) :: rest) link).jointList =
      s.jointList ++
        [jointRecord s.nextJointID
          (lookupID (handleLink s ((pLink, parent_joint) :: rest) link).nodeIDMap
            parent_joint.parent_link_name)
          (lookupID (handleLink s ((pLink, parent_joint) :: rest) link).nodeIDMap
            parent_joint.child_link_name)
          ((pLink, parent_joint) :: rest) parent_joint] := by
  simp only [handleLink, handleParentJoint_lookupID]
  rw [handleParentJoint_cons]
  simp

/-- C11: for a link with a parent joint, the body of `handleKinematics` appends
exactly one record to `jointList`, whatever the joint's type, and the record's
`type` is "hinge" for REVOLUTE and CONTINUOUS, "slider" for PRISMATIC, and
"fixed" for FIXED, FLOATING, PLANAR and UNKNOWN. -/
theorem joint_type_mapping (s : SMURF) (pLink : Link) (parent_joint : Joint)
    (rest : List (Link × Joint)) (link : Link) :
    ∃ record,
      (handleLink s ((pLink, parent_joint) :: rest) link).jointList = s.jointList ++ [record] ∧
      record.find "name" = some (ConfigItem.string parent_joint.name) ∧
      record.find "type" =
        some (ConfigItem.string
          (match parent_joint.type with
          | JointType.REVOLUTE => "hinge"
          | JointType.CONTINUOUS => "hinge"
          | JointType.PRISMATIC => "slider"
          | JointType.FIXED => "fixed"
          | JointType.FLOATING => "fixed"
          | JointType.PLANAR => "fixed"
          | JointType.UNKNOWN => "fixed")) :=
  ⟨_, handleLink_jointList_cons s pLink parent_joint rest link, jointRecord_name _ _ _ _ _,
    jointRecord_type _ _ _ _ _⟩

/-! ### The shape fields written by the geometry handlers -/

/-- C15: `handleCollision` writes `extend` = (radius, 0, 0) for a sphere, the
box dimensions for a box, (radius, length, 0) for a cylinder and the declared
scale for a mesh; `scale` = (1, 1, 1) for a non-mesh shape and the declared
scale for a mesh; and `physicmode` "sphere", "box", "cylinder" or "mesh". -/
theorem handleCollision_fields (map : ConfigMap) (name : String) (origin : Pose) :
    (∀ radius,
      (handleCollision map { name := name, origin := origin, geometry := Geometry.SPHERE radius }).find
          "extend" = some (ConfigItem.vector { x := radius, y := 0, z := 0 }) ∧
      (handleCollision map { name := name, origin := origin, geometry := Geometry.SPHERE radius }).find
          "scale" = some (ConfigItem.vector { x := 1, y := 1, z := 1 }) ∧
      (handleCollision map { name := name, origin := origin, geometry := Geometry.SPHERE radius }).find
          "physicmode" = some (ConfigItem.string "sphere")) ∧
    (∀ dim,
      (handleCollision map { name := name, origin := origin, geometry := Geometry.BOX dim }).find
          "extend" = some (ConfigItem.vector dim) ∧
      (handleCollision map { name := name, origin := origin, geometry := Geometry.BOX dim }).find
          "scale" = some (ConfigItem.vector { x := 1, y := 1, z := 1 }) ∧
      (handleCollision map { name := name, origin := origin, geometry := Geometry.BOX dim }).find
          "physicmode" = some (ConfigItem.string "box")) ∧
    (∀ radius length,
      (handleCollision map
          { name := name, origin := origin, geometry := Geometry.CYLINDER radius length }).find
          "extend" = some (ConfigItem.vector { x := radius, y := length, z := 0 }) ∧
      (handleCollision map
          { name := name, origin := origin, geometry := Geometry.CYLINDER radius length }).find
          "scale" = some (ConfigItem.vector { x := 1, y := 1, z := 1 }) ∧
      (handleCollision map
          { name := name, origin := origin, geometry := Geometry.CYLINDER radius length }).find
          "physicmode" = some (ConfigItem.string "cylinder")) ∧
    (∀ filename scale,
      (handleCollision map
          { name := name, origin := origin, geometry := Geometry.MESH filename scale }).find
          "extend" = some (ConfigItem.vector scale) ∧
      (handleCollision map
          { name := name, origin := origin, geometry := Geometry.MESH filename scale }).find
          "scale" = some (ConfigItem.vector scale) ∧
      (handleCollision map
          { name := name, origin := origin, geometry := Geometry.MESH filename scale }).find
          "physicmode" = some (ConfigItem.string "mesh")) := by
  refine ⟨fun radius => ?_, fun dim => ?_, fun radius length => ?_, fun filename scale => ?_⟩ <;>
    simp [handleCollision, StdMap.find_assign]

/-- C16, as stated, fails: for a mesh with the declared scale (2, 3, 4),
`handleVisual` writes `visualsize` (0, 0, 0), not the declared scale. -/
theorem handleVisual_mesh_size_counterexample :
    (handleVisual [] meshVisual).find "visualsize" =
        some (ConfigItem.vector { x := 0, y := 0, z := 0 }) ∧
    (handleVisual [] meshVisual).find "visualsize" ≠
        some (ConfigItem.vector { x := 2, y := 3, z := 4 }) := by
  constructor
  · simp [handleVisual, meshVisual, StdMap.find_assign]
  · simp [handleVisual, meshVisual, StdMap.find_assign]

/-- C16, amended: `handleVisual` writes `visualsize` = (radius, 0, 0) for a
sphere, the box dimensions for a box, (radius, length, 0) for a cylinder and
(0, 0, 0) for a mesh; `visualscale` = (1, 1, 1) except for a mesh, which
carries its declared scale; `filename` is "PRIMITIVE" for every non-mesh shape,
with `origname` the primitive's name, and the mesh filename for a mesh, with an
empty `origname`. -/
theorem handleVisual_fields (map : ConfigMap) (name : String) (origin : Pose)
    (material_name : String) :
    (∀ radius,
      let visual : Visual :=
        { name := name, origin := origin, geometry := Geometry.SPHERE radius,
          material_name := material_name }
      (handleVisual map visual).find "visualsize" =
          some (ConfigItem.vector { x := radius, y := 0, z := 0 }) ∧
      (handleVisual map visual).find "visualscale" =
          some (ConfigItem.vector { x := 1, y := 1, z := 1 }) ∧
      (handleVisual map visual).find "filename" = some (ConfigItem.string "PRIMITIVE") ∧
      (handleVisual map visual).find "origname" = some (ConfigItem.string "sphere")) ∧
    (∀ dim,
      let visual : Visual :=
        { name := name, origin := origin, geometry := Geometry.BOX dim,
          material_name := material_name }
      (handleVisual map visual).find "visualsize" = some (ConfigItem.vector dim) ∧
      (handleVisual map visual).find "visualscale" =
          some (ConfigItem.vector { x := 1, y := 1, z := 1 }) ∧
      (handleVisual map visual).find "filename" = some (ConfigItem.string "PRIMITIVE") ∧
      (handleVisual map visual).find "origname" = some (ConfigItem.string "box")) ∧
    (∀ radius length,
      let visual : Visual :=
        { name := name, origin := origin, geometry := Geometry.CYLINDER radius length,
          material_name := material_name }
      (handleVisual map visual).find "visualsize" =
          some (ConfigItem.vector { x := radius, y := length, z := 0 }) ∧
      (handleVisual map visual).find "visualscale" =
          some (ConfigItem.vector { x := 1, y := 1, z := 1 }) ∧
      (handleVisual map visual).find "filename" = some (ConfigItem.string "PRIMITIVE") ∧
      (handleVisual map visual).find "origname" = some (ConfigItem.string "cylinder")) ∧
    (∀ filename scale,
      let visual : Visual :=
        { name := name, origin := origin, geometry := Geometry.MESH filename scale,
          material_name := material_name }
      (handleVisual map visual).find "visualsize" =
          some (ConfigItem.vector { x := 0, y := 0, z := 0 }) ∧
      (handleVisual map visual).find "visualscale" = some (ConfigItem.vector scale) ∧
      (handleVisual map visual).find "filename" = some (ConfigItem.string filename) ∧
      (handleVisual map visual).find "origname" = some (ConfigItem.string "")) := by
  refine ⟨fun radius => ?_, fun dim => ?_, fun radius length => ?_, fun filename scale => ?_⟩ <;>
    simp [handleVisual, StdMap.find_assign]

/-! ### Material names -/

theorem handleVisual_materialName (map : ConfigMap) (visual : Visual) :
    (handleVisual map visual).find "materialName" =
      some (ConfigItem.string visual.material_name) := by
  unfold handleVisual
  cases visual.geometry <;> simp [StdMap.find_assign]

theorem handleCollision_materialName (map : ConfigMap) (c : Collision) :
    (handleCollision map c).find "materialName" = map.find "materialName" := by
  unfold handleCollision
  cases c.geometry <;> simp [StdMap.find_assign]

theorem handleMainNode_materialName (s : SMURF) (p : Option (Link × Joint)) (link : Link) :
    (handleMainNode s p link).2.1.find "materialName" =
      some (ConfigItem.string (mainMaterialName link)) := by
  have hk : visualKey "materialName" := by simp [visualKey]
  cases hl : (specialCaseHandling link).2.1
  · have hfake : ∀ (s' : SMURF) (cfg : ConfigMap),
        (mainNodeVisual s' cfg link false).2.1.find "materialName" =
          some (ConfigItem.string "_fakeMaterial") := by
      intro s' cfg
      unfold mainNodeVisual
      split
      · next h _ => cases h
      · exact createFakeVisual_materialName _
    have hmain : mainMaterialName link = "_fakeMaterial" := by
      simp [mainMaterialName, hl]
    rw [hmain]
    simp only [handleMainNode, hl]
    cases hlc : (specialCaseHandling link).2.2
    · rcases hcol : link.collision with _ | c <;>
        simp only [mainNodeCollision, hcol] <;>
        rw [createFakeCollision_find_visualKey _ hk] <;> exact hfake _ _
    · obtain ⟨c, hc, -⟩ := (specialCaseHandling_loadCollision link).mp hlc
      simp only [mainNodeCollision, hc]
      rw [handleCollision_materialName]
      exact hfake _ _
  · obtain ⟨v, hv, -⟩ := (specialCaseHandling_loadVisual link).mp hl
    rw [handleMainNode_find_visualKey s p link v hl hv hk, handleVisual_materialName]
    simp [mainMaterialName, hl, hv]


theorem collisionChildEmitted_materialName (index : Nat) (link : Link) (config : ConfigMap)
    (visualArrayIndex : Nat) (collision : Collision) :
    (collisionChildEmitted index link config visualArrayIndex collision).find "materialName" =
      some (ConfigItem.string
        (match pairVisual collision link.visual_array[visualArrayIndex]? with
        | some visual => visual.material_name
        | none => "_fakeMaterial")) := by
  rcases hp : pairVisual collision link.visual_array[visualArrayIndex]? with _ | v
  · exact (collisionChildEmitted_fakeVisual _ _ _ _ _ hp).2
  · rw [collisionChildEmitted_find_visualKey _ _ _ _ _ v hp (by simp [visualKey]),
      handleVisual_materialName]

theorem visualChildRecord_materialName (index : Nat) (link : Link) (config : ConfigMap)
    (visual : Visual) :
    (visualChildRecord index link config visual).find "materialName" =
      some (ConfigItem.string visual.material_name) := by
  simp only [visualChildRecord, StdMap.find_assign]
  simp [handleVisual_materialName]

theorem collisionChildRecords_materialNames (link : Link) (config : ConfigMap) (index vi : Nat)
    (collisions : List Collision) :
    materialNames (collisionChildRecords link config index vi collisions) =
      (collisionChildMaterialNames link vi collisions).map
        (fun n => some (ConfigItem.string n)) := by
  induction collisions generalizing index vi with
  | nil => rfl
  | cons c cs ih =>
    have ih' := ih (index + 1) (nextVisualArrayIndex link vi c)
    simp only [materialNames] at ih'
    simp only [materialNames, collisionChildRecords, collisionChildMaterialNames, List.map_cons,
      ih', collisionChildEmitted_materialName]

theorem visualChildRecords_materialNames (link : Link) (config : ConfigMap) (index : Nat)
    (visuals : List Visual) :
    materialNames (visualChildRecords link config index visuals) =
      (visuals.map Visual.material_name).map (fun n => some (ConfigItem.string n)) := by
  induction visuals generalizing index with
  | nil => rfl
  | cons v vs ih =>
    have ih' := ih (index + 1)
    simp only [materialNames] at ih'
    simp only [materialNames, visualChildRecords, List.map_cons, ih',
      visualChildRecord_materialName]

theorem linkRecords_materialNames (s : SMURF) (p : Option (Link × Joint)) (link : Link) :
    materialNames (linkRecords s p link) =
      (linkMaterialNames link).map (fun n => some (ConfigItem.string n)) := by
  have hc := fun index vi cs =>
    collisionChildRecords_materialNames link (handleMainNode s p link).2.1 index vi cs
  have hv := fun index vs =>
    visualChildRecords_materialNames link (handleMainNode s p link).2.1 index vs
  simp only [materialNames] at hc hv
  simp only [materialNames, linkRecords, linkMaterialNames, List.map_cons, List.map_append, hc,
    hv, handleMainNode_materialName, handleMainNode_collisionArrayIndex,
    handleMainNode_visualArrayIndex]

theorem handleKinematics_materialNames (s : SMURF) (ancestors : List (Link × Joint))
    (link : Link) :
    materialNames (handleKinematics s ancestors link).nodeList =
      materialNames s.nodeList ++
        ((subtreeLinks link).flatMap linkMaterialNames).map
          (fun n => some (ConfigItem.string n)) := by
  refine handleKinematics.induct
    (fun s ancestors link =>
      materialNames (handleKinematics s ancestors link).nodeList =
        materialNames s.nodeList ++
          ((subtreeLinks link).flatMap linkMaterialNames).map
            (fun n => some (ConfigItem.string n)))
    (fun s ancestors link children =>
      materialNames (handleChildLinks s ancestors link children).nodeList =
        materialNames s.nodeList ++
          ((childrenLinks children).flatMap linkMaterialNames).map
            (fun n => some (ConfigItem.string n)))
    ?_ ?_ ?_ s ancestors link
  · intro s ancestors n i v c va ca cl link ih
    have hl := linkRecords_materialNames s ancestors.head? link
    simp only [materialNames] at hl ih
    simp only [handleKinematics, materialNames, ih, handleLink_nodeList, List.map_append, hl,
      subtreeLinks, List.flatMap_cons, List.append_assoc]
  · intro s ancestors link
    simp [handleChildLinks, childrenLinks]
  · intro s ancestors link joint child rest ih1 ih2
    simp only [materialNames] at ih1 ih2
    simp only [handleChildLinks, materialNames, ih2, ih1, childrenLinks, List.flatMap_append,
      List.map_append, List.append_assoc]

/-- C14, as stated, fails: the main node of a link whose visual is a box
without a material reference gets the empty `materialName` of that visual, not
"_fakeMaterial". -/
theorem materialName_counterexample :
    materialNames (createModel (reset {} 0) modelVisualWithoutMaterial).nodeList =
      [some (ConfigItem.string "")] := by
  decide

/-- C14, amended: the records of `nodeList` carry, in emission order, the
material names `linkMaterialNames` lists for the links of the tree: a node that
carries a visual shape of the link (primary, paired with a collision, or
visual-only) has that visual's material name, also when it is empty, and a node
that carries no visual shape (its visual is the synthesized fallback) has
"_fakeMaterial". -/
theorem materialName_of_nodes (s : SMURF) (maxGroupID : Nat) (model : ModelInterface) :
    materialNames (createModel (reset s maxGroupID) model).nodeList =
      ((subtreeLinks model.root_link_).flatMap linkMaterialNames).map
        (fun n => some (ConfigItem.string n)) := by
  obtain ⟨s0, hnil, -, heq⟩ := createModel_eq s maxGroupID model
  rw [heq, handleKinematics_materialNames, hnil]
  rfl

/-! ### The material list -/

@[simp] theorem mainNodeGroupID_materialList (s : SMURF) (config : ConfigMap)
    (needGroupID : Bool) : (mainNodeGroupID s config needGroupID).1.materialList = s.materialList := by
  unfold mainNodeGroupID; split <;> rfl

@[simp] theorem calculatePose_materialList (s : SMURF) (map : ConfigMap)
    (parent : Option (Link × Joint)) (link : Link) :
    (calculatePose s map parent link).1.materialList = s.materialList := by
  unfold calculatePose; rcases parent with _ | ⟨pLink, joint⟩ <;> rfl

@[simp] theorem mainNodeVisual_materialList (s : SMURF) (config : ConfigMap) (link : Link)
    (loadVisual : Bool) : (mainNodeVisual s config link loadVisual).1.materialList = s.materialList := by
  unfold mainNodeVisual; split <;> rfl

@[simp] theorem mainNodeCollision_materialList (s : SMURF) (config : ConfigMap) (link : Link)
    (loadCollision : Bool) :
    (mainNodeCollision s config link loadCollision).1.materialList = s.materialList := by
  unfold mainNodeCollision; split <;> rfl

@[simp] theorem childNodeVisual_materialList (s : SMURF) (childNode : ConfigMap) (link : Link)
    (p1 : Pose) (visualArrayIndex : Nat) (visual : Option Visual) :
    (childNodeVisual s childNode link p1 visualArrayIndex visual).1.materialList =
      s.materialList := by
  unfold childNodeVisual; split <;> rfl

@[simp] theorem handleMainNode_materialList (s : SMURF) (p : Option (Link × Joint)) (link : Link) :
    (handleMainNode s p link).1.materialList = s.materialList := by
  simp [handleMainNode]

@[simp] theorem collisionChildNode_materialList (s : SMURF) (link : Link) (config : ConfigMap)
    (visualArrayIndex : Nat) (collision : Collision) :
    (collisionChildNode s link config visualArrayIndex collision).1.materialList =
      s.materialList := by
  simp [collisionChildNode]

@[simp] theorem collisionChildNodes_materialList (link : Link) (config : ConfigMap) (s : SMURF)
    (visualArrayIndex : Nat) (collisions : List Collision) :
    (collisionChildNodes link config s visualArrayIndex collisions).1.materialList =
      s.materialList := by
  induction collisions generalizing s visualArrayIndex with
  | nil => rfl
  | cons c cs ih => simp only [collisionChildNodes]; rw [ih, collisionChildNode_materialList]

@[simp] theorem visualChildNode_materialList (s : SMURF) (link : Link) (config : ConfigMap)
    (visual : Visual) : (visualChildNode s link config visual).materialList = s.materialList := by
  unfold visualChildNode
  split <;> rfl

@[simp] theorem visualChildNodes_materialList (link : Link) (config : ConfigMap) (s : SMURF)
    (visuals : List Visual) :
    (visualChildNodes link config s visuals).materialList = s.materialList := by
  induction visuals generalizing s with
  | nil => rfl
  | cons v vs ih => simp only [visualChildNodes]; rw [ih, visualChildNode_materialList]

@[simp] theorem handleParentJoint_materialList (s : SMURF) (ancestors : List (Link × Joint)) :
    (handleParentJoint s ancestors).materialList = s.materialList := by
  unfold handleParentJoint
  split <;> rfl

theorem handleLink_materialList (s : SMURF) (ancestors : List (Link × Joint)) (link : Link) :
    (handleLink s ancestors link).materialList = s.materialList := by
  simp [handleLink]

theorem handleKinematics_materialList (s : SMURF) (ancestors : List (Link × Joint))
    (link : Link) : (handleKinematics s ancestors link).materialList = s.materialList :=
  handleKinematics_preserves (fun t => t.materialList = s.materialList)
    (fun t anc l h => (handleLink_materialList t anc l).trans h) s ancestors link rfl

theorem foldl_handleMaterial_materialIds (materials : List Material) (s : SMURF) :
    materialIds (materials.foldl handleMaterial s).materialList =
      materialIds s.materialList ++ materialsFrom s.nextMaterialID materials := by
  induction materials generalizing s with
  | nil => simp [materialIds, materialsFrom]
  | cons m ms ih =>
    simp only [List.foldl_cons, materialsFrom]
    rw [ih]
    simp [materialIds, handleMaterial, StdMap.find_assign]

/-- C13: after `reset` and `createModel` on any model, `materialList` starts
with the synthetic material "_fakeMaterial" with id 1, followed by one record
for each URDF material, in order, with the ids 2, 3, ... -/
theorem createModel_materialList (s : SMURF) (maxGroupID : Nat) (model : ModelInterface) :
    materialIds (createModel (reset s maxGroupID) model).materialList =
      (some (ConfigItem.string "_fakeMaterial"), some (ConfigItem.ulong 1)) ::
        materialsFrom 2 model.materials_ ∧
    (createModel (reset s maxGroupID) model).materialList.length = 1 + model.materials_.length := by
  have h : materialIds (createModel (reset s maxGroupID) model).materialList =
      (some (ConfigItem.string "_fakeMaterial"), some (ConfigItem.ulong 1)) ::
        materialsFrom 2 model.materials_ := by
    unfold createModel
    rw [handleKinematics_materialList, foldl_handleMaterial_materialIds]
    split <;> simp [materialIds, createFakeMaterial, reset, StdMap.find_assign]
  refine ⟨h, ?_⟩
  have hlen := congrArg List.length h
  have hfrom : ∀ (ms : List Material) (start : Nat), (materialsFrom start ms).length = ms.length := by
    intro ms
    induction ms with
    | nil => intro start; rfl
    | cons m ms ih => intro start; simp [materialsFrom, ih]
  simp only [materialIds, List.length_map, List.length_cons, hfrom] at hlen
  omega

/-! ### The end points of the joints -/

theorem jointEnds_append (xs ys : List ConfigMap) :
    jointEnds (xs ++ ys) = jointEnds xs ++ jointEnds ys := by
  simp [jointEnds]

theorem mem_subtreeLinks_self (link : Link) : link ∈ subtreeLinks link := by
  cases link
  simp [subtreeLinks]

theorem name_mem_linkNames (link : Link) : link.name ∈ linkNames link :=
  List.mem_map_of_mem _ (mem_subtreeLinks_self link)

theorem handleLink_jointList_nil (s : SMURF) (link : Link) :
    (handleLink s [] link).jointList = s.jointList := by
  simp [handleLink, handleParentJoint]

theorem handleLink_jointEnds (s : SMURF) (ancestors : List (Link × Joint)) (link : Link)
    (parentIndex : Nat) (hself : link.name ∉ auxiliaryKeys link)
    (hparent : ∀ p j, ancestors.head? = some (p, j) →
      j.parent_link_name = p.name ∧ j.child_link_name = link.name ∧
      lookupID s.nodeIDMap p.name = parentIndex ∧ p.name ≠ link.name ∧
      p.name ∉ auxiliaryKeys link) :
    jointEnds (handleLink s ancestors link).jointList =
      jointEnds s.jointList ++
        (match ancestors.head?.map (fun (pj : Link × Joint) => (pj.2, parentIndex)) with
          | some (joint, parentIndex) => [((joint.name, parentIndex, s.nextNodeID) : String × Nat × Nat)]
          | none => []).map jointEndsItem := by
  rcases ancestors with _ | ⟨⟨p, j⟩, rest⟩
  · simp [handleLink_jointList_nil]
  · obtain ⟨hpn, hcn, hlook, hne, haux⟩ := hparent p j rfl
    have hne' : ¬ link.name = p.name := fun h => hne h.symm
    rw [handleLink_jointList_cons, jointEnds_append, hpn, hcn,
      handleLink_lookupID _ _ _ _ haux, handleLink_lookupID _ _ _ _ hself, if_neg hne',
      if_pos rfl, hlook]
    simp [jointEnds, jointEndsItem, jointRecord_name, jointRecord_nodeindex1,
      jointRecord_nodeindex2]

theorem handleKinematics_jointEnds (s : SMURF) (ancestors : List (Link × Joint)) (link : Link)
    (parentIndex : Nat) (hnames : linkNamesUnambiguous link) (hjoints : jointsNameLinks link)
    (hparent : ∀ p j, ancestors.head? = some (p, j) →
      j.parent_link_name = p.name ∧ j.child_link_name = link.name ∧
      lookupID s.nodeIDMap p.name = parentIndex ∧ p.name ∉ linkNames link ∧
      ∀ l ∈ subtreeLinks link, p.name ∉ auxiliaryKeys l) :
    jointEnds (handleKinematics s ancestors link).jointList =
      jointEnds s.jointList ++
        (expectedJoints (ancestors.head?.map (fun (pj : Link × Joint) => (pj.2, parentIndex))) s.nextNodeID
          link).map jointEndsItem := by
  refine handleKinematics.induct
    (fun s ancestors link => ∀ parentIndex, linkNamesUnambiguous link → jointsNameLinks link →
      (∀ p j, ancestors.head? = some (p, j) →
        j.parent_link_name = p.name ∧ j.child_link_name = link.name ∧
        lookupID s.nodeIDMap p.name = parentIndex ∧ p.name ∉ linkNames link ∧
        ∀ l ∈ subtreeLinks link, p.name ∉ auxiliaryKeys l) →
      jointEnds (handleKinematics s ancestors link).jointList =
        jointEnds s.jointList ++
          (expectedJoints (ancestors.head?.map (fun (pj : Link × Joint) => (pj.2, parentIndex))) s.nextNodeID
            link).map jointEndsItem)
    (fun s ancestors link children => ∀ index,
      ((childrenLinks children).map Link.name).Nodup →
      (∀ n ∈ (childrenLinks children).map Link.name, ∀ l ∈ childrenLinks children,
        n ∉ auxiliaryKeys l) →
      link.name ∉ (childrenLinks children).map Link.name →
      (∀ l ∈ childrenLinks children, link.name ∉ auxiliaryKeys l) →
      (∀ e ∈ childEdges link children,
        e.2.1.parent_link_name = e.1.name ∧ e.2.1.child_link_name = e.2.2.name) →
      lookupID s.nodeIDMap link.name = index →
      jointEnds (handleChildLinks s ancestors link children).jointList =
        jointEnds s.jointList ++
          (expectedJointsChildren index s.nextNodeID children).map jointEndsItem)
    ?_ ?_ ?_ s ancestors link parentIndex hnames hjoints hparent
  · intro s ancestors n i v c va ca cl link ih parentIndex hnames hjoints hparent
    obtain ⟨hnodup, haux⟩ := hnames
    simp only [linkNames, subtreeLinks, List.map_cons, List.nodup_cons] at hnodup
    simp only [linkNames, subtreeLinks, List.map_cons, List.mem_cons, forall_eq_or_imp] at haux
    have hself : link.name ∉ auxiliaryKeys link := haux.1.1
    have hlook : lookupID (handleLink s ancestors link).nodeIDMap link.name = s.nextNodeID := by
      rw [handleLink_lookupID _ _ _ _ hself, if_pos rfl]
    have hedges : ∀ e ∈ childEdges link cl,
        e.2.1.parent_link_name = e.1.name ∧ e.2.1.child_link_name = e.2.2.name := by
      intro e he
      apply hjoints e
      simpa [treeEdges] using he
    have hrec := ih s.nextNodeID hnodup.2 (fun m hm l hl => (haux.2 m hm).2 l hl) hnodup.1
      (fun l hl => haux.1.2 l hl) hedges hlook
    have hlink := handleLink_jointEnds s ancestors link parentIndex hself (by
      intro p j hpj
      obtain ⟨h1, h2, h3, h4, h5⟩ := hparent p j hpj
      refine ⟨h1, h2, h3, fun h => h4 (h ▸ name_mem_linkNames link), h5 link ?_⟩
      exact mem_subtreeLinks_self link)
    simp only [handleKinematics]
    rw [hrec, hlink, handleLink_nextNodeID_count]
    simp only [expectedJoints, List.map_append, List.append_assoc]
    try rfl
  · intro s ancestors link index _ _ _ _ _ _
    simp [handleChildLinks, expectedJointsChildren]
  · intro s ancestors link joint child rest ih1 ih2 index hnodup haux hlink hlinkaux hedges hlook
    simp only [childrenLinks, List.map_append, List.nodup_append] at hnodup
    simp only [childrenLinks, List.map_append, List.mem_append] at haux hlink hlinkaux
    rw [not_or] at hlink
    have hchild : linkNamesUnambiguous child :=
      ⟨hnodup.1, fun m hm l hl => haux m (Or.inl hm) l (Or.inl hl)⟩
    have hchildJoints : jointsNameLinks child := by
      intro e he
      apply hedges e
      simp [childEdges, he]
    have hedge := hedges (link, joint, child) (by simp [childEdges])
    have h1 := ih1 index hchild hchildJoints (by
      intro p j hpj
      simp only [List.head?_cons, Option.some.injEq, Prod.mk.injEq] at hpj
      obtain ⟨rfl, rfl⟩ := hpj
      exact ⟨hedge.1, hedge.2, hlook, hlink.1, fun l hl => hlinkaux l (Or.inl hl)⟩)
    have hlook' : lookupID (handleKinematics s ((link, joint) :: ancestors) child).nodeIDMap
        link.name = index := by
      rw [handleKinematics_lookupID _ _ _ _ hlink.1 (fun l hl => hlinkaux l (Or.inl hl)), hlook]
    have h2 := ih2 index hnodup.2.1
      (fun m hm l hl => haux m (Or.inr hm) l (Or.inr hl)) hlink.2
      (fun l hl => hlinkaux l (Or.inr hl))
      (fun e he => hedges e (by simp [childEdges, he])) hlook'
    simp only [handleChildLinks, expectedJointsChildren, List.map_append]
    rw [h2, h1, handleKinematics_nextNodeID, List.append_assoc]
    rfl

theorem expectedJoints_bounds (parent : Option (Joint × Nat)) (index : Nat) (link : Link)
    (hparent : ∀ j p, parent = some (j, p) → 1 ≤ p ∧ p < index) (hindex : 1 ≤ index) :
    ∀ e ∈ expectedJoints parent index link, 1 ≤ e.2.1 ∧ e.2.1 < e.2.2 := by
  refine expectedJoints.induct
    (fun parent index link => (∀ j p, parent = some (j, p) → 1 ≤ p ∧ p < index) → 1 ≤ index →
      ∀ e ∈ expectedJoints parent index link, 1 ≤ e.2.1 ∧ e.2.1 < e.2.2)
    (fun parentIndex index children => 1 ≤ parentIndex → parentIndex < index →
      ∀ e ∈ expectedJointsChildren parentIndex index children, 1 ≤ e.2.1 ∧ e.2.1 < e.2.2)
    ?_ ?_ ?_ parent index link hparent hindex
  · intro parent index n i v c va ca cl ih hparent hindex e he
    have hpos := linkNodeCount_pos (Link.mk n i v c va ca cl)
    simp only [expectedJoints, List.mem_append] at he
    rcases he with he | he
    · rcases parent with _ | ⟨j, p⟩
      · simp at he
      · simp only [List.mem_singleton] at he
        subst he
        exact hparent j p rfl
    · exact ih hindex (by omega) e he
  · intro parentIndex index _ _ e he
    simp [expectedJointsChildren] at he
  · intro parentIndex index joint child rest ih1 ih2 h1 h2 e he
    simp only [expectedJointsChildren, List.mem_append] at he
    rcases he with he | he
    · refine ih1 ?_ (by omega) e he
      intro j p hjp
      simp only [Option.some.injEq, Prod.mk.injEq] at hjp
      obtain ⟨-, rfl⟩ := hjp
      exact ⟨h1, h2⟩
    · exact ih2 h1 (by omega) e he

theorem createModel_jointList_nil (s : SMURF) (maxGroupID : Nat) (model : ModelInterface) :
    ∃ s0 : SMURF, s0.jointList = [] ∧ s0.nextNodeID = 1 ∧
      createModel (reset s maxGroupID) model = handleKinematics s0 [] model.root_link_ := by
  have hfold : ∀ (ms : List Material) (t : SMURF),
      (ms.foldl handleMaterial t).jointList = t.jointList ∧
      (ms.foldl handleMaterial t).nextNodeID = t.nextNodeID := by
    intro ms
    induction ms with
    | nil => intro t; exact ⟨rfl, rfl⟩
    | cons m ms ih => intro t; exact ih (handleMaterial t m)
  refine ⟨model.materials_.foldl handleMaterial (createFakeMaterial
    (if (reset s maxGroupID).robotname = "" then
      { reset s maxGroupID with robotname := model.name_ } else reset s maxGroupID)), ?_, ?_, rfl⟩
  · rw [(hfold _ _).1]
    split <;> rfl
  · rw [(hfold _ _).2]
    split <;> rfl

/-- C12: for a tree whose link names are pairwise distinct, in which no
collision-shape name and no `<link>_child` name equals a link name, and whose
joints name the links they connect, the records of `jointList` carry, in
emission order, the end points `expectedJoints none 1 root`: `nodeindex1` is the
id of the main node of the joint's parent link and `nodeindex2` the id of the
main node of its child link; both are at least 1 and `nodeindex1 < nodeindex2`. -/
theorem joint_endpoints (s : SMURF) (maxGroupID : Nat) (model : ModelInterface)
    (hnames : linkNamesUnambiguous model.root_link_) (hjoints : jointsNameLinks model.root_link_) :
    jointEnds (createModel (reset s maxGroupID) model).jointList =
        (expectedJoints none 1 model.root_link_).map jointEndsItem ∧
    (∀ e ∈ expectedJoints none 1 model.root_link_, 1 ≤ e.2.1 ∧ e.2.1 < e.2.2) ∧
    ∀ record ∈ (createModel (reset s maxGroupID) model).jointList,
      1 ≤ fieldULong record "nodeindex1" ∧
        fieldULong record "nodeindex1" < fieldULong record "nodeindex2" := by
  obtain ⟨s0, hnil, hnext, heq⟩ := createModel_jointList_nil s maxGroupID model
  have hends : jointEnds (createModel (reset s maxGroupID) model).jointList =
      (expectedJoints none 1 model.root_link_).map jointEndsItem := by
    rw [heq, handleKinematics_jointEnds s0 [] model.root_link_ 0 hnames hjoints (by simp), hnil,
      hnext]
    rfl
  have hbounds := expectedJoints_bounds none 1 model.root_link_ (by simp) (le_refl 1)
  refine ⟨hends, hbounds, fun record hrecord => ?_⟩
  have hmem : (record.find "name", record.find "nodeindex1", record.find "nodeindex2") ∈
      jointEnds (createModel (reset s maxGroupID) model).jointList :=
    List.mem_map_of_mem _ hrecord
  rw [hends, List.mem_map] at hmem
  obtain ⟨e, he, heq'⟩ := hmem
  simp only [jointEndsItem, Prod.mk.injEq] at heq'
  obtain ⟨-, h1, h2⟩ := heq'
  simp only [fieldULong, ← h1, ← h2, Option.getD_some, ConfigItem.getULong]
  exact hbounds e he

/-- C12, at a chain of three links: the joint `j1` connects the nodes 1 and 3
(node 2 is a child node of the root), the joint `j2` the nodes 3 and 4. -/
theorem joint_endpoints_witness :
    jointEnds (createModel (reset {} 0) modelChain).jointList =
      [jointEndsItem ("j1", 1, 3), jointEndsItem ("j2", 3, 4)] := by
  rw [(joint_endpoints {} 0 modelChain (by unfold linkNamesUnambiguous; decide)
    (by unfold jointsNameLinks; decide)).1]
  decide

/-! ### Iterating over a record -/

theorem keyLE_total : IsTotal String StdMap.keyLE :=
  ⟨fun a b => by
    unfold StdMap.keyLE
    by_contra h
    push_neg at h
    exact absurd h.1 (lt_asymm h.2)⟩

theorem keyLE_trans : IsTrans String StdMap.keyLE :=
  ⟨fun a b c hab hbc => by
    unfold StdMap.keyLE at *
    exact not_lt.mpr (le_trans (not_lt.mp hab) (not_lt.mp hbc))⟩

theorem find_eq_none_iff {α : Type} (m : StdMap α) (k : String) :
    m.find k = none ↔ k ∉ m.map Prod.fst := by
  induction m with
  | nil => simp [StdMap.find]
  | cons e rest ih =>
    obtain ⟨k0, v0⟩ := e
    by_cases h : k0 = k
    · simp [StdMap.find, h]
    · have h' : ¬ k = k0 := fun e => h e.symm
      simp only [StdMap.find, h, if_false, ih, List.map_cons, List.mem_cons, h', false_or]

theorem mem_keys {α : Type} (m : StdMap α) (k : String) :
    k ∈ m.keys ↔ k ∈ m.map Prod.fst := by
  unfold StdMap.keys
  rw [(List.perm_insertionSort _ _).mem_iff, List.mem_dedup]

theorem keys_nodup {α : Type} (m : StdMap α) : m.keys.Nodup := by
  unfold StdMap.keys
  exact (List.perm_insertionSort _ _).nodup_iff.mpr (List.nodup_dedup _)

theorem keys_sorted {α : Type} (m : StdMap α) : m.keys.Pairwise StdMap.keyLE := by
  unfold StdMap.keys
  haveI := keyLE_total
  haveI := keyLE_trans
  exact List.sorted_insertionSort _ _

theorem entries_map_fst {α : Type} (m : StdMap α) :
    m.entries.map Prod.fst = m.keys := by
  unfold StdMap.entries
  have h : ∀ ks : List String, (∀ k ∈ ks, m.find k ≠ none) →
      (ks.filterMap (fun k => (m.find k).map (fun v => (k, v)))).map Prod.fst = ks := by
    intro ks
    induction ks with
    | nil => intro _; rfl
    | cons k ks ih =>
      intro hk
      have h1 := hk k (List.mem_cons_self _ _)
      obtain ⟨v, hv⟩ := Option.ne_none_iff_exists'.mp h1
      rw [List.filterMap_cons_some (by rw [hv]; rfl), List.map_cons,
        ih (fun k' hk' => hk k' (List.mem_cons_of_mem _ hk'))]
  apply h
  intro k hk
  rw [Ne, find_eq_none_iff, not_not, ← mem_keys]
  exact hk

theorem find_entries {α : Type} (m : StdMap α) (k : String) :
    StdMap.find m.entries k = m.find k := by
  unfold StdMap.entries
  have h : ∀ ks : List String,
      StdMap.find (ks.filterMap (fun k => (m.find k).map (fun v => (k, v)))) k =
        if k ∈ ks then m.find k else none := by
    intro ks
    induction ks with
    | nil => simp [StdMap.find]
    | cons k0 ks ih =>
      cases hv : m.find k0 with
      | none =>
        rw [List.filterMap_cons_none (by rw [hv]; rfl), ih]
        by_cases hk : k = k0
        · subst hk
          simp [hv]
        · simp [hk]
      | some v =>
        rw [List.filterMap_cons_some (by rw [hv]; rfl)]
        by_cases hk : k0 = k
        · subst hk
          simp [StdMap.find, hv]
        · have hk' : ¬ k = k0 := fun e => hk e.symm
          simp [StdMap.find, hk, hk', ih]
  rw [h]
  split
  · rfl
  · rename_i hk
    rw [mem_keys, ← find_eq_none_iff] at hk
    exact hk.symm

theorem entries_nodup {α : Type} (m : StdMap α) : (m.entries.map Prod.fst).Nodup := by
  rw [entries_map_fst]
  exact keys_nodup m

theorem entries_sorted {α : Type} (m : StdMap α) :
    (m.entries.map Prod.fst).Pairwise StdMap.keyLE := by
  rw [entries_map_fst]
  exact keys_sorted m

theorem foldl_assign_find {α : Type} (l : List (String × α)) (node : StdMap α) (k : String)
    (hl : (l.map Prod.fst).Nodup) :
    (l.foldl (fun n e => n.assign e.1 e.2) node).find k =
      (StdMap.find l k).or (node.find k) := by
  induction l generalizing node with
  | nil => rfl
  | cons e rest ih =>
    obtain ⟨k0, v0⟩ := e
    rw [List.map_cons, List.nodup_cons] at hl
    rw [List.foldl_cons, ih _ hl.2]
    by_cases hk : k0 = k
    · subst hk
      have hnone : StdMap.find rest k0 = none := (find_eq_none_iff rest k0).mpr hl.1
      simp [StdMap.find, hnone, StdMap.find_assign]
    · simp [StdMap.find, hk, StdMap.find_assign]

theorem overrideFields_find (overlay node : ConfigMap) (k : String) :
    (overrideFields overlay node).find k = (overlay.find k).or (node.find k) := by
  unfold overrideFields
  rw [foldl_assign_find _ _ _ (entries_nodup overlay), find_entries]

/-! ### The `nodes` overlay -/

theorem overrideNode_split (overlay : ConfigMap) (before : List ConfigMap) (node : ConfigMap)
    (after : List ConfigMap)
    (hbefore : ∀ b ∈ before, fieldString b "name" ≠ fieldString overlay "name")
    (hnode : fieldString node "name" = fieldString overlay "name") :
    overrideNode overlay (before ++ node :: after) =
      before ++ overrideFields overlay node :: after := by
  induction before with
  | nil => simp [overrideNode, hnode]
  | cons b before ih =>
    have hb := hbefore b (List.mem_cons_self _ _)
    have h := ih (fun b' hb' => hbefore b' (List.mem_cons_of_mem _ hb'))
    simp only [List.cons_append, overrideNode, hb, if_false]
    exact congrArg _ h

theorem overrideNode_unmatched (overlay : ConfigMap) (nodes : List ConfigMap)
    (h : ∀ b ∈ nodes, fieldString b "name" ≠ fieldString overlay "name") :
    overrideNode overlay nodes = nodes := by
  induction nodes with
  | nil => rfl
  | cons b nodes ih =>
    have hb := h b (List.mem_cons_self _ _)
    simp only [overrideNode, hb, if_false]
    rw [ih (fun b' hb' => h b' (List.mem_cons_of_mem _ hb'))]

theorem addConfigMap_nodes (resolved : String → ConfigMap) (model : ModelInterface) (s : SMURF)
    (nodes : List ConfigMap) :
    addConfigMap resolved model s [("nodes", nodes)] = some (addNodes resolved s nodes) := by
  rfl

/-- C17: merging one `nodes` overlay record changes only the first node of
`nodeList` that has the name of the record: that node takes every field of the
record and keeps its other fields, the nodes before and after it stay as they
are; when no node has the name, `nodeList` stays as it is. -/
theorem nodes_overlay_frame (resolved : String → ConfigMap) (model : ModelInterface) (s : SMURF)
    (overlay : ConfigMap) :
    (∀ (before : List ConfigMap) (node : ConfigMap) (after : List ConfigMap),
      s.nodeList = before ++ node :: after →
      (∀ b ∈ before,
        fieldString b "name" ≠ fieldString (handleURIs resolved s.tmpPath overlay) "name") →
      fieldString node "name" = fieldString (handleURIs resolved s.tmpPath overlay) "name" →
      ∃ s' node', addConfigMap resolved model s [("nodes", [overlay])] = some s' ∧
        s'.nodeList = before ++ node' :: after ∧
        (∀ k v, (handleURIs resolved s.tmpPath overlay).find k = some v →
          node'.find k = some v) ∧
        (∀ k, (handleURIs resolved s.tmpPath overlay).find k = none →
          node'.find k = node.find k)) ∧
    ((∀ b ∈ s.nodeList,
        fieldString b "name" ≠ fieldString (handleURIs resolved s.tmpPath overlay) "name") →
      ∃ s', addConfigMap resolved model s [("nodes", [overlay])] = some s' ∧
        s'.nodeList = s.nodeList) := by
  constructor
  · intro before node after hlist hbefore hnode
    refine ⟨_, overrideFields (handleURIs resolved s.tmpPath overlay) node,
      addConfigMap_nodes _ _ _ _, ?_, ?_, ?_⟩
    · show overrideNode _ s.nodeList = _
      rw [hlist]
      exact overrideNode_split _ _ _ _ hbefore hnode
    · intro k v hk
      rw [overrideFields_find, hk]
      rfl
    · intro k hk
      rw [overrideFields_find, hk]
      rfl
  · intro h
    exact ⟨_, addConfigMap_nodes _ _ _ _, overrideNode_unmatched _ _ h⟩

theorem nodes_overlay_frame_witness :
    (∃ s' node',
      addConfigMap noFiles modelWheels (converted modelWheels) [("nodes", [wheelLeftOverlay])] =
        some s' ∧
      s'.nodeList = (converted modelWheels).nodeList.take 1 ++ node' ::
        (converted modelWheels).nodeList.drop 2 ∧
      (∀ k v, (handleURIs noFiles (converted modelWheels).tmpPath wheelLeftOverlay).find k = some v →
        node'.find k = some v) ∧
      (∀ k, (handleURIs noFiles (converted modelWheels).tmpPath wheelLeftOverlay).find k = none →
        node'.find k = ((converted modelWheels).nodeList.getD 1 []).find k)) ∧
    ∃ s', addConfigMap noFiles modelTwoLinks (converted modelTwoLinks) [("nodes", [wheelLeftOverlay])] =
        some s' ∧
      s'.nodeList = (converted modelTwoLinks).nodeList :=
  ⟨(nodes_overlay_frame noFiles modelWheels (converted modelWheels) wheelLeftOverlay).1
      ((converted modelWheels).nodeList.take 1) ((converted modelWheels).nodeList.getD 1 [])
      ((converted modelWheels).nodeList.drop 2) (by rfl) (by decide) (by decide),
    (nodes_overlay_frame noFiles modelTwoLinks (converted modelTwoLinks) wheelLeftOverlay).2
      (by decide)⟩

/-! ### The `visual` and `collision` overlays -/

theorem addConfigMap_visual (resolved : String → ConfigMap) (model : ModelInterface) (s : SMURF)
    (visuals : List ConfigMap) :
    addConfigMap resolved model s [("visual", visuals)] = some (addVisuals resolved s visuals) := by
  rfl

theorem addConfigMap_collision (resolved : String → ConfigMap) (model : ModelInterface)
    (s : SMURF) (collisions : List ConfigMap) :
    addConfigMap resolved model s [("collision", collisions)] =
      some (addCollisions resolved s collisions) := by
  rfl

theorem addVisual_unmatched (resolved : String → ConfigMap) (s : SMURF) (visual : ConfigMap)
    (h : s.visualNameMap.find (fieldString (handleURIs resolved s.tmpPath visual) "name") = none) :
    addVisual resolved s visual = s := by
  simp only [addVisual, h]

theorem addCollision_unmatched (resolved : String → ConfigMap) (s : SMURF)
    (collision : ConfigMap)
    (h : s.collisionNameMap.find (fieldString (handleURIs resolved s.tmpPath collision) "name") =
      none) :
    addCollision resolved s collision = s := by
  simp only [addCollision, h]

/-- C18: a `visual` overlay record whose shape name is not a key of
`visualNameMap`, and a `collision` overlay record whose shape name is not a
key of `collisionNameMap`, is dropped: `addConfigMap` returns the state it was
given, so `nodeList` is what it was before. -/
theorem unmatched_shape_overlay_dropped (resolved : String → ConfigMap) (model : ModelInterface)
    (s : SMURF) (record : ConfigMap) :
    (s.visualNameMap.find (fieldString (handleURIs resolved s.tmpPath record) "name") = none →
      addConfigMap resolved model s [("visual", [record])] = some s) ∧
    (s.collisionNameMap.find (fieldString (handleURIs resolved s.tmpPath record) "name") = none →
      addConfigMap resolved model s [("collision", [record])] = some s) := by
  constructor
  · intro h
    rw [addConfigMap_visual]
    exact congrArg some (addVisual_unmatched resolved s record h)
  · intro h
    rw [addConfigMap_collision]
    exact congrArg some (addCollision_unmatched resolved s record h)

theorem unmatched_shape_overlay_dropped_witness :
    addConfigMap noFiles modelWheels (converted modelWheels) [("visual", [unknownShapeOverlay])] =
        some (converted modelWheels) ∧
      addConfigMap noFiles modelWheels (converted modelWheels)
          [("collision", [unknownShapeOverlay])] =
        some (converted modelWheels) :=
  ⟨(unmatched_shape_overlay_dropped noFiles modelWheels (converted modelWheels)
      unknownShapeOverlay).1 (by decide),
    (unmatched_shape_overlay_dropped noFiles modelWheels (converted modelWheels)
      unknownShapeOverlay).2 (by decide)⟩

theorem overrideNamed_split (cmpName : String) (override : ConfigMap → ConfigMap)
    (before : List ConfigMap) (node : ConfigMap) (after : List ConfigMap)
    (hbefore : ∀ b ∈ before, fieldString b "name" ≠ cmpName)
    (hnode : fieldString node "name" = cmpName) :
    overrideNamed cmpName override (before ++ node :: after) =
      before ++ override node :: after := by
  induction before with
  | nil => simp [overrideNamed, hnode]
  | cons b before ih =>
    have hb := hbefore b (List.mem_cons_self _ _)
    have h := ih (fun b' hb' => hbefore b' (List.mem_cons_of_mem _ hb'))
    simp only [List.cons_append, overrideNamed, hb, if_false]
    exact congrArg _ h

/-- The step of the field loop of the `collision` overlay. -/
theorem collisionStep_find (n : ConfigMap) (e : String × ConfigItem) (k : String)
    (hk : k ≠ "coll_bitmask") :
    (if e.1 ≠ "name" then
        if e.1 = "bitmask" then n.assign "coll_bitmask" (ConfigItem.int e.2.getInt)
        else n.assign e.1 e.2
      else n).find k =
      if e.1 = "name" ∨ e.1 = "bitmask" then n.find k
      else if e.1 = k then some e.2 else n.find k := by
  by_cases h1 : e.1 = "name"
  · simp [h1]
  · by_cases h2 : e.1 = "bitmask"
    · have : ¬ "coll_bitmask" = k := fun h => hk h.symm
      simp [h2, StdMap.find_assign, this]
    · simp [h1, h2, StdMap.find_assign]

theorem foldl_collision_find (l : List (String × ConfigItem)) (node : ConfigMap) (k : String)
    (hl : (l.map Prod.fst).Nodup) (hk : k ≠ "coll_bitmask") :
    (l.foldl
      (fun n e =>
        if e.1 ≠ "name" then
          if e.1 = "bitmask" then n.assign "coll_bitmask" (ConfigItem.int e.2.getInt)
          else n.assign e.1 e.2
        else n)
      node).find k =
      if k = "name" ∨ k = "bitmask" then node.find k
      else (StdMap.find l k).or (node.find k) := by
  induction l generalizing node with
  | nil => simp [StdMap.find]
  | cons e rest ih =>
    obtain ⟨k0, v0⟩ := e
    rw [List.map_cons, List.nodup_cons] at hl
    rw [List.foldl_cons, ih _ hl.2, collisionStep_find _ _ _ hk]
    by_cases hkk : k = "name" ∨ k = "bitmask"
    · simp only [hkk, if_true]
      by_cases h0 : k0 = "name" ∨ k0 = "bitmask"
      · simp only [h0, if_true]
      · have : ¬ k0 = k := by
          rintro rfl
          exact h0 hkk
        simp only [h0, if_false, this]
    · simp only [hkk, if_false]
      by_cases h0 : k0 = k
      · subst h0
        have hnone : StdMap.find rest k0 = none := (find_eq_none_iff rest k0).mpr hl.1
        simp [StdMap.find, hnone, hkk]
      · by_cases h1 : k0 = "name" ∨ k0 = "bitmask"
        · simp [StdMap.find, h0, h1]
        · simp [StdMap.find, h0, h1]

theorem foldl_collision_find_coll_bitmask (l : List (String × ConfigItem)) (node : ConfigMap)
    (hl : (l.map Prod.fst).Nodup) (hs : (l.map Prod.fst).Pairwise StdMap.keyLE) :
    (l.foldl
      (fun n e =>
        if e.1 ≠ "name" then
          if e.1 = "bitmask" then n.assign "coll_bitmask" (ConfigItem.int e.2.getInt)
          else n.assign e.1 e.2
        else n)
      node).find "coll_bitmask" =
      (StdMap.find l "coll_bitmask").or
        (((StdMap.find l "bitmask").map (fun b => ConfigItem.int b.getInt)).or
          (node.find "coll_bitmask")) := by
  induction l generalizing node with
  | nil => simp [StdMap.find]
  | cons e rest ih =>
    obtain ⟨k0, v0⟩ := e
    rw [List.map_cons, List.nodup_cons] at hl
    rw [List.map_cons, List.pairwise_cons] at hs
    rw [List.foldl_cons, ih _ hl.2 hs.2]
    by_cases h1 : k0 = "name"
    · subst h1
      simp [StdMap.find]
    · by_cases h2 : k0 = "bitmask"
      · subst h2
        have hnone : StdMap.find rest "bitmask" = none := (find_eq_none_iff rest _).mpr hl.1
        simp [StdMap.find, hnone, StdMap.find_assign]
      · by_cases h3 : k0 = "coll_bitmask"
        · subst h3
          have hnone : StdMap.find rest "coll_bitmask" = none :=
            (find_eq_none_iff rest _).mpr hl.1
          have hnone' : StdMap.find rest "bitmask" = none := by
            rw [find_eq_none_iff]
            intro hmem
            have hle : StdMap.keyLE "coll_bitmask" "bitmask" := hs.1 _ hmem
            exact absurd hle (by decide)
          simp [StdMap.find, hnone, hnone', StdMap.find_assign]
        · have h3' : ¬ k0 = "coll_bitmask" := h3
          simp [StdMap.find, h1, h2, h3, StdMap.find_assign]

theorem overrideCollisionFields_find (overlay node : ConfigMap) (k : String)
    (hk : k ≠ "coll_bitmask") :
    (overrideCollisionFields overlay node).find k =
      if k = "name" ∨ k = "bitmask" then node.find k
      else (overlay.find k).or (node.find k) := by
  unfold overrideCollisionFields
  rw [foldl_collision_find _ _ _ (entries_nodup overlay) hk, find_entries]

theorem overrideCollisionFields_coll_bitmask (overlay node : ConfigMap) :
    (overrideCollisionFields overlay node).find "coll_bitmask" =
      (overlay.find "coll_bitmask").or
        (((overlay.find "bitmask").map (fun b => ConfigItem.int b.getInt)).or
          (node.find "coll_bitmask")) := by
  unfold overrideCollisionFields
  rw [foldl_collision_find_coll_bitmask _ _ (entries_nodup overlay) (entries_sorted overlay),
    find_entries, find_entries]

/-- C19, the claim as stated fails: the overlay record for `body_collision`
carries `bitmask: 5` and `coll_bitmask: 7`, and the node ends with
`coll_bitmask` 7, the record's own `coll_bitmask` field, not with the value of
its `bitmask` field. -/
theorem coll_bitmask_counterexample :
    (addConfigMap noFiles modelWheels (converted modelWheels)
        [("collision", [bodyCollisionOverlay])]).map (fun s => collBitmasks (s.nodeList.take 1)) =
      some [some (ConfigItem.int 7)] := by
  decide

/-- C19 (amended): a `collision` overlay record merged into the node it
matches writes the integer value of its `bitmask` field to the node's
`coll_bitmask` field when the record has no `coll_bitmask` field of its own,
which otherwise is the value the node gets; the node's `bitmask` and `name`
fields stay as they are, and every other field of the record is copied under
its own key, the remaining fields of the node staying as they are. -/
theorem collision_overlay_fields (resolved : String → ConfigMap) (model : ModelInterface)
    (s : SMURF) (overlay : ConfigMap) (cmpName : String) (before : List ConfigMap)
    (node : ConfigMap) (after : List ConfigMap)
    (hname : s.collisionNameMap.find
      (fieldString (handleURIs resolved s.tmpPath overlay) "name") = some cmpName)
    (hlist : s.nodeList = before ++ node :: after)
    (hbefore : ∀ b ∈ before, fieldString b "name" ≠ cmpName)
    (hnode : fieldString node "name" = cmpName) :
    ∃ s' node', addConfigMap resolved model s [("collision", [overlay])] = some s' ∧
      s'.nodeList = before ++ node' :: after ∧
      (∀ b, (handleURIs resolved s.tmpPath overlay).find "bitmask" = some b →
        (handleURIs resolved s.tmpPath overlay).find "coll_bitmask" = none →
        node'.find "coll_bitmask" = some (ConfigItem.int b.getInt)) ∧
      (∀ c, (handleURIs resolved s.tmpPath overlay).find "coll_bitmask" = some c →
        node'.find "coll_bitmask" = some c) ∧
      node'.find "bitmask" = node.find "bitmask" ∧
      node'.find "name" = node.find "name" ∧
      (∀ k, k ≠ "name" → k ≠ "bitmask" → k ≠ "coll_bitmask" →
        node'.find k = ((handleURIs resolved s.tmpPath overlay).find k).or (node.find k)) := by
  refine ⟨_, overrideCollisionFields (handleURIs resolved s.tmpPath overlay) node,
    addConfigMap_collision _ _ _ _, ?_, ?_, ?_, ?_, ?_, ?_⟩
  · show (addCollision resolved s overlay).nodeList = _
    simp only [addCollision, hname, hlist]
    exact overrideNamed_split _ _ _ _ _ hbefore hnode
  · intro b hb hc
    rw [overrideCollisionFields_coll_bitmask, hb, hc]
    rfl
  · intro c hc
    rw [overrideCollisionFields_coll_bitmask, hc]
    rfl
  · rw [overrideCollisionFields_find _ _ _ (by decide)]
    simp
  · rw [overrideCollisionFields_find _ _ _ (by decide)]
    simp
  · intro k h1 h2 h3
    rw [overrideCollisionFields_find _ _ _ h3]
    simp [h1, h2]

theorem collision_overlay_fields_witness :
    ∃ s' node', addConfigMap noFiles modelWheels (converted modelWheels)
        [("collision", [bodyBitmaskOverlay])] = some s' ∧
      s'.nodeList = [] ++ node' :: (converted modelWheels).nodeList.drop 1 ∧
      (∀ b, (handleURIs noFiles (converted modelWheels).tmpPath bodyBitmaskOverlay).find
          "bitmask" = some b →
        (handleURIs noFiles (converted modelWheels).tmpPath bodyBitmaskOverlay).find
          "coll_bitmask" = none →
        node'.find "coll_bitmask" = some (ConfigItem.int b.getInt)) ∧
      (∀ c, (handleURIs noFiles (converted modelWheels).tmpPath bodyBitmaskOverlay).find
          "coll_bitmask" = some c →
        node'.find "coll_bitmask" = some c) ∧
      node'.find "bitmask" = ((converted modelWheels).nodeList.getD 0 []).find "bitmask" ∧
      node'.find "name" = ((converted modelWheels).nodeList.getD 0 []).find "name" ∧
      (∀ k, k ≠ "name" → k ≠ "bitmask" → k ≠ "coll_bitmask" →
        node'.find k =
          ((handleURIs noFiles (converted modelWheels).tmpPath bodyBitmaskOverlay).find k).or
            (((converted modelWheels).nodeList.getD 0 []).find k)) :=
  collision_overlay_fields noFiles modelWheels (converted modelWheels) bodyBitmaskOverlay "body"
    [] ((converted modelWheels).nodeList.getD 0 []) ((converted modelWheels).nodeList.drop 1)
    (by decide) (by rfl) (by decide) (by decide)

/-! ### The `motors` section -/

theorem addConfigMap_motors (resolved : String → ConfigMap) (model : ModelInterface) (s : SMURF)
    (motors : List ConfigMap) :
    addConfigMap resolved model s [("motors", motors)] = some (addMotors resolved s motors) := by
  rfl

theorem foldl_frame {α β : Type} (f : SMURF → β → SMURF) (field : SMURF → α)
    (h : ∀ s x, field (f s x) = field s) (s : SMURF) (l : List β) :
    field (l.foldl f s) = field s := by
  induction l generalizing s with
  | nil => rfl
  | cons x l ih => rw [List.foldl_cons, ih, h]

theorem foldlM_frame {α β : Type} (f : SMURF → β → Option SMURF) (field : SMURF → α)
    (h : ∀ s x s', f s x = some s' → field s' = field s) (s : SMURF) (l : List β) (s' : SMURF)
    (hs : l.foldlM f s = some s') : field s' = field s := by
  induction l generalizing s with
  | nil =>
    simp only [List.foldlM, pure, Option.some.injEq] at hs
    rw [← hs]
  | cons x l ih =>
    simp only [List.foldlM, bind, Option.bind] at hs
    cases hx : f s x with
    | none => rw [hx] at hs; cases hs
    | some s1 =>
      rw [hx] at hs
      rw [ih s1 hs, h s x s1 hx]

@[simp] theorem readNodeID_motorList (s : SMURF) (name : String) :
    (readNodeID s name).1.motorList = s.motorList := rfl

@[simp] theorem readJointID_motorList (s : SMURF) (name : String) :
    (readJointID s name).1.motorList = s.motorList := rfl

@[simp] theorem readMotorID_motorList (s : SMURF) (name : String) :
    (readMotorID s name).1.motorList = s.motorList := rfl

@[simp] theorem readSensorID_motorList (s : SMURF) (name : String) :
    (readSensorID s name).1.motorList = s.motorList := rfl

@[simp] theorem readID_motorList (s : SMURF) (idmap : IDMapRef) (name : String) :
    (readID s idmap name).1.motorList = s.motorList := by
  cases idmap <;> rfl

@[simp] theorem readCollisionName_motorList (s : SMURF) (name : String) :
    (readCollisionName s name).1.motorList = s.motorList := rfl

theorem foldl_pair_frame {α β γ : Type} (f : SMURF × γ → β → SMURF × γ) (field : SMURF → α)
    (h : ∀ acc x, field (f acc x).1 = field acc.1) (acc : SMURF × γ) (l : List β) :
    field (l.foldl f acc).1 = field acc.1 := by
  induction l generalizing acc with
  | nil => rfl
  | cons x l ih => rw [List.foldl_cons, ih, h]

theorem pushIDs_frame {α : Type} (field : SMURF → α) (read : SMURF → String → SMURF × Nat)
    (hread : ∀ s name, field (read s name).1 = field s) (s : SMURF) (map : ConfigMap)
    (names : List ConfigAtom) : field (pushIDs read s map names).1 = field s := by
  unfold pushIDs
  exact foldl_pair_frame
    (fun (acc : SMURF × ConfigMap) (name : ConfigAtom) =>
      ((read acc.1 name.getString).1,
        acc.2.pushBack "id" (ConfigAtom.ulong (read acc.1 name.getString).2)))
    field (fun acc x => hread _ _) _ _

theorem pushControllerIDs_frame {α : Type} (field : SMURF → α)
    (read : SMURF → String → SMURF × Nat) (key : String)
    (hread : ∀ s name, field (read s name).1 = field s) (s : SMURF) (map : ConfigMap)
    (names : List ConfigAtom) :
    field (pushControllerIDs read key s map names).1 = field s := by
  unfold pushControllerIDs
  exact foldl_pair_frame
    (fun (acc : SMURF × ConfigMap) (name : ConfigAtom) =>
      ((read acc.1 name.getString).1,
        acc.2.pushBack key (ConfigAtom.ulong (read acc.1 name.getString).2)))
    field (fun acc x => hread _ _) _ _

theorem sensorIDs_frame {α : Type} (field : SMURF → α)
    (hid : ∀ s idmap name, field (readID s idmap name).1 = field s)
    (hname : ∀ s name, field (readCollisionName s name).1 = field s)
    (idmap : Option IDMapRef) (namemap : Bool) (s : SMURF)
    (ids : List ConfigAtom) : field (sensorIDs idmap namemap s ids).1 = field s := by
  unfold sensorIDs
  refine foldl_pair_frame _ field (fun acc x => ?_) _ _
  rcases idmap with _ | idmap
  · rfl
  · cases namemap
    · simp only [Bool.false_eq_true, if_false, hid]
    · simp only [if_true, hid, hname]

theorem getSensorIDList_frame {α : Type} (field : SMURF → α)
    (hnode : ∀ s name, field (readNodeID s name).1 = field s)
    (hjoint : ∀ s name, field (readJointID s name).1 = field s)
    (hmotor : ∀ s name, field (readMotorID s name).1 = field s)
    (s : SMURF) (map : ConfigMap) :
    field (getSensorIDList s map).1 = field s := by
  unfold getSensorIDList
  split
  rename_i s1 map1 h1
  split
  rename_i s2 map2 h2
  split
  rename_i s3 map3 h3
  split
  rename_i s4 map4 h4
  have e1 : field s1 = field s := by
    rw [show s1 = (s1, map1).1 from rfl, ← h1]
    split
    · exact hnode _ _
    · rfl
  have e2 : field s2 = field s1 := by
    rw [show s2 = (s2, map2).1 from rfl, ← h2]
    split
    · exact hjoint _ _
    · rfl
  have e3 : field s3 = field s2 := by
    rw [show s3 = (s3, map3).1 from rfl, ← h3]
    split
    · exact pushIDs_frame field _ hnode _ _ _
    · rfl
  have e4 : field s4 = field s3 := by
    rw [show s4 = (s4, map4).1 from rfl, ← h4]
    split
    · exact pushIDs_frame field _ hjoint _ _ _
    · rfl
  rw [← e1, ← e2, ← e3, ← e4]
  split
  · exact pushIDs_frame field _ hmotor _ _ _
  · rfl

theorem sensorJoint6DOF_frame {α : Type} (field : SMURF → α)
    (hnode : ∀ s name, field (readNodeID s name).1 = field s)
    (hjoint : ∀ s name, field (readJointID s name).1 = field s)
    (model : ModelInterface) (s : SMURF) (tmpmap : ConfigMap) (sm : SMURF × ConfigMap)
    (h : sensorJoint6DOF model s tmpmap = some sm) : field sm.1 = field s := by
  unfold sensorJoint6DOF at h
  split at h
  · cases hj : parentJointName model (fieldString tmpmap "link") with
    | none => simp [hj] at h
    | some jointname =>
      simp only [hj, Option.map_some', Option.some.injEq] at h
      rw [← h]
      exact (hjoint _ _).trans (hnode _ _)
  · simp only [Option.some.injEq] at h
    rw [← h]

theorem sensorIDField_frame {α : Type} (field : SMURF → α)
    (hid : ∀ s idmap name, field (readID s idmap name).1 = field s)
    (hname : ∀ s name, field (readCollisionName s name).1 = field s)
    (s : SMURF) (tmpmap : ConfigMap) : field (sensorIDField s tmpmap).1 = field s := by
  unfold sensorIDField
  split
  · exact sensorIDs_frame field hid hname _ _ _ _
  · rfl

theorem registerSensor_frame {α : Type} (field : SMURF → α)
    (hnode : ∀ s name, field (readNodeID s name).1 = field s)
    (hjoint : ∀ s name, field (readJointID s name).1 = field s)
    (hmotor : ∀ s name, field (readMotorID s name).1 = field s)
    (hsensor : ∀ (s : SMURF) n m l,
      field { s with nextSensorID := n, sensorIDMap := m, sensorList := l } = field s)
    (s : SMURF) (tmpmap : ConfigMap) : field (registerSensor s tmpmap) = field s := by
  unfold registerSensor
  refine (hsensor (getSensorIDList _ _).1 _ _ _).trans ?_
  rw [getSensorIDList_frame field hnode hjoint hmotor]
  exact hsensor s _ _ _

theorem addSensor_frame {α : Type} (field : SMURF → α)
    (hnode : ∀ s name, field (readNodeID s name).1 = field s)
    (hjoint : ∀ s name, field (readJointID s name).1 = field s)
    (hmotor : ∀ s name, field (readMotorID s name).1 = field s)
    (hname : ∀ s name, field (readCollisionName s name).1 = field s)
    (hsensor : ∀ (s : SMURF) n m l,
      field { s with nextSensorID := n, sensorIDMap := m, sensorList := l } = field s)
    (resolved : String → ConfigMap) (model : ModelInterface) (s : SMURF) (sensor : ConfigMap)
    (s' : SMURF) (h : addSensor resolved model s sensor = some s') : field s' = field s := by
  unfold addSensor at h
  simp only [Option.map_eq_some'] at h
  obtain ⟨sm, hsm, rfl⟩ := h
  rw [registerSensor_frame field hnode hjoint hmotor hsensor,
    sensorIDField_frame field (fun s idmap name => by cases idmap <;> simp [readID, *]) hname,
    sensorJoint6DOF_frame field hnode hjoint _ _ _ _ hsm, hnode]

theorem addSensors_frame {α : Type} (field : SMURF → α)
    (hnode : ∀ s name, field (readNodeID s name).1 = field s)
    (hjoint : ∀ s name, field (readJointID s name).1 = field s)
    (hmotor : ∀ s name, field (readMotorID s name).1 = field s)
    (hname : ∀ s name, field (readCollisionName s name).1 = field s)
    (hsensor : ∀ (s : SMURF) n m l,
      field { s with nextSensorID := n, sensorIDMap := m, sensorList := l } = field s)
    (resolved : String → ConfigMap) (model : ModelInterface) (s : SMURF)
    (sensors : List ConfigMap) (s' : SMURF)
    (h : addSensors resolved model s sensors = some s') : field s' = field s :=
  foldlM_frame _ field
    (fun _ _ _ hx => addSensor_frame field hnode hjoint hmotor hname hsensor _ _ _ _ _ hx) _ _ _ h

theorem addController_frame {α : Type} (field : SMURF → α)
    (hsensorID : ∀ s name, field (readSensorID s name).1 = field s)
    (hmotor : ∀ s name, field (readMotorID s name).1 = field s)
    (hcontroller : ∀ (s : SMURF) n l,
      field { s with nextControllerID := n, controllerList := l } = field s)
    (resolved : String → ConfigMap) (s : SMURF) (controller : ConfigMap) :
    field (addController resolved s controller) = field s := by
  unfold addController
  dsimp only
  refine (hcontroller _ _ _).trans ?_
  have e1 : field
      (match ((handleURIs resolved s.tmpPath controller).assign "index"
          (ConfigItem.ulong s.nextControllerID)).find "sensors" with
        | some sensors =>
          pushControllerIDs readSensorID "sensorid"
            { s with nextControllerID := s.nextControllerID + 1 }
            ((handleURIs resolved s.tmpPath controller).assign "index"
              (ConfigItem.ulong s.nextControllerID)) sensors.elements
        | none =>
          ({ s with nextControllerID := s.nextControllerID + 1 },
            (handleURIs resolved s.tmpPath controller).assign "index"
              (ConfigItem.ulong s.nextControllerID))).1 = field s := by
    split
    · exact (pushControllerIDs_frame field _ _ hsensorID _ _ _).trans (hcontroller s _ _)
    · exact hcontroller s _ _
  split
  · exact (pushControllerIDs_frame field _ _ hmotor _ _ _).trans e1
  · exact e1

theorem addControllers_frame {α : Type} (field : SMURF → α)
    (hsensorID : ∀ s name, field (readSensorID s name).1 = field s)
    (hmotor : ∀ s name, field (readMotorID s name).1 = field s)
    (hcontroller : ∀ (s : SMURF) n l,
      field { s with nextControllerID := n, controllerList := l } = field s)
    (resolved : String → ConfigMap) (s : SMURF) (controllers : List ConfigMap) :
    field (addControllers resolved s controllers) = field s :=
  foldl_frame _ field (addController_frame field hsensorID hmotor hcontroller resolved) _ _

theorem addMaterials_frame {α : Type} (field : SMURF → α)
    (hmaterial : ∀ (s : SMURF) l, field { s with materialList := l } = field s)
    (resolved : String → ConfigMap) (s : SMURF) (materials : List ConfigMap) :
    field (addMaterials resolved s materials) = field s :=
  foldl_frame _ field (fun s _ => hmaterial s _) _ _

theorem addNodes_frame {α : Type} (field : SMURF → α)
    (hnodes : ∀ (s : SMURF) l, field { s with nodeList := l } = field s)
    (resolved : String → ConfigMap) (s : SMURF) (nodes : List ConfigMap) :
    field (addNodes resolved s nodes) = field s :=
  foldl_frame _ field (fun s _ => hnodes s _) _ _

theorem addVisuals_frame {α : Type} (field : SMURF → α)
    (hnodes : ∀ (s : SMURF) l, field { s with nodeList := l } = field s)
    (resolved : String → ConfigMap) (s : SMURF) (visuals : List ConfigMap) :
    field (addVisuals resolved s visuals) = field s := by
  refine foldl_frame _ field (fun s x => ?_) _ _
  unfold addVisual
  dsimp only
  split
  · exact hnodes s _
  · rfl

theorem addCollisions_frame {α : Type} (field : SMURF → α)
    (hnodes : ∀ (s : SMURF) l, field { s with nodeList := l } = field s)
    (resolved : String → ConfigMap) (s : SMURF) (collisions : List ConfigMap) :
    field (addCollisions resolved s collisions) = field s := by
  refine foldl_frame _ field (fun s x => ?_) _ _
  unfold addCollision
  dsimp only
  split
  · exact hnodes s _
  · rfl

theorem addLights_frame {α : Type} (field : SMURF → α)
    (hlights : ∀ (s : SMURF) l, field { s with lightList := l } = field s)
    (resolved : String → ConfigMap) (s : SMURF) (lights : List ConfigMap) :
    field (addLights resolved s lights) = field s :=
  foldl_frame _ field (fun s _ => hlights s _) _ _

theorem addGraphics_frame {α : Type} (field : SMURF → α)
    (hgraphics : ∀ (s : SMURF) l, field { s with graphicList := l } = field s)
    (resolved : String → ConfigMap) (s : SMURF) (graphics : List ConfigMap) :
    field (addGraphics resolved s graphics) = field s :=
  foldl_frame _ field (fun s _ => hgraphics s _) _ _

theorem addConfigMap_eq_some (resolved : String → ConfigMap) (model : ModelInterface) (s : SMURF)
    (config : StdMap (List ConfigMap)) (s' : SMURF)
    (h : addConfigMap resolved model s config = some s') :
    ∃ s1, addSensors resolved model (addMotors resolved s (sectionRecords config "motors"))
        (sectionRecords config "sensors") = some s1 ∧
      s' = addControllers resolved
        (addGraphics resolved
          (addLights resolved
            (addCollisions resolved
              (addVisuals resolved
                (addNodes resolved
                  (addMaterials resolved s1 (sectionRecords config "materials"))
                  (sectionRecords config "nodes"))
                (sectionRecords config "visual"))
              (sectionRecords config "collision"))
            (sectionRecords config "lights"))
          (sectionRecords config "graphics"))
        (sectionRecords config "controllers") := by
  unfold addConfigMap at h
  simp only [bind, Option.bind, pure] at h
  cases hs : addSensors resolved model (addMotors resolved s (sectionRecords config "motors"))
      (sectionRecords config "sensors") with
  | none => rw [hs] at h; cases h
  | some s1 =>
    rw [hs] at h
    simp only [Option.some.injEq] at h
    exact ⟨s1, rfl, h.symm⟩

theorem addConfigMap_motorList (resolved : String → ConfigMap) (model : ModelInterface)
    (s : SMURF) (config : StdMap (List ConfigMap)) (s' : SMURF)
    (h : addConfigMap resolved model s config = some s') :
    s'.motorList = (addMotors resolved s (sectionRecords config "motors")).motorList := by
  obtain ⟨s1, h1, rfl⟩ := addConfigMap_eq_some resolved model s config s' h
  rw [addControllers_frame SMURF.motorList (fun _ _ => rfl) (fun _ _ => rfl) (fun _ _ _ => rfl),
    addGraphics_frame SMURF.motorList (fun _ _ => rfl),
    addLights_frame SMURF.motorList (fun _ _ => rfl),
    addCollisions_frame SMURF.motorList (fun _ _ => rfl),
    addVisuals_frame SMURF.motorList (fun _ _ => rfl),
    addNodes_frame SMURF.motorList (fun _ _ => rfl),
    addMaterials_frame SMURF.motorList (fun _ _ => rfl),
    addSensors_frame SMURF.motorList (fun _ _ => rfl) (fun _ _ => rfl) (fun _ _ => rfl)
      (fun _ _ => rfl) (fun _ _ _ _ => rfl) _ _ _ _ _ h1]

theorem addMotor_motorList (resolved : String → ConfigMap) (s : SMURF) (motor : ConfigMap) :
    ∃ record, (addMotor resolved s motor).motorList = s.motorList ++ [record] ∧
      record.find "axis" = some (ConfigItem.int 1) ∧
      record.find "index" = some (ConfigItem.ulong s.nextMotorID) :=
  ⟨_, rfl, by
    rw [StdMap.find_assign_of_ne _ _ (by decide), StdMap.find_assign_self], by
    rw [StdMap.find_assign_of_ne _ _ (by decide), StdMap.find_assign_of_ne _ _ (by decide),
      StdMap.find_assign_self]⟩

theorem addMotors_motorList (resolved : String → ConfigMap) (s : SMURF)
    (motors : List ConfigMap) :
    ∃ records, (addMotors resolved s motors).motorList = s.motorList ++ records ∧
      records.length = motors.length ∧
      ∀ record ∈ records, record.find "axis" = some (ConfigItem.int 1) := by
  induction motors generalizing s with
  | nil => exact ⟨[], (List.append_nil _).symm, rfl, fun _ h => absurd h (List.not_mem_nil _)⟩
  | cons motor motors ih =>
    obtain ⟨record, h1, h2, -⟩ := addMotor_motorList resolved s motor
    obtain ⟨records, h3, h4, h5⟩ := ih (addMotor resolved s motor)
    refine ⟨record :: records, ?_, by simp [h4], ?_⟩
    · show (addMotors resolved (addMotor resolved s motor) motors).motorList = _
      rw [h3, h1, List.append_assoc]
      rfl
    · intro r hr
      rcases List.mem_cons.mp hr with rfl | hr
      · exact h2
      · exact h5 r hr

/-- C22: every motor record `addConfigMap` appends to `motorList` has `axis` 1,
whatever the input record and the files merged into it bring: a run on a
`motors` section alone returns, and whenever a run returns, `motorList` is the
old list followed by one record for each record of the `motors` section, each
with `axis` 1. -/
theorem motor_axis_one (resolved : String → ConfigMap) (model : ModelInterface) (s : SMURF) :
    (∀ motors, ∃ s' records, addConfigMap resolved model s [("motors", motors)] = some s' ∧
      s'.motorList = s.motorList ++ records ∧ records.length = motors.length ∧
      ∀ record ∈ records, record.find "axis" = some (ConfigItem.int 1)) ∧
    ∀ config s', addConfigMap resolved model s config = some s' →
      ∃ records, s'.motorList = s.motorList ++ records ∧
        records.length = (sectionRecords config "motors").length ∧
        ∀ record ∈ records, record.find "axis" = some (ConfigItem.int 1) := by
  constructor
  · intro motors
    obtain ⟨records, h⟩ := addMotors_motorList resolved s motors
    exact ⟨_, records, addConfigMap_motors _ _ _ _, h⟩
  · intro config s' h
    rw [addConfigMap_motorList resolved model s config s' h]
    exact addMotors_motorList resolved s _

theorem motor_axis_one_witness :
    ∃ s', addConfigMap motorFiles modelWheels (converted modelWheels) wheelsConfig = some s' ∧
      ∃ records, s'.motorList = (converted modelWheels).motorList ++ records ∧
        records.length = (sectionRecords wheelsConfig "motors").length ∧
        ∀ record ∈ records, record.find "axis" = some (ConfigItem.int 1) := by
  have hsome : (addConfigMap motorFiles modelWheels (converted modelWheels) wheelsConfig).isSome =
      true := by decide
  obtain ⟨s', h⟩ := Option.isSome_iff_exists.mp hsome
  exact ⟨s', h, (motor_axis_one motorFiles modelWheels (converted modelWheels)).2 wheelsConfig s' h⟩

theorem addMotor_registers (resolved : String → ConfigMap) (s : SMURF) (motor : ConfigMap) :
    (addMotor resolved s motor).nextMotorID = s.nextMotorID + 1 ∧
      (addMotor resolved s motor).tmpPath = s.tmpPath ∧
      (addMotor resolved s motor).motorIDMap =
        s.motorIDMap.assign (fieldString (handleURIs resolved s.tmpPath motor) "name")
          s.nextMotorID ∧
      recordIndices (addMotor resolved s motor).motorList =
        recordIndices s.motorList ++ [some (ConfigItem.ulong s.nextMotorID)] := by
  refine ⟨rfl, rfl, ?_, ?_⟩
  · simp only [addMotor, fieldString, StdMap.find_assign_of_ne _ _ (show "index" ≠ "name" by decide),
      Nat.add_sub_cancel]
  · obtain ⟨record, h1, -, h2⟩ := addMotor_motorList resolved s motor
    rw [h1]
    simp [recordIndices, h2]

theorem addMotors_registers (resolved : String → ConfigMap) (s : SMURF)
    (motors : List ConfigMap) :
    (addMotors resolved s motors).nextMotorID = s.nextMotorID + motors.length ∧
      (addMotors resolved s motors).motorIDMap =
        assignAll s.motorIDMap (motorIDWrites resolved s.tmpPath s.nextMotorID motors) ∧
      recordIndices (addMotors resolved s motors).motorList =
        recordIndices s.motorList ++
          (List.range motors.length).map (fun i => some (ConfigItem.ulong (s.nextMotorID + i))) := by
  induction motors generalizing s with
  | nil => exact ⟨rfl, rfl, by simp [addMotors]⟩
  | cons motor motors ih =>
    obtain ⟨h1, h2, h3, h4⟩ := addMotor_registers resolved s motor
    obtain ⟨i1, i2, i3⟩ := ih (addMotor resolved s motor)
    refine ⟨?_, ?_, ?_⟩
    · show (addMotors resolved (addMotor resolved s motor) motors).nextMotorID = _
      rw [i1, h1, List.length_cons]
      omega
    · show (addMotors resolved (addMotor resolved s motor) motors).motorIDMap = _
      rw [i2, h1, h2, h3]
      rfl
    · show recordIndices (addMotors resolved (addMotor resolved s motor) motors).motorList = _
      rw [i3, h4, h1, List.length_cons, List.range_succ_eq_map, List.append_assoc]
      simp only [List.map_cons, List.map_map, List.singleton_append, Nat.add_zero]
      congr 2
      apply List.map_congr_left
      intro i _
      simp only [Function.comp, Nat.succ_eq_add_one]
      congr 2
      omega

/-- C21: a run of `addConfigMap` on a `motors` section goes through every
record: the records get the indices `nextMotorID`, `nextMotorID + 1`, ... in
input order, whatever joint they name, and each is registered in `motorIDMap`
under its name with its index.  But the run has no result on a `sensors`
record of type `Joint6DOF` whose link is the root link or is not a link of the
model: the source reads the parent joint of that link through a null pointer,
so no record of the document is processed to the end.  With the sensor on the
link `wheel_left` the same document goes through, and the motors, the sensor
and the controller get the indices 1, 2, ... of their category. -/
theorem joint6dof_sensor_without_parent_joint :
    (∀ (resolved : String → ConfigMap) (model : ModelInterface) (s : SMURF)
        (motors : List ConfigMap),
      ∃ s', addConfigMap resolved model s [("motors", motors)] = some s' ∧
        recordIndices s'.motorList =
          recordIndices s.motorList ++
            (List.range motors.length).map
              (fun i => some (ConfigItem.ulong (s.nextMotorID + i))) ∧
        s'.motorIDMap =
          assignAll s.motorIDMap (motorIDWrites resolved s.tmpPath s.nextMotorID motors)) ∧
    addConfigMap noFiles modelWheels (converted modelWheels)
        [("motors", [motorOnAbsentJoint, motorWithAxis]), ("sensors", [sensorOnRootLink]),
          ("controllers", [wheelController])] = none ∧
    addConfigMap noFiles modelWheels (converted modelWheels)
        [("motors", [motorOnAbsentJoint, motorWithAxis]), ("sensors", [sensorOnAbsentLink]),
          ("controllers", [wheelController])] = none ∧
    (addConfigMap noFiles modelWheels (converted modelWheels)
        [("motors", [motorOnAbsentJoint, motorWithAxis]), ("sensors", [sensorOnWheel]),
          ("controllers", [wheelController])]).map
        (fun s => (recordIndices s.motorList, recordIndices s.sensorList,
          recordIndices s.controllerList)) =
      some ([some (ConfigItem.ulong 1), some (ConfigItem.ulong 2)], [some (ConfigItem.ulong 1)],
        [some (ConfigItem.ulong 1)]) := by
  refine ⟨fun resolved model s motors => ?_, rfl, rfl, ?_⟩
  · obtain ⟨-, h1, h2⟩ := addMotors_registers resolved s motors
    exact ⟨_, addConfigMap_motors resolved model s motors, h2, h1⟩
  · decide

/-! ### Handing the lists to the simulation: `load` -/

theorem loadRecords_eq (succeeds : List LoadCall → LoadCall → Bool) (loader : Loader)
    (sim : Simulation) (records : List ConfigMap) :
    loadRecords succeeds loader sim records =
      ({ sim with
          calls := sim.calls ++
            (callsUntilFailure succeeds sim.calls (records.map (fun r => (loader, r)))).1 },
        (callsUntilFailure succeeds sim.calls (records.map (fun r => (loader, r)))).2) := by
  induction records generalizing sim with
  | nil => simp [loadRecords, callsUntilFailure]
  | cons record records ih =>
    simp only [loadRecords, List.map_cons, callsUntilFailure]
    cases h : succeeds sim.calls (loader, record)
    · simp
    · simp [ih]

theorem callsUntilFailure_append (succeeds : List LoadCall → LoadCall → Bool)
    (before xs ys : List LoadCall) :
    callsUntilFailure succeeds before (xs ++ ys) =
      if (callsUntilFailure succeeds before xs).2 then
        ((callsUntilFailure succeeds before xs).1 ++
            (callsUntilFailure succeeds (before ++ (callsUntilFailure succeeds before xs).1) ys).1,
          (callsUntilFailure succeeds (before ++ (callsUntilFailure succeeds before xs).1) ys).2)
      else callsUntilFailure succeeds before xs := by
  induction xs generalizing before with
  | nil => simp [callsUntilFailure]
  | cons x xs ih =>
    simp only [List.cons_append, callsUntilFailure]
    cases h : succeeds before x
    · simp
    · simp only [if_true]
      have ih' := ih (before ++ [x])
      rw [show xs.append ys = xs ++ ys from rfl, ih']
      split <;> simp [List.append_assoc]

theorem callsUntilFailure_spec (succeeds : List LoadCall → LoadCall → Bool)
    (before calls : List LoadCall) :
    ((callsUntilFailure succeeds before calls).2 = true ∧
      (callsUntilFailure succeeds before calls).1 = calls ∧ allSucceed succeeds before calls) ∨
    ((callsUntilFailure succeeds before calls).2 = false ∧
      ∃ init call rest, calls = init ++ call :: rest ∧
        (callsUntilFailure succeeds before calls).1 = init ++ [call] ∧
        succeeds (before ++ init) call = false ∧ allSucceed succeeds before init) := by
  induction calls generalizing before with
  | nil =>
    left
    refine ⟨rfl, rfl, ?_⟩
    intro init call rest h
    cases init <;> cases h
  | cons c cs ih =>
    simp only [callsUntilFailure]
    cases h : succeeds before c
    · right
      refine ⟨by simp, [], c, cs, rfl, by simp, by simpa using h, ?_⟩
      intro init call rest h'
      cases init <;> cases h'
    · simp only [if_true]
      rcases ih (before ++ [c]) with ⟨h1, h2, h3⟩ | ⟨h1, init, call, rest, h2, h3, h4, h5⟩
      · left
        refine ⟨h1, by rw [h2], ?_⟩
        intro init call rest h'
        cases init with
        | nil =>
          simp only [List.nil_append, List.cons.injEq] at h'
          rw [List.append_nil, ← h'.1]
          exact h
        | cons i init =>
          simp only [List.cons_append, List.cons.injEq] at h'
          have := h3 init call rest h'.2
          rw [← h'.1]
          simpa using this
      · right
        refine ⟨h1, c :: init, call, rest, by rw [h2]; rfl, by rw [h3]; rfl, by simpa using h4, ?_⟩
        intro init' call' rest' h'
        cases init' with
        | nil =>
          simp only [List.nil_append, List.cons.injEq] at h'
          rw [List.append_nil, ← h'.1]
          exact h
        | cons i init' =>
          simp only [List.cons_append, List.cons.injEq] at h'
          have := h5 init' call' rest' h'.2
          rw [← h'.1]
          simpa using this

theorem load_stage (succeeds : List LoadCall → LoadCall → Bool) (loader : Loader)
    (records : List ConfigMap) (tail : List LoadCall) (k : Simulation → Simulation × Nat)
    (sim : Simulation)
    (hk : ∀ sim1 : Simulation, sim1.poseSet = sim.poseSet → k sim1 = loadOutcome succeeds tail sim1) :
    (if !(loadRecords succeeds loader sim records).2 then
        ((loadRecords succeeds loader sim records).1, 0)
      else k (loadRecords succeeds loader sim records).1) =
      loadOutcome succeeds (records.map (fun r => (loader, r)) ++ tail) sim := by
  rw [loadRecords_eq]
  unfold loadOutcome
  rw [callsUntilFailure_append]
  cases h : (callsUntilFailure succeeds sim.calls (records.map (fun r => (loader, r)))).2
  · simp [h]
  · simp only [Bool.not_true, Bool.false_eq_true, if_false, if_true]
    rw [hk ⟨sim.calls ++
      (callsUntilFailure succeeds sim.calls (records.map (fun r => (loader, r)))).1,
      sim.poseSet⟩ rfl]
    unfold loadOutcome
    dsimp only
    split <;> simp [List.append_assoc]

theorem loadStages_eq (succeeds : List LoadCall → LoadCall → Bool)
    (stages : List (Loader × List ConfigMap)) (sim : Simulation) :
    loadStages succeeds stages sim =
      loadOutcome succeeds (stages.flatMap (fun st => st.2.map (fun r => (st.1, r)))) sim := by
  induction stages generalizing sim with
  | nil => simp [loadStages, loadOutcome, callsUntilFailure]
  | cons st stages ih =>
    obtain ⟨loader, records⟩ := st
    rw [loadStages, List.flatMap_cons]
    exact load_stage succeeds loader records _ _ sim (fun sim1 _ => ih sim1)

theorem load_eq (succeeds : List LoadCall → LoadCall → Bool) (s : SMURF) (sim : Simulation) :
    load succeeds s sim = loadOutcome succeeds (creationSequence s) sim := by
  have h : load succeeds s sim =
      loadStages succeeds
        [(Loader.loadMaterial, s.materialList), (Loader.loadNode, s.nodeList),
          (Loader.loadJoint, s.jointList), (Loader.loadMotor, s.motorList),
          (Loader.loadSensor, s.sensorList), (Loader.loadController, s.controllerList),
          (Loader.loadLight, s.lightList), (Loader.loadGraphic, s.graphicList)] sim := rfl
  rw [h, loadStages_eq]
  simp [creationSequence]

/-- C23: `load` makes its calls in the order materials, nodes, joints, motors,
sensors, controllers, lights, graphics, each list in list order, after the
calls made before.  Either every call succeeds: then all calls of the sequence
are made, the root pose is set and `load` returns 1.  Or the calls made are the
calls up to and including the first failing call, the root pose is left as it
was and `load` returns 0.  No call made before is taken back.  So `load`
returns 1 exactly when every call succeeds. -/
theorem load_calls_prefix (succeeds : List LoadCall → LoadCall → Bool) (s : SMURF)
    (sim : Simulation) :
    (((load succeeds s sim).2 = 1 ∧ (load succeeds s sim).1.poseSet = true ∧
        (load succeeds s sim).1.calls = sim.calls ++ creationSequence s ∧
        allSucceed succeeds sim.calls (creationSequence s)) ∨
      ((load succeeds s sim).2 = 0 ∧ (load succeeds s sim).1.poseSet = sim.poseSet ∧
        ∃ init call rest, creationSequence s = init ++ call :: rest ∧
          (load succeeds s sim).1.calls = sim.calls ++ (init ++ [call]) ∧
          succeeds (sim.calls ++ init) call = false ∧ allSucceed succeeds sim.calls init)) ∧
    ((load succeeds s sim).2 = 1 ↔ allSucceed succeeds sim.calls (creationSequence s)) := by
  have hor : ((load succeeds s sim).2 = 1 ∧ (load succeeds s sim).1.poseSet = true ∧
        (load succeeds s sim).1.calls = sim.calls ++ creationSequence s ∧
        allSucceed succeeds sim.calls (creationSequence s)) ∨
      ((load succeeds s sim).2 = 0 ∧ (load succeeds s sim).1.poseSet = sim.poseSet ∧
        ∃ init call rest, creationSequence s = init ++ call :: rest ∧
          (load succeeds s sim).1.calls = sim.calls ++ (init ++ [call]) ∧
          succeeds (sim.calls ++ init) call = false ∧ allSucceed succeeds sim.calls init) := by
    rw [load_eq]
    unfold loadOutcome
    rcases callsUntilFailure_spec succeeds sim.calls (creationSequence s) with
      ⟨h1, h2, h3⟩ | ⟨h1, init, call, rest, h2, h3, h4, h5⟩
    · left
      rw [if_pos h1, h2]
      exact ⟨rfl, rfl, rfl, h3⟩
    · right
      rw [if_neg (by rw [h1]; decide), h3]
      exact ⟨rfl, rfl, init, call, rest, h2, rfl, h4, h5⟩
  refine ⟨hor, ?_, ?_⟩
  · intro h
    rcases hor with ⟨-, -, -, h3⟩ | ⟨h0, -⟩
    · exact h3
    · rw [h] at h0
      cases h0
  · intro h
    rcases hor with ⟨h1, -⟩ | ⟨-, -, init, call, rest, h2, -, h4, -⟩
    · exact h1
    · rw [h init call rest h2] at h4
      cases h4

theorem load_calls_prefix_witness :
    (load jointsFail (converted modelWheels) {}).2 = 0 ∧
      (load jointsFail (converted modelWheels) {}).1.poseSet = false ∧
      (load jointsFail (converted modelWheels) {}).1.calls.map Prod.fst =
        [Loader.loadMaterial, Loader.loadNode, Loader.loadNode, Loader.loadNode,
          Loader.loadJoint] ∧
      ¬ allSucceed jointsFail [] (creationSequence (converted modelWheels)) := by
  have h := load_calls_prefix jointsFail (converted modelWheels) {}
  have h0 : (load jointsFail (converted modelWheels) {}).2 = 0 := by decide
  refine ⟨h0, by decide, by decide, fun hall => ?_⟩
  rw [h.2.mpr hall] at h0
  cases h0

/-! ### Converting a second document: `createEntity` after `reset` -/

/-- C24: `reset` sets the six id counters to 1 and empties the lists and the
maps `nodeIDMap`, `jointIDMap`, `sensorIDMap`, `motorIDMap` and
`collisionNameMap`, but it leaves `visualNameMap` as it is.  So the result of a
conversion depends on the documents converted before: the document of the
model `modelWheels` has a `visual` overlay record for a shape `hull` that is
not in the model; a converter that has converted nothing drops the record, a
converter that has converted `modelHull` before writes it to the node `body`. -/
theorem reset_keeps_visualNameMap :
    (∀ (s : SMURF) (maxGroupID : Nat),
      (reset s maxGroupID).nextNodeID = 1 ∧ (reset s maxGroupID).nextJointID = 1 ∧
      (reset s maxGroupID).nextMaterialID = 1 ∧ (reset s maxGroupID).nextMotorID = 1 ∧
      (reset s maxGroupID).nextSensorID = 1 ∧ (reset s maxGroupID).nextControllerID = 1 ∧
      (reset s maxGroupID).nodeList = [] ∧ (reset s maxGroupID).jointList = [] ∧
      (reset s maxGroupID).motorList = [] ∧ (reset s maxGroupID).sensorList = [] ∧
      (reset s maxGroupID).controllerList = [] ∧ (reset s maxGroupID).materialList = [] ∧
      (reset s maxGroupID).lightList = [] ∧ (reset s maxGroupID).graphicList = [] ∧
      (reset s maxGroupID).nodeIDMap = [] ∧ (reset s maxGroupID).jointIDMap = [] ∧
      (reset s maxGroupID).sensorIDMap = [] ∧ (reset s maxGroupID).motorIDMap = [] ∧
      (reset s maxGroupID).collisionNameMap = [] ∧
      (reset s maxGroupID).visualNameMap = s.visualNameMap) ∧
    (reset (converted modelHull) 0).visualNameMap = [("hull", "body")] ∧
    (createEntity noFiles {} 0 "" true modelWheels hullOverlayConfig).map
        (fun s => transparencies s.nodeList) = some [none, none, none] ∧
    (createEntity noFiles (converted modelHull) 0 "" true modelWheels hullOverlayConfig).map
        (fun s => transparencies s.nodeList) = some [some (ConfigItem.int 1), none, none] := by
  refine ⟨fun s maxGroupID => ?_, by decide, by decide, by decide⟩
  simp [reset]

/-! ### The order of the sections -/

/-- C30: `createEntity` hands the sections to `addConfigMap` in key order, so
the `controllers` section is merged before `motors` and `sensors`: the
controller of the document gets the id 0 for the motor `left` and for the
sensor `force`, which are registered with the id 1 afterwards.  A single call
of `addConfigMap` on the whole document gives the controller the ids 1 and 1. -/
theorem controller_ids_section_order :
    (createEntity noFiles {} 0 "" true modelWheels controlledWheelConfig).map
        (fun s => (controllerIds s.controllerList, lookupID s.motorIDMap "left",
          lookupID s.sensorIDMap "force")) =
      some ([(some (ConfigItem.list [ConfigAtom.ulong 0]),
        some (ConfigItem.list [ConfigAtom.ulong 0]))], 1, 1) ∧
    (addConfigMap noFiles modelWheels (converted modelWheels) controlledWheelConfig).map
        (fun s => (controllerIds s.controllerList, lookupID s.motorIDMap "left",
          lookupID s.sensorIDMap "force")) =
      some ([(some (ConfigItem.list [ConfigAtom.ulong 1]),
        some (ConfigItem.list [ConfigAtom.ulong 1]))], 1, 1) := by
  constructor <;> decide

/-! ### The pose algebra over the rational numbers -/

theorem rotateExact_add (q : Rotation) (a b : Vector3) :
    rotateExact q { x := a.x + b.x, y := a.y + b.y, z := a.z + b.z } =
      { x := (rotateExact q a).x + (rotateExact q b).x
        y := (rotateExact q a).y + (rotateExact q b).y
        z := (rotateExact q a).z + (rotateExact q b).z } := by
  simp only [rotateExact, mulExact, Vector3.mk.injEq]
  refine ⟨?_, ?_, ?_⟩ <;> ring

theorem normSquared_nonneg_vector (v : Vector3) : 0 ≤ v.normSquared := by
  simp only [Vector3.normSquared]
  nlinarith [mul_self_nonneg v.x, mul_self_nonneg v.y, mul_self_nonneg v.z]

theorem isDouble_unitX : ({ x := 1, y := 0, z := 0 } : Vector3).isDouble :=
  ⟨isDouble_one, isDouble_zero, isDouble_zero⟩

theorem fl_ofNat_five : fl 5 = 5 := by
  simpa using fl_intCast 5 (by norm_num)

theorem jointRecord_anchor (index nodeindex1 nodeindex2 : Nat) (ancestors : List (Link × Joint))
    (parent_joint : Joint) :
    (jointRecord index nodeindex1 nodeindex2 ancestors parent_joint).find "anchor" =
      some (ConfigItem.vector (getGlobalPose ancestors).position) := by
  unfold jointRecord
  exact StdMap.find_assign_self _ _ _

theorem jointRecord_axis1 (index nodeindex1 nodeindex2 : Nat) (ancestors : List (Link × Joint))
    (parent_joint : Joint) :
    (jointRecord index nodeindex1 nodeindex2 ancestors parent_joint).find "axis1" =
      some (ConfigItem.vector ((getGlobalPose ancestors).rotation.rotate parent_joint.axis)) := by
  unfold jointRecord
  rw [StdMap.find_assign_of_ne _ _ (by decide)]
  exact StdMap.find_assign_self _ _ _

theorem getGlobalPose_identity_rotations (ancestors : List (Link × Joint))
    (h : ∀ a ∈ ancestors,
      a.2.parent_to_joint_origin_transform.rotation = { x := 0, y := 0, z := 0, w := 1 } ∧
      a.2.parent_to_joint_origin_transform.position.isDouble) :
    getGlobalPose ancestors =
      { position := chainPositionSum ancestors, rotation := { x := 0, y := 0, z := 0, w := 1 } } := by
  induction ancestors with
  | nil => rfl
  | cons a ancestors ih =>
    obtain ⟨pLink, joint⟩ := a
    obtain ⟨h1, hd⟩ := h (pLink, joint) (List.mem_cons_self _ _)
    have h2 := ih (fun a ha => h a (List.mem_cons_of_mem _ ha))
    simp only at h1 hd
    simp only [getGlobalPose, chainPositionSum, h2, h1, rotate_identity _ hd,
      identity_mul _ isDouble_identity]

/-- C26, the claim as stated fails: in the chain `chainOwnJointTurned` every
ancestor joint of the emitted joint has the identity rotation and only the
joint's own transform is turned, by half a turn about `z`; the joint declares
the axis `(1, 0, 0)` and its record gets `axis1 = (-1, 0, 0)`. -/
theorem getGlobalPose_joint_frame_counterexample :
    (∀ a ∈ chainOwnJointTurned.tail,
      a.2.parent_to_joint_origin_transform.rotation = { x := 0, y := 0, z := 0, w := 1 }) ∧
    chainOwnJointTurned.head?.map (fun a => a.2.axis) = some { x := 1, y := 0, z := 0 } ∧
    ∃ record,
      (handleLink {} chainOwnJointTurned (Link.mk "C" none none none [] [] [])).jointList =
        [] ++ [record] ∧
      record.find "axis1" = some (ConfigItem.vector { x := -1, y := 0, z := 0 }) := by
  refine ⟨?_, rfl, _, handleLink_jointList_cons {} _ _ _ _, ?_⟩
  · intro a ha
    simp only [chainOwnJointTurned, List.tail_cons, List.mem_singleton] at ha
    rw [ha]
  · rw [jointRecord_axis1]
    have hrest : getGlobalPose [(Link.mk "A" none none none [] [] [],
        ({ name := "j1",
           parent_to_joint_origin_transform := { position := { x := 1, y := 0, z := 0 } } } : Joint))] =
        { position := chainPositionSum [(Link.mk "A" none none none [] [] [],
            ({ name := "j1",
               parent_to_joint_origin_transform := { position := { x := 1, y := 0, z := 0 } } } : Joint))],
          rotation := { x := 0, y := 0, z := 0, w := 1 } } := by
      apply getGlobalPose_identity_rotations
      intro a ha
      simp only [List.mem_singleton] at ha
      rw [ha]
      exact ⟨rfl, isDouble_unitX⟩
    have hturn : ({ x := 0, y := 0, z := 1, w := 0 } : Rotation).isDouble :=
      ⟨isDouble_zero, isDouble_zero, isDouble_one, isDouble_zero⟩
    simp only [chainOwnJointTurned, getGlobalPose, hrest,
      identity_mul { x := 0, y := 0, z := 1, w := 0 } hturn]
    simp [Rotation.rotate, Rotation.mul, Rotation.GetInverse, fmul, fadd, fsub, fdiv, fl_zero,
      fl_one, fl_neg]

/-- C26 (amended): `getGlobalPose` of the root is the identity pose, and for a
link with a parent joint it is `compose(getGlobalPose(parent), J)` with `J` the
transform of the parent joint.  The joint record emitted for the link has
`anchor` equal to the position of the global pose of the link and `axis1` equal
to its rotation applied to the declared axis of the joint.  When every joint
transform along the chain up to the root, that of the joint itself included,
has the identity rotation, `axis1` is the declared axis and `anchor` is the sum
of the joint positions along the chain, added up from the root (positions and
axis consisting of binary64 numbers). -/
theorem getGlobalPose_joint_frame (s : SMURF) (pLink : Link) (parent_joint : Joint)
    (rest : List (Link × Joint)) (link : Link) :
    getGlobalPose [] = {} ∧
    getGlobalPose ((pLink, parent_joint) :: rest) =
      composeSpec (getGlobalPose rest) parent_joint.parent_to_joint_origin_transform ∧
    (∃ record,
      (handleLink s ((pLink, parent_joint) :: rest) link).jointList = s.jointList ++ [record] ∧
      record.find "anchor" =
        some (ConfigItem.vector (getGlobalPose ((pLink, parent_joint) :: rest)).position) ∧
      record.find "axis1" =
        some (ConfigItem.vector
          ((getGlobalPose ((pLink, parent_joint) :: rest)).rotation.rotate parent_joint.axis))) ∧
    ((∀ a ∈ (pLink, parent_joint) :: rest,
        a.2.parent_to_joint_origin_transform.rotation = { x := 0, y := 0, z := 0, w := 1 } ∧
        a.2.parent_to_joint_origin_transform.position.isDouble) →
      parent_joint.axis.isDouble →
      ∃ record,
        (handleLink s ((pLink, parent_joint) :: rest) link).jointList = s.jointList ++ [record] ∧
        record.find "anchor" =
          some (ConfigItem.vector (chainPositionSum ((pLink, parent_joint) :: rest))) ∧
        record.find "axis1" = some (ConfigItem.vector parent_joint.axis)) := by
  refine ⟨rfl, by simp only [getGlobalPose, composeSpec],
    ⟨_, handleLink_jointList_cons s pLink parent_joint rest link,
      jointRecord_anchor _ _ _ _ _, jointRecord_axis1 _ _ _ _ _⟩, fun h ha => ?_⟩
  refine ⟨_, handleLink_jointList_cons s pLink parent_joint rest link, ?_, ?_⟩
  · rw [jointRecord_anchor, getGlobalPose_identity_rotations _ h]
  · rw [jointRecord_axis1, getGlobalPose_identity_rotations _ h, rotate_identity _ ha]

/-- C26 (amended), at the chain `chainTwoJoints` without rotations. -/
theorem getGlobalPose_joint_frame_witness :
    ∃ record,
      (handleLink {} chainTwoJoints (Link.mk "C" none none none [] [] [])).jointList =
        [] ++ [record] ∧
      record.find "anchor" = some (ConfigItem.vector (chainPositionSum chainTwoJoints)) ∧
      record.find "axis1" = some (ConfigItem.vector { x := 0, y := 0, z := 1 }) :=
  (getGlobalPose_joint_frame {} (Link.mk "B" none none none [] [] [])
    { name := "j2", parent_to_joint_origin_transform := { position := { x := 0, y := 5, z := 0 } },
      axis := { x := 0, y := 0, z := 1 } }
    [(Link.mk "A" none none none [] [] [],
      { name := "j1", parent_to_joint_origin_transform := { position := { x := 1, y := 0, z := 0 } } })]
    (Link.mk "C" none none none [] [] [])).2.2.2
    (by
      intro a ha
      simp only [List.mem_cons, List.mem_singleton, List.not_mem_nil, or_false] at ha
      rcases ha with rfl | rfl
      · exact ⟨rfl, isDouble_zero, fl_ofNat_five, isDouble_zero⟩
      · exact ⟨rfl, isDouble_unitX⟩)
    ⟨isDouble_zero, isDouble_zero, isDouble_one⟩

/-! ### Pairing an extra collision with an extra visual -/

/-- C27, the claim as stated fails: the box collision `bumper` and the mesh
visual of `wheel.stl` are combined into one node, which shows the mesh instead
of a fallback visual; the link has no third node for the visual. -/
theorem non_mesh_collision_mesh_visual_counterexample :
    nodeFiles (converted modelBoxCollisionMeshVisual).nodeList =
      [(some (ConfigItem.string "A"), some (ConfigItem.string "PRIMITIVE")),
        (some (ConfigItem.string "bumper"), some (ConfigItem.string "wheel.stl"))] := by
  decide

theorem pairVisual_eq_none (collision : Collision) (visual : Visual)
    (hc : collision.geometry.isMesh = true)
    (h : visual.geometry.isMesh = false ∨
      collision.geometry.meshFilename ≠ visual.geometry.meshFilename) :
    pairVisual collision (some visual) = none := by
  unfold pairVisual
  rcases h with h | h
  · simp [hc, h]
  · simp [hc, h]

/-- C27 (amended): in the first loop over the extra collisions the collision is
combined with the next unconsumed visual into one node unless the collision is
a mesh and the visual is not a mesh of the same file: when the collision is
not a mesh, or both are meshes of the same file, the node carries the shape
fields of the visual and the visual is consumed; when the collision is a mesh
and the visual is not a mesh or is a mesh of another file, and when there is no
unconsumed visual, the node gets the fallback visual and no visual is
consumed. -/
theorem collision_visual_pairing (s : SMURF) (link : Link) (config : ConfigMap)
    (visualArrayIndex : Nat) (collision : Collision) :
    ∃ record,
      (collisionChildNode s link config visualArrayIndex collision).1.nodeList =
        s.nodeList ++ [record] ∧
      (∀ visual, link.visual_array[visualArrayIndex]? = some visual →
        (collision.geometry.isMesh = false ∨
          (visual.geometry.isMesh = true ∧
            collision.geometry.meshFilename = visual.geometry.meshFilename)) →
        (∀ k, visualKey k → record.find k = (handleVisual [] visual).find k) ∧
          (collisionChildNode s link config visualArrayIndex collision).2 =
            visualArrayIndex + 1) ∧
      (∀ visual, link.visual_array[visualArrayIndex]? = some visual →
        collision.geometry.isMesh = true →
        (visual.geometry.isMesh = false ∨
          collision.geometry.meshFilename ≠ visual.geometry.meshFilename) →
        record.find "filename" = some (ConfigItem.string "PRIMITIVE") ∧
          record.find "materialName" = some (ConfigItem.string "_fakeMaterial") ∧
          (collisionChildNode s link config visualArrayIndex collision).2 = visualArrayIndex) ∧
      (link.visual_array[visualArrayIndex]? = none →
        record.find "filename" = some (ConfigItem.string "PRIMITIVE") ∧
          record.find "materialName" = some (ConfigItem.string "_fakeMaterial") ∧
          (collisionChildNode s link config visualArrayIndex collision).2 = visualArrayIndex) := by
  refine ⟨_, collisionChildNode_nodeList s link config visualArrayIndex collision, ?_, ?_, ?_⟩
  · intro visual hvisual hpair
    have hp : pairVisual collision link.visual_array[visualArrayIndex]? = some visual := by
      rw [hvisual]
      apply pairVisual_eq_some
      intro hc
      rcases hpair with h | h
      · rw [h] at hc
        cases hc
      · exact h
    refine ⟨fun k hk => collisionChildEmitted_find_visualKey _ _ _ _ _ _ hp hk, ?_⟩
    rw [collisionChildNode_visualArrayIndex, nextVisualArrayIndex, hp]
    rfl
  · intro visual hvisual hc hdiff
    have hp : pairVisual collision link.visual_array[visualArrayIndex]? = none := by
      rw [hvisual]
      exact pairVisual_eq_none collision visual hc hdiff
    obtain ⟨h1, h2⟩ := collisionChildEmitted_fakeVisual s.nextNodeID link config _ _ hp
    refine ⟨h1, h2, ?_⟩
    rw [collisionChildNode_visualArrayIndex, nextVisualArrayIndex, hp]
    rfl
  · intro hnone
    have hp : pairVisual collision link.visual_array[visualArrayIndex]? = none := by
      rw [hnone]
      rfl
    obtain ⟨h1, h2⟩ := collisionChildEmitted_fakeVisual s.nextNodeID link config _ _ hp
    refine ⟨h1, h2, ?_⟩
    rw [collisionChildNode_visualArrayIndex, nextVisualArrayIndex, hp]
    rfl

theorem collision_visual_pairing_witness :
    ∃ record,
      (collisionChildNode {} modelBoxCollisionMeshVisual.root_link_ [] 1
          { name := "bumper", geometry := unitBox }).1.nodeList = [] ++ [record] ∧
      (∀ k, visualKey k → record.find k = (handleVisual [] meshVisual).find k) ∧
      (collisionChildNode {} modelBoxCollisionMeshVisual.root_link_ [] 1
          { name := "bumper", geometry := unitBox }).2 = 1 + 1 := by
  obtain ⟨record, h1, h2, -, -⟩ :=
    collision_visual_pairing {} modelBoxCollisionMeshVisual.root_link_ [] 1
      { name := "bumper", geometry := unitBox }
  exact ⟨record, h1, h2 meshVisual (by decide) (Or.inl (by decide))⟩

/-! ### Sequences of assignments -/

theorem assignAll_append {α : Type} (m : StdMap α) (xs ys : List (String × α)) :
    assignAll m (xs ++ ys) = assignAll (assignAll m xs) ys := by
  simp [assignAll, List.foldl_append]

theorem find_assignAll {α : Type} (writes : List (String × α)) (m : StdMap α) (k : String) (v : α)
    (hsame : ∀ w ∈ writes, w.1 = k → w.2 = v)
    (hmem : (∃ w ∈ writes, w.1 = k) ∨ m.find k = some v) :
    (assignAll m writes).find k = some v := by
  induction writes generalizing m with
  | nil =>
    rcases hmem with ⟨w, hw, -⟩ | h
    · cases hw
    · exact h
  | cons w ws ih =>
    show (assignAll (m.assign w.1 w.2) ws).find k = some v
    apply ih _ (fun w' hw' => hsame w' (List.mem_cons_of_mem _ hw'))
    by_cases hws : ∃ w' ∈ ws, w'.1 = k
    · exact Or.inl hws
    · right
      rw [StdMap.find_assign]
      by_cases hk : w.1 = k
      · rw [if_pos hk, hsame w (List.mem_cons_self _ _) hk]
      · rw [if_neg hk]
        rcases hmem with ⟨w', hw', hk'⟩ | h
        · rcases List.mem_cons.mp hw' with rfl | hw'
          · exact absurd hk' hk
          · exact absurd ⟨w', hw', hk'⟩ hws
        · exact h

theorem find_assignAll_of_not_mem {α : Type} (writes : List (String × α)) (m : StdMap α)
    (k : String) (h : ∀ w ∈ writes, w.1 ≠ k) : (assignAll m writes).find k = m.find k := by
  induction writes generalizing m with
  | nil => rfl
  | cons w ws ih =>
    show (assignAll (m.assign w.1 w.2) ws).find k = m.find k
    rw [ih _ (fun w' hw' => h w' (List.mem_cons_of_mem _ hw')), StdMap.find_assign,
      if_neg (h w (List.mem_cons_self _ _))]

theorem value_unique_of_nodup {β : Type} (l : List (String × β))
    (h : ((l.map Prod.fst).filter (fun n => n ≠ "")).Nodup) (w w' : String × β) (hw : w ∈ l)
    (hw' : w' ∈ l) (hk : w.1 = w'.1) (hne : w.1 ≠ "") : w.2 = w'.2 := by
  induction l with
  | nil => cases hw
  | cons x xs ih =>
    have hx : ∀ y ∈ xs, y.1 = x.1 → x.1 ≠ "" → False := by
      intro y hy hyx hxne
      simp only [List.map_cons, List.filter_cons, hxne, ne_eq, not_false_eq_true, decide_True,
        if_true, List.nodup_cons] at h
      apply h.1
      rw [List.mem_filter]
      exact ⟨List.mem_map_of_mem _ hy |> (hyx ▸ ·), by simpa using hxne⟩
    have hxs : ((xs.map Prod.fst).filter (fun n => n ≠ "")).Nodup := by
      simp only [List.map_cons, List.filter_cons] at h
      split at h
      · exact (List.nodup_cons.mp h).2
      · exact h
    rcases List.mem_cons.mp hw with h1 | h1
    · rcases List.mem_cons.mp hw' with h2 | h2
      · rw [h1, h2]
      · exact absurd (hx w' h2 (by rw [← hk, h1]) (by rw [← h1]; exact hne)) id
    · rcases List.mem_cons.mp hw' with h2 | h2
      · exact absurd (hx w h1 (by rw [hk, h2]) (by rw [← h2, ← hk]; exact hne)) id
      · exact ih hxs h1 h2

/-! ### The names of the visual shapes along the walk -/

theorem mainNodeVisual_visualNameMap (s : SMURF) (config : ConfigMap) (link : Link)
    (loadVisual : Bool) :
    (mainNodeVisual s config link loadVisual).1.visualNameMap =
      assignAll s.visualNameMap
        ((match loadVisual, link.visual with
          | true, some visual => some visual
          | _, _ => none).toList.map (fun (v : Visual) => (v.name, link.name))) := by
  unfold mainNodeVisual
  cases loadVisual <;> cases link.visual <;> rfl

theorem handleMainNode_visualNameMap (s : SMURF) (p : Option (Link × Joint)) (link : Link) :
    (handleMainNode s p link).1.visualNameMap =
      assignAll s.visualNameMap ((mainVisual link).toList.map (fun v => (v.name, link.name))) := by
  simp only [handleMainNode, mainNodeCollision_visualNameMap, mainNodeVisual_visualNameMap,
    calculatePose_visualNameMap, mainNodeGroupID_visualNameMap, mainVisual]

theorem childNodeVisual_visualNameMap (s : SMURF) (childNode : ConfigMap) (link : Link)
    (p1 : Pose) (visualArrayIndex : Nat) (visual : Option Visual) :
    (childNodeVisual s childNode link p1 visualArrayIndex visual).1.visualNameMap =
      assignAll s.visualNameMap (visual.toList.map (fun v => (v.name, link.name))) := by
  unfold childNodeVisual
  cases visual <;> rfl

theorem collisionChildNode_visualNameMap (s : SMURF) (link : Link) (config : ConfigMap)
    (visualArrayIndex : Nat) (collision : Collision) :
    (collisionChildNode s link config visualArrayIndex collision).1.visualNameMap =
      assignAll s.visualNameMap
        ((pairVisual collision link.visual_array[visualArrayIndex]?).toList.map
          (fun v => (v.name, link.name))) := by
  simp only [collisionChildNode, childNodeVisual_visualNameMap]

theorem collisionChildNodes_visualNameMap (link : Link) (config : ConfigMap) (s : SMURF)
    (visualArrayIndex : Nat) (collisions : List Collision) :
    (collisionChildNodes link config s visualArrayIndex collisions).1.visualNameMap =
      assignAll s.visualNameMap
        ((pairedVisuals link visualArrayIndex collisions).map (fun v => (v.name, link.name))) := by
  induction collisions generalizing s visualArrayIndex with
  | nil => rfl
  | cons c cs ih =>
    simp only [collisionChildNodes, pairedVisuals, List.map_append, assignAll_append]
    rw [ih, collisionChildNode_visualNameMap, collisionChildNode_visualArrayIndex]

theorem collisionChildNodes_finalIndex (link : Link) (config : ConfigMap) (s : SMURF)
    (visualArrayIndex : Nat) (collisions : List Collision) :
    (collisionChildNodes link config s visualArrayIndex collisions).2 =
      finalVisualArrayIndex link visualArrayIndex collisions := by
  induction collisions generalizing s visualArrayIndex with
  | nil => rfl
  | cons c cs ih =>
    simp only [collisionChildNodes, finalVisualArrayIndex]
    rw [ih, collisionChildNode_visualArrayIndex]

theorem visualChildNode_visualNameMap (s : SMURF) (link : Link) (config : ConfigMap)
    (visual : Visual) :
    (visualChildNode s link config visual).visualNameMap =
      assignAll s.visualNameMap
        (([visual].filter (fun v => v.name ≠ "")).map (fun v => (v.name, v.name))) := by
  unfold visualChildNode
  by_cases h : visual.name = ""
  · simp [h, assignAll]
  · simp [h, assignAll]

theorem visualChildNodes_visualNameMap (link : Link) (config : ConfigMap) (s : SMURF)
    (visuals : List Visual) :
    (visualChildNodes link config s visuals).visualNameMap =
      assignAll s.visualNameMap
        ((visuals.filter (fun v => v.name ≠ "")).map (fun v => (v.name, v.name))) := by
  induction visuals generalizing s with
  | nil => rfl
  | cons v vs ih =>
    simp only [visualChildNodes]
    rw [ih, visualChildNode_visualNameMap, ← assignAll_append, ← List.map_append,
      ← List.filter_append]
    rfl

theorem handleParentJoint_visualNameMap (s : SMURF) (ancestors : List (Link × Joint)) :
    (handleParentJoint s ancestors).visualNameMap = s.visualNameMap := by
  unfold handleParentJoint
  split <;> rfl

theorem handleLink_visualNameMap (s : SMURF) (ancestors : List (Link × Joint)) (link : Link) :
    (handleLink s ancestors link).visualNameMap =
      assignAll s.visualNameMap (linkVisualNameWrites link) := by
  simp only [handleLink, handleParentJoint_visualNameMap, visualChildNodes_visualNameMap,
    collisionChildNodes_visualNameMap, collisionChildNodes_finalIndex,
    handleMainNode_visualNameMap, handleMainNode_visualArrayIndex,
    handleMainNode_collisionArrayIndex, linkVisualNameWrites, assignAll_append, linkPairedVisuals,
    visualOnlyVisuals, extraCollisions]

theorem handleKinematics_visualNameMap (s : SMURF) (ancestors : List (Link × Joint))
    (link : Link) :
    (handleKinematics s ancestors link).visualNameMap =
      assignAll s.visualNameMap ((subtreeLinks link).flatMap linkVisualNameWrites) := by
  refine handleKinematics.induct
    (fun s ancestors link =>
      (handleKinematics s ancestors link).visualNameMap =
        assignAll s.visualNameMap ((subtreeLinks link).flatMap linkVisualNameWrites))
    (fun s ancestors link children =>
      (handleChildLinks s ancestors link children).visualNameMap =
        assignAll s.visualNameMap ((childrenLinks children).flatMap linkVisualNameWrites))
    ?_ ?_ ?_ s ancestors link
  · intro s ancestors n i v c va ca cl link ih
    simp only [handleKinematics, subtreeLinks, List.flatMap_cons, assignAll_append]
    rw [ih, handleLink_visualNameMap]
  · intro s ancestors link
    simp [handleChildLinks, childrenLinks, assignAll]
  · intro s ancestors link joint child rest ih1 ih2
    simp only [handleChildLinks, childrenLinks, List.flatMap_append, assignAll_append]
    rw [ih2, ih1]

/-- C28, the claim as stated fails: the visual `A_extra` of the link `A` gets a
node of its own and is registered under its own name, not under the name of
the link; and of two visuals named `logo`, one of the link `A` and one of its
child link `B`, the map keeps the link `B` only. -/
theorem visual_name_counterexample :
    (converted { root_link_ := linkOneExtraVisual }).visualNameMap.find "A_extra" =
        some "A_extra" ∧
      (converted modelSharedVisualName).visualNameMap.find "logo" = some "B" := by
  decide

/-- C28 (amended): when the non-empty names under which the visual shapes of a
tree are registered are pairwise distinct, then after `handleKinematics` has
walked the tree, for every link of the tree the non-empty name of its visual
on the main node and of every visual that shares a node with an extra
collision is mapped to the name of the link, and the non-empty name of every
visual with a child node of its own is mapped to itself, the name of that
node. -/
theorem visual_names_resolve (s : SMURF) (ancestors : List (Link × Joint)) (root : Link)
    (hdistinct :
      ((((subtreeLinks root).flatMap linkVisualNameWrites).map Prod.fst).filter
        (fun n => n ≠ "")).Nodup) :
    ∀ link ∈ subtreeLinks root,
      (∀ v ∈ (mainVisual link).toList ++ linkPairedVisuals link, v.name ≠ "" →
        (handleKinematics s ancestors root).visualNameMap.find v.name = some link.name) ∧
      (∀ v ∈ visualOnlyVisuals link, v.name ≠ "" →
        (handleKinematics s ancestors root).visualNameMap.find v.name = some v.name) := by
  intro link hlink
  rw [handleKinematics_visualNameMap]
  have hfind : ∀ w ∈ linkVisualNameWrites link, w.1 ≠ "" →
      (assignAll s.visualNameMap ((subtreeLinks root).flatMap linkVisualNameWrites)).find w.1 =
        some w.2 := by
    intro w hw hne
    have hmem : w ∈ (subtreeLinks root).flatMap linkVisualNameWrites :=
      List.mem_flatMap.mpr ⟨link, hlink, hw⟩
    apply find_assignAll
    · intro w' hw' hk
      exact value_unique_of_nodup _ hdistinct w' w hw' hmem hk (by rw [hk]; exact hne)
    · exact Or.inl ⟨w, hmem, rfl⟩
  constructor
  · intro v hv hne
    refine hfind (v.name, link.name) ?_ hne
    simp only [linkVisualNameWrites, List.mem_append, List.mem_map]
    rcases List.mem_append.mp hv with h | h
    · exact Or.inl ⟨v, h, rfl⟩
    · exact Or.inr (Or.inl ⟨v, h, rfl⟩)
  · intro v hv hne
    refine hfind (v.name, v.name) ?_ hne
    simp only [linkVisualNameWrites, List.mem_append, List.mem_map]
    exact Or.inr (Or.inr ⟨v, List.mem_filter.mpr ⟨hv, by simpa using hne⟩, rfl⟩)

theorem visual_names_resolve_witness :
    (handleKinematics (reset {} 0) [] linkThreeVisuals).visualNameMap.find "A_vis" = some "A" ∧
      (handleKinematics (reset {} 0) [] linkThreeVisuals).visualNameMap.find "trim" = some "A" ∧
      (handleKinematics (reset {} 0) [] linkThreeVisuals).visualNameMap.find "deco" =
        some "deco" := by
  have h := visual_names_resolve (reset {} 0) [] linkThreeVisuals (by decide) linkThreeVisuals
    (mem_subtreeLinks_self _)
  refine ⟨h.1 { name := "A_vis", geometry := unitBox } ?_ (by decide),
    h.1 { name := "trim", geometry := unitBox } ?_ (by decide),
    h.2 { name := "deco", geometry := unitBox } ?_ (by decide)⟩
  · exact List.mem_cons_self _ _
  · exact List.mem_cons_of_mem _ (List.mem_cons_self _ _)
  · exact List.mem_cons_self _ _

/-! ### The names of the collision shapes along the walk -/

theorem mainNodeCollision_collisionNameMap (s : SMURF) (config : ConfigMap) (link : Link)
    (loadCollision : Bool) :
    (mainNodeCollision s config link loadCollision).1.collisionNameMap =
      assignAll s.collisionNameMap
        ((match loadCollision, link.collision with
          | true, some collision => some collision
          | _, _ => none).toList.map (fun (c : Collision) => (c.name, link.name))) := by
  unfold mainNodeCollision
  cases loadCollision <;> cases link.collision <;> rfl

theorem handleMainNode_collisionNameMap (s : SMURF) (p : Option (Link × Joint)) (link : Link) :
    (handleMainNode s p link).1.collisionNameMap =
      assignAll s.collisionNameMap
        ((mainCollision link).toList.map (fun c => (c.name, link.name))) := by
  simp only [handleMainNode, mainNodeCollision_collisionNameMap, mainNodeVisual_collisionNameMap,
    calculatePose_collisionNameMap, mainNodeGroupID_collisionNameMap, mainCollision]

theorem collisionChildNode_collisionNameMap (s : SMURF) (link : Link) (config : ConfigMap)
    (visualArrayIndex : Nat) (collision : Collision) :
    (collisionChildNode s link config visualArrayIndex collision).1.collisionNameMap =
      s.collisionNameMap.assign collision.name collision.name := by
  simp only [collisionChildNode, childNodeVisual_collisionNameMap]

theorem collisionChildNodes_collisionNameMap (link : Link) (config : ConfigMap) (s : SMURF)
    (visualArrayIndex : Nat) (collisions : List Collision) :
    (collisionChildNodes link config s visualArrayIndex collisions).1.collisionNameMap =
      assignAll s.collisionNameMap (collisions.map (fun c => (c.name, c.name))) := by
  induction collisions generalizing s visualArrayIndex with
  | nil => rfl
  | cons c cs ih =>
    simp only [collisionChildNodes, List.map_cons]
    rw [ih, collisionChildNode_collisionNameMap]
    rfl

theorem visualChildNodes_collisionNameMap (link : Link) (config : ConfigMap) (s : SMURF)
    (visuals : List Visual) :
    (visualChildNodes link config s visuals).collisionNameMap = s.collisionNameMap := by
  induction visuals generalizing s with
  | nil => rfl
  | cons v vs ih =>
    simp only [visualChildNodes]
    rw [ih]
    unfold visualChildNode
    split <;> rfl

theorem handleParentJoint_collisionNameMap (s : SMURF) (ancestors : List (Link × Joint)) :
    (handleParentJoint s ancestors).collisionNameMap = s.collisionNameMap := by
  unfold handleParentJoint
  split <;> rfl

theorem handleLink_collisionNameMap (s : SMURF) (ancestors : List (Link × Joint)) (link : Link) :
    (handleLink s ancestors link).collisionNameMap =
      assignAll s.collisionNameMap (linkCollisionNameWrites link) := by
  simp only [handleLink, handleParentJoint_collisionNameMap, visualChildNodes_collisionNameMap,
    collisionChildNodes_collisionNameMap, handleMainNode_collisionNameMap,
    handleMainNode_collisionArrayIndex, linkCollisionNameWrites, assignAll_append,
    extraCollisions]

theorem handleKinematics_collisionNameMap (s : SMURF) (ancestors : List (Link × Joint))
    (link : Link) :
    (handleKinematics s ancestors link).collisionNameMap =
      assignAll s.collisionNameMap ((subtreeLinks link).flatMap linkCollisionNameWrites) := by
  refine handleKinematics.induct
    (fun s ancestors link =>
      (handleKinematics s ancestors link).collisionNameMap =
        assignAll s.collisionNameMap ((subtreeLinks link).flatMap linkCollisionNameWrites))
    (fun s ancestors link children =>
      (handleChildLinks s ancestors link children).collisionNameMap =
        assignAll s.collisionNameMap ((childrenLinks children).flatMap linkCollisionNameWrites))
    ?_ ?_ ?_ s ancestors link
  · intro s ancestors n i v c va ca cl link ih
    simp only [handleKinematics, subtreeLinks, List.flatMap_cons, assignAll_append]
    rw [ih, handleLink_collisionNameMap]
  · intro s ancestors link
    simp [handleChildLinks, childrenLinks, assignAll]
  · intro s ancestors link joint child rest ih1 ih2
    simp only [handleChildLinks, childrenLinks, List.flatMap_append, assignAll_append]
    rw [ih2, ih1]

/-! ### The node ids of the names along the walk -/

theorem lookupID_assignAll_congr (writes : List (String × Nat)) (m m' : StdMap Nat)
    (key : String) (h : lookupID m key = lookupID m' key) :
    lookupID (assignAll m writes) key = lookupID (assignAll m' writes) key := by
  induction writes generalizing m m' with
  | nil => exact h
  | cons w ws ih =>
    show lookupID (assignAll (m.assign w.1 w.2) ws) key =
      lookupID (assignAll (m'.assign w.1 w.2) ws) key
    apply ih
    rw [lookupID_assign, lookupID_assign, h]

theorem collisionChildNodes_nodeIDMap (link : Link) (config : ConfigMap) (s : SMURF)
    (visualArrayIndex : Nat) (collisions : List Collision) :
    (collisionChildNodes link config s visualArrayIndex collisions).1.nodeIDMap =
      assignAll s.nodeIDMap
        (childNodeIDWrites (fieldString config "name") s.nextNodeID collisions) := by
  induction collisions generalizing s visualArrayIndex with
  | nil => rfl
  | cons c cs ih =>
    simp only [collisionChildNodes, childNodeIDWrites]
    rw [ih, collisionChildNode_nodeIDMap, collisionChildNode_nextNodeID]
    rfl

theorem handleLink_nodeIDWrites (s : SMURF) (ancestors : List (Link × Joint)) (link : Link)
    (key : String) :
    lookupID (handleLink s ancestors link).nodeIDMap key =
      lookupID (assignAll s.nodeIDMap (linkNodeIDWrites s.nextNodeID link)) key := by
  simp only [handleLink]
  rw [handleParentJoint_lookupID, visualChildNodes_nodeIDMap, collisionChildNodes_nodeIDMap,
    fieldString_handleMainNode_name, handleMainNode_nextNodeID, handleMainNode_collisionArrayIndex]
  show _ = lookupID (assignAll (s.nodeIDMap.assign link.name s.nextNodeID)
    (childNodeIDWrites link.name (s.nextNodeID + 1) (extraCollisions link))) key
  apply lookupID_assignAll_congr
  rw [handleMainNode_lookupID, lookupID_assign]

theorem handleKinematics_nodeIDWrites (s : SMURF) (ancestors : List (Link × Joint))
    (link : Link) (key : String) :
    lookupID (handleKinematics s ancestors link).nodeIDMap key =
      lookupID
        (assignAll s.nodeIDMap
          ((treeLinksIndexed s.nextNodeID link).flatMap (fun p => linkNodeIDWrites p.1 p.2)))
        key := by
  refine handleKinematics.induct
    (fun s ancestors link =>
      lookupID (handleKinematics s ancestors link).nodeIDMap key =
        lookupID
          (assignAll s.nodeIDMap
            ((treeLinksIndexed s.nextNodeID link).flatMap (fun p => linkNodeIDWrites p.1 p.2)))
          key)
    (fun s ancestors link children =>
      lookupID (handleChildLinks s ancestors link children).nodeIDMap key =
        lookupID
          (assignAll s.nodeIDMap
            ((childrenLinksIndexed s.nextNodeID children).flatMap
              (fun p => linkNodeIDWrites p.1 p.2)))
          key)
    ?_ ?_ ?_ s ancestors link
  · intro s ancestors n i v c va ca cl link ih
    simp only [handleKinematics, treeLinksIndexed, List.flatMap_cons, assignAll_append]
    rw [ih, handleLink_nextNodeID_count]
    exact lookupID_assignAll_congr _ _ _ _ (handleLink_nodeIDWrites s ancestors _ key)
  · intro s ancestors link
    simp [handleChildLinks, childrenLinksIndexed, assignAll]
  · intro s ancestors link joint child rest ih1 ih2
    simp only [handleChildLinks, childrenLinksIndexed, List.flatMap_append, assignAll_append]
    rw [ih2, handleKinematics_nextNodeID]
    exact lookupID_assignAll_congr _ _ _ _ ih1

theorem treeLinksIndexed_links (index : Nat) (link : Link) :
    (treeLinksIndexed index link).map Prod.snd = subtreeLinks link := by
  refine treeLinksIndexed.induct
    (fun index link => (treeLinksIndexed index link).map Prod.snd = subtreeLinks link)
    (fun index children => (childrenLinksIndexed index children).map Prod.snd =
      childrenLinks children)
    ?_ ?_ ?_ index link
  · intro index n i v c va ca cl ih
    simp only [treeLinksIndexed, subtreeLinks, List.map_cons, ih]
  · intro index
    rfl
  · intro index joint child rest ih1 ih2
    simp only [childrenLinksIndexed, childrenLinks, List.map_append, ih1, ih2]


theorem mem_childCollisionOwners (index : Nat) (collisions : List Collision)
    (w : String × Nat) (h : w ∈ childCollisionOwners index collisions) :
    ∃ c ∈ collisions, c.name = w.1 := by
  induction collisions generalizing index with
  | nil => cases h
  | cons c cs ih =>
    rcases List.mem_cons.mp h with h | h
    · exact ⟨c, List.mem_cons_self _ _, by rw [h]⟩
    · obtain ⟨c', hc', hn⟩ := ih _ h
      exact ⟨c', List.mem_cons_of_mem _ hc', hn⟩

theorem mem_childNodeIDWrites (name : String) (index : Nat) (collisions : List Collision)
    (w : String × Nat) (h : w ∈ childNodeIDWrites name index collisions) :
    (w.1 = name ++ "_child" ∧ collisions ≠ []) ∨ w ∈ childCollisionOwners index collisions := by
  induction collisions generalizing index with
  | nil => cases h
  | cons c cs ih =>
    rcases List.mem_cons.mp h with h | h
    · exact Or.inl ⟨by rw [h], List.cons_ne_nil _ _⟩
    · rcases List.mem_cons.mp h with h | h
      · exact Or.inr (h ▸ List.mem_cons_self _ _)
      · rcases ih _ h with ⟨h1, -⟩ | h1
        · exact Or.inl ⟨h1, List.cons_ne_nil _ _⟩
        · exact Or.inr (List.mem_cons_of_mem _ h1)

theorem childCollisionOwners_subset_writes (name : String) (index : Nat)
    (collisions : List Collision) (w : String × Nat)
    (h : w ∈ childCollisionOwners index collisions) :
    w ∈ childNodeIDWrites name index collisions := by
  induction collisions generalizing index with
  | nil => cases h
  | cons c cs ih =>
    rcases List.mem_cons.mp h with h | h
    · exact List.mem_cons_of_mem _ (h ▸ List.mem_cons_self _ _)
    · exact List.mem_cons_of_mem _ (List.mem_cons_of_mem _ (ih _ h))

theorem childCollisionOwners_keys (index : Nat) (collisions : List Collision) :
    (childCollisionOwners index collisions).map Prod.fst = collisions.map Collision.name := by
  induction collisions generalizing index with
  | nil => rfl
  | cons c cs ih => simp only [childCollisionOwners, List.map_cons, ih]

theorem linkCollisionOwners_keys (index : Nat) (link : Link) :
    (linkCollisionOwners index link).map Prod.fst =
      (linkCollisionNameWrites link).map Prod.fst := by
  simp only [linkCollisionOwners, linkCollisionNameWrites, List.map_append, List.map_map,
    childCollisionOwners_keys]
  rfl

theorem treeCollisionOwners_keys (index : Nat) (root : Link) :
    (treeCollisionOwners index root).map Prod.fst =
      ((subtreeLinks root).flatMap linkCollisionNameWrites).map Prod.fst := by
  rw [← treeLinksIndexed_links index root]
  simp only [treeCollisionOwners, List.map_flatMap, List.flatMap_map, linkCollisionOwners_keys]

theorem lookupID_assignAll (writes : List (String × Nat)) (m : StdMap Nat) (k : String) (v : Nat)
    (hsame : ∀ w ∈ writes, w.1 = k → w.2 = v) (hmem : ∃ w ∈ writes, w.1 = k) :
    lookupID (assignAll m writes) k = v := by
  unfold lookupID
  rw [find_assignAll writes m k v hsame (Or.inl hmem)]
  rfl

theorem auxiliary_of_extraCollision (link : Link) (c : Collision)
    (h : c ∈ extraCollisions link) : c.name ∈ auxiliaryKeys link :=
  List.mem_cons_of_mem _ (List.mem_map_of_mem _ (List.mem_of_mem_drop h))

/-- The id the walk leaves in `nodeIDMap` under the name of a link. -/
theorem handleKinematics_lookup_linkName (s : SMURF) (ancestors : List (Link × Joint))
    (root : Link) (hnames : linkNamesUnambiguous root) (p : Nat × Link)
    (hp : p ∈ treeLinksIndexed s.nextNodeID root) :
    lookupID (handleKinematics s ancestors root).nodeIDMap p.2.name = p.1 := by
  rw [handleKinematics_nodeIDWrites]
  have hlinks : ∀ q ∈ treeLinksIndexed s.nextNodeID root, q.2 ∈ subtreeLinks root := by
    intro q hq
    rw [← treeLinksIndexed_links s.nextNodeID root]
    exact List.mem_map_of_mem _ hq
  have hnodup : ((treeLinksIndexed s.nextNodeID root).map (fun q => q.2.name)).Nodup := by
    have h := hnames.1
    rw [linkNames, ← treeLinksIndexed_links s.nextNodeID root, List.map_map] at h
    exact h
  apply lookupID_assignAll
  · intro w hw hk
    obtain ⟨q, hq, hwq⟩ := List.mem_flatMap.mp hw
    rcases List.mem_cons.mp hwq with h | h
    · have hqp : q = p := List.inj_on_of_nodup_map hnodup hq hp (by rw [← hk, h])
      rw [h, hqp]
    · exfalso
      have haux := hnames.2 p.2.name (List.mem_map_of_mem _ (hlinks p hp)) q.2 (hlinks q hq)
      apply haux
      rcases mem_childNodeIDWrites _ _ _ _ h with ⟨h1, -⟩ | h1
      · rw [← hk, h1]
        exact List.mem_cons_self _ _
      · obtain ⟨c, hc, hn⟩ := mem_childCollisionOwners _ _ _ h1
        rw [← hk, ← hn]
        exact auxiliary_of_extraCollision _ _ hc
  · exact ⟨(p.2.name, p.1), List.mem_flatMap.mpr ⟨p, hp, List.mem_cons_self _ _⟩, rfl⟩

/-- The id the walk leaves in `nodeIDMap` under the non-empty name of a collision
shape with a child node. -/
theorem handleKinematics_lookup_collisionName (s : SMURF) (ancestors : List (Link × Joint))
    (root : Link) (hnames : linkNamesUnambiguous root)
    (hdistinct :
      ((((subtreeLinks root).flatMap linkCollisionNameWrites).map Prod.fst).filter
        (fun n => n ≠ "")).Nodup)
    (hchild : ∀ l ∈ subtreeLinks root, ∀ c ∈ extraCollisions l, ∀ l' ∈ subtreeLinks root,
      extraCollisions l' ≠ [] → c.name ≠ l'.name ++ "_child")
    (p : Nat × Link) (hp : p ∈ treeLinksIndexed s.nextNodeID root) (owner : String × Nat)
    (howner : owner ∈ childCollisionOwners (p.1 + 1) (extraCollisions p.2))
    (hne : owner.1 ≠ "") :
    lookupID (handleKinematics s ancestors root).nodeIDMap owner.1 = owner.2 := by
  rw [handleKinematics_nodeIDWrites]
  have hlinks : ∀ q ∈ treeLinksIndexed s.nextNodeID root, q.2 ∈ subtreeLinks root := by
    intro q hq
    rw [← treeLinksIndexed_links s.nextNodeID root]
    exact List.mem_map_of_mem _ hq
  have hkeys : (((treeCollisionOwners s.nextNodeID root).map Prod.fst).filter
      (fun n => n ≠ "")).Nodup := by
    rw [treeCollisionOwners_keys]
    exact hdistinct
  have hmem : ∀ q ∈ treeLinksIndexed s.nextNodeID root,
      ∀ w ∈ childCollisionOwners (q.1 + 1) (extraCollisions q.2),
        w ∈ treeCollisionOwners s.nextNodeID root := by
    intro q hq w hw
    exact List.mem_flatMap.mpr ⟨q, hq, List.mem_append_right _ hw⟩
  obtain ⟨c, hc, hcn⟩ := mem_childCollisionOwners _ _ _ howner
  apply lookupID_assignAll
  · intro w hw hk
    obtain ⟨q, hq, hwq⟩ := List.mem_flatMap.mp hw
    rcases List.mem_cons.mp hwq with h | h
    · exfalso
      apply hnames.2 q.2.name (List.mem_map_of_mem _ (hlinks q hq)) p.2 (hlinks p hp)
      have : q.2.name = c.name := by rw [hcn, ← hk, h]
      rw [this]
      exact auxiliary_of_extraCollision _ _ hc
    · rcases mem_childNodeIDWrites _ _ _ _ h with ⟨h1, h2⟩ | h1
      · exfalso
        apply hchild p.2 (hlinks p hp) c hc q.2 (hlinks q hq) h2
        rw [hcn, ← hk, h1]
      · exact value_unique_of_nodup _ hkeys w owner (hmem q hq w h1) (hmem p hp owner howner) hk
          (by rw [hk]; exact hne)
  · exact ⟨owner, List.mem_flatMap.mpr ⟨p, hp,
      List.mem_cons_of_mem _ (childCollisionOwners_subset_writes _ _ _ _ howner)⟩, rfl⟩

/-- The entry the walk leaves in `collisionNameMap` under a non-empty name it
registers. -/
theorem handleKinematics_find_collisionName (s : SMURF) (ancestors : List (Link × Joint))
    (root : Link)
    (hdistinct :
      ((((subtreeLinks root).flatMap linkCollisionNameWrites).map Prod.fst).filter
        (fun n => n ≠ "")).Nodup)
    (link : Link) (hlink : link ∈ subtreeLinks root) (w : String × String)
    (hw : w ∈ linkCollisionNameWrites link) (hne : w.1 ≠ "") :
    (handleKinematics s ancestors root).collisionNameMap.find w.1 = some w.2 := by
  rw [handleKinematics_collisionNameMap]
  have hmem : w ∈ (subtreeLinks root).flatMap linkCollisionNameWrites :=
    List.mem_flatMap.mpr ⟨link, hlink, hw⟩
  apply find_assignAll
  · intro w' hw' hk
    exact value_unique_of_nodup _ hdistinct w' w hw' hmem hk (by rw [hk]; exact hne)
  · exact Or.inl ⟨w, hmem, rfl⟩

theorem sensorIDs_nodeContact (s : SMURF) (name : String) :
    (sensorIDs (sensorIDMapRef "NodeContact") (sensorUsesNameMap "NodeContact") s
        [ConfigAtom.string name]).2 =
      [ConfigAtom.ulong (lookupID s.nodeIDMap ((s.collisionNameMap.find name).getD ""))] := by
  have h1 : sensorIDMapRef "NodeContact" = some IDMapRef.nodeIDMap := by decide
  have h2 : sensorUsesNameMap "NodeContact" = true := by decide
  rw [h1, h2]
  simp only [sensorIDs, List.foldl_cons, List.foldl_nil, if_true, List.nil_append, readID,
    readNodeID, readCollisionName, index_snd, ConfigAtom.getString]
  congr 3
  unfold StdMap.index
  cases s.collisionNameMap.find name <;> rfl


/-! ### The node that carries a collision shape -/

theorem linkNodeNames_length (link : Link) : (linkNodeNames link).length = linkNodeCount link := by
  have h := congrArg List.length (linkRecords_names {} none link)
  simp only [recordNames, List.length_map] at h
  rw [← h, linkRecords_length]

theorem treeNodeNames_length (link : Link) :
    ((subtreeLinks link).flatMap linkNodeNames).length = treeNodeCount link := by
  refine treeNodeCount.induct
    (fun link => ((subtreeLinks link).flatMap linkNodeNames).length = treeNodeCount link)
    (fun children => ((childrenLinks children).flatMap linkNodeNames).length =
      childrenNodeCount children)
    ?_ ?_ ?_ link
  · intro n i v c va ca cl ih
    simp only [subtreeLinks, treeNodeCount, List.flatMap_cons, List.length_append, ih,
      linkNodeNames_length]
  · rfl
  · intro joint child rest ih1 ih2
    simp only [childrenLinks, childrenNodeCount, List.flatMap_append, List.length_append, ih1, ih2]

/-- The names of the records of a link stand in the list of all names at the
position the id of its main node gives. -/
theorem treeLinksIndexed_position (start : Nat) (root : Link) :
    ∀ p ∈ treeLinksIndexed start root, ∃ pre post,
      (subtreeLinks root).flatMap linkNodeNames = pre ++ (linkNodeNames p.2 ++ post) ∧
        start + pre.length = p.1 := by
  refine treeLinksIndexed.induct
    (fun start root => ∀ p ∈ treeLinksIndexed start root, ∃ pre post,
      (subtreeLinks root).flatMap linkNodeNames = pre ++ (linkNodeNames p.2 ++ post) ∧
        start + pre.length = p.1)
    (fun start children => ∀ p ∈ childrenLinksIndexed start children, ∃ pre post,
      (childrenLinks children).flatMap linkNodeNames = pre ++ (linkNodeNames p.2 ++ post) ∧
        start + pre.length = p.1)
    ?_ ?_ ?_ start root
  · intro start n i v c va ca cl ih p hp
    simp only [treeLinksIndexed, List.mem_cons] at hp
    rcases hp with hp | hp
    · refine ⟨[], (childrenLinks cl).flatMap linkNodeNames, ?_, ?_⟩
      · rw [hp]
        simp only [subtreeLinks, List.flatMap_cons, List.nil_append]
      · rw [hp]
        rfl
    · obtain ⟨pre, post, h1, h2⟩ := ih p hp
      refine ⟨linkNodeNames (Link.mk n i v c va ca cl) ++ pre, post, ?_, ?_⟩
      · simp only [subtreeLinks, List.flatMap_cons, h1, List.append_assoc]
      · rw [List.length_append, linkNodeNames_length, ← h2]
        omega
  · intro start p hp
    cases hp
  · intro start joint child rest ih1 ih2 p hp
    simp only [childrenLinksIndexed, List.mem_append] at hp
    rcases hp with hp | hp
    · obtain ⟨pre, post, h1, h2⟩ := ih1 p hp
      refine ⟨pre, post ++ (childrenLinks rest).flatMap linkNodeNames, ?_, h2⟩
      simp only [childrenLinks, List.flatMap_append, h1, List.append_assoc]
    · obtain ⟨pre, post, h1, h2⟩ := ih2 p hp
      refine ⟨(subtreeLinks child).flatMap linkNodeNames ++ pre, post, ?_, ?_⟩
      · simp only [childrenLinks, List.flatMap_append, h1, List.append_assoc]
      · rw [List.length_append, treeNodeNames_length, ← h2]
        omega

theorem childCollisionOwners_getElem (index : Nat) (collisions : List Collision)
    (w : String × Nat) (h : w ∈ childCollisionOwners index collisions) :
    ∃ k, ∃ hk : k < collisions.length, w = (collisions[k].name, index + k) := by
  induction collisions generalizing index with
  | nil => cases h
  | cons c cs ih =>
    rcases List.mem_cons.mp h with h | h
    · exact ⟨0, Nat.zero_lt_succ _, h⟩
    · obtain ⟨k, hk, hw⟩ := ih _ h
      refine ⟨k + 1, Nat.succ_lt_succ hk, ?_⟩
      rw [hw]
      simp only [List.getElem_cons_succ, Prod.mk.injEq, true_and]
      omega

/-- The name a collision shape is registered under stands at the position of
its node in the list of node names. -/
theorem collisionOwner_position (start : Nat) (root : Link) (p : Nat × Link)
    (hp : p ∈ treeLinksIndexed start root) (owner : String × Nat) (target : String)
    (h : (owner ∈ (mainCollision p.2).toList.map (fun c => (c.name, p.1)) ∧
        target = p.2.name) ∨
      (owner ∈ childCollisionOwners (p.1 + 1) (extraCollisions p.2) ∧ owner.1 ≠ "" ∧
        target = owner.1)) :
    ∃ j, start + j = owner.2 ∧
      ((subtreeLinks root).flatMap linkNodeNames)[j]? = some target := by
  obtain ⟨pre, post, h1, h2⟩ := treeLinksIndexed_position start root p hp
  rcases h with ⟨h, ht⟩ | ⟨h, hne, ht⟩
  · obtain ⟨c, -, hc⟩ := List.mem_map.mp h
    refine ⟨pre.length, ?_, ?_⟩
    · rw [h2, ← hc]
    · rw [h1, List.getElem?_append_right (Nat.le_refl _), Nat.sub_self, ht]
      simp only [linkNodeNames, List.cons_append, List.getElem?_cons_zero]
  · obtain ⟨k, hk, hw⟩ := childCollisionOwners_getElem _ _ _ h
    refine ⟨pre.length + (1 + k), ?_, ?_⟩
    · rw [hw]
      show start + (pre.length + (1 + k)) = p.1 + 1 + k
      omega
    · rw [h1, List.getElem?_append_right (Nat.le_add_right _ _), Nat.add_sub_cancel_left]
      have hname : owner.1 = (extraCollisions p.2)[k].name := by rw [hw]
      simp only [linkNodeNames, List.cons_append, Nat.add_comm 1 k, List.getElem?_cons_succ]
      rw [List.append_assoc, List.getElem?_append_left (by simpa [extraCollisions] using hk)]
      simp only [List.getElem?_map]
      rw [show (List.drop (if (specialCaseHandling p.2).2.2 = true then 1 else 0)
          p.2.collision_array) = extraCollisions p.2 from rfl, List.getElem?_eq_getElem hk]
      simp only [Option.map_some', childNodeName, ← hname, if_neg hne, ht]

/-- C29, the claim as stated fails: the link `A` has the collisions `A_col` on
its main node and `A_child` and `tail` on the child nodes 2 and 3; the names
`A`, `A_col`, `A_child` and `tail` are pairwise distinct, yet the key `A_child`,
under which every child node of `A` is registered as well, ends at node 3, so
the name of the collision `A_child` resolves to node 3 and not to its node 2. -/
theorem collision_name_counterexample :
    (linkNames modelCollisionNamedChild.root_link_ ++
        (((subtreeLinks modelCollisionNamedChild.root_link_).flatMap
          linkCollisionNameWrites).map Prod.fst).filter (fun n => n ≠ "")).Nodup ∧
      treeCollisionOwners 1 modelCollisionNamedChild.root_link_ =
        [("A_col", 1), ("A_child", 2), ("tail", 3)] ∧
      nodeIndexNames (converted modelCollisionNamedChild) =
        [(some (ConfigItem.ulong 1), some (ConfigItem.string "A")),
          (some (ConfigItem.ulong 2), some (ConfigItem.string "A_child")),
          (some (ConfigItem.ulong 3), some (ConfigItem.string "tail"))] ∧
      (converted modelCollisionNamedChild).collisionNameMap.find "A_child" = some "A_child" ∧
      lookupID (converted modelCollisionNamedChild).nodeIDMap "A_child" = 3 ∧
      (sensorIDs (sensorIDMapRef "NodeContact") (sensorUsesNameMap "NodeContact")
          (converted modelCollisionNamedChild) [ConfigAtom.string "A_child"]).2 =
        [ConfigAtom.ulong 3] := by
  decide

/-- C29 (amended): for every tree in which link names are pairwise distinct, no
collision-shape name and no `<link>_child` key equals a link name, the
non-empty names of the emitted collision shapes are pairwise distinct, and no
collision with a child node is named like the key `<link>_child` of a link
that has child collision nodes, the maps left by `createModel` resolve every
emitted collision shape's non-empty name to the id of the node that carries
it (the main node of the link for a primary collision loaded there, the child
node of the shape otherwise): `nodeIDMap[collisionNameMap[n]]` is that id, it
is the id the `id` list of a `NodeContact` sensor gets for the name, and the
record of `nodeList` with that index is the record named `collisionNameMap[n]`. -/
theorem collision_names_resolve (s : SMURF) (maxGroupID : Nat) (model : ModelInterface)
    (hnames : linkNamesUnambiguous model.root_link_)
    (hdistinct :
      ((((subtreeLinks model.root_link_).flatMap linkCollisionNameWrites).map Prod.fst).filter
        (fun n => n ≠ "")).Nodup)
    (hchild : ∀ l ∈ subtreeLinks model.root_link_, ∀ c ∈ extraCollisions l,
      ∀ l' ∈ subtreeLinks model.root_link_,
        extraCollisions l' ≠ [] → c.name ≠ l'.name ++ "_child") :
    ∀ owner ∈ treeCollisionOwners 1 model.root_link_, owner.1 ≠ "" →
      lookupID (createModel (reset s maxGroupID) model).nodeIDMap
          (((createModel (reset s maxGroupID) model).collisionNameMap.find owner.1).getD "") =
        owner.2 ∧
      (sensorIDs (sensorIDMapRef "NodeContact") (sensorUsesNameMap "NodeContact")
          (createModel (reset s maxGroupID) model) [ConfigAtom.string owner.1]).2 =
        [ConfigAtom.ulong owner.2] ∧
      ∃ record ∈ (createModel (reset s maxGroupID) model).nodeList,
        record.find "index" = some (ConfigItem.ulong owner.2) ∧
        record.find "name" =
          some (ConfigItem.string
            (((createModel (reset s maxGroupID) model).collisionNameMap.find owner.1).getD "")) := by
  intro owner howner hne
  obtain ⟨s0, hnil, hnext, heq⟩ := createModel_eq s maxGroupID model
  have hids := (createModel_idsInOrder _ model (reset_idsInOrder s maxGroupID)).1
  have hrecords := handleKinematics_names s0 [] model.root_link_
  rw [← heq, hnil] at hrecords
  have hfacts : ∃ target,
      (createModel (reset s maxGroupID) model).collisionNameMap.find owner.1 = some target ∧
      lookupID (createModel (reset s maxGroupID) model).nodeIDMap target = owner.2 ∧
      ∃ j, 1 + j = owner.2 ∧
        ((subtreeLinks model.root_link_).flatMap linkNodeNames)[j]? = some target := by
    rw [heq]
    rw [← hnext] at howner
    obtain ⟨p, hp, hop⟩ := List.mem_flatMap.mp howner
    have hlink : p.2 ∈ subtreeLinks model.root_link_ := by
      rw [← treeLinksIndexed_links s0.nextNodeID model.root_link_]
      exact List.mem_map_of_mem _ hp
    rcases List.mem_append.mp hop with h | h
    · obtain ⟨c, hc, hco⟩ := List.mem_map.mp h
      have hw : (owner.1, p.2.name) ∈ linkCollisionNameWrites p.2 :=
        List.mem_append_left _ (List.mem_map.mpr ⟨c, hc, by rw [← hco]⟩)
      refine ⟨p.2.name,
        handleKinematics_find_collisionName s0 [] _ hdistinct p.2 hlink _ hw hne, ?_, ?_⟩
      · rw [handleKinematics_lookup_linkName s0 [] _ hnames p hp, ← hco]
      · rw [← hnext]
        exact collisionOwner_position _ _ p hp owner _ (Or.inl ⟨h, rfl⟩)
    · obtain ⟨c, hc, hcn⟩ := mem_childCollisionOwners _ _ _ h
      have hw : (owner.1, owner.1) ∈ linkCollisionNameWrites p.2 :=
        List.mem_append_right _ (List.mem_map.mpr ⟨c, hc, by rw [hcn]⟩)
      refine ⟨owner.1,
        handleKinematics_find_collisionName s0 [] _ hdistinct p.2 hlink _ hw hne,
        handleKinematics_lookup_collisionName s0 [] _ hnames hdistinct hchild p hp owner h hne,
        ?_⟩
      rw [← hnext]
      exact collisionOwner_position _ _ p hp owner _ (Or.inr ⟨h, hne, rfl⟩)
  obtain ⟨target, hfind, hlookup, j, hj, hname⟩ := hfacts
  rw [hfind, Option.getD_some]
  refine ⟨hlookup, ?_, ?_⟩
  · rw [sensorIDs_nodeContact, hfind, Option.getD_some, hlookup]
  · have hj' : (recordNames (createModel (reset s maxGroupID) model).nodeList)[j]? =
        some (some (ConfigItem.string target)) := by
      rw [hrecords]
      simp only [recordNames, List.map_nil, List.nil_append, List.getElem?_map, hname,
        Option.map_some']
    simp only [recordNames, List.getElem?_map] at hj'
    obtain ⟨record, hrecord, hrn⟩ := Option.map_eq_some'.mp hj'
    obtain ⟨hlt, hget⟩ := List.getElem?_eq_some.mp hrecord
    refine ⟨record, hget ▸ List.getElem_mem hlt, ?_, hrn⟩
    rw [← hget, indexedFrom_getElem hids j hlt, hj]

/-- C29 (amended) at a tree of two links: the collisions `body_col` and `arm_col`
resolve to the main nodes 1 and 3 of their links, the collisions `bumper` and
`claw` to their child nodes 2 and 4. -/
theorem collision_names_resolve_witness :
    nodeIndexNames (createModel (reset {} 0) modelArmCollisions) =
        [(some (ConfigItem.ulong 1), some (ConfigItem.string "body")),
          (some (ConfigItem.ulong 2), some (ConfigItem.string "bumper")),
          (some (ConfigItem.ulong 3), some (ConfigItem.string "arm")),
          (some (ConfigItem.ulong 4), some (ConfigItem.string "claw"))] ∧
      (∀ owner ∈ [("body_col", 1), ("bumper", 2), ("arm_col", 3), ("claw", 4)],
        lookupID (createModel (reset {} 0) modelArmCollisions).nodeIDMap
            (((createModel (reset {} 0) modelArmCollisions).collisionNameMap.find
              owner.1).getD "") = owner.2 ∧
          (sensorIDs (sensorIDMapRef "NodeContact") (sensorUsesNameMap "NodeContact")
              (createModel (reset {} 0) modelArmCollisions) [ConfigAtom.string owner.1]).2 =
            [ConfigAtom.ulong owner.2]) := by
  refine ⟨by decide, fun owner howner => ?_⟩
  have hmem : owner ∈ treeCollisionOwners 1 modelArmCollisions.root_link_ := by
    have h : treeCollisionOwners 1 modelArmCollisions.root_link_ =
        [("body_col", 1), ("bumper", 2), ("arm_col", 3), ("claw", 4)] := by decide
    rw [h]
    exact howner
  have hne : owner.1 ≠ "" := by
    simp only [List.mem_cons, List.mem_singleton, List.not_mem_nil, or_false] at howner
    rcases howner with h | h | h | h <;> rw [h] <;> decide
  have h := collision_names_resolve {} 0 modelArmCollisions
    (by unfold linkNamesUnambiguous; decide) (by decide) (by decide) owner hmem hne
  exact ⟨h.1, h.2.1⟩

/-! ### The norm of a relative rotation -/

theorem linkNodeCount_eq (link : Link) :
    linkNodeCount link =
      1 + (extraCollisions link).length + (visualOnlyVisuals link).length := by
  simp only [linkNodeCount, linkRecords, handleMainNode_collisionArrayIndex,
    handleMainNode_visualArrayIndex, List.length_cons, List.length_append,
    collisionChildRecords_length, visualChildRecords_length, extraCollisions, visualOnlyVisuals]
  omega

theorem pairVisual_isSome_lt (link : Link) (visualArrayIndex : Nat) (collision : Collision)
    (h : (pairVisual collision link.visual_array[visualArrayIndex]?).isSome = true) :
    visualArrayIndex < link.visual_array.length := by
  by_contra hlt
  rw [List.getElem?_eq_none (not_lt.mp hlt)] at h
  simp [pairVisual] at h

theorem finalVisualArrayIndex_bounds (link : Link) (visualArrayIndex : Nat)
    (collisions : List Collision) :
    visualArrayIndex ≤ finalVisualArrayIndex link visualArrayIndex collisions ∧
      finalVisualArrayIndex link visualArrayIndex collisions ≤
        visualArrayIndex + collisions.length ∧
      finalVisualArrayIndex link visualArrayIndex collisions ≤
        max visualArrayIndex link.visual_array.length := by
  induction collisions generalizing visualArrayIndex with
  | nil => simp [finalVisualArrayIndex]
  | cons c cs ih =>
    obtain ⟨h1, h2, h3⟩ := ih (nextVisualArrayIndex link visualArrayIndex c)
    simp only [finalVisualArrayIndex, List.length_cons]
    by_cases hp : (pairVisual c link.visual_array[visualArrayIndex]?).isSome = true
    · have hlt := pairVisual_isSome_lt link visualArrayIndex c hp
      have hn : nextVisualArrayIndex link visualArrayIndex c = visualArrayIndex + 1 := by
        simp [nextVisualArrayIndex, hp]
      rw [hn] at h1 h2 h3 ⊢
      refine ⟨by omega, by omega, ?_⟩
      rw [max_eq_right (by omega)] at h3
      exact le_trans h3 (le_max_right _ _)
    · have hn : nextVisualArrayIndex link visualArrayIndex c = visualArrayIndex := by
        simp [nextVisualArrayIndex, hp]
      rw [hn] at h1 h2 h3 ⊢
      exact ⟨h1, by omega, h3⟩

theorem head?_length_pos {α : Type} (l : List α) (x : α) (h : l.head? = some x) :
    0 < l.length := by
  cases l with
  | nil => cases h
  | cons a as => simp

/-- Under the convention on the primary shapes a link needs a group id exactly
when it is decomposed into more than one node. -/
theorem needGroupID_iff_nodes (link : Link) (hconv : primaryShapesFirst link) :
    (specialCaseHandling link).1 = true ↔ 1 < linkNodeCount link := by
  obtain ⟨hv, hc⟩ := hconv
  have hcount := linkNodeCount_eq link
  have hlc := specialCaseHandling_loadCollision link
  have hlv := specialCaseHandling_loadVisual link
  have hb := finalVisualArrayIndex_bounds link (if (specialCaseHandling link).2.1 then 1 else 0)
    (extraCollisions link)
  have hcs : (extraCollisions link).length =
      link.collision_array.length - (if (specialCaseHandling link).2.2 then 1 else 0) := by
    simp [extraCollisions]
  have hvs : (visualOnlyVisuals link).length =
      link.visual_array.length -
        finalVisualArrayIndex link (if (specialCaseHandling link).2.1 then 1 else 0)
          (extraCollisions link) := by
    simp [visualOnlyVisuals]
  have hvi : (if (specialCaseHandling link).2.1 then 1 else 0) ≤ 1 := by split <;> omega
  have hci : (if (specialCaseHandling link).2.2 then 1 else 0) ≤ 1 := by split <;> omega
  rw [specialCaseHandling_needGroupID, hcount]
  constructor
  · rintro (h | ⟨c, i, hc', hi, hne⟩ | ⟨v, c, hv', hc', hcm, hvm, hf⟩ | ⟨v, c, hv', hc', hcm, hvm⟩)
    · rcases h with h | h <;> omega
    · have hl : (specialCaseHandling link).2.2 = false := by
        rw [← Bool.not_eq_true, hlc]
        rintro ⟨c2, hc2, hall⟩
        rw [hc'] at hc2
        cases hc2
        rw [hall i hi] at hne
        cases hne
      have hpos := head?_length_pos _ c (by rw [← hc, hc'])
      rw [hl] at hcs
      simp only [Bool.false_eq_true, if_false] at hcs
      omega
    · have hvpos := head?_length_pos _ v (by rw [← hv, hv'])
      have hcpos := head?_length_pos _ c (by rw [← hc, hc'])
      cases hl : (specialCaseHandling link).2.2
      · rw [hl] at hcs
        simp only [Bool.false_eq_true, if_false] at hcs
        omega
      · have hl' : (specialCaseHandling link).2.1 = false := by
          rw [← Bool.not_eq_true, hlv]
          rintro ⟨v2, hv2, hall⟩
          rw [hv'] at hv2
          cases hv2
          exact hf (hall c hc' hl hcm).2
        rw [hl'] at hb hvs
        simp only [Bool.false_eq_true, if_false] at hb hvs
        omega
    · have hvpos := head?_length_pos _ v (by rw [← hv, hv'])
      have hcpos := head?_length_pos _ c (by rw [← hc, hc'])
      cases hl : (specialCaseHandling link).2.2
      · rw [hl] at hcs
        simp only [Bool.false_eq_true, if_false] at hcs
        omega
      · have hl' : (specialCaseHandling link).2.1 = false := by
          rw [← Bool.not_eq_true, hlv]
          rintro ⟨v2, hv2, hall⟩
          rw [hv'] at hv2
          cases hv2
          rw [(hall c hc' hl hcm).1] at hvm
          cases hvm
        rw [hl'] at hb hvs
        simp only [Bool.false_eq_true, if_false] at hb hvs
        omega
  · intro hnodes
    by_contra hD
    simp only [not_or, not_lt, not_exists, not_and] at hD
    obtain ⟨⟨hva, hca⟩, hB, hC, hDd⟩ := hD
    have hc1 : (extraCollisions link).length = 0 := by
      rcases hcol : link.collision_array with _ | ⟨c, rest⟩
      · rw [hcs, hcol]
        simp
      · have hcc : link.collision = some c := by rw [hc, hcol]; rfl
        have hl : (specialCaseHandling link).2.2 = true := by
          rw [hlc]
          refine ⟨c, hcc, fun i hi => ?_⟩
          have := hB c i hcc hi
          simpa using this
        rw [hcs, hl]
        simp only [if_true]
        omega
    have hcs0 : extraCollisions link = [] := List.length_eq_zero.mp hc1
    have hv1 : (visualOnlyVisuals link).length = 0 := by
      rw [hvs, hcs0]
      simp only [finalVisualArrayIndex]
      rcases hvis : link.visual_array with _ | ⟨v, rest⟩
      · simp
      · have hvv : link.visual = some v := by rw [hv, hvis]; rfl
        have hl : (specialCaseHandling link).2.1 = true := by
          rw [hlv]
          refine ⟨v, hvv, fun c hcc _ hcm => ?_⟩
          have hvm : v.geometry.isMesh = true := by
            have := hDd v c hvv hcc hcm
            simpa using this
          refine ⟨hvm, ?_⟩
          have := hC v c hvv hcc hcm hvm
          simpa using this
        rw [hl]
        simp only [if_true]
        rw [hvis] at hva
        simp only [List.length_cons] at hva ⊢
        omega
    omega

theorem collisionChildRecords_groupid (link : Link) (config : ConfigMap) (index vi : Nat)
    (collisions : List Collision) :
    ∀ r ∈ collisionChildRecords link config index vi collisions,
      r.find "groupid" = some ((config.find "groupid").getD (ConfigItem.ulong 0)) := by
  induction collisions generalizing index vi with
  | nil => intro r hr; cases hr
  | cons c cs ih =>
    intro r hr
    rcases List.mem_cons.mp hr with h | h
    · rw [h, collisionChildEmitted_find _ _ _ _ _ (by simp [headerKey]),
        collisionChildRecord_groupid]
    · exact ih _ _ r h

theorem visualChildRecords_groupid (link : Link) (config : ConfigMap) (index : Nat)
    (visuals : List Visual) :
    ∀ r ∈ visualChildRecords link config index visuals,
      r.find "groupid" = some ((config.find "groupid").getD (ConfigItem.ulong 0)) := by
  induction visuals generalizing index with
  | nil => intro r hr; cases hr
  | cons v vs ih =>
    intro r hr
    rcases List.mem_cons.mp hr with h | h
    · rw [h, visualChildRecord_groupid]
    · exact ih _ r h

theorem linkRecords_groupid (s : SMURF) (p : Option (Link × Joint)) (link : Link) :
    ∀ r ∈ linkRecords s p link,
      r.find "groupid" =
        some (if (specialCaseHandling link).1 then ConfigItem.ulong s.nextGroupID
          else ConfigItem.int 0) := by
  intro r hr
  have hmain := handleMainNode_groupid s p link
  simp only [linkRecords, List.mem_cons, List.mem_append] at hr
  rcases hr with h | h | h
  · rw [h, hmain]
  · rw [collisionChildRecords_groupid _ _ _ _ _ r h, hmain]
    rfl
  · rw [visualChildRecords_groupid _ _ _ _ r h, hmain]
    rfl

/-- C31: under the convention that the primary visual and collision of a link
are the first elements of its arrays, and with a group counter of at least 1,
all records `handleKinematics` emits for the link carry the same `groupid`,
and it is non-zero exactly when the link is decomposed into more than one
record; the group counter is at least 1 afterwards as well. -/
theorem link_nodes_share_groupid (s : SMURF) (ancestors : List (Link × Joint)) (link : Link)
    (hconv : primaryShapesFirst link) (hg : 0 < s.nextGroupID) :
    ∃ records groupid,
      (handleLink s ancestors link).nodeList = s.nodeList ++ records ∧
      0 < records.length ∧
      (∀ r ∈ records, r.find "groupid" = some groupid) ∧
      (groupid.getULong ≠ 0 ↔ 1 < records.length) ∧
      0 < (handleLink s ancestors link).nextGroupID := by
  refine ⟨linkRecords s ancestors.head? link, _, handleLink_nodeList s ancestors link, ?_,
    linkRecords_groupid s _ link, ?_, handleLink_nextGroupID_pos s ancestors link hg⟩
  · rw [linkRecords_length]
    exact linkNodeCount_pos link
  · rw [linkRecords_length, ← needGroupID_iff_nodes link hconv]
    cases (specialCaseHandling link).1
    · simp [ConfigItem.getULong]
    · simp [ConfigItem.getULong]
      omega

/-- C31 at a link with two collisions and three visuals after `reset`: its three
records carry the group id 1. -/
theorem link_nodes_share_groupid_witness :
    ∃ records,
      (handleLink (reset {} 0) [] linkTwoCollisionsThreeVisuals).nodeList = [] ++ records ∧
      records.length = 3 ∧
      ∀ r ∈ records, r.find "groupid" = some (ConfigItem.ulong 1) := by
  obtain ⟨records, groupid, h1, -, h3, -, -⟩ :=
    link_nodes_share_groupid (reset {} 0) [] linkTwoCollisionsThreeVisuals
      ⟨rfl, rfl⟩ (by decide)
  have hrec : records = linkRecords (reset {} 0) none linkTwoCollisionsThreeVisuals := by
    have h := handleLink_nodeList (reset {} 0) [] linkTwoCollisionsThreeVisuals
    rw [h1] at h
    exact List.append_cancel_left h
  have hlen : records.length = 3 := by
    rw [hrec, linkRecords_length]
    decide
  have hmain : (handleMainNode (reset {} 0) none linkTwoCollisionsThreeVisuals).2.1 ∈ records := by
    rw [hrec]
    exact List.mem_cons_self _ _
  have hg : groupid = ConfigItem.ulong 1 := by
    have h := h3 _ hmain
    rw [handleMainNode_groupid] at h
    have hn : (specialCaseHandling linkTwoCollisionsThreeVisuals).1 = true := by decide
    rw [hn] at h
    exact (Option.some.inj h).symm
  exact ⟨records, h1, hlen, fun r hr => by rw [h3 r hr, hg]⟩


/-! ### The shapes the records of a link carry -/

theorem visualChildRecord_find_visualKey (index : Nat) (link : Link) (config : ConfigMap)
    (visual : Visual) {k : String} (hk : visualKey k) :
    (visualChildRecord index link config visual).find k = (handleVisual [] visual).find k := by
  have h1 : "physicmode" ≠ k := by rcases hk with rfl | rfl | rfl | rfl | rfl <;> decide
  have h2 : "extend" ≠ k := by rcases hk with rfl | rfl | rfl | rfl | rfl <;> decide
  have h3 : "position" ≠ k := by rcases hk with rfl | rfl | rfl | rfl | rfl <;> decide
  have h4 : "rotation" ≠ k := by rcases hk with rfl | rfl | rfl | rfl | rfl <;> decide
  simp only [visualChildRecord, StdMap.find_assign, h1, h2, h3, h4, if_false]
  exact handleVisual_find_visualKey _ _ hk

theorem pairVisual_eq (collision : Collision) (o : Option Visual) (visual : Visual)
    (h : pairVisual collision o = some visual) : o = some visual := by
  rcases o with _ | v
  · cases h
  · simp only [pairVisual] at h
    split_ifs at h <;> exact h

theorem mainCollision_eq_some (link : Link) (c : Collision) (h : mainCollision link = some c) :
    (specialCaseHandling link).2.2 = true ∧ link.collision = some c := by
  unfold mainCollision at h
  cases hl : (specialCaseHandling link).2.2 <;> rcases hc : link.collision with _ | c' <;>
    simp only [hl, hc] at h <;> first | exact ⟨rfl, h⟩ | cases h

theorem mainVisual_eq_some (link : Link) (v : Visual) (h : mainVisual link = some v) :
    (specialCaseHandling link).2.1 = true ∧ link.visual = some v := by
  unfold mainVisual at h
  cases hl : (specialCaseHandling link).2.1 <;> rcases hc : link.visual with _ | c' <;>
    simp only [hl, hc] at h <;> first | exact ⟨rfl, h⟩ | cases h

theorem collisionChildRecords_carry (link : Link) (config : ConfigMap) (index vi : Nat)
    (collisions : List Collision) :
    List.Forall₂ carriesShapes (collisionChildRecords link config index vi collisions)
      (collisionChildShapes link vi collisions) := by
  induction collisions generalizing index vi with
  | nil => exact List.Forall₂.nil
  | cons c cs ih =>
    refine List.Forall₂.cons ⟨?_, ?_⟩ (ih _ _)
    · intro c' hc' k hk
      cases hc'
      exact collisionChildEmitted_find_collisionKey _ _ _ _ _ hk
    · intro v hv k hk
      exact collisionChildEmitted_find_visualKey _ _ _ _ _ v hv hk

theorem visualChildRecords_carry (link : Link) (config : ConfigMap) (index : Nat)
    (visuals : List Visual) :
    List.Forall₂ carriesShapes (visualChildRecords link config index visuals)
      (visuals.map (fun v => (none, some v))) := by
  induction visuals generalizing index with
  | nil => exact List.Forall₂.nil
  | cons v vs ih =>
    refine List.Forall₂.cons ⟨?_, ?_⟩ (ih _)
    · intro c hc
      cases hc
    · intro v' hv' k hk
      cases hv'
      exact visualChildRecord_find_visualKey _ _ _ _ hk

theorem linkRecords_carry (s : SMURF) (p : Option (Link × Joint)) (link : Link) :
    List.Forall₂ carriesShapes (linkRecords s p link) (linkShapes link) := by
  simp only [linkRecords, linkShapes, handleMainNode_collisionArrayIndex,
    handleMainNode_visualArrayIndex]
  refine List.Forall₂.cons ⟨?_, ?_⟩
    (List.rel_append (collisionChildRecords_carry _ _ _ _ _) (visualChildRecords_carry _ _ _ _))
  · intro c hc k hk
    obtain ⟨hl, hcc⟩ := mainCollision_eq_some link c hc
    exact handleMainNode_find_collisionKey s p link c hl hcc hk
  · intro v hv k hk
    obtain ⟨hl, hvv⟩ := mainVisual_eq_some link v hv
    exact handleMainNode_find_visualKey s p link v hl hvv hk

theorem collisionChildShapes_collisions (link : Link) (vi : Nat) (collisions : List Collision) :
    (collisionChildShapes link vi collisions).filterMap Prod.fst = collisions := by
  induction collisions generalizing vi with
  | nil => rfl
  | cons c cs ih => simp [collisionChildShapes, ih]

theorem collisionChildShapes_visuals (link : Link) (vi : Nat) (collisions : List Collision) :
    (collisionChildShapes link vi collisions).filterMap Prod.snd ++
        link.visual_array.drop (finalVisualArrayIndex link vi collisions) =
      link.visual_array.drop vi := by
  induction collisions generalizing vi with
  | nil => rfl
  | cons c cs ih =>
    simp only [collisionChildShapes, finalVisualArrayIndex]
    rcases hp : pairVisual c link.visual_array[vi]? with _ | v
    · have hn : nextVisualArrayIndex link vi c = vi := by simp [nextVisualArrayIndex, hp]
      rw [hn]
      simpa using ih vi
    · have hn : nextVisualArrayIndex link vi c = vi + 1 := by simp [nextVisualArrayIndex, hp]
      have hget := pairVisual_eq c _ v hp
      obtain ⟨hlt, hv⟩ := List.getElem?_eq_some.mp hget
      rw [hn, List.drop_eq_getElem_cons hlt, hv, ← ih (vi + 1)]
      simp

theorem collisionChildShapes_pairs (link : Link) (vi : Nat) (collisions : List Collision) :
    vi + ((collisionChildShapes link vi collisions).filter
        (fun p => p.1.isSome && p.2.isSome)).length =
      finalVisualArrayIndex link vi collisions := by
  induction collisions generalizing vi with
  | nil => rfl
  | cons c cs ih =>
    simp only [collisionChildShapes, finalVisualArrayIndex, List.filter_cons, Option.isSome_some,
      Bool.true_and]
    rcases hp : pairVisual c link.visual_array[vi]? with _ | v
    · have hn : nextVisualArrayIndex link vi c = vi := by simp [nextVisualArrayIndex, hp]
      rw [hn]
      simpa using ih vi
    · have hn : nextVisualArrayIndex link vi c = vi + 1 := by simp [nextVisualArrayIndex, hp]
      rw [hn, ← ih (vi + 1)]
      simp only [Option.isSome_some, if_true, List.length_cons]
      omega

theorem mergedPairs_eq (link : Link) :
    (if (specialCaseHandling link).2.1 then 1 else 0) + mergedPairs link =
      finalVisualArrayIndex link (if (specialCaseHandling link).2.1 then 1 else 0)
        (extraCollisions link) := by
  rw [← collisionChildShapes_pairs]
  simp only [mergedPairs, linkShapes, List.tail_cons, List.filter_append, List.length_append,
    List.filter_map]
  simp

theorem head?_eq_cons {α : Type} (l : List α) (x : α) (h : l.head? = some x) :
    l = x :: l.drop 1 := by
  cases l with
  | nil => cases h
  | cons a as =>
    cases h
    rfl

theorem linkShapes_collisions (link : Link) (hconv : primaryShapesFirst link) :
    (linkShapes link).filterMap Prod.fst = link.collision_array := by
  have hrest : ((collisionChildShapes link (if (specialCaseHandling link).2.1 then 1 else 0)
      (extraCollisions link) ++
        (visualOnlyVisuals link).map (fun v => ((none : Option Collision), some v))).filterMap
          Prod.fst) = extraCollisions link := by
    rw [List.filterMap_append, collisionChildShapes_collisions]
    simp [List.filterMap_map, Function.comp_def]
  simp only [linkShapes]
  rcases hm : mainCollision link with _ | c
  · rw [List.filterMap_cons_none (by rfl), hrest]
    have hl : (specialCaseHandling link).2.2 = false := by
      rw [← Bool.not_eq_true]
      intro hl
      obtain ⟨c, hc, -⟩ := (specialCaseHandling_loadCollision link).mp hl
      simp [mainCollision, hl, hc] at hm
    simp [extraCollisions, hl]
  · obtain ⟨hl, hc⟩ := mainCollision_eq_some link c hm
    rw [List.filterMap_cons_some (by rfl), hrest]
    have h := head?_eq_cons link.collision_array c (by rw [← hconv.2, hc])
    simp only [extraCollisions, hl, if_true]
    exact h.symm

theorem linkShapes_visuals (link : Link) (hconv : primaryShapesFirst link) :
    (linkShapes link).filterMap Prod.snd = link.visual_array := by
  have hrest : ((collisionChildShapes link (if (specialCaseHandling link).2.1 then 1 else 0)
      (extraCollisions link) ++
        (visualOnlyVisuals link).map (fun v => ((none : Option Collision), some v))).filterMap
          Prod.snd) =
      link.visual_array.drop (if (specialCaseHandling link).2.1 then 1 else 0) := by
    have hmap : ((visualOnlyVisuals link).map
        (fun v => ((none : Option Collision), some v))).filterMap Prod.snd =
        visualOnlyVisuals link := by
      simp only [List.filterMap_map, Function.comp_def, List.filterMap_some]
    rw [List.filterMap_append, ← collisionChildShapes_visuals link _ (extraCollisions link), hmap]
    rfl
  simp only [linkShapes]
  rcases hm : mainVisual link with _ | v
  · rw [List.filterMap_cons_none (by rfl), hrest]
    have hl : (specialCaseHandling link).2.1 = false := by
      rw [← Bool.not_eq_true]
      intro hl
      obtain ⟨v, hv, -⟩ := (specialCaseHandling_loadVisual link).mp hl
      simp [mainVisual, hl, hv] at hm
    simp [hl]
  · obtain ⟨hl, hv⟩ := mainVisual_eq_some link v hm
    rw [List.filterMap_cons_some (by rfl), hrest]
    have h := head?_eq_cons link.visual_array v (by rw [← hconv.1, hv])
    simp only [hl, if_true]
    exact h.symm


theorem mainCollision_length (link : Link) :
    (mainCollision link).toList.length = if (specialCaseHandling link).2.2 then 1 else 0 := by
  cases hl : (specialCaseHandling link).2.2
  · simp [mainCollision, hl]
  · obtain ⟨c, hc, -⟩ := (specialCaseHandling_loadCollision link).mp hl
    simp [mainCollision, hl, hc]

theorem mainVisual_length (link : Link) :
    (mainVisual link).toList.length = if (specialCaseHandling link).2.1 then 1 else 0 := by
  cases hl : (specialCaseHandling link).2.1
  · simp [mainVisual, hl]
  · obtain ⟨v, hv, -⟩ := (specialCaseHandling_loadVisual link).mp hl
    simp [mainVisual, hl, hv]

/-- C32: under the convention that the primary visual and collision of a link
are the first elements of its arrays, the records `handleKinematics` emits for
the link carry, record by record, the shapes `linkShapes link`: each record at
most one collision and at most one visual, whose shape fields it has.  The
collisions carried, in the order of the records, are exactly the elements of
`collision_array`, and the visuals carried exactly the elements of
`visual_array`, so no shape is lost or carried twice.  The number of records is
1 plus the number of collisions not on the main node plus the number of visuals
not on the main node minus the number of child nodes that carry a collision
together with a visual. -/
theorem link_shapes_carried_once (s : SMURF) (ancestors : List (Link × Joint)) (link : Link)
    (hconv : primaryShapesFirst link) :
    ∃ records,
      (handleLink s ancestors link).nodeList = s.nodeList ++ records ∧
      List.Forall₂ carriesShapes records (linkShapes link) ∧
      (linkShapes link).filterMap Prod.fst = link.collision_array ∧
      (linkShapes link).filterMap Prod.snd = link.visual_array ∧
      records.length + mergedPairs link =
        1 + (link.collision_array.length - (mainCollision link).toList.length) +
          (link.visual_array.length - (mainVisual link).toList.length) ∧
      records.length =
        1 + (link.collision_array.length - (mainCollision link).toList.length) +
          (link.visual_array.length - (mainVisual link).toList.length) - mergedPairs link := by
  have hlen : (linkRecords s ancestors.head? link).length + mergedPairs link =
      1 + (link.collision_array.length - (mainCollision link).toList.length) +
        (link.visual_array.length - (mainVisual link).toList.length) := by
    have hb := finalVisualArrayIndex_bounds link
      (if (specialCaseHandling link).2.1 then 1 else 0) (extraCollisions link)
    have hm := mergedPairs_eq link
    have hcs : (extraCollisions link).length =
        link.collision_array.length - (if (specialCaseHandling link).2.2 then 1 else 0) := by
      simp [extraCollisions]
    have hvs : (visualOnlyVisuals link).length =
        link.visual_array.length -
          finalVisualArrayIndex link (if (specialCaseHandling link).2.1 then 1 else 0)
            (extraCollisions link) := by
      simp [visualOnlyVisuals]
    have hvi : (if (specialCaseHandling link).2.1 then 1 else 0) ≤ link.visual_array.length := by
      cases hl : (specialCaseHandling link).2.1
      · simp
      · obtain ⟨v, hv, -⟩ := (specialCaseHandling_loadVisual link).mp hl
        have := head?_length_pos _ v (by rw [← hconv.1, hv])
        simpa using this
    rw [linkRecords_length, linkNodeCount_eq, mainCollision_length, mainVisual_length, hcs, hvs]
    rw [max_eq_right hvi] at hb
    omega
  exact ⟨linkRecords s ancestors.head? link, handleLink_nodeList s ancestors link,
    linkRecords_carry s _ link, linkShapes_collisions link hconv, linkShapes_visuals link hconv,
    hlen, by omega⟩

/-- C32 at a link with the collisions `c0`, `c1` and the visuals `v0`, `v1`, `v2`:
the main node carries `c0` and `v0`, the second record `c1` and `v1`, the third
the visual `v2` alone. -/
theorem link_shapes_carried_once_witness :
    ∃ records,
      (handleLink (reset {} 0) [] linkTwoCollisionsThreeVisuals).nodeList = [] ++ records ∧
      List.Forall₂ carriesShapes records
        [(some { name := "c0", geometry := unitBox }, some { name := "v0", geometry := unitBox }),
          (some { name := "c1", geometry := unitBox }, some { name := "v1", geometry := unitBox }),
          (none, some { name := "v2", geometry := unitBox })] ∧
      records.length + 1 = 1 + (2 - 1) + (3 - 1) := by
  obtain ⟨records, h1, h2, -, -, h3, -⟩ :=
    link_shapes_carried_once (reset {} 0) [] linkTwoCollisionsThreeVisuals ⟨rfl, rfl⟩
  have hs : linkShapes linkTwoCollisionsThreeVisuals =
      [(some { name := "c0", geometry := unitBox }, some { name := "v0", geometry := unitBox }),
        (some { name := "c1", geometry := unitBox }, some { name := "v1", geometry := unitBox }),
        (none, some { name := "v2", geometry := unitBox })] := by decide
  have hp : mergedPairs linkTwoCollisionsThreeVisuals = 1 := by decide
  rw [hs] at h2
  rw [hp] at h3
  exact ⟨records, h1, h2, h3⟩

end mars.smurf
